import Mathlib

/-!
# ChipLogger: tag level cache, registry and visibility resolver

A shallow embedding of `lib/logger/src/log.c`.

* A tag is a `const char *`: it is modelled by its address (`Ptr`), and the
  zero-terminated string stored at an address is read through a memory
  `mem : Ptr → String` that does not change between calls (tags are stable
  strings, by the library's calling convention).  Pointer comparison
  (`a == b`) compares addresses, `strcmp` compares `mem a` with `mem b`.
* `uint8_t` and `uint32_t` values are natural numbers; the bit-fields
  `level : 3` and `generation : 29` truncate on store, and the `uint32_t`
  counters wrap modulo `2 ^ 32`.
* The linked list `s_log_tags` is a `List`, head first.
* The `LOG_BUILTIN_CHECKS` assertions in the two cache scans are debug-build
  consistency checks (`assert` expands to nothing under `NDEBUG`) without
  effect on the state: they are not part of the functions below.  The
  checked condition is `builtin_check`, and `builtin_checks_hold` shows that
  it holds for every occupied slot of every reachable state as long as the
  29-bit generation has not wrapped.  The statistics counter
  `s_log_cache_misses` is kept.
* `malloc` and `log_impl_lock_timeout` are external: their outcome is a
  Boolean argument of the function that calls them.  A buffer writer makes
  one lock attempt at entry and one for every line: it takes the outcomes
  as a function of the attempt number.
* Function pointers are addresses.  A call that leaves the library (of the
  installed `vprintf_like_t` function, of `printf`) is a value of `Output`;
  the write functions return the list of these calls, in order.
* A buffer formatter `log_buffer_*_internal` is modelled by the sequence of
  calls it makes (`Call`), which depends on the buffer only; `perform`
  carries the calls out on the variables of `log.c`.
* What C leaves to the platform (signedness of `char`, width of `int`,
  pointer size, text of `%p`) is a parameter `Target`.
* `log_set_writev` is declared in `log.h` but defined in no source file: it
  has no model, and neither has a structured callback, which `log.c` never
  calls.
* The line buffers of the formatters are fixed-size arrays of characters;
  `sprintf` stores its text and a terminating zero, and the line handed to
  `log_write` is the C string at the start of the array (`c_string`).  A
  `sprintf` that does not fit the array writes past its end, which C leaves
  undefined: the result of the formatter, of the writer and of the macro is
  then `none`.
* A `uint16_t buff_len` parameter receives its argument modulo `2 ^ 16`.
* The port `porting/log_noos.c` keeps `s_lock` and `timestamp`; a failed
  `assert` is the result `none`.  Of the port `porting/log_pthreads.c` the
  timed wait is modelled: the `timespec` that `sem_timedwait_ms` builds, and
  `sem_timedwait` as an external function.  The product
  `1000 * milliseconds` is taken in `int`; its overflow is the result `none`.
* The swaps that `heap_bubble_down` makes are recorded by
  `heap_bubble_down_swaps`, the same loop returning its `heap_swap` calls.
* The macros of `log.h` are modelled by their expansion, a list of
  statements (`Stmt`) that `exec` carries out; the conditions of the
  preprocessor are conditions on the build configuration `Build`.
* The text that a `vprintf`-like output function composes from a format and
  its arguments is `vformat`.  The C library is not part of the repository:
  what it does at a conversion specification is a parameter of `vformat`
  (`conversion_t`), and `StandardConversions` states what the C standard
  says of `%s`, `%d`, `%u` and `%lu`.
-/

namespace ChipLogger

/-! ## Data model -/

/-- Address of a zero-terminated string (`const char *`). -/
abbrev Ptr := Nat

/-- Contents of the strings in memory, by address. -/
abbrev Mem := Ptr → String

def LOG_NONE : Nat := 0
def LOG_ERROR : Nat := 1
def LOG_WARN : Nat := 2
def LOG_INFO : Nat := 3
def LOG_DEBUG : Nat := 4
def LOG_VERBOSE : Nat := 5

/-- Number of tags to be cached (`2 ^ 5 - 1`). -/
def TAG_CACHE_SIZE : Nat := 31

/-- Cache slot: `const char *tag; uint32_t level : 3; uint32_t generation : 29;`. -/
structure cached_tag_entry_t where
  tag : Ptr
  level : Nat
  generation : Nat
  deriving DecidableEq, Repr

/-- Registry entry: `uint8_t level; char tag[0];` (the entry owns a copy of the string). -/
structure uncached_tag_entry_t where
  level : Nat
  tag : String
  deriving DecidableEq, Repr

/-- The file-scope variables of `log.c` that the level resolution uses. -/
structure LogState where
  s_log_default_level : Nat
  s_log_tags : List uncached_tag_entry_t
  s_log_cache : List cached_tag_entry_t
  s_log_cache_max_generation : Nat
  s_log_cache_entry_count : Nat
  s_log_cache_misses : Nat
  deriving DecidableEq, Repr

/-- Static initialisation: zeroed cache array, empty list, the build-time default level. -/
def log_init (default_level : Nat) : LogState :=
  { s_log_default_level := default_level
    s_log_tags := []
    s_log_cache := List.replicate TAG_CACHE_SIZE ⟨0, 0, 0⟩
    s_log_cache_max_generation := 0
    s_log_cache_entry_count := 0
    s_log_cache_misses := 0 }

/-- Array read `s_log_cache[i]`. -/
def cache_at (c : List cached_tag_entry_t) (i : Nat) : cached_tag_entry_t :=
  c.getD i ⟨0, 0, 0⟩

/-- Generation of slot `i`. -/
def gen_at (c : List cached_tag_entry_t) (i : Nat) : Nat :=
  (cache_at c i).generation

/-! ## Heap operations -/

/-- Exchange of slots `i` and `j`: `tmp = c[i]; c[i] = c[j]; c[j] = tmp;`. -/
def heap_swap (c : List cached_tag_entry_t) (i j : Nat) : List cached_tag_entry_t :=
  let tmp := cache_at c i
  (c.set i (cache_at c j)).set j tmp

/-- The `while (index < TAG_CACHE_SIZE / 2)` loop of `heap_bubble_down`, with the
number of iterations bounded by `fuel`; returns the array and the final `index`. -/
def heap_bubble_down_loop :
    Nat → List cached_tag_entry_t → Nat → List cached_tag_entry_t × Nat
  | 0, c, index => (c, index)
  | fuel + 1, c, index =>
    if index < TAG_CACHE_SIZE / 2 then
      let left_index := index * 2 + 1
      let right_index := left_index + 1
      let next :=
        if gen_at c left_index < gen_at c right_index then left_index else right_index
      heap_bubble_down_loop fuel (heap_swap c index next) next
    else (c, index)

/-- Function `heap_bubble_down(index)`: the index more than doubles in every iteration, so
`TAG_CACHE_SIZE` iterations are more than the loop can make
(`heap_bubble_down_loop_fuel`: the loop stops on its own condition). -/
def heap_bubble_down (c : List cached_tag_entry_t) (index : Nat) : List cached_tag_entry_t :=
  (heap_bubble_down_loop TAG_CACHE_SIZE c index).1

/-! ## Cache and registry -/

/-- The scan `for (i = 0; i < count; ++i) { if (hit c[i]) break; }` from index `i` with
`remaining = count - i` slots to go: the index at which the loop stops, which is `count`
when no slot matches. -/
def cache_scan (hit : cached_tag_entry_t → Bool) (c : List cached_tag_entry_t) :
    Nat → Nat → Nat
  | 0, i => i
  | remaining + 1, i =>
    if hit (cache_at c i) then i else cache_scan hit c remaining (i + 1)

/-- Function `get_cached_log_level`: the level on a hit (`none` on a miss, the `false`
return) and the state after the call. -/
def get_cached_log_level (s : LogState) (tag : Ptr) : Option Nat × LogState :=
  let i := cache_scan (fun e => e.tag == tag) s.s_log_cache s.s_log_cache_entry_count 0
  if i == s.s_log_cache_entry_count then (none, s)
  else
    let level := (cache_at s.s_log_cache i).level % 2 ^ 8
    if s.s_log_cache_entry_count == TAG_CACHE_SIZE then
      let stamped : cached_tag_entry_t :=
        { cache_at s.s_log_cache i with
          generation := s.s_log_cache_max_generation % 2 ^ 29 }
      (some level,
        { s with
          s_log_cache := heap_bubble_down (s.s_log_cache.set i stamped) i
          s_log_cache_max_generation := (s.s_log_cache_max_generation + 1) % 2 ^ 32 })
    else (some level, s)

/-- Function `add_to_cache`. -/
def add_to_cache (s : LogState) (tag : Ptr) (level : Nat) : LogState :=
  let generation := s.s_log_cache_max_generation
  let entry : cached_tag_entry_t :=
    { tag := tag, level := level % 2 ^ 3, generation := generation % 2 ^ 29 }
  if s.s_log_cache_entry_count < TAG_CACHE_SIZE then
    { s with
      s_log_cache_max_generation := (generation + 1) % 2 ^ 32
      s_log_cache := s.s_log_cache.set s.s_log_cache_entry_count entry
      s_log_cache_entry_count := (s.s_log_cache_entry_count + 1) % 2 ^ 32 }
  else
    { s with
      s_log_cache_max_generation := (generation + 1) % 2 ^ 32
      s_log_cache := heap_bubble_down (s.s_log_cache.set 0 entry) 0 }

/-- Function `get_uncached_log_level`: first list entry whose string equals the tag's. -/
def get_uncached_log_level (mem : Mem) (tags : List uncached_tag_entry_t) (tag : Ptr) :
    Option Nat :=
  match tags with
  | [] => none
  | it :: rest =>
    if mem tag = it.tag then some it.level else get_uncached_log_level mem rest tag

/-- Function `should_output`. -/
def should_output (level_for_message level_for_tag : Nat) : Bool :=
  decide (level_for_message ≤ level_for_tag)

/-- Function `is_tag_level_visible`; `lock_ok` is the result of `log_impl_lock_timeout()`.
Returns the boolean and the state after the call. -/
def is_tag_level_visible (mem : Mem) (lock_ok : Bool) (s : LogState) (level : Nat)
    (tag : Ptr) : Bool × LogState :=
  if !lock_ok then (false, s)
  else
    match get_cached_log_level s tag with
    | (some level_for_tag, s1) => (should_output level level_for_tag, s1)
    | (none, s1) =>
      let level_for_tag :=
        match get_uncached_log_level mem s1.s_log_tags tag with
        | some l => l
        | none => s1.s_log_default_level
      let s2 := add_to_cache s1 tag level_for_tag
      (should_output level level_for_tag,
        { s2 with s_log_cache_misses := (s2.s_log_cache_misses + 1) % 2 ^ 32 })

/-- Function `clear_log_level_list`. -/
def clear_log_level_list (s : LogState) : LogState :=
  { s with
    s_log_tags := []
    s_log_cache_entry_count := 0
    s_log_cache_max_generation := 0
    s_log_cache_misses := 0 }

/-- The `SLIST_FOREACH` of `log_level_set`: the level of the first entry whose string equals
the tag's is replaced; the flag tells whether such an entry was found (`it != NULL`). -/
def update_existing_tag (mem : Mem) (tags : List uncached_tag_entry_t) (tag : Ptr)
    (level : Nat) : List uncached_tag_entry_t × Bool :=
  match tags with
  | [] => ([], false)
  | it :: rest =>
    if it.tag = mem tag then ({ it with level := level } :: rest, true)
    else
      let r := update_existing_tag mem rest tag level
      (it :: r.1, r.2)

/-- The closing `for` loop of `log_level_set`: the first occupied slot whose tag string
equals the given tag's gets the new level (`s_log_cache[i].level = level; break;`). -/
def update_cached_level (mem : Mem) (c : List cached_tag_entry_t) (count : Nat) (tag : Ptr)
    (level : Nat) : List cached_tag_entry_t :=
  let i := cache_scan (fun e => decide (mem e.tag = mem tag)) c count 0
  if i == count then c
  else c.set i { cache_at c i with level := level % 2 ^ 3 }

/-- Function `log_level_set`; `malloc_ok` tells whether `malloc` returns a block (it is
only called for a tag that is not in the list). -/
def log_level_set (mem : Mem) (malloc_ok : Bool) (s : LogState) (tag : Ptr) (level : Nat) :
    LogState :=
  if mem tag = "*" then
    clear_log_level_list { s with s_log_default_level := level }
  else
    let found := update_existing_tag mem s.s_log_tags tag level
    if !found.2 && !malloc_ok then s
    else
      { s with
        s_log_tags :=
          if found.2 then found.1 else { level := level, tag := mem tag } :: s.s_log_tags
        s_log_cache :=
          update_cached_level mem s.s_log_cache s.s_log_cache_entry_count tag level }

/-! ## Heap ordering -/

/-- The condition of the built-in check made for a scanned slot `i`:
`i == 0 || s_log_cache[(i - 1) / 2].generation < s_log_cache[i].generation`. -/
def builtin_check (c : List cached_tag_entry_t) (i : Nat) : Bool :=
  i == 0 || decide (gen_at c ((i - 1) / 2) < gen_at c i)

/-- Min-heap ordering of the full array on `generation`: every internal slot is older than
both of its children. -/
def HeapInv (c : List cached_tag_entry_t) : Prop :=
  ∀ i, i < TAG_CACHE_SIZE / 2 →
    gen_at c i < gen_at c (2 * i + 1) ∧ gen_at c i < gen_at c (2 * i + 2)

/-- No two slots of the full array carry the same generation. -/
def GensDistinct (c : List cached_tag_entry_t) : Prop :=
  ∀ i j, i < TAG_CACHE_SIZE → j < TAG_CACHE_SIZE → i ≠ j → gen_at c i ≠ gen_at c j

/-- Loop invariant of `heap_bubble_down`: slot `k` carries the newest generation, and the
array is a min-heap everywhere except possibly at `k`, whose parent is already older than
the children of `k`. -/
structure SiftInv (c : List cached_tag_entry_t) (k : Nat) : Prop where
  len : c.length = TAG_CACHE_SIZE
  k_lt : k < TAG_CACHE_SIZE
  top : ∀ j, j < TAG_CACHE_SIZE → j ≠ k → gen_at c j < gen_at c k
  distinct : GensDistinct c
  heap : ∀ i, i < TAG_CACHE_SIZE / 2 → i ≠ k →
    gen_at c i < gen_at c (2 * i + 1) ∧ gen_at c i < gen_at c (2 * i + 2)
  parent : 0 < k → k < TAG_CACHE_SIZE / 2 →
    gen_at c ((k - 1) / 2) < gen_at c (2 * k + 1) ∧
      gen_at c ((k - 1) / 2) < gen_at c (2 * k + 2)

/-! ## Reachable states -/

/-- Number of generations that a call taking `s` to `s'` has issued: a call stamps at most
one slot, and every stamp changes the generation counter. -/
def generations_issued (s s' : LogState) : Nat :=
  if s'.s_log_cache_max_generation = s.s_log_cache_max_generation then 0 else 1

/-- States reachable from the initial state through the public operations, together with
the number of generations issued since the last reset (the last `log_level_set("*", _)`, or
the start).  `log_write`, `log_writev` and the buffer writers change the state only through
`is_tag_level_visible`. -/
inductive Reach (mem : Mem) : Nat → LogState → Prop
  | init (default_level : Nat) : Reach mem 0 (log_init default_level)
  | level_set (k : Nat) (s : LogState) (malloc_ok : Bool) (tag : Ptr) (level : Nat) :
      Reach mem k s →
      Reach mem (if mem tag = "*" then 0 else k) (log_level_set mem malloc_ok s tag level)
  | visible (k : Nat) (s : LogState) (lock_ok : Bool) (level : Nat) (tag : Ptr) :
      Reach mem k s →
      Reach mem (k + generations_issued s (is_tag_level_visible mem lock_ok s level tag).2)
        (is_tag_level_visible mem lock_ok s level tag).2

/-- Shape of the cache in a state with `k` generations issued since the last reset: while
the cache is being filled, slot `i` carries generation `i`; once it is full, and as long
as the 29-bit generation has not wrapped, it is a min-heap of distinct generations, all
below the counter. -/
structure CacheInv (k : Nat) (s : LogState) : Prop where
  len : s.s_log_cache.length = TAG_CACHE_SIZE
  count_le : s.s_log_cache_entry_count ≤ TAG_CACHE_SIZE
  prefill : s.s_log_cache_entry_count < TAG_CACHE_SIZE →
    k = s.s_log_cache_entry_count ∧
    s.s_log_cache_max_generation = s.s_log_cache_entry_count ∧
    ∀ i, i < s.s_log_cache_entry_count → gen_at s.s_log_cache i = i
  full : s.s_log_cache_entry_count = TAG_CACHE_SIZE → k ≤ 2 ^ 29 →
    s.s_log_cache_max_generation = k ∧ HeapInv s.s_log_cache ∧
    GensDistinct s.s_log_cache ∧ ∀ i, i < TAG_CACHE_SIZE → gen_at s.s_log_cache i < k

/-- Occupied slots whose tag string has no registry entry carry the default level. -/
def DefaultCoherent (mem : Mem) (s : LogState) : Prop :=
  ∀ i, i < s.s_log_cache_entry_count →
    get_uncached_log_level mem s.s_log_tags (cache_at s.s_log_cache i).tag = none →
    (cache_at s.s_log_cache i).level = s.s_log_default_level % 2 ^ 3

/-- The level that the registry and the default level give a tag: the registry entry for
its string if there is one, the default level otherwise. -/
def resolved_level (mem : Mem) (s : LogState) (tag : Ptr) : Nat :=
  match get_uncached_log_level mem s.s_log_tags tag with
  | some l => l
  | none => s.s_log_default_level

/-- Every occupied slot holds the resolved level of its tag (in the 3 bits of the field). -/
def CacheCoherent (mem : Mem) (s : LogState) : Prop :=
  ∀ i, i < s.s_log_cache_entry_count →
    (cache_at s.s_log_cache i).level =
      resolved_level mem s (cache_at s.s_log_cache i).tag % 2 ^ 3

/-- A run of lookups `is_tag_level_visible(level, tag)`, lock taken: the state after. -/
def lookups (mem : Mem) (s : LogState) : List (Nat × Ptr) → LogState
  | [] => s
  | q :: rest => lookups mem (is_tag_level_visible mem true s q.1 q.2).2 rest

/-! ## Call sequences and the cache-free reference model -/

/-- A call of the public interface (lock acquired, allocation succeeding). -/
inductive Op
  | level_set (tag : Ptr) (level : Nat)
  | visible (level : Nat) (tag : Ptr)
  deriving DecidableEq, Repr

/-- Answers of the `is_tag_level_visible` calls of a sequence, in call order. -/
def run (mem : Mem) (s : LogState) : List Op → List Bool
  | [] => []
  | Op.level_set tag level :: ops => run mem (log_level_set mem true s tag level) ops
  | Op.visible level tag :: ops =>
    (is_tag_level_visible mem true s level tag).1 ::
      run mem (is_tag_level_visible mem true s level tag).2 ops

/-- State of the reference model: the default level and the registry, keyed by tag string. -/
structure RefState where
  default_level : Nat
  registry : List (String × Nat)
  deriving DecidableEq, Repr

/-- Reference `set_level(tag, level)`: `"*"` sets the default level and clears the
registry; any other tag updates its entry in place, or prepends a new one. -/
def ref_set_level (r : RefState) (tag : String) (level : Nat) : RefState :=
  if tag = "*" then { default_level := level, registry := [] }
  else if r.registry.any (fun e => e.1 == tag) then
    { r with registry := r.registry.map (fun e => if e.1 = tag then (e.1, level) else e) }
  else { r with registry := (tag, level) :: r.registry }

/-- Reference `is_visible(level, tag)`: the registry entry for the tag's string, else the
default level, compared with the message level. -/
def ref_is_visible (r : RefState) (level : Nat) (tag : String) : Bool :=
  match r.registry.find? (fun e => e.1 == tag) with
  | some e => decide (level ≤ e.2)
  | none => decide (level ≤ r.default_level)

/-- Answers of the reference model to the `is_tag_level_visible` calls of a sequence. -/
def ref_run (mem : Mem) (r : RefState) : List Op → List Bool
  | [] => []
  | Op.level_set tag level :: ops => ref_run mem (ref_set_level r (mem tag) level) ops
  | Op.visible level tag :: ops => ref_is_visible r level (mem tag) :: ref_run mem r ops

/-- A memory for the examples: address 0 holds `"*"`, addresses 1 and 2 hold two string
objects with the same contents `"NET"`, and address `p > 2` holds a string of its own. -/
def example_mem : Mem :=
  fun p =>
    if p = 0 then "*"
    else if p = 1 ∨ p = 2 then "NET"
    else String.mk (List.replicate p 'a')

/-- Thirty-one lookups of the tags at addresses `1 .. 31`: they fill the cache. -/
def fill_queries : List (Nat × Ptr) :=
  (List.range TAG_CACHE_SIZE).map (fun i => (LOG_INFO, i + 1))

/-- The state after `fill_queries` from the initial state: a full cache. -/
def full_state : LogState :=
  lookups example_mem (log_init LOG_VERBOSE) fill_queries

/-- The full cache of `full_state` after further lookups of the tag at address `31` (it sits
in the leaf slot `30`): that slot carries generation `g`, the counter is `m`. -/
def stamped_state (g m : Nat) : LogState :=
  { full_state with
    s_log_cache := full_state.s_log_cache.set 30 ⟨31, LOG_VERBOSE, g⟩
    s_log_cache_max_generation := m }

/-- The state reached from `full_state` by `2 ^ 29 - 31` lookups of the tag at address
`31`: the generation counter has reached `2 ^ 29`. -/
def wrapped_state : LogState :=
  stamped_state (2 ^ 29 - 1) (2 ^ 29)

/-! ## Registry and cache shape -/

/-- Tag strings held by the registry entries, head first. -/
def registry_tags (tags : List uncached_tag_entry_t) : List String :=
  tags.map (fun it => it.tag)

/-- Registry uniqueness: no two entries hold the same string, and none holds `"*"`. -/
def RegistryInv (tags : List uncached_tag_entry_t) : Prop :=
  (registry_tags tags).Nodup ∧ "*" ∉ registry_tags tags

/-- Tag pointers of the occupied cache slots, in slot order. -/
def cached_tags (s : LogState) : List Ptr :=
  (s.s_log_cache.map (fun e => e.tag)).take s.s_log_cache_entry_count

/-- No two occupied cache slots hold the same tag pointer. -/
def TagsDistinct (s : LogState) : Prop :=
  (cached_tags s).Nodup

/-- Some occupied slot holds the pointer `tag`, and every occupied slot that holds it
stores `level`. -/
structure Pinned (s : LogState) (tag : Ptr) (level : Nat) : Prop where
  len : s.s_log_cache.length = TAG_CACHE_SIZE
  count_le : s.s_log_cache_entry_count ≤ TAG_CACHE_SIZE
  cached : ∃ i, i < s.s_log_cache_entry_count ∧ (cache_at s.s_log_cache i).tag = tag
  level_eq : ∀ i, i < s.s_log_cache_entry_count → (cache_at s.s_log_cache i).tag = tag →
    (cache_at s.s_log_cache i).level = level

/-! ## Lock calls -/

/-- A call of the lock port: `log_impl_lock()`, `log_impl_lock_timeout()` with its result,
`log_impl_unlock()`. -/
inductive LockCall
  | lock
  | lock_timeout (acquired : Bool)
  | unlock
  deriving DecidableEq, Repr

/-- Whether the caller holds the lock after a sequence of lock calls. -/
def lock_held_after : Bool → List LockCall → Bool
  | held, [] => held
  | _, LockCall.lock :: rest => lock_held_after true rest
  | _, LockCall.lock_timeout acquired :: rest => lock_held_after acquired rest
  | _, LockCall.unlock :: rest => lock_held_after false rest

/-- The lock calls of `log_level_set`, in order, on each of its three exit paths: the
wildcard `return`, the `return` after a failed `malloc`, and the end of the function. -/
def log_level_set_lock_calls (mem : Mem) (malloc_ok : Bool) (s : LogState) (tag : Ptr)
    (level : Nat) : List LockCall :=
  if mem tag = "*" then [LockCall.lock, LockCall.unlock]
  else if !(update_existing_tag mem s.s_log_tags tag level).2 && !malloc_ok then
    [LockCall.lock, LockCall.unlock]
  else [LockCall.lock, LockCall.unlock]

/-! ## Output functions -/

/-- A function pointer of type `vprintf_like_t`, by address. -/
abbrev vprintf_like_t := Nat

/-- Address of the C library's `vprintf`, the initial output function. -/
def vprintf : vprintf_like_t := 0

/-- One argument of a variadic call: a `char *` (given by the string it points to) or an
integer. -/
inductive Arg
  | str (s : String)
  | int (n : Int)
  deriving DecidableEq, Repr

/-- The arguments behind a format string (`...` or a `va_list`), in order. -/
abbrev va_list := List Arg

/-- A call that leaves the library: of a `vprintf_like_t` function, or of the C library's
`printf`. -/
inductive Output
  | vprintf_like (func : vprintf_like_t) (format : String) (args : va_list)
  | printf (format : String) (args : va_list)
  deriving DecidableEq, Repr

/-- The file-scope variables of `log.c`: those of `LogState` and the output function
`s_log_print_func`. -/
structure LogSystem where
  state : LogState
  s_log_print_func : vprintf_like_t
  deriving DecidableEq, Repr

/-- Static initialisation: `s_log_print_func = &vprintf`. -/
def log_system_init (default_level : Nat) : LogSystem :=
  { state := log_init default_level, s_log_print_func := vprintf }

/-- Function `log_set_vprintf`: the previous output function and the variables after. -/
def log_set_vprintf (sys : LogSystem) (func : vprintf_like_t) : vprintf_like_t × LogSystem :=
  let orig_func := sys.s_log_print_func
  (orig_func, { sys with s_log_print_func := func })

/-- The lock calls of `log_set_vprintf`. -/
def log_set_vprintf_lock_calls : List LockCall :=
  [LockCall.lock, LockCall.unlock]

/-- Function `log_writev`: the calls of the output function and the variables after;
`lock_ok` is the result of `log_impl_lock_timeout()` in `is_tag_level_visible`. -/
def log_writev (mem : Mem) (lock_ok : Bool) (sys : LogSystem) (level : Nat) (tag : Ptr)
    (format : String) (args : va_list) : List Output × LogSystem :=
  match is_tag_level_visible mem lock_ok sys.state level tag with
  | (false, s1) => ([], { sys with state := s1 })
  | (true, s1) =>
    ([Output.vprintf_like sys.s_log_print_func format args], { sys with state := s1 })

/-- Function `log_write`: `va_start`, `log_writev`, `va_end`. -/
def log_write (mem : Mem) (lock_ok : Bool) (sys : LogSystem) (level : Nat) (tag : Ptr)
    (format : String) (args : va_list) : List Output × LogSystem :=
  log_writev mem lock_ok sys level tag format args

/-! ## Buffer formatters -/

/-- Bytes per line of the buffer formatters: `#define BYTES_PER_LINE 16` in
`log_config.h`. -/
def BYTES_PER_LINE : Nat := 16

/-- What the C implementation leaves to the platform: whether plain `char` is signed, the
width of `int`, the size of a pointer, and the text that `printf` gives for `%p`. -/
structure Target where
  char_signed : Bool
  int_bits : Nat
  sizeof_ptr : Nat
  fmt_ptr : Nat → List Char

/-- The terminating zero of a C string. -/
def NUL : Char := Char.ofNat 0

/-- Value of the `char` holding byte `b`, promoted to `int` for a variadic call. -/
def promote_char (t : Target) (b : Nat) : Int :=
  if t.char_signed && decide (128 ≤ b) then (b : Int) - 256 else (b : Int)

/-- An `int` read as `unsigned int` (what `%x` and `%X` print). -/
def to_unsigned (t : Target) (v : Int) : Nat :=
  (v % (2 : Int) ^ t.int_bits).toNat

/-- An `int` converted to `unsigned char` (what `%c` prints). -/
def to_uchar (v : Int) : Nat :=
  (v % 256).toNat

/-- Text of `%0<width>x`: lowercase hexadecimal digits, zero-padded to `width`. -/
def fmt_x (width n : Nat) : List Char :=
  List.replicate (width - (Nat.toDigits 16 n).length) '0' ++ Nat.toDigits 16 n

/-- Text of `%0<width>X`: uppercase hexadecimal digits, zero-padded to `width`. -/
def fmt_X (width n : Nat) : List Char :=
  (fmt_x width n).map Char.toUpper

/-- Function `isprint` in the "C" locale. -/
def isprint (v : Int) : Bool :=
  decide (32 ≤ v ∧ v ≤ 126)

/-- Stores the characters `cs` into the array `buf` from index `pos` on (used within the
bounds of the array only). -/
def store (buf : List Char) (pos : Nat) : List Char → List Char
  | [] => buf
  | ch :: cs => store (buf.set pos ch) (pos + 1) cs

/-- Effect of `sprintf(buf + pos, ...)` when the conversion gives `text`: the text and its
terminating zero are stored from `pos` on.  When they do not fit the array the call writes
past its end, which is undefined behaviour in C: the result is `none`. -/
def sprintf (buf : List Char) (pos : Nat) (text : List Char) : Option (List Char) :=
  if pos + text.length + 1 ≤ buf.length then some (store buf pos (text ++ [NUL])) else none

/-- The C string that starts at the beginning of the array: the characters before the
first zero. -/
def c_string (buf : List Char) : List Char :=
  buf.takeWhile (fun ch => ch != NUL)

/-- The line of `log_buffer_hex_internal` for one chunk: the loop
`sprintf(hex_buffer + 3 * i, "%02x ", ptr_line[i])` on
`char hex_buffer[3 * BYTES_PER_LINE + 1]`, read back as the `%s` argument.  The array is
uninitialised in C; every cell that is read back has been stored before, and the array is
taken zero-filled here.  The result is `none` when a `sprintf` writes past the end of
`hex_buffer`. -/
def hex_line (t : Target) (ptr_line : List Nat) (bytes_cur_line : Nat) : Option String :=
  ((List.range bytes_cur_line).foldlM
    (fun hex_buffer i =>
      sprintf hex_buffer (3 * i)
        (fmt_x 2 (to_unsigned t (promote_char t (ptr_line.getD i 0))) ++ [Char.ofNat 32]))
    (List.replicate (3 * BYTES_PER_LINE + 1) NUL)).map
    (fun hex_buffer => String.mk (c_string hex_buffer))

/-- The line of `log_buffer_char_internal` for one chunk: the loop
`sprintf(char_buffer + i, "%c", ptr_line[i])` on `char char_buffer[BYTES_PER_LINE + 1]`,
read back as the `%s` argument. -/
def char_line (t : Target) (ptr_line : List Nat) (bytes_cur_line : Nat) : Option String :=
  ((List.range bytes_cur_line).foldlM
    (fun char_buffer i =>
      sprintf char_buffer i [Char.ofNat (to_uchar (promote_char t (ptr_line.getD i 0)))])
    (List.replicate (BYTES_PER_LINE + 1) NUL)).map
    (fun char_buffer => String.mk (c_string char_buffer))

/-- The step `ptr_hd += sprintf(ptr_hd, ...)` on the pair of the array `hd_buffer` and the
index `ptr_hd - hd_buffer`. -/
def hd_put (hd : List Char × Nat) (text : List Char) : Option (List Char × Nat) :=
  (sprintf hd.1 hd.2 text).map (fun hd_buffer => (hd_buffer, hd.2 + text.length))

/-- The body of the first loop of `log_buffer_hexdump_internal` for cell `i`: a space
before cells `0` and `8` (`if ((i & 7) == 0)`), then `" %02x"` of `ptr_line[i]` within the
chunk and three spaces past its end. -/
def hexdump_cell_step (t : Target) (ptr_line : List Nat) (bytes_cur_line : Nat)
    (hd : List Char × Nat) (i : Nat) : Option (List Char × Nat) :=
  (if i % 8 = 0 then hd_put hd " ".toList else some hd).bind (fun hd =>
    if i < bytes_cur_line then
      hd_put hd (Char.ofNat 32 ::
        fmt_x 2 (to_unsigned t (promote_char t (ptr_line.getD i 0))))
    else hd_put hd "   ".toList)

/-- The body of the second loop of `log_buffer_hexdump_internal` for byte `i`: `"%c"` of a
printable byte, a dot for another. -/
def hexdump_region_step (t : Target) (ptr_line : List Nat) (hd : List Char × Nat)
    (i : Nat) : Option (List Char × Nat) :=
  if isprint (promote_char t (ptr_line.getD i 0)) then
    hd_put hd [Char.ofNat (to_uchar (promote_char t (ptr_line.getD i 0)))]
  else hd_put hd ".".toList

/-- The array `hd_buffer` and the index `ptr_hd - hd_buffer` after the line of
`log_buffer_hexdump_internal` has been composed for the chunk at byte offset `offset` of
the buffer at address `addr`; `none` when a `sprintf` writes past the end of
`hd_buffer`. -/
def hexdump_compose (t : Target) (addr offset : Nat) (ptr_line : List Nat)
    (bytes_cur_line : Nat) : Option (List Char × Nat) :=
  -- sprintf(ptr_hd, "%p (%08X)", buffer, buffer - buffer_start)
  (hd_put
    (List.replicate (t.sizeof_ptr + 3 + 10 + 3 + BYTES_PER_LINE * 3 + 3 + 1 + BYTES_PER_LINE
      + 1 + 3) NUL, 0)
    (t.fmt_ptr (addr + offset) ++ " (".toList ++ fmt_X 8 (to_unsigned t (offset : Int)) ++
      ")".toList)).bind (fun hd1 =>
  ((List.range BYTES_PER_LINE).foldlM
    (hexdump_cell_step t ptr_line bytes_cur_line) hd1).bind (fun hd2 =>
  (hd_put hd2 "  |".toList).bind (fun hd3 =>
  ((List.range bytes_cur_line).foldlM (hexdump_region_step t ptr_line) hd3).bind (fun hd4 =>
  hd_put hd4 "|".toList))))

/-- The line of `log_buffer_hexdump_internal` for one chunk, as the `%s` argument. -/
def hexdump_line (t : Target) (addr offset : Nat) (ptr_line : List Nat)
    (bytes_cur_line : Nat) : Option String :=
  (hexdump_compose t addr offset ptr_line bytes_cur_line).map
    (fun hd => String.mk (c_string hd.1))

/-- The text that the `sprintf` of cell `i` of the hex area of a hexdump line gives:
`" %02x"` of `ptr_line[i]` within the chunk, three spaces past its end. -/
def hexdump_cell (t : Target) (ptr_line : List Nat) (bytes_cur_line i : Nat) : List Char :=
  if i < bytes_cur_line then
    Char.ofNat 32 :: fmt_x 2 (to_unsigned t (promote_char t (ptr_line.getD i 0)))
  else "   ".toList

/-- The texts of the `sprintf` calls of the first loop of `log_buffer_hexdump_internal`, in
order: for each of the 16 cells, a space before cells `0` and `8`, and the cell. -/
def hexdump_cell_texts (t : Target) (ptr_line : List Nat) (bytes_cur_line : Nat) :
    List (List Char) :=
  (List.range BYTES_PER_LINE).flatMap (fun i =>
    (if i % 8 = 0 then [" ".toList] else []) ++ [hexdump_cell t ptr_line bytes_cur_line i])

/-- The hex area of a hexdump line as composed: the cell texts and the two spaces that
precede the bar. -/
def hexdump_area (t : Target) (ptr_line : List Nat) (bytes_cur_line : Nat) : List Char :=
  (hexdump_cell_texts t ptr_line bytes_cur_line).flatten ++ "  ".toList

/-- The texts of the `sprintf` calls of the second loop of `log_buffer_hexdump_internal`,
in order: `%c` of a printable byte, a dot for another. -/
def hexdump_region_texts (t : Target) (ptr_line : List Nat) (bytes_cur_line : Nat) :
    List (List Char) :=
  (List.range bytes_cur_line).map (fun i =>
    if isprint (promote_char t (ptr_line.getD i 0)) then
      [Char.ofNat (to_uchar (promote_char t (ptr_line.getD i 0)))]
    else ".".toList)

/-- The texts of all `sprintf` calls that compose a hexdump line, in order. -/
def hexdump_texts (t : Target) (addr offset : Nat) (ptr_line : List Nat)
    (bytes_cur_line : Nat) : List (List Char) :=
  [t.fmt_ptr (addr + offset) ++ " (".toList ++ fmt_X 8 (to_unsigned t (offset : Int)) ++
      ")".toList] ++
    hexdump_cell_texts t ptr_line bytes_cur_line ++ ["  |".toList] ++
    hexdump_region_texts t ptr_line bytes_cur_line ++ ["|".toList]

/-- A call that a buffer formatter makes: of `log_write`, or of `printf`. -/
inductive Call
  | log_write (level : Nat) (tag : Ptr) (format : String) (args : va_list)
  | printf (format : String) (args : va_list)
  deriving DecidableEq, Repr

/-- The `do { ... } while (buff_len);` loop of the three `log_buffer_*_internal` functions,
which differ only in the calls made for a line (`line offset ptr_line bytes_cur_line`, with
`offset = buffer - buffer_start`).  `buffer i` is the byte at `buffer_start + i`, and the
number of iterations is bounded by the first argument.  Returns the calls made, in order,
and the final `buff_len`; `none` when the composition of a line is undefined. -/
def log_buffer_loop (line : Nat → List Nat → Nat → Option (List Call))
    (buffer : Nat → Nat) : Nat → Nat → Nat → Option (List Call × Nat)
  | 0, _, buff_len => some ([], buff_len)
  | fuel + 1, offset, buff_len =>
    let bytes_cur_line := if buff_len > BYTES_PER_LINE then BYTES_PER_LINE else buff_len
    -- memcpy(temp_buffer, buffer, (bytes_cur_line + 3) / 4 * 4); ptr_line = temp_buffer;
    let ptr_line := (List.range ((bytes_cur_line + 3) / 4 * 4)).map
      (fun i => buffer (offset + i))
    match line offset ptr_line bytes_cur_line with
    | none => none
    | some calls =>
      if buff_len - bytes_cur_line ≠ 0 then
        match log_buffer_loop line buffer fuel (offset + bytes_cur_line)
          (buff_len - bytes_cur_line) with
        | none => none
        | some r => some (calls ++ r.1, r.2)
      else some (calls, buff_len - bytes_cur_line)

/-- The calls that `log_buffer_hex_internal` makes for one line. -/
def hex_line_calls (t : Target) (tag : Ptr) (log_level : Nat) (ptr_line : List Nat)
    (bytes_cur_line : Nat) : Option (List Call) :=
  (hex_line t ptr_line bytes_cur_line).map (fun hex_buffer =>
    [Call.log_write log_level tag "%s\n" [Arg.str hex_buffer]])

/-- The calls that `log_buffer_char_internal` makes for one line. -/
def char_line_calls (t : Target) (tag : Ptr) (log_level : Nat) (ptr_line : List Nat)
    (bytes_cur_line : Nat) : Option (List Call) :=
  (char_line t ptr_line bytes_cur_line).map (fun char_buffer =>
    [Call.log_write log_level tag "%s\n" [Arg.str char_buffer]])

/-- The calls that `log_buffer_hexdump_internal` makes for one line: the `printf` of the
line length `ptr_hd - hd_buffer` and of `sizeof(hd_buffer)`, and the `log_write` of the
line. -/
def hexdump_line_calls (t : Target) (tag : Ptr) (addr : Nat) (log_level : Nat)
    (offset : Nat) (ptr_line : List Nat) (bytes_cur_line : Nat) : Option (List Call) :=
  match hexdump_compose t addr offset ptr_line bytes_cur_line,
      hexdump_line t addr offset ptr_line bytes_cur_line with
  | some hd, some hd_buffer =>
    some [Call.printf "printing %d out of %d\r\n"
        [Arg.int hd.2,
          Arg.int (t.sizeof_ptr + 3 + 10 + 3 + BYTES_PER_LINE * 3 + 3 + 1 +
            BYTES_PER_LINE + 1 + 3 : Nat)],
      Call.log_write log_level tag "%s\n" [Arg.str hd_buffer]]
  | _, _ => none

/-- Function `log_buffer_hex_internal`: the calls it makes, `none` when a line overflows
`hex_buffer`.  The parameter is a `uint16_t buff_len`.  Every iteration of the loop takes
at least one byte, so `buff_len` iterations are as many as the loop can make
(`log_buffer_loop_fuel`). -/
def log_buffer_hex_internal (t : Target) (tag : Ptr) (buffer : Nat → Nat) (buff_len : Nat)
    (log_level : Nat) : Option (List Call) :=
  if buff_len % 2 ^ 16 = 0 then some []
  else
    (log_buffer_loop (fun _ => hex_line_calls t tag log_level)
      buffer (buff_len % 2 ^ 16) 0 (buff_len % 2 ^ 16)).map Prod.fst

/-- Function `log_buffer_char_internal`: the calls it makes.  The parameter is a
`uint16_t buff_len`. -/
def log_buffer_char_internal (t : Target) (tag : Ptr) (buffer : Nat → Nat) (buff_len : Nat)
    (log_level : Nat) : Option (List Call) :=
  if buff_len % 2 ^ 16 = 0 then some []
  else
    (log_buffer_loop (fun _ => char_line_calls t tag log_level)
      buffer (buff_len % 2 ^ 16) 0 (buff_len % 2 ^ 16)).map Prod.fst

/-- Function `log_buffer_hexdump_internal`: the calls it makes, for the buffer at address
`addr`, `none` when a line overflows `hd_buffer`.  The parameter is a
`uint16_t buff_len`. -/
def log_buffer_hexdump_internal (t : Target) (tag : Ptr) (addr : Nat) (buffer : Nat → Nat)
    (buff_len : Nat) (log_level : Nat) : Option (List Call) :=
  if buff_len % 2 ^ 16 = 0 then some []
  else
    (log_buffer_loop (hexdump_line_calls t tag addr log_level)
      buffer (buff_len % 2 ^ 16) 0 (buff_len % 2 ^ 16)).map Prod.fst

/-- The calls of a buffer formatter carried out in order on the variables of `log.c`:
the output calls made and the variables after.  `lock_timeout n` is the result of the
`n`-th call of `log_impl_lock_timeout()` since the public function was entered (every
`log_write` makes one). -/
def perform (mem : Mem) (lock_timeout : Nat → Bool) :
    List Call → Nat → LogSystem → List Output × LogSystem
  | [], _, sys => ([], sys)
  | Call.printf format args :: rest, n, sys =>
    let r := perform mem lock_timeout rest n sys
    (Output.printf format args :: r.1, r.2)
  | Call.log_write level tag format args :: rest, n, sys =>
    let r1 := log_write mem (lock_timeout n) sys level tag format args
    let r := perform mem lock_timeout rest (n + 1) r1.2
    (r1.1 ++ r.1, r.2)

/-- Function `log_write_buffer_hex`: the output calls made and the variables after, `none`
when the formatter overflows its line buffer.  The parameter is a `uint16_t buff_len`. -/
def log_write_buffer_hex (t : Target) (mem : Mem) (lock_timeout : Nat → Bool)
    (sys : LogSystem) (level : Nat) (tag : Ptr) (buffer : Nat → Nat) (buff_len : Nat) :
    Option (List Output × LogSystem) :=
  match is_tag_level_visible mem (lock_timeout 0) sys.state level tag with
  | (false, s1) => some ([], { sys with state := s1 })
  | (true, s1) =>
    (log_buffer_hex_internal t tag buffer (buff_len % 2 ^ 16) level).map (fun calls =>
      perform mem lock_timeout calls 1 { sys with state := s1 })

/-- Function `log_write_buffer_char`.  The parameter is a `uint16_t buff_len`. -/
def log_write_buffer_char (t : Target) (mem : Mem) (lock_timeout : Nat → Bool)
    (sys : LogSystem) (level : Nat) (tag : Ptr) (buffer : Nat → Nat) (buff_len : Nat) :
    Option (List Output × LogSystem) :=
  match is_tag_level_visible mem (lock_timeout 0) sys.state level tag with
  | (false, s1) => some ([], { sys with state := s1 })
  | (true, s1) =>
    (log_buffer_char_internal t tag buffer (buff_len % 2 ^ 16) level).map (fun calls =>
      perform mem lock_timeout calls 1 { sys with state := s1 })

/-- Function `log_write_buffer_hexdump`, for the buffer at address `addr`: the output calls
made and the variables after, `none` when the formatter overflows its line buffer.  The
parameter is a `uint16_t buff_len`. -/
def log_write_buffer_hexdump (t : Target) (mem : Mem) (lock_timeout : Nat → Bool)
    (sys : LogSystem) (level : Nat) (tag : Ptr) (addr : Nat) (buffer : Nat → Nat)
    (buff_len : Nat) : Option (List Output × LogSystem) :=
  match is_tag_level_visible mem (lock_timeout 0) sys.state level tag with
  | (false, s1) => some ([], { sys with state := s1 })
  | (true, s1) =>
    (log_buffer_hexdump_internal t tag addr buffer (buff_len % 2 ^ 16) level).map
      (fun calls => perform mem lock_timeout calls 1 { sys with state := s1 })

/-- Number of calls of a `vprintf_like_t` output function among the calls that left the
library. -/
def output_calls (outs : List Output) : Nat :=
  (outs.filter (fun o => match o with
    | Output.vprintf_like _ _ _ => true
    | _ => false)).length

/-- The output calls that a sequence of calls makes when every `log_write` in it is let
through: one call of the output function `func` for each `log_write`, and the `printf`
calls as they are. -/
def outputs_of (func : vprintf_like_t) : List Call → List Output
  | [] => []
  | Call.log_write _ _ format args :: rest =>
    Output.vprintf_like func format args :: outputs_of func rest
  | Call.printf format args :: rest => Output.printf format args :: outputs_of func rest

/-- The bytes that the spec assigns to line `j` of a buffer of `len` bytes: those at offsets
`16 j` up to `min (16 j + 16) len`. -/
def spec_chunk (buffer : Nat → Nat) (len j : Nat) : List Nat :=
  (List.range (min (16 * j + 16) len - 16 * j)).map (fun i => buffer (16 * j + i))

/-- A platform for the examples: signed `char`, 32-bit `int`, 8-byte pointers printed as
`0x` and lowercase hexadecimal digits. -/
def example_target : Target :=
  { char_signed := true
    int_bits := 32
    sizeof_ptr := 8
    fmt_ptr := fun p => "0x".toList ++ Nat.toDigits 16 p }

/-- The 44 bytes of the test buffer `"The quick brown fox jumps over the lazy dog"` with its
terminating zero, at offsets `0 .. 43`; other offsets read zero. -/
def example_buffer : Nat → Nat :=
  fun i => ("The quick brown fox jumps over the lazy dog".toList.map Char.toNat).getD i 0

/-! ## The lock port without an operating system -/

/-- Function `log_impl_lock` of `log_noos.c`, on the variable `s_lock`: the value after the
call, or `none` when the assertion `s_lock == 0` fails. -/
def log_noos.log_impl_lock (s_lock : Int) : Option Int :=
  if s_lock = 0 then some 1 else none

/-- Function `log_impl_lock_timeout` of `log_noos.c`: `log_impl_lock(); return true;`. -/
def log_noos.log_impl_lock_timeout (s_lock : Int) : Option (Bool × Int) :=
  match log_noos.log_impl_lock s_lock with
  | some s_lock1 => some (true, s_lock1)
  | none => none

/-- Function `log_impl_unlock` of `log_noos.c`: the value of `s_lock` after the call, or
`none` when the assertion `s_lock == 1` fails. -/
def log_noos.log_impl_unlock (s_lock : Int) : Option Int :=
  if s_lock = 1 then some 0 else none

/-- Function `log_timestamp` of `log_noos.c` on the variable `timestamp`:
`return timestamp++;`, the value returned and the variable after. -/
def log_noos.log_timestamp (timestamp : Nat) : Nat × Nat :=
  (timestamp, (timestamp + 1) % 2 ^ 32)

/-- The lock calls of `is_tag_level_visible`, in order: the attempt with its result, and
the unlock if the lock was acquired. -/
def is_tag_level_visible_lock_calls (lock_ok : Bool) : List LockCall :=
  if !lock_ok then [LockCall.lock_timeout false]
  else [LockCall.lock_timeout true, LockCall.unlock]

/-- A sequence of lock calls carried out on the no-OS port from a value of `s_lock`: the
final value, or `none` when an assertion fails (or when `log_impl_lock_timeout` does not
return what the sequence records). -/
def log_noos.run : Int → List LockCall → Option Int
  | s_lock, [] => some s_lock
  | s_lock, LockCall.lock :: rest =>
    match log_noos.log_impl_lock s_lock with
    | some s_lock1 => log_noos.run s_lock1 rest
    | none => none
  | s_lock, LockCall.lock_timeout acquired :: rest =>
    match log_noos.log_impl_lock_timeout s_lock with
    | some (result, s_lock1) => if result = acquired then log_noos.run s_lock1 rest else none
    | none => none
  | s_lock, LockCall.unlock :: rest =>
    match log_noos.log_impl_unlock s_lock with
    | some s_lock1 => log_noos.run s_lock1 rest
    | none => none

/-- A call of one of the public operations that take the lock. -/
inductive PublicCall
  | set_vprintf (func : vprintf_like_t)
  | level_set (malloc_ok : Bool) (tag : Ptr) (level : Nat)
  | visible (level : Nat) (tag : Ptr)
  deriving DecidableEq, Repr

/-- The lock calls that a public call makes on the no-OS port (where
`log_impl_lock_timeout` returns true), from the variables `sys`. -/
def log_noos.lock_calls (mem : Mem) (sys : LogSystem) : PublicCall → List LockCall
  | PublicCall.set_vprintf _ => log_set_vprintf_lock_calls
  | PublicCall.level_set malloc_ok tag level =>
    log_level_set_lock_calls mem malloc_ok sys.state tag level
  | PublicCall.visible _ _ => is_tag_level_visible_lock_calls true

/-- The variables of `log.c` after a public call on the no-OS port. -/
def log_noos.step (mem : Mem) (sys : LogSystem) : PublicCall → LogSystem
  | PublicCall.set_vprintf func => (log_set_vprintf sys func).2
  | PublicCall.level_set malloc_ok tag level =>
    { sys with state := log_level_set mem malloc_ok sys.state tag level }
  | PublicCall.visible level tag =>
    { sys with state := (is_tag_level_visible mem true sys.state level tag).2 }

/-- A sequence of public calls on the no-OS port: the variables of `log.c` and `s_lock`
after the last call, or `none` when an assertion of the port fails. -/
def log_noos.public_calls (mem : Mem) : LogSystem → Int → List PublicCall →
    Option (LogSystem × Int)
  | sys, s_lock, [] => some (sys, s_lock)
  | sys, s_lock, call :: rest =>
    match log_noos.run s_lock (log_noos.lock_calls mem sys call) with
    | some s_lock1 => log_noos.public_calls mem (log_noos.step mem sys call) s_lock1 rest
    | none => none

/-! ## Formatted output -/

/-- Text of `%d`, and of `%u` for a non-negative value: the decimal digits. -/
def decimal (n : Int) : List Char :=
  if n < 0 then "-".toList ++ Nat.toDigits 10 n.natAbs else Nat.toDigits 10 n.toNat

/-- What the C library does at a conversion specification, given the format after the `%`
and the arguments not yet consumed: the text of the conversion, the arguments that are
left, and the number of format characters after the `%` that the specification takes;
`none` where the behaviour is undefined.  The C library is not part of the repository: the
conversions are a parameter of the model. -/
abbrev conversion_t := List Char → va_list → Option (List Char × va_list × Nat)

/-- The text that a `printf`-family function of the C library composes from a format and
its arguments, with the arguments that are left over: characters other than `%` are
copied, and at a `%` the conversion is carried out.  The number of iterations is bounded
by the first argument; an iteration takes at least one character of the format. -/
def format_loop (conversion : conversion_t) :
    Nat → List Char → va_list → Option (List Char × va_list)
  | _, [], args => some ([], args)
  | 0, _ :: _, _ => none
  | fuel + 1, ch :: tail, args =>
    if ch = Char.ofNat 37 then
      match conversion tail args with
      | none => none
      | some (text, args1, n) =>
        (format_loop conversion fuel (tail.drop n) args1).map (fun r => (text ++ r.1, r.2))
    else (format_loop conversion fuel tail args).map (fun r => (ch :: r.1, r.2))

/-- The format loop with as many iterations as the format has characters, which are as
many as it can make (`format_loop_fuel`). -/
def format_text (conversion : conversion_t) (format : List Char) (args : va_list) :
    Option (List Char × va_list) :=
  format_loop conversion format.length format args

/-- The line that a `vprintf`-like output function composes from `format` and `args`. -/
def vformat (conversion : conversion_t) (format : String) (args : va_list) :
    Option String :=
  (format_text conversion format.toList args).map (fun r => String.mk r.1)

/-- The conversions that the format of the macros uses, as the C standard defines them:
`%s` gives the string, `%d` the decimal digits of an `int`, `%u` and `%lu` the decimal
digits of an unsigned value, each taking one argument; and a conversion specification is
read from the front of the format, whatever follows it. -/
structure StandardConversions (conversion : conversion_t) : Prop where
  percent_s : ∀ (tail : List Char) (s : String) (args : va_list),
    conversion (Char.ofNat 115 :: tail) (Arg.str s :: args) = some (s.toList, args, 1)
  percent_d : ∀ (tail : List Char) (n : Int) (args : va_list),
    conversion (Char.ofNat 100 :: tail) (Arg.int n :: args) = some (decimal n, args, 1)
  percent_u : ∀ (tail : List Char) (n : Nat) (args : va_list),
    conversion (Char.ofNat 117 :: tail) (Arg.int n :: args) =
      some (Nat.toDigits 10 n, args, 1)
  percent_lu : ∀ (tail : List Char) (n : Nat) (args : va_list),
    conversion (Char.ofNat 108 :: Char.ofNat 117 :: tail) (Arg.int n :: args) =
      some (Nat.toDigits 10 n, args, 2)
  front : ∀ (tail more : List Char) (args : va_list) (text : List Char) (args1 : va_list)
    (n : Nat), conversion tail args = some (text, args1, n) →
    n ≤ tail.length ∧ conversion (tail ++ more) args = some (text, args1, n)

/-- A conversion function for the examples: `%s`, `%d`, `%u`, `%lu`, `%x`, `%c` and `%%`
as the C library carries them out, and `none` for everything else. -/
def libc_conversion : conversion_t
  | [], _ => none
  | c :: tail, args =>
    if c = Char.ofNat 37 then some ([Char.ofNat 37], args, 1)
    else
      match args with
      | Arg.str s :: args1 => if c = Char.ofNat 115 then some (s.toList, args1, 1) else none
      | Arg.int n :: args1 =>
        if c = Char.ofNat 100 then some (decimal n, args1, 1)
        else if c = Char.ofNat 99 then some ([Char.ofNat (to_uchar n)], args1, 1)
        else if 0 ≤ n then
          if c = Char.ofNat 117 then some (Nat.toDigits 10 n.toNat, args1, 1)
          else if c = Char.ofNat 120 then some (Nat.toDigits 16 n.toNat, args1, 1)
          else if c = Char.ofNat 108 ∧ tail.head? = some (Char.ofNat 117) then
            some (Nat.toDigits 10 n.toNat, args1, 2)
          else none
        else none
      | [] => none

/-! ## The logging macros -/

/-- Build-time configuration: the macros of `log_config.h`, and `PRIu32` of
`<inttypes.h>`. -/
structure Build where
  MAXIMUM_ENABLED_LOG_LEVEL : Nat
  CONFIG_LOG_COLORS : Bool
  CONFIG_LOG_FILENAME : Bool
  CONFIG_LOG_FUNCTION_NAME : Bool
  PRIu32 : String
  deriving DecidableEq, Repr

/-- The place of a macro call: `__FILE__`, `__LINE__`, `__FUNCTION__`. -/
structure Site where
  file : String
  line : Int
  function : String
  deriving DecidableEq, Repr

/-- The level letter of a macro family `LOGE`, `LOGW`, `LOGI`, `LOGD`, `LOGV`. -/
inductive Letter
  | E
  | W
  | I
  | D
  | V
  deriving DecidableEq, Repr

/-- The level `LOG_ERROR` .. `LOG_VERBOSE` that the macros of a letter pass. -/
def Letter.level : Letter → Nat
  | Letter.E => LOG_ERROR
  | Letter.W => LOG_WARN
  | Letter.I => LOG_INFO
  | Letter.D => LOG_DEBUG
  | Letter.V => LOG_VERBOSE

/-- The string `#letter`. -/
def Letter.name : Letter → String
  | Letter.E => "E"
  | Letter.W => "W"
  | Letter.I => "I"
  | Letter.D => "D"
  | Letter.V => "V"

/-- Macro `LOG_COLOR_##letter`. -/
def LOG_COLOR (b : Build) : Letter → String
  | Letter.E => if b.CONFIG_LOG_COLORS then "\x1b[0;31m" else ""
  | Letter.W => if b.CONFIG_LOG_COLORS then "\x1b[0;33m" else ""
  | Letter.I => if b.CONFIG_LOG_COLORS then "\x1b[0;32m" else ""
  | Letter.D => ""
  | Letter.V => ""

/-- Macro `LOG_RESET_COLOR`. -/
def LOG_RESET_COLOR (b : Build) : String :=
  if b.CONFIG_LOG_COLORS then "\x1b[0m" else ""

/-- Macro `LOG_FORMAT_FILENAME`. -/
def LOG_FORMAT_FILENAME (_b : Build) : String := "%s"

/-- Macro `LOG_FORMAT_LINE`. -/
def LOG_FORMAT_LINE (b : Build) : String :=
  if b.CONFIG_LOG_FILENAME then ":%d" else "%s"

/-- Macro `LOG_FORMAT_FUNCTION_NAME`. -/
def LOG_FORMAT_FUNCTION_NAME (b : Build) : String :=
  if b.CONFIG_LOG_FUNCTION_NAME then " [%s]" else "%s"

/-- Macro `LOG_VALUE_FILENAME` at a call site. -/
def LOG_VALUE_FILENAME (b : Build) (site : Site) : Arg :=
  if b.CONFIG_LOG_FILENAME then Arg.str site.file else Arg.str ""

/-- Macro `LOG_VALUE_LINE` at a call site. -/
def LOG_VALUE_LINE (b : Build) (site : Site) : Arg :=
  if b.CONFIG_LOG_FILENAME then Arg.int site.line else Arg.str ""

/-- Macro `LOG_VALUE_FUNCTION_NAME` at a call site. -/
def LOG_VALUE_FUNCTION_NAME (b : Build) (site : Site) : Arg :=
  if b.CONFIG_LOG_FUNCTION_NAME then Arg.str site.function else Arg.str ""

/-- Macro `GET_LOG_FORMAT(letter, format)`: the concatenation of string literals. -/
def GET_LOG_FORMAT (b : Build) (letter : Letter) (format : String) : String :=
  LOG_COLOR b letter ++ letter.name ++ " (%" ++ b.PRIu32 ++ ") %s: " ++
    LOG_FORMAT_FILENAME b ++ LOG_FORMAT_LINE b ++ LOG_FORMAT_FUNCTION_NAME b ++ " " ++
    format ++ LOG_RESET_COLOR b ++ "\n"

/-- An argument expression in the expansion of a macro: the call `log_timestamp()`, the
tag pointer, or a value. -/
inductive ArgExpr
  | log_timestamp
  | tag (p : Ptr)
  | val (a : Arg)
  deriving DecidableEq, Repr

/-- A statement in the expansion of a macro: a call of `log_write` or of a buffer writer
(`buffer i` is the byte at offset `i` of the buffer, `addr` its address). -/
inductive Stmt
  | log_write (level : Nat) (tag : Ptr) (format : String) (args : List ArgExpr)
  | log_write_buffer_hex (level : Nat) (tag : Ptr) (buffer : Nat → Nat) (buff_len : Nat)
  | log_write_buffer_char (level : Nat) (tag : Ptr) (buffer : Nat → Nat) (buff_len : Nat)
  | log_write_buffer_hexdump (level : Nat) (tag : Ptr) (addr : Nat) (buffer : Nat → Nat)
      (buff_len : Nat)

/-- Expansion of the macro `LOGE`, `LOGW`, `LOGI`, `LOGD` or `LOGV` (by its letter) with
the variadic arguments `args`: nothing when `MAXIMUM_ENABLED_LOG_LEVEL` is below the level
of the letter. -/
def LOGx (b : Build) (x : Letter) (site : Site) (tag : Ptr) (format : String)
    (args : va_list) : List Stmt :=
  if b.MAXIMUM_ENABLED_LOG_LEVEL ≥ x.level then
    [Stmt.log_write x.level tag (GET_LOG_FORMAT b x format)
      ([ArgExpr.log_timestamp, ArgExpr.tag tag, ArgExpr.val (LOG_VALUE_FILENAME b site),
        ArgExpr.val (LOG_VALUE_LINE b site), ArgExpr.val (LOG_VALUE_FUNCTION_NAME b site)] ++
        args.map ArgExpr.val)]
  else []

/-- Macro `LOGE`. -/
def LOGE (b : Build) (site : Site) (tag : Ptr) (format : String) (args : va_list) :
    List Stmt :=
  LOGx b Letter.E site tag format args

/-- Macro `LOGW`. -/
def LOGW (b : Build) (site : Site) (tag : Ptr) (format : String) (args : va_list) :
    List Stmt :=
  LOGx b Letter.W site tag format args

/-- Macro `LOGI`. -/
def LOGI (b : Build) (site : Site) (tag : Ptr) (format : String) (args : va_list) :
    List Stmt :=
  LOGx b Letter.I site tag format args

/-- Macro `LOGD`. -/
def LOGD (b : Build) (site : Site) (tag : Ptr) (format : String) (args : va_list) :
    List Stmt :=
  LOGx b Letter.D site tag format args

/-- Macro `LOGV`. -/
def LOGV (b : Build) (site : Site) (tag : Ptr) (format : String) (args : va_list) :
    List Stmt :=
  LOGx b Letter.V site tag format args

/-- Expansion of the macro `LOGx_BUFFER_HEX` of a letter; `buff_len` is the argument that
the writer receives in its `uint16_t` parameter. -/
def LOGx_BUFFER_HEX (b : Build) (x : Letter) (site : Site) (tag : Ptr) (buffer : Nat → Nat)
    (buff_len : Nat) (format : String) (args : va_list) : List Stmt :=
  if b.MAXIMUM_ENABLED_LOG_LEVEL ≥ x.level then
    LOGx b x site tag format args ++ [Stmt.log_write_buffer_hex x.level tag buffer buff_len]
  else []

/-- Expansion of the macro `LOGx_BUFFER_CHAR` of a letter; `buff_len` is the argument that
the writer receives in its `uint16_t` parameter. -/
def LOGx_BUFFER_CHAR (b : Build) (x : Letter) (site : Site) (tag : Ptr) (buffer : Nat → Nat)
    (buff_len : Nat) (format : String) (args : va_list) : List Stmt :=
  if b.MAXIMUM_ENABLED_LOG_LEVEL ≥ x.level then
    LOGx b x site tag format args ++ [Stmt.log_write_buffer_char x.level tag buffer buff_len]
  else []

/-- Expansion of the macro `LOGx_BUFFER_HEXDUMP` of a letter, for the buffer at address
`addr`; `buff_len` is the argument that the writer receives in its `uint16_t` parameter. -/
def LOGx_BUFFER_HEXDUMP (b : Build) (x : Letter) (site : Site) (tag : Ptr) (addr : Nat)
    (buffer : Nat → Nat) (buff_len : Nat) (format : String) (args : va_list) : List Stmt :=
  if b.MAXIMUM_ENABLED_LOG_LEVEL ≥ x.level then
    LOGx b x site tag format args ++
      [Stmt.log_write_buffer_hexdump x.level tag addr buffer buff_len]
  else []

/-- The variables that the statements of a macro work on: those of `log.c`, and the
`timestamp` of the no-OS port. -/
structure Machine where
  sys : LogSystem
  timestamp : Nat
  deriving DecidableEq, Repr

/-- Evaluation of the arguments of a call, in order: the values and `timestamp` after. -/
def eval_args (mem : Mem) : List ArgExpr → Nat → va_list × Nat
  | [], timestamp => ([], timestamp)
  | ArgExpr.log_timestamp :: rest, timestamp =>
    let r := eval_args mem rest (log_noos.log_timestamp timestamp).2
    (Arg.int (log_noos.log_timestamp timestamp).1 :: r.1, r.2)
  | ArgExpr.tag p :: rest, timestamp =>
    let r := eval_args mem rest timestamp
    (Arg.str (mem p) :: r.1, r.2)
  | ArgExpr.val a :: rest, timestamp =>
    let r := eval_args mem rest timestamp
    (a :: r.1, r.2)

/-- Execution of the statements of a macro expansion, in order: the calls that leave the
library and the variables after, `none` when a statement has undefined behaviour.
`lock_timeout k n` is the result of the `n`-th call of `log_impl_lock_timeout()` made by
statement `k`. -/
def exec (t : Target) (mem : Mem) (lock_timeout : Nat → Nat → Bool) :
    List Stmt → Nat → Machine → Option (List Output × Machine)
  | [], _, m => some ([], m)
  | Stmt.log_write level tag format args :: rest, k, m =>
    let a := eval_args mem args m.timestamp
    let r := log_write mem (lock_timeout k 0) m.sys level tag format a.1
    match exec t mem lock_timeout rest (k + 1) { sys := r.2, timestamp := a.2 } with
    | none => none
    | some e => some (r.1 ++ e.1, e.2)
  | Stmt.log_write_buffer_hex level tag buffer buff_len :: rest, k, m =>
    match log_write_buffer_hex t mem (lock_timeout k) m.sys level tag buffer buff_len with
    | none => none
    | some r =>
      match exec t mem lock_timeout rest (k + 1) { m with sys := r.2 } with
      | none => none
      | some e => some (r.1 ++ e.1, e.2)
  | Stmt.log_write_buffer_char level tag buffer buff_len :: rest, k, m =>
    match log_write_buffer_char t mem (lock_timeout k) m.sys level tag buffer buff_len with
    | none => none
    | some r =>
      match exec t mem lock_timeout rest (k + 1) { m with sys := r.2 } with
      | none => none
      | some e => some (r.1 ++ e.1, e.2)
  | Stmt.log_write_buffer_hexdump level tag addr buffer buff_len :: rest, k, m =>
    match log_write_buffer_hexdump t mem (lock_timeout k) m.sys level tag addr buffer
      buff_len with
    | none => none
    | some r =>
      match exec t mem lock_timeout rest (k + 1) { m with sys := r.2 } with
      | none => none
      | some e => some (r.1 ++ e.1, e.2)

/-- The calls of a `vprintf_like_t` output function among the calls that left the
library, in order. -/
def output_function_calls (outs : List Output) : List Output :=
  outs.filter (fun o => match o with
    | Output.vprintf_like _ _ _ => true
    | _ => false)

/-! ## Line texts after the spec -/

/-- The two lowercase hexadecimal digits of a byte. -/
def spec_hex2 (b : Nat) : List Char :=
  [Nat.digitChar (b / 16), Nat.digitChar (b % 16)]

/-- The hex line that the spec gives a chunk: for each byte, its two digits and a
space. -/
def spec_hex_text (chunk : List Nat) : List Char :=
  chunk.flatMap (fun b => spec_hex2 b ++ " ".toList)

/-- Cell `i` of the hex area of a hexdump line after the spec: a space and the two digits
of byte `i`, or three spaces past the end of the chunk. -/
def spec_hexdump_cell (chunk : List Nat) (i : Nat) : List Char :=
  if i < chunk.length then " ".toList ++ spec_hex2 (chunk.getD i 0) else "   ".toList

/-- The hex area of a hexdump line after the spec: two groups of eight cells, each
preceded by one more space, and two spaces. -/
def spec_hexdump_area (chunk : List Nat) : List Char :=
  " ".toList ++ (List.range 8).flatMap (fun i => spec_hexdump_cell chunk i) ++
    " ".toList ++ (List.range 8).flatMap (fun i => spec_hexdump_cell chunk (8 + i)) ++
    "  ".toList

/-- The printable region of a hexdump line after the spec: each byte itself when it is
printable (`0x20 .. 0x7E`), a dot otherwise. -/
def spec_printable (chunk : List Nat) : List Char :=
  chunk.map (fun b => if 32 ≤ b ∧ b ≤ 126 then Char.ofNat b else Char.ofNat 46)

/-- The char line that the code gives a chunk when nothing overflows: the bytes before the
first zero byte of the chunk, as characters. -/
def spec_char_text (chunk : List Nat) : List Char :=
  (chunk.takeWhile (fun b => b != 0)).map Char.ofNat

/-- The hexdump line of chunk `j` after the spec, for the buffer at address `addr`: the
text of `%p` for the address of the chunk, the offset `16 j` in eight uppercase hexadecimal
digits between parentheses, the hex area, and the printable region between bars. -/
def spec_hexdump_text (t : Target) (addr j : Nat) (chunk : List Nat) : List Char :=
  t.fmt_ptr (addr + 16 * j) ++ " (".toList ++ fmt_X 8 (16 * j) ++ ")".toList ++
    spec_hexdump_area chunk ++ "|".toList ++ spec_printable chunk ++ "|".toList

/-- A build for the examples: all levels compiled in, no colors, file and function names,
`PRIu32` as on a platform where `uint32_t` is `unsigned int`. -/
def example_build : Build :=
  { MAXIMUM_ENABLED_LOG_LEVEL := LOG_VERBOSE
    CONFIG_LOG_COLORS := false
    CONFIG_LOG_FILENAME := true
    CONFIG_LOG_FUNCTION_NAME := true
    PRIu32 := "u" }

/-- A call site for the examples. -/
def example_site : Site :=
  { file := "logger_tests.cpp", line := 104, function := "logger_log_verbose" }

/-- A platform like `example_target` with unsigned `char`. -/
def unsigned_target : Target :=
  { example_target with char_signed := false }

/-- The value of `level_for_tag` in a call of `is_tag_level_visible` that has taken the
lock: the level of the cache slot on a hit; on a miss the level of the registry entry for
the string of the tag, or the default level when there is none. -/
def level_for_tag (mem : Mem) (s : LogState) (tag : Ptr) : Nat :=
  match (get_cached_log_level s tag).1 with
  | some l => l
  | none => resolved_level mem s tag

/-! ## Swaps of the bubble-down -/

/-- The calls `heap_swap(index, next)` that the loop of `heap_bubble_down` makes, in order,
with the number of iterations bounded by `fuel`. -/
def heap_bubble_down_swaps : Nat → List cached_tag_entry_t → Nat → List (Nat × Nat)
  | 0, _, _ => []
  | fuel + 1, c, index =>
    if index < TAG_CACHE_SIZE / 2 then
      let left_index := index * 2 + 1
      let right_index := left_index + 1
      let next :=
        if gen_at c left_index < gen_at c right_index then left_index else right_index
      (index, next) :: heap_bubble_down_swaps fuel (heap_swap c index next) next
    else []

/-- The array after a sequence of calls `heap_swap(i, j)`. -/
def heap_swaps (c : List cached_tag_entry_t) (swaps : List (Nat × Nat)) :
    List cached_tag_entry_t :=
  swaps.foldl (fun c1 p => heap_swap c1 p.1 p.2) c

/-! ## Tags with one identity -/

/-- The pairs (tag pointer, level) of the occupied cache slots, in slot order. -/
def occupied_pairs (s : LogState) : List (Ptr × Nat) :=
  (s.s_log_cache.take s.s_log_cache_entry_count).map (fun e => (e.tag, e.level))

/-- Among the pointers `tags`, every tag string has one address only. -/
def OneIdentity (mem : Mem) (tags : Ptr → Prop) : Prop :=
  ∀ a b, tags a → tags b → mem a = mem b → a = b

/-- States reachable from the initial state through the public operations when every tag
passed is one of the pointers `tags` and every level (the build-time default included) is
within `0 .. 7`. -/
inductive ReachOn (mem : Mem) (tags : Ptr → Prop) : LogState → Prop
  | init (default_level : Nat) : default_level ≤ 7 →
      ReachOn mem tags (log_init default_level)
  | level_set (s : LogState) (malloc_ok : Bool) (tag : Ptr) (level : Nat) :
      tags tag → level ≤ 7 → ReachOn mem tags s →
      ReachOn mem tags (log_level_set mem malloc_ok s tag level)
  | visible (s : LogState) (lock_ok : Bool) (level : Nat) (tag : Ptr) :
      tags tag → ReachOn mem tags s →
      ReachOn mem tags (is_tag_level_visible mem lock_ok s level tag).2

/-! ## The lock port on POSIX threads -/

/-- The fields of `struct timespec` that `sem_timedwait_ms` fills: seconds and
nanoseconds. -/
structure timespec where
  tv_sec : Int
  tv_nsec : Int
  deriving DecidableEq, Repr

/-- The time that a `struct timespec` stands for, in nanoseconds. -/
def timespec.nanoseconds (ts : timespec) : Int :=
  ts.tv_sec * 10 ^ 9 + ts.tv_nsec

/-- Macro `MAX_MUTEX_WAIT_MS` of `log_pthreads.c`. -/
def log_pthreads.MAX_MUTEX_WAIT_MS : Int := 10

/-- The `struct timespec ts = { 0, (1000 * milliseconds) }` that `sem_timedwait_ms` builds.
The product is taken in `int`: when it leaves the range of `int` the behaviour is
undefined, and the result is `none`. -/
def log_pthreads.sem_timedwait_ms_ts (t : Target) (milliseconds : Int) : Option timespec :=
  if -(2 : Int) ^ (t.int_bits - 1) ≤ 1000 * milliseconds ∧
      1000 * milliseconds < (2 : Int) ^ (t.int_bits - 1) then
    some { tv_sec := 0, tv_nsec := 1000 * milliseconds }
  else none

/-- Function `sem_timedwait_ms` of `log_pthreads.c`: `sem_timedwait` is the POSIX function
with the semaphore applied, given by its result for the `timespec` passed; the result is
`result == 0`.  The `sem_init` at first use is left out. -/
def log_pthreads.sem_timedwait_ms (t : Target) (sem_timedwait : timespec → Int)
    (milliseconds : Int) : Option Bool :=
  (log_pthreads.sem_timedwait_ms_ts t milliseconds).map (fun ts =>
    let result := sem_timedwait ts
    result == 0)

/-- Function `log_impl_lock_timeout` of `log_pthreads.c`. -/
def log_pthreads.log_impl_lock_timeout (t : Target) (sem_timedwait : timespec → Int) :
    Option Bool :=
  log_pthreads.sem_timedwait_ms t sem_timedwait log_pthreads.MAX_MUTEX_WAIT_MS

/-! ## Array reads and writes -/

theorem cache_at_set (l : List cached_tag_entry_t) (i j : Nat) (e : cached_tag_entry_t) :
    cache_at (l.set i e) j = if i = j ∧ i < l.length then e else cache_at l j := by
  unfold cache_at
  rw [List.getD_eq_getElem?_getD, List.getD_eq_getElem?_getD, List.getElem?_set]
  by_cases h : i = j
  · subst h
    by_cases h2 : i < l.length
    · simp [h2]
    · simp only [h2, and_false, if_false, true_and]
      rw [List.getElem?_eq_none (by omega)]
      rfl
  · simp [h]

theorem cache_at_of_lt (l : List cached_tag_entry_t) (i : Nat) (h : i < l.length) :
    cache_at l i = l[i] := by
  unfold cache_at
  rw [List.getD_eq_getElem?_getD, List.getElem?_eq_getElem h]
  rfl

theorem cache_at_mem (l : List cached_tag_entry_t) (i : Nat) (h : i < l.length) :
    cache_at l i ∈ l := by
  rw [cache_at_of_lt l i h]
  exact List.getElem_mem h

theorem exists_cache_at_of_mem (l : List cached_tag_entry_t) (e : cached_tag_entry_t)
    (h : e ∈ l) : ∃ i, i < l.length ∧ cache_at l i = e := by
  obtain ⟨i, hi, he⟩ := List.getElem_of_mem h
  exact ⟨i, hi, by rw [cache_at_of_lt l i hi, he]⟩

theorem length_heap_swap (l : List cached_tag_entry_t) (i j : Nat) :
    (heap_swap l i j).length = l.length := by
  simp [heap_swap]

theorem cache_at_heap_swap (l : List cached_tag_entry_t) (i j x : Nat)
    (hi : i < l.length) (hj : j < l.length) :
    cache_at (heap_swap l i j) x =
      if x = j then cache_at l i else if x = i then cache_at l j else cache_at l x := by
  unfold heap_swap
  simp only [cache_at_set, List.length_set]
  by_cases h1 : x = j
  · simp [h1, hj]
  · by_cases h2 : x = i
    · have h3 : ¬ j = i := fun h => h1 (h2.trans h.symm)
      have h4 : ¬ i = j := fun h => h3 h.symm
      simp [h2, hi, h3, h4]
    · have h3 : ¬ j = x := fun h => h1 h.symm
      have h4 : ¬ i = x := fun h => h2 h.symm
      simp [h1, h2, h3, h4]

theorem heap_swap_perm (l : List cached_tag_entry_t) (i j : Nat)
    (hi : i < l.length) (hj : j < l.length) : (heap_swap l i j).Perm l := by
  rw [List.perm_iff_count]
  intro a
  unfold heap_swap
  by_cases hij : i = j
  · subst hij
    simp only []
    rw [List.count_set _ _ _ _ (by simpa using hi), List.count_set _ _ _ _ hi]
    simp only [List.getElem_set_self, cache_at_of_lt l i hi]
    have := List.count_pos_iff.mpr (List.getElem_mem hi : l[i] ∈ l)
    by_cases h : l[i] == a
    · have h' : l[i] = a := by simpa using h
      subst h'
      simp
    · simp [h]
  · simp only []
    rw [List.count_set _ _ _ _ (by simpa using hj), List.count_set _ _ _ _ hi]
    rw [List.getElem_set_ne hij]
    simp only [cache_at_of_lt l i hi, cache_at_of_lt l j hj]
    have hci := List.count_pos_iff.mpr (List.getElem_mem hi : l[i] ∈ l)
    have hcj := List.count_pos_iff.mpr (List.getElem_mem hj : l[j] ∈ l)
    have hi' : l[i] = a → 0 < List.count a l := fun h => h ▸ hci
    have hj' : l[j] = a → 0 < List.count a l := fun h => h ▸ hcj
    by_cases h1 : l[i] = a <;> by_cases h2 : l[j] = a
    · have := hi' h1
      simp [h1, h2]
      omega
    · have := hi' h1
      simp [h1, h2]
      omega
    · simp [h1, h2]
    · simp [h1, h2]

/-! ## Bubble-down -/

theorem gen_at_heap_swap (l : List cached_tag_entry_t) (i j x : Nat)
    (hi : i < l.length) (hj : j < l.length) :
    gen_at (heap_swap l i j) x =
      if x = j then gen_at l i else if x = i then gen_at l j else gen_at l x := by
  unfold gen_at
  rw [cache_at_heap_swap l i j x hi hj]
  split_ifs <;> rfl

theorem sift_step (l : List cached_tag_entry_t) (k next : Nat) (h : SiftInv l k)
    (hk : k < TAG_CACHE_SIZE / 2)
    (hnext : (next = 2 * k + 1 ∧ gen_at l (2 * k + 1) < gen_at l (2 * k + 2)) ∨
      (next = 2 * k + 2 ∧ ¬ gen_at l (2 * k + 1) < gen_at l (2 * k + 2))) :
    SiftInv (heap_swap l k next) next := by
  have hlen := h.len
  have hsize : TAG_CACHE_SIZE = 31 := rfl
  rw [hsize] at hlen hk
  have hk' : k < 15 := by omega
  have hn31 : next < 31 := by omega
  have hnk : next ≠ k := by omega
  have hg : ∀ x, gen_at (heap_swap l k next) x =
      if x = next then gen_at l k else if x = k then gen_at l next else gen_at l x :=
    fun x => gen_at_heap_swap l k next x (by omega) (by omega)
  have htop := h.top
  have hdis := h.distinct
  have hheap := h.heap
  have hpar := h.parent
  simp only [hsize, GensDistinct] at htop hdis hheap hpar
  -- the child that moves up is older than its sibling
  have hsib : ∀ o, (o = 2 * k + 1 ∨ o = 2 * k + 2) → o ≠ next → gen_at l next < gen_at l o := by
    intro o ho hon
    rcases hnext with ⟨hn, hlt⟩ | ⟨hn, hlt⟩
    · have : o = 2 * k + 2 := by omega
      rw [hn, this]
      exact hlt
    · have ho' : o = 2 * k + 1 := by omega
      have hne := hdis (2 * k + 1) (2 * k + 2) (by omega) (by omega) (by omega)
      rw [hn, ho']
      omega
  refine ⟨?_, ?_, ?_, ?_, ?_, ?_⟩
  · rw [length_heap_swap]
    exact h.len
  · rw [hsize]
    exact hn31
  · intro j hj hjn
    rw [hsize] at hj
    rw [hg j, hg next]
    simp only [hjn, if_false, if_true]
    by_cases hjk : j = k
    · simp only [hjk, if_true]
      exact htop next hn31 hnk
    · simp only [hjk, if_false]
      exact htop j hj hjk
  · intro i j hi hj hij
    rw [hsize] at hi hj
    rw [hg i, hg j]
    split_ifs <;> first
      | omega
      | exact hdis _ _ (by omega) (by omega) (by omega)
  · intro i hi hin
    rw [hsize] at hi
    have hi' : i < 15 := by omega
    by_cases hik : i = k
    · subst hik
      rw [hg i, hg (2 * i + 1), hg (2 * i + 2)]
      have h1 : ¬ i = next := fun e => hnk e.symm
      simp only [h1, if_false, if_true]
      have hA : ¬ (2 * i + 1 = i) := by omega
      have hB : ¬ (2 * i + 2 = i) := by omega
      simp only [hA, hB, if_false]
      constructor
      · by_cases hc : 2 * i + 1 = next
        · simp only [hc, if_true]
          exact htop next hn31 hnk
        · simp only [hc, if_false]
          exact hsib (2 * i + 1) (Or.inl rfl) hc
      · by_cases hc : 2 * i + 2 = next
        · simp only [hc, if_true]
          exact htop next hn31 hnk
        · simp only [hc, if_false]
          exact hsib (2 * i + 2) (Or.inr rfl) hc
    · rw [hg i, hg (2 * i + 1), hg (2 * i + 2)]
      have hA : ¬ (2 * i + 1 = next) := by omega
      have hB : ¬ (2 * i + 2 = next) := by omega
      simp only [hin, hik, hA, hB, if_false]
      have hci := hheap i hi' hik
      constructor
      · by_cases hc : 2 * i + 1 = k
        · simp only [hc, if_true]
          have hp := hpar (by omega) hk'
          have e : (k - 1) / 2 = i := by omega
          rw [e] at hp
          rcases hnext with ⟨hn, _⟩ | ⟨hn, _⟩
          · rw [hn]; exact hp.1
          · rw [hn]; exact hp.2
        · simp only [hc, if_false]
          exact hci.1
      · by_cases hc : 2 * i + 2 = k
        · simp only [hc, if_true]
          have hp := hpar (by omega) hk'
          have e : (k - 1) / 2 = i := by omega
          rw [e] at hp
          rcases hnext with ⟨hn, _⟩ | ⟨hn, _⟩
          · rw [hn]; exact hp.1
          · rw [hn]; exact hp.2
        · simp only [hc, if_false]
          exact hci.2
  · intro _ hn15
    rw [hsize] at hn15
    have hn15' : next < 15 := by omega
    have e : (next - 1) / 2 = k := by omega
    rw [e, hg k, hg (2 * next + 1), hg (2 * next + 2)]
    have h1 : ¬ k = next := fun e => hnk e.symm
    have hA : ¬ (2 * next + 1 = next) := by omega
    have hB : ¬ (2 * next + 2 = next) := by omega
    have hC : ¬ (2 * next + 1 = k) := by omega
    have hD : ¬ (2 * next + 2 = k) := by omega
    simp only [h1, hA, hB, hC, hD, if_false, if_true]
    exact hheap next hn15' hnk

theorem heap_bubble_down_loop_succ (fuel : Nat) (l : List cached_tag_entry_t) (k : Nat) :
    heap_bubble_down_loop (fuel + 1) l k =
      if k < TAG_CACHE_SIZE / 2 then
        heap_bubble_down_loop fuel
          (heap_swap l k
            (if gen_at l (k * 2 + 1) < gen_at l (k * 2 + 1 + 1) then k * 2 + 1
              else k * 2 + 1 + 1))
          (if gen_at l (k * 2 + 1) < gen_at l (k * 2 + 1 + 1) then k * 2 + 1
            else k * 2 + 1 + 1)
      else (l, k) := by
  rw [heap_bubble_down_loop]

theorem heap_bubble_down_loop_shape (fuel : Nat) :
    ∀ (l : List cached_tag_entry_t) (k : Nat), l.length = TAG_CACHE_SIZE →
      k < TAG_CACHE_SIZE → TAG_CACHE_SIZE / 2 ≤ k + fuel →
      (heap_bubble_down_loop fuel l k).1.Perm l ∧
      (heap_bubble_down_loop fuel l k).1.length = TAG_CACHE_SIZE ∧
      TAG_CACHE_SIZE / 2 ≤ (heap_bubble_down_loop fuel l k).2 ∧
      (heap_bubble_down_loop fuel l k).2 < TAG_CACHE_SIZE ∧
      cache_at (heap_bubble_down_loop fuel l k).1 (heap_bubble_down_loop fuel l k).2 =
        cache_at l k := by
  have hsize : TAG_CACHE_SIZE = 31 := rfl
  induction fuel with
  | zero =>
    intro l k hlen hk hfuel
    show l.Perm l ∧ l.length = TAG_CACHE_SIZE ∧ TAG_CACHE_SIZE / 2 ≤ k ∧
      k < TAG_CACHE_SIZE ∧ cache_at l k = cache_at l k
    exact ⟨List.Perm.refl _, hlen, by omega, hk, rfl⟩
  | succ fuel ih =>
    intro l k hlen hk hfuel
    have hlen31 : l.length = 31 := hlen
    have hk31 : k < 31 := hk
    rw [heap_bubble_down_loop_succ]
    by_cases hlt : k < TAG_CACHE_SIZE / 2
    · rw [if_pos hlt]
      have hlt15 : k < 15 := hlt
      generalize hnext : (if gen_at l (k * 2 + 1) < gen_at l (k * 2 + 1 + 1) then k * 2 + 1
        else k * 2 + 1 + 1) = next
      have hn : next = 2 * k + 1 ∨ next = 2 * k + 2 := by
        rw [← hnext]
        split_ifs
        · left; omega
        · right; omega
      have hn31 : next < 31 := by omega
      have hlen' : (heap_swap l k next).length = TAG_CACHE_SIZE := by
        rw [length_heap_swap, hlen]
      have hfuel' : TAG_CACHE_SIZE / 2 ≤ next + fuel := by
        rw [hsize] at hfuel ⊢
        omega
      obtain ⟨h1, h2, h3, h4, h5⟩ := ih (heap_swap l k next) next hlen' hn31 hfuel'
      refine ⟨h1.trans (heap_swap_perm l k next (by omega) (by omega)), h2, h3, h4, ?_⟩
      rw [h5, cache_at_heap_swap l k next next (by omega) (by omega)]
      simp
    · rw [if_neg hlt]
      have hge : TAG_CACHE_SIZE / 2 ≤ k := Nat.le_of_not_lt hlt
      exact ⟨List.Perm.refl _, hlen, hge, hk, rfl⟩

theorem heap_bubble_down_loop_sift (fuel : Nat) :
    ∀ (l : List cached_tag_entry_t) (k : Nat), SiftInv l k →
      SiftInv (heap_bubble_down_loop fuel l k).1 (heap_bubble_down_loop fuel l k).2 := by
  induction fuel with
  | zero =>
    intro l k h
    exact h
  | succ fuel ih =>
    intro l k h
    rw [heap_bubble_down_loop_succ]
    by_cases hlt : k < TAG_CACHE_SIZE / 2
    · rw [if_pos hlt]
      apply ih
      apply sift_step l k _ h hlt
      have e1 : k * 2 + 1 = 2 * k + 1 := by omega
      have e2 : k * 2 + 1 + 1 = 2 * k + 2 := by omega
      rw [e2, e1]
      by_cases hc : gen_at l (2 * k + 1) < gen_at l (2 * k + 2)
      · left
        simp [hc]
      · right
        simp [hc]
    · rw [if_neg hlt]
      exact h

theorem heapInv_of_siftInv_leaf (l : List cached_tag_entry_t) (k : Nat) (h : SiftInv l k)
    (hk : TAG_CACHE_SIZE / 2 ≤ k) : HeapInv l := by
  intro i hi
  exact h.heap i hi (by omega)

/-- Bubbling the newest generation down from slot `k` restores the heap ordering, keeps the
generations distinct, permutes the slots and leaves the moved entry in a leaf. -/
theorem heap_bubble_down_spec (l : List cached_tag_entry_t) (k : Nat) (h : SiftInv l k) :
    HeapInv (heap_bubble_down l k) ∧ GensDistinct (heap_bubble_down l k) ∧
      (heap_bubble_down l k).Perm l ∧ (heap_bubble_down l k).length = TAG_CACHE_SIZE ∧
      ∃ j, TAG_CACHE_SIZE / 2 ≤ j ∧ j < TAG_CACHE_SIZE ∧
        cache_at (heap_bubble_down l k) j = cache_at l k := by
  have hshape := heap_bubble_down_loop_shape TAG_CACHE_SIZE l k h.len h.k_lt (by
    have : TAG_CACHE_SIZE = 31 := rfl
    omega)
  have hsift := heap_bubble_down_loop_sift TAG_CACHE_SIZE l k h
  obtain ⟨h1, h2, h3, h4, h5⟩ := hshape
  exact ⟨heapInv_of_siftInv_leaf _ _ hsift h3, hsift.distinct, h1, h2, _, h3, h4, h5⟩

/-- The fuel of `heap_bubble_down` is never exhausted: with any larger bound the loop gives
the same result, and it has left the `while` condition. -/
theorem heap_bubble_down_loop_fuel (fuel : Nat) :
    ∀ (l : List cached_tag_entry_t) (k extra : Nat), TAG_CACHE_SIZE / 2 ≤ k + fuel →
      heap_bubble_down_loop (fuel + extra) l k = heap_bubble_down_loop fuel l k ∧
      ¬ (heap_bubble_down_loop fuel l k).2 < TAG_CACHE_SIZE / 2 := by
  have hsize : TAG_CACHE_SIZE = 31 := rfl
  induction fuel with
  | zero =>
    intro l k extra hfuel
    have hk : ¬ k < TAG_CACHE_SIZE / 2 := by omega
    constructor
    · cases extra with
      | zero => rfl
      | succ e =>
        rw [Nat.zero_add, heap_bubble_down_loop_succ, if_neg hk]
        rfl
    · exact hk
  | succ fuel ih =>
    intro l k extra hfuel
    have e : fuel + 1 + extra = (fuel + extra) + 1 := by omega
    rw [e, heap_bubble_down_loop_succ, heap_bubble_down_loop_succ]
    by_cases hlt : k < TAG_CACHE_SIZE / 2
    · rw [if_pos hlt, if_pos hlt]
      apply ih
      rw [hsize] at hfuel ⊢
      split_ifs <;> omega
    · rw [if_neg hlt, if_neg hlt]
      exact ⟨rfl, hlt⟩

/-! ## Cache scan -/

theorem cache_scan_spec (hit : cached_tag_entry_t → Bool) (l : List cached_tag_entry_t)
    (n : Nat) : ∀ i, i ≤ cache_scan hit l n i ∧ cache_scan hit l n i ≤ i + n ∧
      (∀ j, i ≤ j → j < cache_scan hit l n i → hit (cache_at l j) = false) ∧
      (cache_scan hit l n i < i + n → hit (cache_at l (cache_scan hit l n i)) = true) := by
  induction n with
  | zero =>
    intro i
    refine ⟨Nat.le_refl _, Nat.le_refl _, ?_, ?_⟩
    · intro j h1 h2
      simp only [cache_scan] at h2
      omega
    · intro h
      simp only [cache_scan] at h
      omega
  | succ n ih =>
    intro i
    by_cases hh : hit (cache_at l i) = true
    · have e : cache_scan hit l (n + 1) i = i := by simp [cache_scan, hh]
      rw [e]
      refine ⟨Nat.le_refl _, by omega, ?_, fun _ => hh⟩
      intro j h1 h2
      omega
    · have e : cache_scan hit l (n + 1) i = cache_scan hit l n (i + 1) := by
        simp [cache_scan, hh]
      rw [e]
      obtain ⟨h1, h2, h3, h4⟩ := ih (i + 1)
      refine ⟨by omega, by omega, ?_, ?_⟩
      · intro j hj1 hj2
        by_cases hji : j = i
        · subst hji
          simpa using hh
        · exact h3 j (by omega) hj2
      · intro hlt
        exact h4 (by omega)

/-- The scan misses exactly when no occupied slot matches. -/
theorem cache_scan_eq_count_iff (hit : cached_tag_entry_t → Bool)
    (l : List cached_tag_entry_t) (n : Nat) :
    cache_scan hit l n 0 = n ↔ ∀ j, j < n → hit (cache_at l j) = false := by
  obtain ⟨_, h2, h3, h4⟩ := cache_scan_spec hit l n 0
  constructor
  · intro h j hj
    exact h3 j (Nat.zero_le _) (by omega)
  · intro h
    by_contra hne
    have hlt : cache_scan hit l n 0 < 0 + n := by omega
    have := h4 hlt
    rw [h _ (by omega)] at this
    exact Bool.false_ne_true this

/-! ## Stamping a slot of a full cache -/

theorem gen_at_set (l : List cached_tag_entry_t) (i j : Nat) (e : cached_tag_entry_t) :
    gen_at (l.set i e) j = if i = j ∧ i < l.length then e.generation else gen_at l j := by
  unfold gen_at
  rw [cache_at_set]
  split_ifs <;> rfl

theorem siftInv_of_stamp (l : List cached_tag_entry_t) (i k : Nat) (e : cached_tag_entry_t)
    (hlen : l.length = TAG_CACHE_SIZE) (hi : i < TAG_CACHE_SIZE) (he : e.generation = k)
    (hheap : HeapInv l) (hdis : GensDistinct l)
    (hbelow : ∀ j, j < TAG_CACHE_SIZE → gen_at l j < k) : SiftInv (l.set i e) i := by
  have hsize : TAG_CACHE_SIZE = 31 := rfl
  have hlen31 : l.length = 31 := hlen
  have hi31 : i < 31 := hi
  have hg : ∀ x, gen_at (l.set i e) x = if i = x then k else gen_at l x := by
    intro x
    rw [gen_at_set, he]
    by_cases hx : i = x
    · subst hx
      simp [hlen31, hi31]
    · simp [hx]
  simp only [HeapInv, GensDistinct, hsize] at hheap hdis hbelow
  refine ⟨by rw [List.length_set]; exact hlen, hi, ?_, ?_, ?_, ?_⟩
  · intro j hj hji
    rw [hg j, hg i]
    have : ¬ i = j := fun h => hji h.symm
    simp only [this, if_false, if_true]
    exact hbelow j hj
  · intro a b ha hb hab
    rw [hsize] at ha hb
    rw [hg a, hg b]
    have h1 := hbelow a ha
    have h2 := hbelow b hb
    have h3 := hdis a b ha hb hab
    split_ifs <;> omega
  · intro a ha hai
    rw [hsize] at ha
    have ha15 : a < 15 := by omega
    rw [hg a, hg (2 * a + 1), hg (2 * a + 2)]
    have : ¬ i = a := fun h => hai h.symm
    simp only [this, if_false]
    have h1 := hheap a ha15
    have h2 := hbelow a (by omega)
    split_ifs <;> omega
  · intro h0 h15
    rw [hsize] at h15
    have hi15 : i < 15 := by omega
    rw [hg ((i - 1) / 2), hg (2 * i + 1), hg (2 * i + 2)]
    have hA : ¬ i = (i - 1) / 2 := by omega
    have hB : ¬ i = 2 * i + 1 := by omega
    have hC : ¬ i = 2 * i + 2 := by omega
    simp only [hA, hB, hC, if_false]
    have hp := hheap ((i - 1) / 2) (by omega)
    have hc := hheap i hi15
    have e1 : 2 * ((i - 1) / 2) + 1 = i ∨ 2 * ((i - 1) / 2) + 2 = i := by omega
    have hpi : gen_at l ((i - 1) / 2) < gen_at l i := by
      rcases e1 with e1 | e1
      · have := hp.1
        rw [e1] at this
        exact this
      · have := hp.2
        rw [e1] at this
        exact this
    omega

/-- Stamping slot `i` of a full, ordered cache with the newest generation `k` and bubbling
it down gives a full, ordered cache again, with generations below `k + 1`. -/
theorem full_step (l : List cached_tag_entry_t) (i k : Nat) (e : cached_tag_entry_t)
    (hlen : l.length = TAG_CACHE_SIZE) (hi : i < TAG_CACHE_SIZE) (he : e.generation = k)
    (hheap : HeapInv l) (hdis : GensDistinct l)
    (hbelow : ∀ j, j < TAG_CACHE_SIZE → gen_at l j < k) :
    (heap_bubble_down (l.set i e) i).length = TAG_CACHE_SIZE ∧
      HeapInv (heap_bubble_down (l.set i e) i) ∧
      GensDistinct (heap_bubble_down (l.set i e) i) ∧
      ∀ j, j < TAG_CACHE_SIZE → gen_at (heap_bubble_down (l.set i e) i) j < k + 1 := by
  have hs := siftInv_of_stamp l i k e hlen hi he hheap hdis hbelow
  obtain ⟨h1, h2, h3, h4, _⟩ := heap_bubble_down_spec (l.set i e) i hs
  refine ⟨h4, h1, h2, ?_⟩
  intro j hj
  have hmem : cache_at (heap_bubble_down (l.set i e) i) j ∈ heap_bubble_down (l.set i e) i :=
    cache_at_mem _ _ (by rw [h4]; exact hj)
  have hmem' := h3.mem_iff.mp hmem
  obtain ⟨j', hj', hj'e⟩ := exists_cache_at_of_mem _ _ hmem'
  rw [List.length_set, hlen] at hj'
  show (cache_at (heap_bubble_down (l.set i e) i) j).generation < k + 1
  rw [← hj'e, cache_at_set]
  split_ifs
  · omega
  · have := hbelow j' hj'
    unfold gen_at at this
    omega

/-! ## The cache invariant along public operations -/

theorem length_heap_bubble_down (l : List cached_tag_entry_t) (k : Nat)
    (hlen : l.length = TAG_CACHE_SIZE) (hk : k < TAG_CACHE_SIZE) :
    (heap_bubble_down l k).length = l.length := by
  have hsize : TAG_CACHE_SIZE = 31 := rfl
  obtain ⟨p, -⟩ := heap_bubble_down_loop_shape TAG_CACHE_SIZE l k hlen hk
    (by rw [hsize]; omega)
  exact p.length_eq

theorem heap_bubble_down_perm (l : List cached_tag_entry_t) (k : Nat)
    (hlen : l.length = TAG_CACHE_SIZE) (hk : k < TAG_CACHE_SIZE) :
    (heap_bubble_down l k).Perm l := by
  have hsize : TAG_CACHE_SIZE = 31 := rfl
  exact (heap_bubble_down_loop_shape TAG_CACHE_SIZE l k hlen hk (by rw [hsize]; omega)).1

theorem cacheInv_init (default_level : Nat) : CacheInv 0 (log_init default_level) := by
  refine ⟨by simp [log_init], by simp [log_init], ?_, ?_⟩
  · intro _
    refine ⟨rfl, rfl, ?_⟩
    intro i hi
    simp [log_init] at hi
  · intro h
    simp [log_init, TAG_CACHE_SIZE] at h

theorem cacheInv_add_to_cache (k : Nat) (s : LogState) (tag : Ptr) (level : Nat)
    (h : CacheInv k s) : CacheInv (k + 1) (add_to_cache s tag level) := by
  have hsize : TAG_CACHE_SIZE = 31 := rfl
  have hlen := h.len
  have hcount := h.count_le
  by_cases hc : s.s_log_cache_entry_count < TAG_CACHE_SIZE
  · obtain ⟨hk, hmax, hgen⟩ := h.prefill hc
    have hc31 : s.s_log_cache_entry_count < 31 := hc
    have hlen31 : s.s_log_cache.length = 31 := hlen
    have e1 : (s.s_log_cache_entry_count + 1) % 2 ^ 32 = s.s_log_cache_entry_count + 1 := by
      omega
    have e2 : s.s_log_cache_entry_count % 2 ^ 29 = s.s_log_cache_entry_count := by omega
    have hg : ∀ x, gen_at (add_to_cache s tag level).s_log_cache x =
        if x = s.s_log_cache_entry_count then s.s_log_cache_entry_count
        else gen_at s.s_log_cache x := by
      intro x
      simp only [add_to_cache, hc, if_true, gen_at_set, hmax, e2, hlen31, hc31, and_true]
      by_cases hx : x = s.s_log_cache_entry_count
      · simp [hx]
      · have : ¬ s.s_log_cache_entry_count = x := fun h => hx h.symm
        simp [hx, this]
    have hcnt : (add_to_cache s tag level).s_log_cache_entry_count =
        s.s_log_cache_entry_count + 1 := by
      simp only [add_to_cache, hc, if_true, e1]
    have hmg : (add_to_cache s tag level).s_log_cache_max_generation =
        s.s_log_cache_entry_count + 1 := by
      simp only [add_to_cache, hc, if_true, hmax, e1]
    have hgens : ∀ x, x < s.s_log_cache_entry_count + 1 →
        gen_at (add_to_cache s tag level).s_log_cache x = x := by
      intro x hx
      rw [hg x]
      by_cases hxc : x = s.s_log_cache_entry_count
      · simp [hxc]
      · simp only [hxc, if_false]
        exact hgen x (by omega)
    refine ⟨?_, ?_, ?_, ?_⟩
    · simp only [add_to_cache, hc, if_true, List.length_set]
      exact hlen
    · rw [hcnt, hsize]
      omega
    · intro _
      rw [hcnt, hmg]
      exact ⟨by omega, rfl, hgens⟩
    · intro hfull _
      rw [hcnt] at hfull
      rw [hsize] at hfull
      have hk31 : k + 1 = 31 := by omega
      refine ⟨by rw [hmg]; omega, ?_, ?_, ?_⟩
      · intro i hi
        rw [hsize] at hi
        rw [hgens i (by omega), hgens (2 * i + 1) (by omega), hgens (2 * i + 2) (by omega)]
        omega
      · intro i j hi hj hij
        rw [hsize] at hi hj
        rw [hgens i (by omega), hgens j (by omega)]
        exact hij
      · intro i hi
        rw [hsize] at hi
        rw [hgens i (by omega)]
        omega
  · have hfull : s.s_log_cache_entry_count = TAG_CACHE_SIZE := by omega
    have hcnt : (add_to_cache s tag level).s_log_cache_entry_count = TAG_CACHE_SIZE := by
      simp only [add_to_cache, hc, if_false]
      exact hfull
    refine ⟨?_, by rw [hcnt], ?_, ?_⟩
    · simp only [add_to_cache, hc, if_false]
      rw [length_heap_bubble_down _ _ (by rw [List.length_set]; exact hlen)
        (by rw [hsize]; omega), List.length_set]
      exact hlen
    · intro hlt
      rw [hcnt] at hlt
      omega
    · intro _ hk1
      have hk : k ≤ 2 ^ 29 := by omega
      obtain ⟨hmax, hheap, hdis, hbelow⟩ := h.full hfull hk
      have e1 : s.s_log_cache_max_generation % 2 ^ 29 = k := by
        rw [hmax]
        omega
      have e2 : (s.s_log_cache_max_generation + 1) % 2 ^ 32 = k + 1 := by
        rw [hmax]
        omega
      have hstep := full_step s.s_log_cache 0 k
        { tag := tag, level := level % 2 ^ 3,
          generation := s.s_log_cache_max_generation % 2 ^ 29 }
        hlen (by rw [hsize]; omega) e1 hheap hdis hbelow
      simp only [add_to_cache, hc, if_false, e2]
      exact ⟨trivial, hstep.2.1, hstep.2.2.1, hstep.2.2.2⟩

theorem get_cached_log_level_miss (s : LogState) (tag : Ptr)
    (h : cache_scan (fun e => e.tag == tag) s.s_log_cache s.s_log_cache_entry_count 0 =
      s.s_log_cache_entry_count) : get_cached_log_level s tag = (none, s) := by
  simp [get_cached_log_level, h]

theorem get_cached_log_level_hit_prefill (s : LogState) (tag : Ptr)
    (h : cache_scan (fun e => e.tag == tag) s.s_log_cache s.s_log_cache_entry_count 0 ≠
      s.s_log_cache_entry_count)
    (hc : s.s_log_cache_entry_count ≠ TAG_CACHE_SIZE) :
    get_cached_log_level s tag =
      (some ((cache_at s.s_log_cache (cache_scan (fun e => e.tag == tag) s.s_log_cache
        s.s_log_cache_entry_count 0)).level % 2 ^ 8), s) := by
  simp [get_cached_log_level, h, hc]

theorem get_cached_log_level_hit_full (s : LogState) (tag : Ptr)
    (h : cache_scan (fun e => e.tag == tag) s.s_log_cache s.s_log_cache_entry_count 0 ≠
      s.s_log_cache_entry_count)
    (hc : s.s_log_cache_entry_count = TAG_CACHE_SIZE) :
    get_cached_log_level s tag =
      (some ((cache_at s.s_log_cache (cache_scan (fun e => e.tag == tag) s.s_log_cache
        s.s_log_cache_entry_count 0)).level % 2 ^ 8),
        { s with
          s_log_cache := heap_bubble_down (s.s_log_cache.set
            (cache_scan (fun e => e.tag == tag) s.s_log_cache s.s_log_cache_entry_count 0)
            { cache_at s.s_log_cache (cache_scan (fun e => e.tag == tag) s.s_log_cache
                s.s_log_cache_entry_count 0) with
              generation := s.s_log_cache_max_generation % 2 ^ 29 })
            (cache_scan (fun e => e.tag == tag) s.s_log_cache s.s_log_cache_entry_count 0)
          s_log_cache_max_generation := (s.s_log_cache_max_generation + 1) % 2 ^ 32 }) := by
  have h1 : ¬ ((cache_scan (fun e => e.tag == tag) s.s_log_cache s.s_log_cache_entry_count 0
      == s.s_log_cache_entry_count) = true) := by simpa using h
  have h2 : (s.s_log_cache_entry_count == TAG_CACHE_SIZE) = true := by simpa using hc
  simp only [get_cached_log_level, h1, h2, if_true, if_false, Bool.false_eq_true]

theorem cacheInv_get_cached_log_level (k : Nat) (s : LogState) (tag : Ptr)
    (h : CacheInv k s) :
    CacheInv (k + generations_issued s (get_cached_log_level s tag).2)
      (get_cached_log_level s tag).2 := by
  have hsize : TAG_CACHE_SIZE = 31 := rfl
  by_cases hm : cache_scan (fun e => e.tag == tag) s.s_log_cache s.s_log_cache_entry_count 0 =
      s.s_log_cache_entry_count
  · rw [get_cached_log_level_miss s tag hm]
    simpa [generations_issued] using h
  · by_cases hc : s.s_log_cache_entry_count = TAG_CACHE_SIZE
    · rw [get_cached_log_level_hit_full s tag hm hc]
      have hi : cache_scan (fun e => e.tag == tag) s.s_log_cache s.s_log_cache_entry_count 0 <
          TAG_CACHE_SIZE := by
        have := (cache_scan_spec (fun e => e.tag == tag) s.s_log_cache
          s.s_log_cache_entry_count 0).2.1
        omega
      have hiss : generations_issued s
          { s with
            s_log_cache := heap_bubble_down (s.s_log_cache.set
              (cache_scan (fun e => e.tag == tag) s.s_log_cache s.s_log_cache_entry_count 0)
              { cache_at s.s_log_cache (cache_scan (fun e => e.tag == tag) s.s_log_cache
                  s.s_log_cache_entry_count 0) with
                generation := s.s_log_cache_max_generation % 2 ^ 29 })
              (cache_scan (fun e => e.tag == tag) s.s_log_cache s.s_log_cache_entry_count 0)
            s_log_cache_max_generation := (s.s_log_cache_max_generation + 1) % 2 ^ 32 } = 1 := by
        simp only [generations_issued]
        rw [if_neg]
        omega
      rw [hiss]
      refine ⟨?_, by simp only []; exact h.count_le, ?_, ?_⟩
      · simp only []
        rw [length_heap_bubble_down _ _ (by rw [List.length_set]; exact h.len) hi,
          List.length_set]
        exact h.len
      · intro hlt
        simp only [] at hlt
        omega
      · intro _ hk1
        have hk : k ≤ 2 ^ 29 := by omega
        obtain ⟨hmax, hheap, hdis, hbelow⟩ := h.full hc hk
        have e1 : s.s_log_cache_max_generation % 2 ^ 29 = k := by
          rw [hmax]
          omega
        have e2 : (s.s_log_cache_max_generation + 1) % 2 ^ 32 = k + 1 := by
          rw [hmax]
          omega
        have hstep := full_step s.s_log_cache _ k
          { cache_at s.s_log_cache (cache_scan (fun e => e.tag == tag) s.s_log_cache
              s.s_log_cache_entry_count 0) with
            generation := s.s_log_cache_max_generation % 2 ^ 29 }
          h.len hi e1 hheap hdis hbelow
        simp only [e2]
        exact ⟨trivial, hstep.2.1, hstep.2.2.1, hstep.2.2.2⟩
    · rw [get_cached_log_level_hit_prefill s tag hm hc]
      simpa [generations_issued] using h

theorem cacheInv_is_tag_level_visible (mem : Mem) (lock_ok : Bool) (k : Nat) (s : LogState)
    (level : Nat) (tag : Ptr) (h : CacheInv k s) :
    CacheInv (k + generations_issued s (is_tag_level_visible mem lock_ok s level tag).2)
      (is_tag_level_visible mem lock_ok s level tag).2 := by
  cases lock_ok with
  | false => simpa [is_tag_level_visible, generations_issued] using h
  | true =>
    by_cases hm : cache_scan (fun e => e.tag == tag) s.s_log_cache
        s.s_log_cache_entry_count 0 = s.s_log_cache_entry_count
    · simp only [is_tag_level_visible, get_cached_log_level_miss s tag hm, Bool.not_true,
        Bool.false_eq_true, if_false]
      have hinv := cacheInv_add_to_cache k s tag
        (match get_uncached_log_level mem s.s_log_tags tag with
          | some l => l
          | none => s.s_log_default_level) h
      have hiss : ∀ (s2 : LogState) (m : Nat),
          s2.s_log_cache_max_generation = (s.s_log_cache_max_generation + 1) % 2 ^ 32 →
          generations_issued s { s2 with s_log_cache_misses := m } = 1 := by
        intro s2 m he
        simp only [generations_issued, he]
        rw [if_neg]
        omega
      rw [hiss _ _ (by simp only [add_to_cache]; split_ifs <;> rfl)]
      exact ⟨hinv.len, hinv.count_le, hinv.prefill, hinv.full⟩
    · have hget := cacheInv_get_cached_log_level k s tag h
      by_cases hc : s.s_log_cache_entry_count = TAG_CACHE_SIZE
      · rw [get_cached_log_level_hit_full s tag hm hc] at hget
        simp only [is_tag_level_visible, get_cached_log_level_hit_full s tag hm hc,
          Bool.not_true, Bool.false_eq_true, if_false]
        exact hget
      · rw [get_cached_log_level_hit_prefill s tag hm hc] at hget
        simp only [is_tag_level_visible, get_cached_log_level_hit_prefill s tag hm hc,
          Bool.not_true, Bool.false_eq_true, if_false]
        exact hget

theorem cacheInv_congr (k : Nat) (s s' : LogState) (h : CacheInv k s)
    (hlen : s'.s_log_cache.length = s.s_log_cache.length)
    (hcount : s'.s_log_cache_entry_count = s.s_log_cache_entry_count)
    (hmax : s'.s_log_cache_max_generation = s.s_log_cache_max_generation)
    (hgen : ∀ x, gen_at s'.s_log_cache x = gen_at s.s_log_cache x) : CacheInv k s' := by
  refine ⟨by rw [hlen]; exact h.len, by rw [hcount]; exact h.count_le, ?_, ?_⟩
  · intro hlt
    rw [hcount] at hlt ⊢
    rw [hmax]
    obtain ⟨h1, h2, h3⟩ := h.prefill hlt
    exact ⟨h1, h2, fun i hi => by rw [hgen i]; exact h3 i hi⟩
  · intro hfull hk
    rw [hcount] at hfull
    rw [hmax]
    obtain ⟨h1, h2, h3, h4⟩ := h.full hfull hk
    refine ⟨h1, ?_, ?_, ?_⟩
    · intro i hi
      rw [hgen i, hgen (2 * i + 1), hgen (2 * i + 2)]
      exact h2 i hi
    · intro i j hi hj hij
      rw [hgen i, hgen j]
      exact h3 i j hi hj hij
    · intro i hi
      rw [hgen i]
      exact h4 i hi

theorem gen_at_set_level (l : List cached_tag_entry_t) (i v x : Nat) :
    gen_at (l.set i { cache_at l i with level := v }) x = gen_at l x := by
  rw [gen_at_set]
  split_ifs with h
  · rw [← h.1]
    rfl
  · rfl

theorem log_level_set_wildcard (mem : Mem) (malloc_ok : Bool) (s : LogState) (tag : Ptr)
    (level : Nat) (h : mem tag = "*") :
    log_level_set mem malloc_ok s tag level =
      { s with
        s_log_default_level := level
        s_log_tags := []
        s_log_cache_entry_count := 0
        s_log_cache_max_generation := 0
        s_log_cache_misses := 0 } := by
  simp [log_level_set, h, clear_log_level_list]

theorem update_cached_level_frame (mem : Mem) (l : List cached_tag_entry_t) (count : Nat)
    (tag : Ptr) (level : Nat) :
    (update_cached_level mem l count tag level).length = l.length ∧
    ∀ x, gen_at (update_cached_level mem l count tag level) x = gen_at l x ∧
      (cache_at (update_cached_level mem l count tag level) x).tag = (cache_at l x).tag := by
  unfold update_cached_level
  simp only []
  split_ifs
  · exact ⟨rfl, fun _ => ⟨rfl, rfl⟩⟩
  · refine ⟨by simp only [List.length_set], fun x => ⟨gen_at_set_level _ _ _ _, ?_⟩⟩
    rw [cache_at_set]
    split_ifs with h
    · rw [← h.1]
    · rfl

theorem log_level_set_malloc_failed (mem : Mem) (malloc_ok : Bool) (s : LogState) (tag : Ptr)
    (level : Nat) (h : mem tag ≠ "*")
    (hf : (!(update_existing_tag mem s.s_log_tags tag level).2 && !malloc_ok) = true) :
    log_level_set mem malloc_ok s tag level = s := by
  simp only [log_level_set, h, if_false, hf, if_true]

theorem log_level_set_stored (mem : Mem) (malloc_ok : Bool) (s : LogState) (tag : Ptr)
    (level : Nat) (h : mem tag ≠ "*")
    (hf : ¬ (!(update_existing_tag mem s.s_log_tags tag level).2 && !malloc_ok) = true) :
    log_level_set mem malloc_ok s tag level =
      { s with
        s_log_tags :=
          if (update_existing_tag mem s.s_log_tags tag level).2 then
            (update_existing_tag mem s.s_log_tags tag level).1
          else { level := level, tag := mem tag } :: s.s_log_tags
        s_log_cache :=
          update_cached_level mem s.s_log_cache s.s_log_cache_entry_count tag level } := by
  simp only [log_level_set, h, if_false, hf, Bool.false_eq_true]

theorem log_level_set_frame (mem : Mem) (malloc_ok : Bool) (s : LogState) (tag : Ptr)
    (level : Nat) (h : mem tag ≠ "*") :
    (log_level_set mem malloc_ok s tag level).s_log_default_level = s.s_log_default_level ∧
    (log_level_set mem malloc_ok s tag level).s_log_cache_entry_count =
      s.s_log_cache_entry_count ∧
    (log_level_set mem malloc_ok s tag level).s_log_cache_max_generation =
      s.s_log_cache_max_generation ∧
    (log_level_set mem malloc_ok s tag level).s_log_cache.length = s.s_log_cache.length ∧
    ∀ x, gen_at (log_level_set mem malloc_ok s tag level).s_log_cache x =
      gen_at s.s_log_cache x := by
  by_cases hf : (!(update_existing_tag mem s.s_log_tags tag level).2 && !malloc_ok) = true
  · rw [log_level_set_malloc_failed mem malloc_ok s tag level h hf]
    exact ⟨rfl, rfl, rfl, rfl, fun _ => rfl⟩
  · rw [log_level_set_stored mem malloc_ok s tag level h hf]
    exact ⟨rfl, rfl, rfl, (update_cached_level_frame mem _ _ tag level).1,
      fun x => ((update_cached_level_frame mem _ _ tag level).2 x).1⟩

theorem cacheInv_log_level_set (mem : Mem) (malloc_ok : Bool) (k : Nat) (s : LogState)
    (tag : Ptr) (level : Nat) (h : CacheInv k s) :
    CacheInv (if mem tag = "*" then 0 else k) (log_level_set mem malloc_ok s tag level) := by
  by_cases hw : mem tag = "*"
  · rw [if_pos hw, log_level_set_wildcard mem malloc_ok s tag level hw]
    refine ⟨h.len, Nat.zero_le _, ?_, ?_⟩
    · intro _
      exact ⟨rfl, rfl, fun i hi => absurd hi (Nat.not_lt_zero i)⟩
    · intro hfull
      have hsize : TAG_CACHE_SIZE = 31 := rfl
      simp only [hsize] at hfull
      omega
  · rw [if_neg hw]
    obtain ⟨_, h2, h3, h4, h5⟩ := log_level_set_frame mem malloc_ok s tag level hw
    exact cacheInv_congr k s _ h h4 h2 h3 h5

/-- Every reachable state has the cache shape described by `CacheInv`. -/
theorem cacheInv_of_reach (mem : Mem) (k : Nat) (s : LogState) (h : Reach mem k s) :
    CacheInv k s := by
  induction h with
  | init d => exact cacheInv_init d
  | level_set k s malloc_ok tag level _ ih =>
    exact cacheInv_log_level_set mem malloc_ok k s tag level ih
  | visible k s lock_ok level tag _ ih =>
    exact cacheInv_is_tag_level_visible mem lock_ok k s level tag ih

/-- The built-in checks of the cache scans pass in every reachable state in which at most
`2 ^ 29` generations have been issued since the last reset. -/
theorem builtin_checks_hold (mem : Mem) (k : Nat) (s : LogState) (hr : Reach mem k s)
    (hk : k ≤ 2 ^ 29) :
    ∀ i, i < s.s_log_cache_entry_count → builtin_check s.s_log_cache i = true := by
  have hsize : TAG_CACHE_SIZE = 31 := rfl
  have hinv := cacheInv_of_reach mem k s hr
  intro i hi
  unfold builtin_check
  by_cases h0 : i = 0
  · simp [h0]
  · have hlt : gen_at s.s_log_cache ((i - 1) / 2) < gen_at s.s_log_cache i := by
      by_cases hc : s.s_log_cache_entry_count < TAG_CACHE_SIZE
      · obtain ⟨_, _, hgen⟩ := hinv.prefill hc
        rw [hgen i hi, hgen ((i - 1) / 2) (by omega)]
        omega
      · have hfull : s.s_log_cache_entry_count = TAG_CACHE_SIZE := by
          have := hinv.count_le
          omega
        have hheap := (hinv.full hfull hk).2.1
        have hp := hheap ((i - 1) / 2) (by rw [hsize]; omega)
        have hchild : 2 * ((i - 1) / 2) + 1 = i ∨ 2 * ((i - 1) / 2) + 2 = i := by omega
        rcases hchild with e | e
        · have := hp.1
          rw [e] at this
          exact this
        · have := hp.2
          rw [e] at this
          exact this
    simp [hlt]

/-! ## Properties of the occupied slots -/

theorem forall_cache_at_of_perm (P : cached_tag_entry_t → Prop)
    (l l' : List cached_tag_entry_t) (hp : l'.Perm l)
    (h : ∀ i, i < l.length → P (cache_at l i)) : ∀ i, i < l'.length → P (cache_at l' i) := by
  intro i hi
  have hmem := hp.mem_iff.mp (cache_at_mem l' i hi)
  obtain ⟨j, hj, hje⟩ := exists_cache_at_of_mem l _ hmem
  rw [← hje]
  exact h j hj

/-- A property of the occupied slots that does not depend on the generation survives a
cache lookup. -/
theorem occupied_get_cached_log_level (P : cached_tag_entry_t → Prop) (s : LogState)
    (tag : Ptr) (hlen : s.s_log_cache.length = TAG_CACHE_SIZE)
    (hgen : ∀ e g, P e → P { e with generation := g })
    (h : ∀ i, i < s.s_log_cache_entry_count → P (cache_at s.s_log_cache i)) :
    ∀ i, i < (get_cached_log_level s tag).2.s_log_cache_entry_count →
      P (cache_at (get_cached_log_level s tag).2.s_log_cache i) := by
  by_cases hm : cache_scan (fun e => e.tag == tag) s.s_log_cache s.s_log_cache_entry_count 0 =
      s.s_log_cache_entry_count
  · rw [get_cached_log_level_miss s tag hm]
    exact h
  · by_cases hc : s.s_log_cache_entry_count = TAG_CACHE_SIZE
    · rw [get_cached_log_level_hit_full s tag hm hc]
      have hi : cache_scan (fun e => e.tag == tag) s.s_log_cache s.s_log_cache_entry_count 0 <
          TAG_CACHE_SIZE := by
        have := (cache_scan_spec (fun e => e.tag == tag) s.s_log_cache
          s.s_log_cache_entry_count 0).2.1
        omega
      intro i hi'
      simp only [] at hi' ⊢
      have hlen' : (s.s_log_cache.set (cache_scan (fun e => e.tag == tag) s.s_log_cache
          s.s_log_cache_entry_count 0)
          { cache_at s.s_log_cache (cache_scan (fun e => e.tag == tag) s.s_log_cache
              s.s_log_cache_entry_count 0) with
            generation := s.s_log_cache_max_generation % 2 ^ 29 }).length = TAG_CACHE_SIZE := by
        rw [List.length_set]
        exact hlen
      apply forall_cache_at_of_perm P _ _ (heap_bubble_down_perm _ _ hlen' hi)
      · intro j hj
        rw [hlen'] at hj
        rw [cache_at_set]
        split_ifs with hij
        · exact hgen _ _ (h _ (by omega))
        · exact h j (by omega)
      · rw [length_heap_bubble_down _ _ hlen' hi, hlen']
        omega
    · rw [get_cached_log_level_hit_prefill s tag hm hc]
      exact h

/-- A property of the occupied slots survives `add_to_cache` when the new entry has it. -/
theorem occupied_add_to_cache (P : cached_tag_entry_t → Prop) (s : LogState)
    (tag : Ptr) (level : Nat) (hlen : s.s_log_cache.length = TAG_CACHE_SIZE)
    (hcount : s.s_log_cache_entry_count ≤ TAG_CACHE_SIZE)
    (hnew : P ⟨tag, level % 2 ^ 3, s.s_log_cache_max_generation % 2 ^ 29⟩)
    (h : ∀ i, i < s.s_log_cache_entry_count → P (cache_at s.s_log_cache i)) :
    ∀ i, i < (add_to_cache s tag level).s_log_cache_entry_count →
      P (cache_at (add_to_cache s tag level).s_log_cache i) := by
  have hsize : TAG_CACHE_SIZE = 31 := rfl
  have hlen31 : s.s_log_cache.length = 31 := hlen
  by_cases hc : s.s_log_cache_entry_count < TAG_CACHE_SIZE
  · have hc31 : s.s_log_cache_entry_count < 31 := hc
    have e1 : (s.s_log_cache_entry_count + 1) % 2 ^ 32 = s.s_log_cache_entry_count + 1 := by
      omega
    simp only [add_to_cache, hc, if_true, e1]
    intro i hi
    rw [cache_at_set]
    split_ifs with hij
    · exact hnew
    · have : i ≠ s.s_log_cache_entry_count := by
        intro e
        exact hij ⟨e.symm, by omega⟩
      exact h i (by omega)
  · simp only [add_to_cache, hc, if_false]
    have hlen' : (s.s_log_cache.set 0
        { tag := tag, level := level % 2 ^ 3,
          generation := s.s_log_cache_max_generation % 2 ^ 29 }).length = TAG_CACHE_SIZE := by
      rw [List.length_set]
      exact hlen
    have h0 : 0 < TAG_CACHE_SIZE := by rw [hsize]; omega
    intro i hi
    apply forall_cache_at_of_perm P _ _ (heap_bubble_down_perm _ _ hlen' h0)
    · intro j hj
      rw [hlen'] at hj
      rw [cache_at_set]
      split_ifs with hij
      · exact hnew
      · exact h j (by omega)
    · rw [length_heap_bubble_down _ _ hlen' h0, hlen']
      omega

/-! ## Registry -/

theorem get_uncached_update_same (mem : Mem) (tags : List uncached_tag_entry_t) (tag : Ptr)
    (level : Nat) (h : (update_existing_tag mem tags tag level).2 = true) :
    get_uncached_log_level mem (update_existing_tag mem tags tag level).1 tag = some level := by
  induction tags with
  | nil => simp [update_existing_tag] at h
  | cons it rest ih =>
    by_cases he : it.tag = mem tag
    · simp [update_existing_tag, he, get_uncached_log_level]
    · have he' : ¬ mem tag = it.tag := fun e => he e.symm
      simp only [update_existing_tag, he, if_false] at h ⊢
      simp only [get_uncached_log_level, he', if_false]
      exact ih h

theorem get_uncached_update_other (mem : Mem) (tags : List uncached_tag_entry_t)
    (tag u : Ptr) (level : Nat) (hne : mem u ≠ mem tag) :
    get_uncached_log_level mem (update_existing_tag mem tags tag level).1 u =
      get_uncached_log_level mem tags u := by
  induction tags with
  | nil => simp [update_existing_tag]
  | cons it rest ih =>
    by_cases he : it.tag = mem tag
    · have hu : ¬ mem u = it.tag := fun e => hne (e.trans he)
      simp [update_existing_tag, he, get_uncached_log_level, hne]
    · simp only [update_existing_tag, he, if_false, get_uncached_log_level]
      rw [ih]

theorem update_existing_tag_not_found (mem : Mem) (tags : List uncached_tag_entry_t)
    (tag : Ptr) (level : Nat) :
    (update_existing_tag mem tags tag level).2 = false ↔
      get_uncached_log_level mem tags tag = none := by
  induction tags with
  | nil => simp [update_existing_tag, get_uncached_log_level]
  | cons it rest ih =>
    by_cases he : it.tag = mem tag
    · simp [update_existing_tag, he, get_uncached_log_level]
    · have he' : ¬ mem tag = it.tag := fun e => he e.symm
      simp only [update_existing_tag, he, if_false, get_uncached_log_level, he']
      exact ih

/-- After a `log_level_set` that stores the level, the registry resolves the tag's string
to that level and every other string as before. -/
theorem get_uncached_log_level_set (mem : Mem) (malloc_ok : Bool) (s : LogState)
    (tag : Ptr) (level : Nat) (h : mem tag ≠ "*")
    (hf : ¬ (!(update_existing_tag mem s.s_log_tags tag level).2 && !malloc_ok) = true) :
    get_uncached_log_level mem (log_level_set mem malloc_ok s tag level).s_log_tags tag =
        some level ∧
      ∀ u, mem u ≠ mem tag →
        get_uncached_log_level mem (log_level_set mem malloc_ok s tag level).s_log_tags u =
          get_uncached_log_level mem s.s_log_tags u := by
  rw [log_level_set_stored mem malloc_ok s tag level h hf]
  by_cases hfound : (update_existing_tag mem s.s_log_tags tag level).2 = true
  · simp only [hfound, if_true]
    exact ⟨get_uncached_update_same mem _ tag level hfound,
      fun u hu => get_uncached_update_other mem _ tag u level hu⟩
  · simp only [hfound, Bool.false_eq_true, if_false]
    refine ⟨by simp [get_uncached_log_level], ?_⟩
    intro u hu
    simp [get_uncached_log_level, hu]

theorem get_uncached_congr (mem : Mem) (tags : List uncached_tag_entry_t) (t u : Ptr)
    (h : mem t = mem u) :
    get_uncached_log_level mem tags t = get_uncached_log_level mem tags u := by
  induction tags with
  | nil => rfl
  | cons it rest ih => simp only [get_uncached_log_level, h, ih]

theorem update_cached_level_at (mem : Mem) (l : List cached_tag_entry_t) (count : Nat)
    (tag : Ptr) (level : Nat) (x : Nat) :
    cache_at (update_cached_level mem l count tag level) x = cache_at l x ∨
      (mem (cache_at l x).tag = mem tag ∧ x < count ∧
        cache_at (update_cached_level mem l count tag level) x =
          { cache_at l x with level := level % 2 ^ 3 }) := by
  unfold update_cached_level
  simp only []
  split_ifs with h
  · left
    rfl
  · rw [cache_at_set]
    split_ifs with hx
    · right
      have hne : cache_scan (fun e => decide (mem e.tag = mem tag)) l count 0 ≠ count := by
        simpa using h
      obtain ⟨_, h2, _, h4⟩ := cache_scan_spec (fun e => decide (mem e.tag = mem tag)) l count 0
      have hlt : cache_scan (fun e => decide (mem e.tag = mem tag)) l count 0 < 0 + count := by
        omega
      have hhit := h4 hlt
      rw [hx.1] at hhit hlt
      rw [hx.1]
      exact ⟨by simpa using hhit, by omega, rfl⟩
    · left
      rfl

theorem defaultCoherent_log_level_set (mem : Mem) (malloc_ok : Bool) (s : LogState)
    (tag : Ptr) (level : Nat) (h : DefaultCoherent mem s) :
    DefaultCoherent mem (log_level_set mem malloc_ok s tag level) := by
  by_cases hw : mem tag = "*"
  · rw [log_level_set_wildcard mem malloc_ok s tag level hw]
    intro i hi
    exact absurd hi (Nat.not_lt_zero i)
  · by_cases hf : (!(update_existing_tag mem s.s_log_tags tag level).2 && !malloc_ok) = true
    · rw [log_level_set_malloc_failed mem malloc_ok s tag level hw hf]
      exact h
    · obtain ⟨hsame, hother⟩ := get_uncached_log_level_set mem malloc_ok s tag level hw hf
      have hst := log_level_set_stored mem malloc_ok s tag level hw hf
      have hcache : (log_level_set mem malloc_ok s tag level).s_log_cache =
          update_cached_level mem s.s_log_cache s.s_log_cache_entry_count tag level := by
        rw [hst]
      have hcount : (log_level_set mem malloc_ok s tag level).s_log_cache_entry_count =
          s.s_log_cache_entry_count := by
        rw [hst]
      have hdef : (log_level_set mem malloc_ok s tag level).s_log_default_level =
          s.s_log_default_level := by
        rw [hst]
      intro i hi hnone
      rw [hcount] at hi
      rw [hdef]
      rw [hcache] at hnone ⊢
      rcases update_cached_level_at mem s.s_log_cache s.s_log_cache_entry_count tag level i
        with he | ⟨hmem, _, he⟩
      · rw [he] at hnone ⊢
        by_cases hc : mem (cache_at s.s_log_cache i).tag = mem tag
        · rw [get_uncached_congr mem _ _ _ hc, hsame] at hnone
          exact absurd hnone (by simp)
        · rw [hother _ hc] at hnone
          exact h i hi hnone
      · rw [he] at hnone
        have hc : mem (cache_at s.s_log_cache i).tag = mem tag := hmem
        simp only [] at hnone
        rw [get_uncached_congr mem _ _ _ hc, hsame] at hnone
        exact absurd hnone (by simp)

theorem is_tag_level_visible_hit (mem : Mem) (s : LogState) (level : Nat) (tag : Ptr)
    (l : Nat) (h : (get_cached_log_level s tag).1 = some l) :
    is_tag_level_visible mem true s level tag =
      (should_output level l, (get_cached_log_level s tag).2) := by
  unfold is_tag_level_visible
  cases hg : get_cached_log_level s tag with
  | mk a b =>
    rw [hg] at h
    simp only [] at h
    subst h
    rfl

theorem get_cached_log_level_miss_state (s : LogState) (tag : Ptr)
    (h : (get_cached_log_level s tag).1 = none) : (get_cached_log_level s tag).2 = s := by
  by_cases hm : cache_scan (fun e => e.tag == tag) s.s_log_cache
      s.s_log_cache_entry_count 0 = s.s_log_cache_entry_count
  · rw [get_cached_log_level_miss s tag hm]
  · by_cases hc : s.s_log_cache_entry_count = TAG_CACHE_SIZE
    · rw [get_cached_log_level_hit_full s tag hm hc] at h
      simp at h
    · rw [get_cached_log_level_hit_prefill s tag hm hc] at h
      simp at h

theorem is_tag_level_visible_miss (mem : Mem) (s : LogState) (level : Nat) (tag : Ptr)
    (h : (get_cached_log_level s tag).1 = none) :
    is_tag_level_visible mem true s level tag =
      (should_output level
        (match get_uncached_log_level mem s.s_log_tags tag with
          | some l => l
          | none => s.s_log_default_level),
        { add_to_cache s tag
            (match get_uncached_log_level mem s.s_log_tags tag with
              | some l => l
              | none => s.s_log_default_level) with
          s_log_cache_misses :=
            ((add_to_cache s tag
              (match get_uncached_log_level mem s.s_log_tags tag with
                | some l => l
                | none => s.s_log_default_level)).s_log_cache_misses + 1) % 2 ^ 32 }) := by
  have hs := get_cached_log_level_miss_state s tag h
  unfold is_tag_level_visible
  cases hg : get_cached_log_level s tag with
  | mk a b =>
    rw [hg] at h hs
    simp only [] at h hs
    subst h
    subst hs
    rfl

theorem is_tag_level_visible_frame (mem : Mem) (lock_ok : Bool) (s : LogState) (level : Nat)
    (tag : Ptr) :
    (is_tag_level_visible mem lock_ok s level tag).2.s_log_tags = s.s_log_tags ∧
      (is_tag_level_visible mem lock_ok s level tag).2.s_log_default_level =
        s.s_log_default_level := by
  cases lock_ok with
  | false => exact ⟨rfl, rfl⟩
  | true =>
    cases hg : (get_cached_log_level s tag).1 with
    | none =>
      rw [is_tag_level_visible_miss mem s level tag hg]
      simp only [add_to_cache]
      split_ifs <;> exact ⟨rfl, rfl⟩
    | some l =>
      rw [is_tag_level_visible_hit mem s level tag l hg]
      by_cases hm : cache_scan (fun e => e.tag == tag) s.s_log_cache
          s.s_log_cache_entry_count 0 = s.s_log_cache_entry_count
      · rw [get_cached_log_level_miss s tag hm]
        exact ⟨rfl, rfl⟩
      · by_cases hc : s.s_log_cache_entry_count = TAG_CACHE_SIZE
        · rw [get_cached_log_level_hit_full s tag hm hc]
          exact ⟨rfl, rfl⟩
        · rw [get_cached_log_level_hit_prefill s tag hm hc]
          exact ⟨rfl, rfl⟩

theorem get_cached_log_level_none_iff (s : LogState) (tag : Ptr) :
    (get_cached_log_level s tag).1 = none ↔
      ∀ i, i < s.s_log_cache_entry_count → (cache_at s.s_log_cache i).tag ≠ tag := by
  have hiff := cache_scan_eq_count_iff (fun e => e.tag == tag) s.s_log_cache
    s.s_log_cache_entry_count
  have hrw : (∀ j, j < s.s_log_cache_entry_count →
      (fun e : cached_tag_entry_t => e.tag == tag) (cache_at s.s_log_cache j) = false) ↔
      ∀ i, i < s.s_log_cache_entry_count → (cache_at s.s_log_cache i).tag ≠ tag := by
    constructor
    · intro h i hi
      simpa using h i hi
    · intro h i hi
      simpa using h i hi
  rw [← hrw, ← hiff]
  constructor
  · intro h
    by_contra hm
    by_cases hc : s.s_log_cache_entry_count = TAG_CACHE_SIZE
    · rw [get_cached_log_level_hit_full s tag hm hc] at h
      simp at h
    · rw [get_cached_log_level_hit_prefill s tag hm hc] at h
      simp at h
  · intro hm
    rw [get_cached_log_level_miss s tag hm]

theorem get_cached_log_level_some (s : LogState) (tag : Ptr) (l : Nat)
    (h : (get_cached_log_level s tag).1 = some l) :
    ∃ i, i < s.s_log_cache_entry_count ∧ (cache_at s.s_log_cache i).tag = tag ∧
      (∀ j, j < i → (cache_at s.s_log_cache j).tag ≠ tag) ∧
      l = (cache_at s.s_log_cache i).level % 2 ^ 8 := by
  by_cases hm : cache_scan (fun e => e.tag == tag) s.s_log_cache
      s.s_log_cache_entry_count 0 = s.s_log_cache_entry_count
  · rw [get_cached_log_level_miss s tag hm] at h
    simp at h
  · obtain ⟨_, h2, h3, h4⟩ := cache_scan_spec (fun e => e.tag == tag) s.s_log_cache
      s.s_log_cache_entry_count 0
    have hlt : cache_scan (fun e => e.tag == tag) s.s_log_cache
        s.s_log_cache_entry_count 0 < 0 + s.s_log_cache_entry_count := by omega
    have hhit := h4 hlt
    refine ⟨cache_scan (fun e => e.tag == tag) s.s_log_cache s.s_log_cache_entry_count 0,
      by omega, by simpa using hhit, ?_, ?_⟩
    · intro j hj
      simpa using h3 j (Nat.zero_le _) hj
    · by_cases hc : s.s_log_cache_entry_count = TAG_CACHE_SIZE
      · rw [get_cached_log_level_hit_full s tag hm hc] at h
        simp only [Option.some.injEq] at h
        exact h.symm
      · rw [get_cached_log_level_hit_prefill s tag hm hc] at h
        simp only [Option.some.injEq] at h
        exact h.symm

theorem defaultCoherent_is_tag_level_visible (mem : Mem) (lock_ok : Bool) (s : LogState)
    (level : Nat) (tag : Ptr) (hlen : s.s_log_cache.length = TAG_CACHE_SIZE)
    (hcount : s.s_log_cache_entry_count ≤ TAG_CACHE_SIZE) (h : DefaultCoherent mem s) :
    DefaultCoherent mem (is_tag_level_visible mem lock_ok s level tag).2 := by
  obtain ⟨htags, hdef⟩ := is_tag_level_visible_frame mem lock_ok s level tag
  unfold DefaultCoherent
  rw [htags, hdef]
  cases lock_ok with
  | false => exact h
  | true =>
    cases hg : (get_cached_log_level s tag).1 with
    | none =>
      rw [is_tag_level_visible_miss mem s level tag hg]
      apply occupied_add_to_cache (fun e => get_uncached_log_level mem s.s_log_tags e.tag = none →
        e.level = s.s_log_default_level % 2 ^ 3) s tag _ hlen hcount _ h
      intro hnone
      simp only [] at hnone ⊢
      rw [hnone]
    | some l =>
      rw [is_tag_level_visible_hit mem s level tag l hg]
      exact occupied_get_cached_log_level (fun e =>
        get_uncached_log_level mem s.s_log_tags e.tag = none →
          e.level = s.s_log_default_level % 2 ^ 3) s tag hlen (fun e g he => he) h

/-- In every reachable state the uncached-tag slots carry the default level. -/
theorem defaultCoherent_of_reach (mem : Mem) (k : Nat) (s : LogState) (h : Reach mem k s) :
    DefaultCoherent mem s := by
  induction h with
  | init d =>
    intro i hi
    exact absurd hi (Nat.not_lt_zero i)
  | level_set k s malloc_ok tag level _ ih =>
    exact defaultCoherent_log_level_set mem malloc_ok s tag level ih
  | visible k s lock_ok level tag hr ih =>
    have hinv := cacheInv_of_reach mem k s hr
    exact defaultCoherent_is_tag_level_visible mem lock_ok s level tag hinv.len
      hinv.count_le ih

/-! ## Coherent caches answer like the registry -/

theorem resolved_level_congr (mem : Mem) (s s' : LogState) (tag : Ptr)
    (htags : s'.s_log_tags = s.s_log_tags)
    (hdef : s'.s_log_default_level = s.s_log_default_level) :
    resolved_level mem s' tag = resolved_level mem s tag := by
  unfold resolved_level
  rw [htags, hdef]

theorem cacheCoherent_is_tag_level_visible (mem : Mem) (lock_ok : Bool) (s : LogState)
    (level : Nat) (tag : Ptr) (hlen : s.s_log_cache.length = TAG_CACHE_SIZE)
    (hcount : s.s_log_cache_entry_count ≤ TAG_CACHE_SIZE) (h : CacheCoherent mem s) :
    CacheCoherent mem (is_tag_level_visible mem lock_ok s level tag).2 := by
  obtain ⟨htags, hdef⟩ := is_tag_level_visible_frame mem lock_ok s level tag
  have hres : ∀ t, resolved_level mem (is_tag_level_visible mem lock_ok s level tag).2 t =
      resolved_level mem s t := fun t => resolved_level_congr mem s _ t htags hdef
  unfold CacheCoherent
  simp only [hres]
  cases lock_ok with
  | false => exact h
  | true =>
    cases hg : (get_cached_log_level s tag).1 with
    | none =>
      rw [is_tag_level_visible_miss mem s level tag hg]
      exact occupied_add_to_cache
        (fun e => e.level = resolved_level mem s e.tag % 2 ^ 3) s tag _ hlen hcount rfl h
    | some l =>
      rw [is_tag_level_visible_hit mem s level tag l hg]
      exact occupied_get_cached_log_level
        (fun e => e.level = resolved_level mem s e.tag % 2 ^ 3) s tag hlen
        (fun e g he => he) h

/-- With a coherent cache, a lookup answers from the resolved level of the tag. -/
theorem is_tag_level_visible_of_coherent (mem : Mem) (s : LogState) (level : Nat)
    (tag : Ptr) (h : CacheCoherent mem s) (hres : resolved_level mem s tag < 2 ^ 3) :
    (is_tag_level_visible mem true s level tag).1 =
      decide (level ≤ resolved_level mem s tag) := by
  cases hg : (get_cached_log_level s tag).1 with
  | none =>
    rw [is_tag_level_visible_miss mem s level tag hg]
    rfl
  | some l =>
    rw [is_tag_level_visible_hit mem s level tag l hg]
    obtain ⟨i, hi, htag, _, hl⟩ := get_cached_log_level_some s tag l hg
    have hlev := h i hi
    rw [htag] at hlev
    rw [hlev] at hl
    have : l = resolved_level mem s tag := by omega
    rw [this]
    rfl

/-- A miss answers from the resolved level, whatever the cache holds. -/
theorem is_tag_level_visible_of_miss (mem : Mem) (s : LogState) (level : Nat) (tag : Ptr)
    (h : (get_cached_log_level s tag).1 = none) :
    (is_tag_level_visible mem true s level tag).1 =
      decide (level ≤ resolved_level mem s tag) := by
  rw [is_tag_level_visible_miss mem s level tag h]
  rfl

theorem lookups_coherent (mem : Mem) (qs : List (Nat × Ptr)) :
    ∀ (k : Nat) (s : LogState), CacheInv k s → CacheCoherent mem s →
      (∃ k', CacheInv k' (lookups mem s qs)) ∧ CacheCoherent mem (lookups mem s qs) ∧
      (lookups mem s qs).s_log_tags = s.s_log_tags ∧
      (lookups mem s qs).s_log_default_level = s.s_log_default_level := by
  induction qs with
  | nil =>
    intro k s hinv hco
    exact ⟨⟨k, hinv⟩, hco, rfl, rfl⟩
  | cons q rest ih =>
    intro k s hinv hco
    have hinv' := cacheInv_is_tag_level_visible mem true k s q.1 q.2 hinv
    have hco' := cacheCoherent_is_tag_level_visible mem true s q.1 q.2 hinv.len
      hinv.count_le hco
    obtain ⟨htags, hdef⟩ := is_tag_level_visible_frame mem true s q.1 q.2
    obtain ⟨h1, h2, h3, h4⟩ := ih _ _ hinv' hco'
    exact ⟨h1, h2, h3.trans htags, h4.trans hdef⟩

/-- The state right after a wildcard reset has an empty, coherent cache. -/
theorem cacheInv_after_wildcard (mem : Mem) (malloc_ok : Bool) (s : LogState) (star : Ptr)
    (level : Nat) (hstar : mem star = "*") (hlen : s.s_log_cache.length = TAG_CACHE_SIZE) :
    CacheInv 0 (log_level_set mem malloc_ok s star level) ∧
      CacheCoherent mem (log_level_set mem malloc_ok s star level) := by
  rw [log_level_set_wildcard mem malloc_ok s star level hstar]
  refine ⟨⟨hlen, Nat.zero_le _, ?_, ?_⟩, ?_⟩
  · intro _
    exact ⟨rfl, rfl, fun i hi => absurd hi (Nat.not_lt_zero i)⟩
  · intro hfull
    have hsize : TAG_CACHE_SIZE = 31 := rfl
    simp only [hsize] at hfull
    omega
  · intro i hi
    exact absurd hi (Nat.not_lt_zero i)

theorem length_log_level_set (mem : Mem) (malloc_ok : Bool) (s : LogState) (tag : Ptr)
    (level : Nat) :
    (log_level_set mem malloc_ok s tag level).s_log_cache.length = s.s_log_cache.length := by
  by_cases hw : mem tag = "*"
  · rw [log_level_set_wildcard mem malloc_ok s tag level hw]
  · exact (log_level_set_frame mem malloc_ok s tag level hw).2.2.2.1

theorem get_cached_log_level_empty (s : LogState) (tag : Ptr)
    (h : s.s_log_cache_entry_count = 0) : (get_cached_log_level s tag).1 = none := by
  rw [get_cached_log_level_none_iff]
  intro i hi
  omega

theorem generations_issued_le_one (s s' : LogState) : generations_issued s s' ≤ 1 := by
  unfold generations_issued
  split_ifs <;> omega

theorem reach_lookups (mem : Mem) (qs : List (Nat × Ptr)) :
    ∀ (k : Nat) (s : LogState), Reach mem k s →
      ∃ k', Reach mem k' (lookups mem s qs) ∧ k' ≤ k + qs.length := by
  induction qs with
  | nil =>
    intro k s hr
    exact ⟨k, hr, Nat.le_add_right _ _⟩
  | cons q rest ih =>
    intro k s hr
    obtain ⟨k', hr', hk'⟩ := ih _ _ (Reach.visible k s true q.1 q.2 hr)
    refine ⟨k', hr', ?_⟩
    have := generations_issued_le_one s (is_tag_level_visible mem true s q.1 q.2).2
    simp only [List.length_cons]
    omega

theorem reach_full_state : ∃ k, Reach example_mem k full_state ∧ k ≤ 31 := by
  obtain ⟨k, hr, hk⟩ := reach_lookups example_mem fill_queries 0 (log_init LOG_VERBOSE)
    (Reach.init LOG_VERBOSE)
  exact ⟨k, hr, by simpa [fill_queries, TAG_CACHE_SIZE] using hk⟩

theorem count_add_to_cache_full (s : LogState) (tag : Ptr) (level : Nat)
    (hfull : s.s_log_cache_entry_count = TAG_CACHE_SIZE) :
    (add_to_cache s tag level).s_log_cache_entry_count = TAG_CACHE_SIZE := by
  have hnot : ¬ s.s_log_cache_entry_count < TAG_CACHE_SIZE := by omega
  simp only [add_to_cache, hnot, if_false]
  exact hfull

theorem count_get_cached_log_level (s : LogState) (tag : Ptr) :
    (get_cached_log_level s tag).2.s_log_cache_entry_count = s.s_log_cache_entry_count := by
  by_cases hm : cache_scan (fun e => e.tag == tag) s.s_log_cache
      s.s_log_cache_entry_count 0 = s.s_log_cache_entry_count
  · rw [get_cached_log_level_miss s tag hm]
  · by_cases hc : s.s_log_cache_entry_count = TAG_CACHE_SIZE
    · rw [get_cached_log_level_hit_full s tag hm hc]
    · rw [get_cached_log_level_hit_prefill s tag hm hc]

theorem count_is_tag_level_visible_full (mem : Mem) (lock_ok : Bool) (s : LogState)
    (level : Nat) (tag : Ptr) (hfull : s.s_log_cache_entry_count = TAG_CACHE_SIZE) :
    (is_tag_level_visible mem lock_ok s level tag).2.s_log_cache_entry_count =
      TAG_CACHE_SIZE := by
  cases lock_ok with
  | false => exact hfull
  | true =>
    cases hg : (get_cached_log_level s tag).1 with
    | none =>
      rw [is_tag_level_visible_miss mem s level tag hg]
      exact count_add_to_cache_full s tag _ hfull
    | some l =>
      rw [is_tag_level_visible_hit mem s level tag l hg, count_get_cached_log_level]
      exact hfull

set_option maxRecDepth 100000 in
theorem full_state_count : full_state.s_log_cache_entry_count = TAG_CACHE_SIZE := by
  decide

/-! ## A run that exhausts the 29-bit generation -/

theorem heap_bubble_down_leaf (l : List cached_tag_entry_t) (k : Nat)
    (hk : TAG_CACHE_SIZE / 2 ≤ k) : heap_bubble_down l k = l := by
  have hnot : ¬ k < TAG_CACHE_SIZE / 2 := by omega
  have hsize : TAG_CACHE_SIZE = 30 + 1 := rfl
  unfold heap_bubble_down
  rw [hsize, heap_bubble_down_loop_succ, if_neg hnot]

set_option maxRecDepth 100000 in
theorem full_state_facts :
    full_state.s_log_cache.length = 31 ∧ full_state.s_log_cache_max_generation = 31 ∧
      cache_at full_state.s_log_cache 30 = ⟨31, LOG_VERBOSE, 30⟩ ∧
      (∀ j, j < 30 → (cache_at full_state.s_log_cache j).tag ≠ 31) ∧
      full_state.s_log_tags = [] := by
  decide

theorem set_cache_at_self (l : List cached_tag_entry_t) (i : Nat) :
    l.set i (cache_at l i) = l := by
  apply List.ext_getElem (by simp)
  intro n h1 h2
  rw [List.getElem_set]
  split_ifs with h
  · subst h
    exact cache_at_of_lt l i h2
  · rfl

theorem stamped_state_full : stamped_state 30 31 = full_state := by
  obtain ⟨h1, h2, h3, _, _⟩ := full_state_facts
  unfold stamped_state
  rw [← h3, ← h2]
  rw [set_cache_at_self]

theorem stamped_state_lookup (g m level : Nat) (hm : m < 2 ^ 29) :
    (is_tag_level_visible example_mem true (stamped_state g m) level 31).2 =
      stamped_state m (m + 1) := by
  obtain ⟨hlen, _, _, hbefore, _⟩ := full_state_facts
  have hcount : (stamped_state g m).s_log_cache_entry_count = TAG_CACHE_SIZE := by
    simp only [stamped_state]
    exact full_state_count
  have hat : ∀ j, cache_at (stamped_state g m).s_log_cache j =
      if j = 30 then ⟨31, LOG_VERBOSE, g⟩ else cache_at full_state.s_log_cache j := by
    intro j
    simp only [stamped_state]
    rw [cache_at_set, hlen]
    by_cases hj : j = 30
    · simp [hj]
    · have : ¬ 30 = j := fun e => hj e.symm
      simp [hj, this]
  have hscan : cache_scan (fun e => e.tag == 31) (stamped_state g m).s_log_cache
      (stamped_state g m).s_log_cache_entry_count 0 = 30 := by
    obtain ⟨_, h2, h3, h4⟩ := cache_scan_spec (fun e => e.tag == 31)
      (stamped_state g m).s_log_cache (stamped_state g m).s_log_cache_entry_count 0
    rw [hcount] at h2 h3 h4 ⊢
    have hsize : TAG_CACHE_SIZE = 31 := rfl
    rw [hsize] at h2 h3 h4 ⊢
    by_contra hne
    rcases Nat.lt_or_gt_of_ne hne with hlt | hgt
    · have := h4 (by omega)
      rw [hat] at this
      simp only [show ¬ cache_scan (fun e => e.tag == 31) (stamped_state g m).s_log_cache 31 0
        = 30 from hne, if_false] at this
      exact hbefore _ hlt (by simpa using this)
    · have := h3 30 (Nat.zero_le _) hgt
      rw [hat] at this
      simp at this
  have hne : cache_scan (fun e => e.tag == 31) (stamped_state g m).s_log_cache
      (stamped_state g m).s_log_cache_entry_count 0 ≠
      (stamped_state g m).s_log_cache_entry_count := by
    rw [hscan, hcount]
    decide
  have hsome := get_cached_log_level_hit_full (stamped_state g m) 31 hne hcount
  rw [is_tag_level_visible_hit example_mem (stamped_state g m) level 31 _
    (by rw [hsome]), hsome, hscan]
  have e1 : m % 2 ^ 29 = m := by omega
  have e2 : (m + 1) % 2 ^ 32 = m + 1 := by omega
  rw [heap_bubble_down_leaf _ 30 (by decide), hat 30]
  simp only [stamped_state, if_true, List.set_set, e1, e2]

theorem reach_stamped_state (n : Nat) (hn : 31 + n ≤ 2 ^ 29) :
    Reach example_mem (31 + n) (stamped_state (30 + n) (31 + n)) := by
  induction n with
  | zero =>
    obtain ⟨k, hr, hk⟩ := reach_full_state
    have hinv := cacheInv_of_reach example_mem k full_state hr
    have hmax := (hinv.full full_state_count (by omega)).1
    rw [full_state_facts.2.1] at hmax
    subst hmax
    rw [stamped_state_full]
    exact hr
  | succ n ih =>
    have hr := Reach.visible (31 + n) (stamped_state (30 + n) (31 + n)) true LOG_INFO 31
      (ih (by omega))
    rw [stamped_state_lookup (30 + n) (31 + n) LOG_INFO (by omega)] at hr
    have hiss : generations_issued (stamped_state (30 + n) (31 + n))
        (stamped_state (31 + n) (31 + n + 1)) = 1 := by
      unfold generations_issued
      rw [if_neg]
      show ¬ 31 + n + 1 = 31 + n
      omega
    rw [hiss] at hr
    have e1 : 30 + (n + 1) = 31 + n := by omega
    have e2 : 31 + (n + 1) = 31 + n + 1 := by omega
    rw [e1, e2]
    exact hr

/-- The full state is reached with exactly 31 generations issued. -/
theorem reach_full_state_31 : Reach example_mem 31 full_state := by
  have h := reach_stamped_state 0 (by norm_num)
  rw [stamped_state_full] at h
  exact h

/-- The state with the generation counter at `2 ^ 29` is reached by exactly `2 ^ 29`
cache-stamping lookups. -/
theorem reach_wrapped_state : Reach example_mem (2 ^ 29) wrapped_state := by
  have h := reach_stamped_state (2 ^ 29 - 31) (by norm_num)
  have e1 : 30 + (2 ^ 29 - 31) = 2 ^ 29 - 1 := by norm_num
  have e2 : 31 + (2 ^ 29 - 31) = 2 ^ 29 := by norm_num
  rw [e1, e2] at h
  exact h

/-! ## Eviction and promotion in a full cache -/

/-- In a min-heap the root is strictly older than every other slot. -/
theorem heap_root_oldest (l : List cached_tag_entry_t) (h : HeapInv l) :
    ∀ j, 0 < j → j < TAG_CACHE_SIZE → gen_at l 0 < gen_at l j := by
  have hsize : TAG_CACHE_SIZE = 31 := rfl
  intro j
  induction j using Nat.strong_induction_on with
  | _ j ih =>
    intro hj0 hj
    rw [hsize] at hj
    have hp := h ((j - 1) / 2) (by rw [hsize]; omega)
    have hchild : 2 * ((j - 1) / 2) + 1 = j ∨ 2 * ((j - 1) / 2) + 2 = j := by omega
    have hlt : gen_at l ((j - 1) / 2) < gen_at l j := by
      rcases hchild with e | e
      · have := hp.1
        rw [e] at this
        exact this
      · have := hp.2
        rw [e] at this
        exact this
    by_cases hz : (j - 1) / 2 = 0
    · rw [hz] at hlt
      exact hlt
    · have := ih ((j - 1) / 2) (by omega) (by omega) (by rw [hsize]; omega)
      omega

theorem set_zero_eq_cons_tail (l : List cached_tag_entry_t) (e : cached_tag_entry_t)
    (h : 0 < l.length) : l.set 0 e = e :: l.tail := by
  cases l with
  | nil => simp at h
  | cons x xs => rfl

theorem heap_bubble_down_sift (l : List cached_tag_entry_t) (k : Nat) (h : SiftInv l k) :
    ∃ j, TAG_CACHE_SIZE / 2 ≤ j ∧ j < TAG_CACHE_SIZE ∧ SiftInv (heap_bubble_down l k) j ∧
      cache_at (heap_bubble_down l k) j = cache_at l k := by
  have hshape := heap_bubble_down_loop_shape TAG_CACHE_SIZE l k h.len h.k_lt (by
    have : TAG_CACHE_SIZE = 31 := rfl
    omega)
  have hsift := heap_bubble_down_loop_sift TAG_CACHE_SIZE l k h
  obtain ⟨_, _, h3, h4, h5⟩ := hshape
  exact ⟨_, h3, h4, hsift, h5⟩

/-! ## Identity lookup and appending -/

theorem add_to_cache_prefill (s : LogState) (tag : Ptr) (level : Nat)
    (hlen : s.s_log_cache.length = TAG_CACHE_SIZE)
    (hn : s.s_log_cache_entry_count < TAG_CACHE_SIZE) :
    cache_at (add_to_cache s tag level).s_log_cache s.s_log_cache_entry_count =
        ⟨tag, level % 2 ^ 3, s.s_log_cache_max_generation % 2 ^ 29⟩ ∧
      (add_to_cache s tag level).s_log_cache_entry_count = s.s_log_cache_entry_count + 1 ∧
      (add_to_cache s tag level).s_log_cache_max_generation =
        (s.s_log_cache_max_generation + 1) % 2 ^ 32 ∧
      ∀ i, i < s.s_log_cache_entry_count →
        cache_at (add_to_cache s tag level).s_log_cache i = cache_at s.s_log_cache i := by
  have hn31 : s.s_log_cache_entry_count < 31 := hn
  have hlen31 : s.s_log_cache.length = 31 := hlen
  have e1 : (s.s_log_cache_entry_count + 1) % 2 ^ 32 = s.s_log_cache_entry_count + 1 := by
    omega
  simp only [add_to_cache, hn, if_true, e1]
  refine ⟨?_, trivial, trivial, ?_⟩
  · rw [cache_at_set]
    simp [hlen31, hn31]
  · intro i hi
    rw [cache_at_set]
    have : ¬ s.s_log_cache_entry_count = i := by omega
    simp [this]

/-! ## Shape of the registry -/

theorem registry_tags_update (mem : Mem) (tags : List uncached_tag_entry_t) (tag : Ptr)
    (level : Nat) :
    registry_tags (update_existing_tag mem tags tag level).1 = registry_tags tags := by
  induction tags with
  | nil => rfl
  | cons it rest ih =>
    by_cases he : it.tag = mem tag
    · simp [update_existing_tag, he, registry_tags]
    · simp only [update_existing_tag, he, if_false]
      simp only [registry_tags, List.map_cons] at ih ⊢
      rw [ih]

theorem update_existing_tag_found_iff (mem : Mem) (tags : List uncached_tag_entry_t)
    (tag : Ptr) (level : Nat) :
    (update_existing_tag mem tags tag level).2 = true ↔ mem tag ∈ registry_tags tags := by
  induction tags with
  | nil => simp [update_existing_tag, registry_tags]
  | cons it rest ih =>
    by_cases he : it.tag = mem tag
    · simp [update_existing_tag, he, registry_tags]
    · have he' : ¬ mem tag = it.tag := fun e => he e.symm
      simp only [update_existing_tag, he, if_false]
      simp only [registry_tags, List.map_cons, List.mem_cons, he', false_or] at ih ⊢
      exact ih

theorem get_uncached_none_iff (mem : Mem) (tags : List uncached_tag_entry_t) (tag : Ptr) :
    get_uncached_log_level mem tags tag = none ↔ mem tag ∉ registry_tags tags := by
  rw [← update_existing_tag_not_found mem tags tag 0, ← update_existing_tag_found_iff mem tags
    tag 0]
  simp

/-- The in-place update: the first entry with the tag's string gets the level, and nothing
else in the list changes. -/
theorem update_existing_tag_at (mem : Mem) (tags : List uncached_tag_entry_t) (tag : Ptr)
    (level : Nat) (h : (update_existing_tag mem tags tag level).2 = true) :
    ∃ i e, tags[i]? = some e ∧ e.tag = mem tag ∧
      (∀ j e', j < i → tags[j]? = some e' → e'.tag ≠ mem tag) ∧
      (update_existing_tag mem tags tag level).1 = tags.set i ⟨level, e.tag⟩ := by
  induction tags with
  | nil => simp [update_existing_tag] at h
  | cons it rest ih =>
    by_cases he : it.tag = mem tag
    · refine ⟨0, it, by simp, he, ?_, ?_⟩
      · intro j e' hj
        omega
      · simp [update_existing_tag, he]
    · simp only [update_existing_tag, he, if_false] at h ⊢
      obtain ⟨i, e, hi, hte, hbefore, hset⟩ := ih h
      refine ⟨i + 1, e, by simpa using hi, hte, ?_, ?_⟩
      · intro j e' hj hje
        cases j with
        | zero =>
          simp only [List.getElem?_cons_zero, Option.some.injEq] at hje
          rw [← hje]
          exact he
        | succ j =>
          simp only [List.getElem?_cons_succ] at hje
          exact hbefore j e' (by omega) hje
      · rw [hset]
        rfl

theorem registryInv_log_level_set (mem : Mem) (malloc_ok : Bool) (s : LogState) (tag : Ptr)
    (level : Nat) (h : RegistryInv s.s_log_tags) :
    RegistryInv (log_level_set mem malloc_ok s tag level).s_log_tags := by
  by_cases hw : mem tag = "*"
  · rw [log_level_set_wildcard mem malloc_ok s tag level hw]
    exact ⟨List.nodup_nil, List.not_mem_nil _⟩
  · by_cases hf : (!(update_existing_tag mem s.s_log_tags tag level).2 && !malloc_ok) = true
    · rw [log_level_set_malloc_failed mem malloc_ok s tag level hw hf]
      exact h
    · rw [log_level_set_stored mem malloc_ok s tag level hw hf]
      by_cases hfound : (update_existing_tag mem s.s_log_tags tag level).2 = true
      · simp only [hfound, if_true]
        unfold RegistryInv
        rw [registry_tags_update]
        exact h
      · simp only [hfound, Bool.false_eq_true, if_false]
        have hnot : mem tag ∉ registry_tags s.s_log_tags := by
          rw [← update_existing_tag_found_iff mem s.s_log_tags tag level]
          exact hfound
        unfold RegistryInv
        simp only [registry_tags, List.map_cons, List.nodup_cons, List.mem_cons, not_or]
        exact ⟨⟨hnot, h.1⟩, fun e => hw e.symm, h.2⟩

/-- The registry of every reachable state holds each string at most once, and never
`"*"`. -/
theorem registryInv_of_reach (mem : Mem) (k : Nat) (s : LogState) (h : Reach mem k s) :
    RegistryInv s.s_log_tags := by
  induction h with
  | init d => exact ⟨List.nodup_nil, List.not_mem_nil _⟩
  | level_set k s malloc_ok tag level _ ih =>
    exact registryInv_log_level_set mem malloc_ok s tag level ih
  | visible k s lock_ok level tag _ ih =>
    rw [(is_tag_level_visible_frame mem lock_ok s level tag).1]
    exact ih

/-! ## Distinct tag pointers in the cache -/

theorem map_tag_set_same (l : List cached_tag_entry_t) (i : Nat) (e : cached_tag_entry_t)
    (h : e.tag = (cache_at l i).tag) :
    (l.set i e).map (fun e => e.tag) = l.map (fun e => e.tag) := by
  by_cases hl : i < l.length
  · have e1 : l.set i e = (l.set i (cache_at l i)).set i e := by
      rw [List.set_set]
    rw [List.map_set, h, ← List.map_set, set_cache_at_self]
  · rw [List.set_eq_of_length_le (by omega)]

theorem mem_cached_tags (s : LogState) (t : Ptr)
    (hle : s.s_log_cache_entry_count ≤ s.s_log_cache.length) :
    t ∈ cached_tags s ↔
      ∃ i, i < s.s_log_cache_entry_count ∧ (cache_at s.s_log_cache i).tag = t := by
  unfold cached_tags
  rw [List.mem_iff_getElem]
  constructor
  · rintro ⟨i, hi, hit⟩
    have hi' : i < s.s_log_cache_entry_count ∧ i < s.s_log_cache.length := by
      simpa using hi
    refine ⟨i, hi'.1, ?_⟩
    rw [cache_at_of_lt _ _ hi'.2]
    simpa using hit
  · rintro ⟨i, hi, hit⟩
    have hl : i < s.s_log_cache.length := by omega
    refine ⟨i, by simpa using ⟨hi, hl⟩, ?_⟩
    rw [cache_at_of_lt _ _ hl] at hit
    simpa using hit

/-- Two occupied slots with the same tag pointer are the same slot. -/
theorem tagsDistinct_index (s : LogState) (h : TagsDistinct s)
    (hle : s.s_log_cache_entry_count ≤ s.s_log_cache.length) (i j : Nat)
    (hi : i < s.s_log_cache_entry_count) (hj : j < s.s_log_cache_entry_count)
    (hij : (cache_at s.s_log_cache i).tag = (cache_at s.s_log_cache j).tag) : i = j := by
  have hil : i < s.s_log_cache.length := by omega
  have hjl : j < s.s_log_cache.length := by omega
  have hi' : i < (cached_tags s).length := by
    unfold cached_tags
    simpa using ⟨hi, hil⟩
  have hj' : j < (cached_tags s).length := by
    unfold cached_tags
    simpa using ⟨hj, hjl⟩
  have hget : ∀ x (hx : x < (cached_tags s).length) (hxl : x < s.s_log_cache.length),
      (cached_tags s)[x] = (cache_at s.s_log_cache x).tag := by
    intro x hx hxl
    rw [cache_at_of_lt _ _ hxl]
    simp [cached_tags]
  have heq : (cached_tags s)[i] = (cached_tags s)[j] := by
    rw [hget i hi' hil, hget j hj' hjl, hij]
  exact (List.Nodup.getElem_inj_iff h).mp heq

theorem tagsDistinct_get_cached_log_level (s : LogState) (tag : Ptr) (h : TagsDistinct s)
    (hlen : s.s_log_cache.length = TAG_CACHE_SIZE) :
    TagsDistinct (get_cached_log_level s tag).2 := by
  by_cases hm : cache_scan (fun e => e.tag == tag) s.s_log_cache s.s_log_cache_entry_count 0 =
      s.s_log_cache_entry_count
  · rw [get_cached_log_level_miss s tag hm]
    exact h
  · by_cases hc : s.s_log_cache_entry_count = TAG_CACHE_SIZE
    · rw [get_cached_log_level_hit_full s tag hm hc]
      have hi : cache_scan (fun e => e.tag == tag) s.s_log_cache s.s_log_cache_entry_count 0 <
          TAG_CACHE_SIZE := by
        have := (cache_scan_spec (fun e => e.tag == tag) s.s_log_cache
          s.s_log_cache_entry_count 0).2.1
        omega
      have hlen' : (s.s_log_cache.set (cache_scan (fun e => e.tag == tag) s.s_log_cache
          s.s_log_cache_entry_count 0)
          { cache_at s.s_log_cache (cache_scan (fun e => e.tag == tag) s.s_log_cache
              s.s_log_cache_entry_count 0) with
            generation := s.s_log_cache_max_generation % 2 ^ 29 }).length = TAG_CACHE_SIZE := by
        rw [List.length_set]
        exact hlen
      have hp := heap_bubble_down_perm _ _ hlen' hi
      unfold TagsDistinct cached_tags at h ⊢
      simp only []
      rw [List.take_of_length_le (by rw [List.length_map, hlen, hc])] at h
      rw [List.take_of_length_le (by
        rw [List.length_map, length_heap_bubble_down _ _ hlen' hi, hlen', hc])]
      rw [(hp.map (fun e => e.tag)).nodup_iff,
        map_tag_set_same s.s_log_cache (cache_scan (fun e => e.tag == tag) s.s_log_cache
          s.s_log_cache_entry_count 0)
          { cache_at s.s_log_cache (cache_scan (fun e => e.tag == tag) s.s_log_cache
              s.s_log_cache_entry_count 0) with
            generation := s.s_log_cache_max_generation % 2 ^ 29 } rfl]
      exact h
    · rw [get_cached_log_level_hit_prefill s tag hm hc]
      exact h

theorem tagsDistinct_add_to_cache (s : LogState) (tag : Ptr) (level : Nat)
    (h : TagsDistinct s) (hlen : s.s_log_cache.length = TAG_CACHE_SIZE)
    (hcount : s.s_log_cache_entry_count ≤ TAG_CACHE_SIZE)
    (hnew : ∀ i, i < s.s_log_cache_entry_count → (cache_at s.s_log_cache i).tag ≠ tag) :
    TagsDistinct (add_to_cache s tag level) := by
  have hsize : TAG_CACHE_SIZE = 31 := rfl
  have hnot : tag ∉ cached_tags s := by
    rw [mem_cached_tags s tag (by omega)]
    rintro ⟨i, hi, hit⟩
    exact hnew i hi hit
  by_cases hc : s.s_log_cache_entry_count < TAG_CACHE_SIZE
  · have e1 : (s.s_log_cache_entry_count + 1) % 2 ^ 32 = s.s_log_cache_entry_count + 1 := by
      omega
    have hcl : s.s_log_cache_entry_count < (s.s_log_cache.map (fun e => e.tag)).length := by
      rw [List.length_map]
      omega
    unfold TagsDistinct cached_tags at h hnot ⊢
    simp only [add_to_cache, hc, if_true, e1]
    rw [List.map_set, List.take_succ, List.set_take,
      List.set_eq_of_length_le (by rw [List.length_take]; omega)]
    simp only [List.getElem?_set_self hcl, Option.toList]
    rw [List.nodup_append]
    refine ⟨h, List.nodup_singleton _, ?_⟩
    intro x hx hx'
    rw [List.mem_singleton] at hx'
    rw [hx'] at hx
    exact hnot hx
  · have hfull : s.s_log_cache_entry_count = TAG_CACHE_SIZE := by omega
    have hlen' : (s.s_log_cache.set 0
        { tag := tag, level := level % 2 ^ 3,
          generation := s.s_log_cache_max_generation % 2 ^ 29 }).length = TAG_CACHE_SIZE := by
      rw [List.length_set]
      exact hlen
    have h0 : 0 < TAG_CACHE_SIZE := by rw [hsize]; omega
    have hp := heap_bubble_down_perm _ _ hlen' h0
    unfold TagsDistinct cached_tags at h hnot ⊢
    simp only [add_to_cache, hc, if_false]
    rw [List.take_of_length_le (by rw [List.length_map, hlen, hfull])] at h hnot
    rw [List.take_of_length_le (by
      rw [List.length_map, length_heap_bubble_down _ _ hlen' h0, hlen', hfull])]
    rw [(hp.map (fun e => e.tag)).nodup_iff,
      set_zero_eq_cons_tail _ _ (by rw [hlen]; exact h0), List.map_cons, List.nodup_cons]
    have hcons : s.s_log_cache = cache_at s.s_log_cache 0 :: s.s_log_cache.tail := by
      rw [← set_zero_eq_cons_tail _ _ (by rw [hlen]; exact h0), set_cache_at_self]
    rw [hcons, List.map_cons] at h hnot
    exact ⟨fun hin => hnot (List.mem_cons_of_mem _ hin), (List.nodup_cons.mp h).2⟩

theorem tagsDistinct_is_tag_level_visible (mem : Mem) (lock_ok : Bool) (s : LogState)
    (level : Nat) (tag : Ptr) (h : TagsDistinct s)
    (hlen : s.s_log_cache.length = TAG_CACHE_SIZE)
    (hcount : s.s_log_cache_entry_count ≤ TAG_CACHE_SIZE) :
    TagsDistinct (is_tag_level_visible mem lock_ok s level tag).2 := by
  cases lock_ok with
  | false => exact h
  | true =>
    cases hg : (get_cached_log_level s tag).1 with
    | none =>
      rw [is_tag_level_visible_miss mem s level tag hg]
      exact tagsDistinct_add_to_cache s tag _ h hlen hcount
        ((get_cached_log_level_none_iff s tag).mp hg)
    | some l =>
      rw [is_tag_level_visible_hit mem s level tag l hg]
      exact tagsDistinct_get_cached_log_level s tag h hlen

theorem tagsDistinct_log_level_set (mem : Mem) (malloc_ok : Bool) (s : LogState) (tag : Ptr)
    (level : Nat) (h : TagsDistinct s) :
    TagsDistinct (log_level_set mem malloc_ok s tag level) := by
  by_cases hw : mem tag = "*"
  · rw [log_level_set_wildcard mem malloc_ok s tag level hw]
    unfold TagsDistinct cached_tags
    simp
  · by_cases hf : (!(update_existing_tag mem s.s_log_tags tag level).2 && !malloc_ok) = true
    · rw [log_level_set_malloc_failed mem malloc_ok s tag level hw hf]
      exact h
    · rw [log_level_set_stored mem malloc_ok s tag level hw hf]
      unfold TagsDistinct cached_tags at h ⊢
      simp only []
      have hmap : (update_cached_level mem s.s_log_cache s.s_log_cache_entry_count tag
          level).map (fun e => e.tag) = s.s_log_cache.map (fun e => e.tag) := by
        unfold update_cached_level
        simp only []
        split_ifs
        · rfl
        · exact map_tag_set_same s.s_log_cache _ _ rfl
      rw [hmap]
      exact h

/-- No two occupied slots of a reachable state hold the same tag pointer. -/
theorem tagsDistinct_of_reach (mem : Mem) (k : Nat) (s : LogState) (h : Reach mem k s) :
    TagsDistinct s := by
  induction h with
  | init d =>
    unfold TagsDistinct cached_tags
    simp [log_init]
  | level_set k s malloc_ok tag level _ ih =>
    exact tagsDistinct_log_level_set mem malloc_ok s tag level ih
  | visible k s lock_ok level tag hr ih =>
    have hinv := cacheInv_of_reach mem k s hr
    exact tagsDistinct_is_tag_level_visible mem lock_ok s level tag ih hinv.len hinv.count_le

/-! ## Lookups of a cached tag -/

theorem length_get_cached_log_level (s : LogState) (tag : Ptr)
    (hlen : s.s_log_cache.length = TAG_CACHE_SIZE) :
    (get_cached_log_level s tag).2.s_log_cache.length = TAG_CACHE_SIZE := by
  by_cases hm : cache_scan (fun e => e.tag == tag) s.s_log_cache s.s_log_cache_entry_count 0 =
      s.s_log_cache_entry_count
  · rw [get_cached_log_level_miss s tag hm]
    exact hlen
  · by_cases hc : s.s_log_cache_entry_count = TAG_CACHE_SIZE
    · rw [get_cached_log_level_hit_full s tag hm hc]
      have hi : cache_scan (fun e => e.tag == tag) s.s_log_cache s.s_log_cache_entry_count 0 <
          TAG_CACHE_SIZE := by
        have := (cache_scan_spec (fun e => e.tag == tag) s.s_log_cache
          s.s_log_cache_entry_count 0).2.1
        omega
      have hlen' : (s.s_log_cache.set (cache_scan (fun e => e.tag == tag) s.s_log_cache
          s.s_log_cache_entry_count 0)
          { cache_at s.s_log_cache (cache_scan (fun e => e.tag == tag) s.s_log_cache
              s.s_log_cache_entry_count 0) with
            generation := s.s_log_cache_max_generation % 2 ^ 29 }).length = TAG_CACHE_SIZE := by
        rw [List.length_set]
        exact hlen
      simp only []
      rw [length_heap_bubble_down _ _ hlen' hi]
      exact hlen'
    · rw [get_cached_log_level_hit_prefill s tag hm hc]
      exact hlen

/-- A tag pointer held by an occupied slot is still held by one after a cache lookup. -/
theorem cached_get_cached_log_level (s : LogState) (tag t : Ptr)
    (hlen : s.s_log_cache.length = TAG_CACHE_SIZE)
    (h : ∃ i, i < s.s_log_cache_entry_count ∧ (cache_at s.s_log_cache i).tag = t) :
    ∃ i, i < (get_cached_log_level s tag).2.s_log_cache_entry_count ∧
      (cache_at (get_cached_log_level s tag).2.s_log_cache i).tag = t := by
  by_cases hm : cache_scan (fun e => e.tag == tag) s.s_log_cache s.s_log_cache_entry_count 0 =
      s.s_log_cache_entry_count
  · rw [get_cached_log_level_miss s tag hm]
    exact h
  · by_cases hc : s.s_log_cache_entry_count = TAG_CACHE_SIZE
    · rw [get_cached_log_level_hit_full s tag hm hc]
      have hi : cache_scan (fun e => e.tag == tag) s.s_log_cache s.s_log_cache_entry_count 0 <
          TAG_CACHE_SIZE := by
        have := (cache_scan_spec (fun e => e.tag == tag) s.s_log_cache
          s.s_log_cache_entry_count 0).2.1
        omega
      have hlen' : (s.s_log_cache.set (cache_scan (fun e => e.tag == tag) s.s_log_cache
          s.s_log_cache_entry_count 0)
          { cache_at s.s_log_cache (cache_scan (fun e => e.tag == tag) s.s_log_cache
              s.s_log_cache_entry_count 0) with
            generation := s.s_log_cache_max_generation % 2 ^ 29 }).length = TAG_CACHE_SIZE := by
        rw [List.length_set]
        exact hlen
      have hp := heap_bubble_down_perm _ _ hlen' hi
      obtain ⟨j, hj, hjt⟩ := h
      have hjl : j < (s.s_log_cache.set (cache_scan (fun e => e.tag == tag) s.s_log_cache
          s.s_log_cache_entry_count 0)
          { cache_at s.s_log_cache (cache_scan (fun e => e.tag == tag) s.s_log_cache
              s.s_log_cache_entry_count 0) with
            generation := s.s_log_cache_max_generation % 2 ^ 29 }).length := by
        rw [hlen']
        omega
      have hmem := hp.mem_iff.mpr (cache_at_mem _ j hjl)
      obtain ⟨x, hx, hxe⟩ := exists_cache_at_of_mem _ _ hmem
      rw [length_heap_bubble_down _ _ hlen' hi, hlen'] at hx
      refine ⟨x, by simp only []; omega, ?_⟩
      simp only []
      rw [hxe, cache_at_set]
      split_ifs with hij
      · simp only []
        rw [hij.1]
        exact hjt
      · exact hjt
    · rw [get_cached_log_level_hit_prefill s tag hm hc]
      exact h

/-- The new entry of `add_to_cache` occupies a slot. -/
theorem cached_add_to_cache (s : LogState) (tag : Ptr) (level : Nat)
    (hlen : s.s_log_cache.length = TAG_CACHE_SIZE)
    (hcount : s.s_log_cache_entry_count ≤ TAG_CACHE_SIZE) :
    ∃ i, i < (add_to_cache s tag level).s_log_cache_entry_count ∧
      (cache_at (add_to_cache s tag level).s_log_cache i).tag = tag := by
  have hsize : TAG_CACHE_SIZE = 31 := rfl
  by_cases hc : s.s_log_cache_entry_count < TAG_CACHE_SIZE
  · obtain ⟨h1, h2, -, -⟩ := add_to_cache_prefill s tag level hlen hc
    refine ⟨s.s_log_cache_entry_count, by omega, ?_⟩
    rw [h1]
  · have hfull : s.s_log_cache_entry_count = TAG_CACHE_SIZE := by omega
    have hlen' : (s.s_log_cache.set 0
        { tag := tag, level := level % 2 ^ 3,
          generation := s.s_log_cache_max_generation % 2 ^ 29 }).length = TAG_CACHE_SIZE := by
      rw [List.length_set]
      exact hlen
    have h0 : 0 < TAG_CACHE_SIZE := by rw [hsize]; omega
    have hp := heap_bubble_down_perm _ _ hlen' h0
    have hmem := hp.mem_iff.mpr (cache_at_mem _ 0 (by rw [hlen']; exact h0))
    obtain ⟨x, hx, hxe⟩ := exists_cache_at_of_mem _ _ hmem
    rw [length_heap_bubble_down _ _ hlen' h0, hlen'] at hx
    rw [cache_at_set] at hxe
    simp only [true_and, hlen, h0, if_true] at hxe
    refine ⟨x, by rw [count_add_to_cache_full s tag level hfull]; exact hx, ?_⟩
    simp only [add_to_cache, hc, if_false]
    rw [hxe]

/-- A lookup of a tag whose slots all store `lvl` answers from `lvl` and keeps that. -/
theorem pinned_lookup (mem : Mem) (s : LogState) (m : Nat) (tag : Ptr) (lvl : Nat)
    (h : Pinned s tag lvl) :
    (is_tag_level_visible mem true s m tag).1 = should_output m (lvl % 2 ^ 8) ∧
      Pinned (is_tag_level_visible mem true s m tag).2 tag lvl := by
  cases hg : (get_cached_log_level s tag).1 with
  | none =>
    obtain ⟨i, hi, hit⟩ := h.cached
    exact absurd hit ((get_cached_log_level_none_iff s tag).mp hg i hi)
  | some l =>
    rw [is_tag_level_visible_hit mem s m tag l hg]
    obtain ⟨i, hi, hit, -, hl⟩ := get_cached_log_level_some s tag l hg
    rw [h.level_eq i hi hit] at hl
    refine ⟨by rw [hl], ?_⟩
    exact
      { len := length_get_cached_log_level s tag h.len
        count_le := by rw [count_get_cached_log_level]; exact h.count_le
        cached := cached_get_cached_log_level s tag tag h.len h.cached
        level_eq := occupied_get_cached_log_level (fun e => e.tag = tag → e.level = lvl) s tag
          h.len (fun e g he => he) h.level_eq }

/-- After a lookup in a reachable state, lock taken, of a tag whose resolved level fits
the three bits of the cache, all slots of the tag store the level the lookup answered
from. -/
theorem pinned_after_lookup (mem : Mem) (k : Nat) (s : LogState) (m : Nat) (tag : Ptr)
    (hr : Reach mem k s) (hres : resolved_level mem s tag < 2 ^ 3) :
    ∃ lvl, Pinned (is_tag_level_visible mem true s m tag).2 tag lvl ∧
      (is_tag_level_visible mem true s m tag).1 = should_output m (lvl % 2 ^ 8) := by
  have hinv := cacheInv_of_reach mem k s hr
  have hsize : TAG_CACHE_SIZE = 31 := rfl
  cases hg : (get_cached_log_level s tag).1 with
  | none =>
    have hinv' := cacheInv_of_reach mem _ _ (Reach.visible k s true m tag hr)
    refine ⟨resolved_level mem s tag % 2 ^ 3, ?_, ?_⟩
    · refine
        { len := hinv'.len
          count_le := hinv'.count_le
          cached := ?_
          level_eq := ?_ }
      · rw [is_tag_level_visible_miss mem s m tag hg]
        exact cached_add_to_cache s tag _ hinv.len hinv.count_le
      · rw [is_tag_level_visible_miss mem s m tag hg]
        apply occupied_add_to_cache (fun e => e.tag = tag →
          e.level = resolved_level mem s tag % 2 ^ 3) s tag _ hinv.len hinv.count_le
        · intro _
          rfl
        · intro i hi hit
          exact absurd hit ((get_cached_log_level_none_iff s tag).mp hg i hi)
    · rw [is_tag_level_visible_of_miss mem s m tag hg]
      have e1 : resolved_level mem s tag % 2 ^ 3 % 2 ^ 8 = resolved_level mem s tag := by
        omega
      rw [e1]
      rfl
  | some l =>
    obtain ⟨i, hi, hit, -, hl⟩ := get_cached_log_level_some s tag l hg
    have hd := tagsDistinct_of_reach mem k s hr
    have hp : Pinned s tag (cache_at s.s_log_cache i).level :=
      { len := hinv.len
        count_le := hinv.count_le
        cached := ⟨i, hi, hit⟩
        level_eq := by
          intro j hj hjt
          have : j = i := tagsDistinct_index s hd (by rw [hinv.len]; exact hinv.count_le) j i
            hj hi (by rw [hjt, hit])
          rw [this] }
    obtain ⟨h1, h2⟩ := pinned_lookup mem s m tag _ hp
    exact ⟨_, h2, h1⟩

/-! ## Output of the write functions -/

theorem log_writev_eq (mem : Mem) (lock_ok : Bool) (sys : LogSystem) (level : Nat)
    (tag : Ptr) (format : String) (args : va_list) :
    log_writev mem lock_ok sys level tag format args =
      (if (is_tag_level_visible mem lock_ok sys.state level tag).1 = true then
          [Output.vprintf_like sys.s_log_print_func format args]
        else [],
        { state := (is_tag_level_visible mem lock_ok sys.state level tag).2
          s_log_print_func := sys.s_log_print_func }) := by
  unfold log_writev
  cases hv : is_tag_level_visible mem lock_ok sys.state level tag with
  | mk b s1 => cases b <;> simp

/-- While all slots of `tag` store a level that lets the message level `m` through and
every lock attempt succeeds, each `log_write(m, tag, ...)` of a sequence of calls reaches the
output function. -/
theorem perform_pinned (mem : Mem) (lock_timeout : Nat → Bool) (m : Nat) (tag : Ptr)
    (lvl : Nat) (hlock : ∀ n, lock_timeout n = true)
    (hvis : should_output m (lvl % 2 ^ 8) = true) :
    ∀ (calls : List Call) (n : Nat) (sys : LogSystem), Pinned sys.state tag lvl →
      (∀ l t f a, Call.log_write l t f a ∈ calls → l = m ∧ t = tag) →
      (perform mem lock_timeout calls n sys).1 = outputs_of sys.s_log_print_func calls ∧
        Pinned (perform mem lock_timeout calls n sys).2.state tag lvl ∧
        (perform mem lock_timeout calls n sys).2.s_log_print_func = sys.s_log_print_func := by
  intro calls
  induction calls with
  | nil =>
    intro n sys hp _
    exact ⟨rfl, hp, rfl⟩
  | cons c rest ih =>
    intro n sys hp hall
    have hrest : ∀ l t f a, Call.log_write l t f a ∈ rest → l = m ∧ t = tag :=
      fun l t f a hin => hall l t f a (List.mem_cons_of_mem _ hin)
    cases c with
    | printf format args =>
      obtain ⟨h1, h2, h3⟩ := ih n sys hp hrest
      simp only [perform, outputs_of]
      exact ⟨by rw [h1], h2, h3⟩
    | log_write l t f a =>
      obtain ⟨hl, ht⟩ := hall l t f a (List.mem_cons_self _ _)
      subst hl
      subst ht
      obtain ⟨hv, hp'⟩ := pinned_lookup mem sys.state l t lvl hp
      rw [hvis] at hv
      have hw : log_write mem (lock_timeout n) sys l t f a =
          ([Output.vprintf_like sys.s_log_print_func f a],
            { state := (is_tag_level_visible mem true sys.state l t).2
              s_log_print_func := sys.s_log_print_func }) := by
        unfold log_write
        rw [log_writev_eq, hlock n, hv]
        simp
      obtain ⟨h1, h2, h3⟩ := ih (n + 1)
        { state := (is_tag_level_visible mem true sys.state l t).2
          s_log_print_func := sys.s_log_print_func } hp' hrest
      simp only [perform, outputs_of, hw]
      exact ⟨by rw [h1]; rfl, h2, h3⟩

theorem output_calls_cons_vprintf_like (func : vprintf_like_t) (format : String)
    (args : va_list) (outs : List Output) :
    output_calls (Output.vprintf_like func format args :: outs) = output_calls outs + 1 := by
  simp [output_calls]

theorem output_calls_cons_printf (format : String) (args : va_list) (outs : List Output) :
    output_calls (Output.printf format args :: outs) = output_calls outs := by
  simp [output_calls]

/-! ## The chunk loop -/

theorem foldlM_ext {α β : Type} (f g : β → α → Option β) :
    ∀ (l : List α), (∀ b a, a ∈ l → f b a = g b a) → ∀ b, l.foldlM f b = l.foldlM g b := by
  intro l
  induction l with
  | nil =>
    intro _ b
    rfl
  | cons a rest ih =>
    intro h b
    rw [List.foldlM_cons, List.foldlM_cons, h b a (List.mem_cons_self _ _)]
    cases g b a with
    | none => rfl
    | some b1 => exact ih (fun b2 a2 h2 => h b2 a2 (List.mem_cons_of_mem _ h2)) b1

/-- The loop makes the calls of line `0`, line `1`, ... of the buffer, one line for every
16 bytes or part thereof, and stops with `buff_len == 0`, when the composition of every
line is defined; this for every bound on the iterations that is at least `buff_len`. -/
theorem log_buffer_loop_eq (line : Nat → List Nat → Nat → Option (List Call))
    (buffer : Nat → Nat) :
    ∀ (n fuel offset buff_len : Nat) (calls : Nat → List Call), 0 < buff_len →
      buff_len ≤ fuel → (buff_len + 15) / 16 = n →
      (∀ j, j < n →
        line (offset + 16 * j)
          ((List.range ((min 16 (buff_len - 16 * j) + 3) / 4 * 4)).map
            (fun i => buffer (offset + 16 * j + i)))
          (min 16 (buff_len - 16 * j)) = some (calls j)) →
      log_buffer_loop line buffer fuel offset buff_len =
        some ((List.range n).flatMap calls, 0) := by
  intro n
  induction n with
  | zero =>
    intro fuel offset buff_len calls h0 _ hn
    omega
  | succ k ih =>
    intro fuel offset buff_len calls h0 hfuel hn hline
    cases fuel with
    | zero => omega
    | succ fuel =>
      rw [List.range_succ_eq_map, List.flatMap_cons, List.flatMap_map]
      have hfirst := hline 0 (by omega)
      simp only [Nat.mul_zero, Nat.add_zero, Nat.sub_zero] at hfirst
      by_cases hbig : buff_len > 16
      · have hmin : min 16 buff_len = 16 := by omega
        have hne : buff_len - 16 ≠ 0 := by omega
        rw [hmin] at hfirst
        have hrec := ih fuel (offset + 16) (buff_len - 16) (fun j => calls (j + 1))
          (by omega) (by omega) (by omega)
          (fun j hj => by
            have h := hline (j + 1) (by omega)
            have e1 : offset + 16 * (j + 1) = offset + 16 + 16 * j := by omega
            have e2 : buff_len - 16 * (j + 1) = buff_len - 16 - 16 * j := by omega
            rw [e1, e2] at h
            exact h)
        simp only [log_buffer_loop, BYTES_PER_LINE, hbig, if_true, hfirst, hne, ne_eq,
          not_false_eq_true, hrec]
      · have hmin : min 16 buff_len = buff_len := by omega
        have hk : k = 0 := by omega
        subst hk
        rw [hmin] at hfirst
        simp only [log_buffer_loop, BYTES_PER_LINE, hbig, if_false, hfirst, Nat.sub_self,
          ne_eq, not_true_eq_false, List.range_zero, List.flatMap_nil, List.append_nil]

/-- The loop stops on its own condition: when it returns, `buff_len` is zero. -/
theorem log_buffer_loop_done (line : Nat → List Nat → Nat → Option (List Call))
    (buffer : Nat → Nat) :
    ∀ (fuel offset buff_len : Nat) (r : List Call × Nat), 0 < buff_len → buff_len ≤ fuel →
      log_buffer_loop line buffer fuel offset buff_len = some r → r.2 = 0 := by
  intro fuel
  induction fuel with
  | zero =>
    intro offset buff_len r h0 hfuel _
    omega
  | succ fuel ih =>
    intro offset buff_len r h0 hfuel h
    rw [log_buffer_loop] at h
    simp only [BYTES_PER_LINE] at h
    cases hl : line offset
        ((List.range (((if buff_len > 16 then 16 else buff_len) + 3) / 4 * 4)).map
          (fun i => buffer (offset + i)))
        (if buff_len > 16 then 16 else buff_len) with
    | none =>
      rw [hl] at h
      cases h
    | some calls =>
      rw [hl] at h
      by_cases hbig : buff_len > 16
      · simp only [hbig, if_true] at h
        have hne : buff_len - 16 ≠ 0 := by omega
        simp only [hne, ne_eq, not_false_eq_true, if_true] at h
        cases hrec : log_buffer_loop line buffer fuel (offset + 16) (buff_len - 16) with
        | none =>
          rw [hrec] at h
          cases h
        | some r1 =>
          rw [hrec] at h
          simp only [Option.some.injEq] at h
          rw [← h]
          exact ih (offset + 16) (buff_len - 16) r1 (by omega) (by omega) hrec
      · simp only [hbig, if_false, Nat.sub_self, ne_eq, not_true_eq_false,
          Option.some.injEq] at h
        rw [← h]

/-- A larger bound on the iterations of the loop changes nothing. -/
theorem log_buffer_loop_fuel (line : Nat → List Nat → Nat → Option (List Call))
    (buffer : Nat → Nat) :
    ∀ (fuel fuel1 offset buff_len : Nat), 0 < buff_len → buff_len ≤ fuel →
      buff_len ≤ fuel1 →
      log_buffer_loop line buffer fuel offset buff_len =
        log_buffer_loop line buffer fuel1 offset buff_len := by
  intro fuel
  induction fuel with
  | zero =>
    intro fuel1 offset buff_len h0 hfuel _
    omega
  | succ fuel ih =>
    intro fuel1 offset buff_len h0 hfuel hfuel1
    cases fuel1 with
    | zero => omega
    | succ fuel1 =>
      rw [log_buffer_loop, log_buffer_loop]
      simp only [BYTES_PER_LINE]
      by_cases hbig : buff_len > 16
      · have hne : buff_len - 16 ≠ 0 := by omega
        simp only [hbig, if_true, hne, ne_eq, not_false_eq_true]
        rw [ih fuel1 (offset + 16) (buff_len - 16) (by omega) (by omega) (by omega)]
      · simp only [hbig, if_false, Nat.sub_self, ne_eq, not_true_eq_false]

theorem length_spec_chunk (buffer : Nat → Nat) (len j : Nat) :
    (spec_chunk buffer len j).length = min 16 (len - 16 * j) := by
  unfold spec_chunk
  rw [List.length_map, List.length_range]
  omega

/-- The bytes that `memcpy` has put into `temp_buffer`, up to `bytes_cur_line`, are the
chunk of the line. -/
theorem take_temp_buffer (buffer : Nat → Nat) (len j : Nat) :
    ((List.range ((min 16 (len - 16 * j) + 3) / 4 * 4)).map
      (fun i => buffer (0 + 16 * j + i))).take (min 16 (len - 16 * j)) =
      spec_chunk buffer len j := by
  unfold spec_chunk
  rw [← List.map_take, List.take_range]
  have e1 : min (min 16 (len - 16 * j)) ((min 16 (len - 16 * j) + 3) / 4 * 4) =
      min (16 * j + 16) len - 16 * j := by omega
  rw [e1]
  simp only [Nat.zero_add]

theorem getD_take (l : List Nat) (n i : Nat) (h : i < n) :
    (l.take n).getD i 0 = l.getD i 0 := by
  rw [List.getD_eq_getElem?_getD, List.getD_eq_getElem?_getD, List.getElem?_take_of_lt h]

/-- The hex line reads `ptr_line[i]` for `i < bytes_cur_line` only. -/
theorem hex_line_take (t : Target) (l : List Nat) (n : Nat) :
    hex_line t l n = hex_line t (l.take n) n := by
  unfold hex_line
  congr 1
  apply foldlM_ext
  intro a i hi
  rw [getD_take l n i (List.mem_range.mp hi)]

/-- The char line reads `ptr_line[i]` for `i < bytes_cur_line` only. -/
theorem char_line_take (t : Target) (l : List Nat) (n : Nat) :
    char_line t l n = char_line t (l.take n) n := by
  unfold char_line
  congr 1
  apply foldlM_ext
  intro a i hi
  rw [getD_take l n i (List.mem_range.mp hi)]

/-- The hexdump line reads `ptr_line[i]` for `i < bytes_cur_line` only. -/
theorem hexdump_compose_take (t : Target) (addr offset : Nat) (l : List Nat) (n : Nat) :
    hexdump_compose t addr offset l n = hexdump_compose t addr offset (l.take n) n := by
  unfold hexdump_compose
  have h1 : ∀ hd0 : List Char × Nat,
      (List.range BYTES_PER_LINE).foldlM (hexdump_cell_step t l n) hd0 =
      (List.range BYTES_PER_LINE).foldlM (hexdump_cell_step t (l.take n) n) hd0 := by
    apply foldlM_ext
    intro a i _
    unfold hexdump_cell_step
    by_cases hi : i < n
    · rw [getD_take l n i hi]
    · simp only [hi, if_false]
  have h2 : ∀ hd0 : List Char × Nat,
      (List.range n).foldlM (hexdump_region_step t l) hd0 =
      (List.range n).foldlM (hexdump_region_step t (l.take n)) hd0 := by
    apply foldlM_ext
    intro a i hi
    unfold hexdump_region_step
    rw [getD_take l n i (List.mem_range.mp hi)]
  simp only [h1, h2]

theorem hexdump_line_take (t : Target) (addr offset : Nat) (l : List Nat) (n : Nat) :
    hexdump_line t addr offset l n = hexdump_line t addr offset (l.take n) n := by
  unfold hexdump_line
  rw [hexdump_compose_take]

/-- The calls of `log_buffer_hex_internal`, when the hex line of every chunk is defined:
one `log_write` of the hex line of each chunk of the buffer, in order. -/
theorem log_buffer_hex_internal_eq (t : Target) (tag : Ptr) (buffer : Nat → Nat)
    (len level : Nat) (lines : Nat → String) (hlen : len < 2 ^ 16)
    (hline : ∀ j, j < (len + 15) / 16 →
      hex_line t (spec_chunk buffer len j) (spec_chunk buffer len j).length =
        some (lines j)) :
    log_buffer_hex_internal t tag buffer len level =
      some ((List.range ((len + 15) / 16)).map (fun j =>
        Call.log_write level tag "%s\n" [Arg.str (lines j)])) := by
  unfold log_buffer_hex_internal
  rw [Nat.mod_eq_of_lt hlen]
  by_cases h0 : len = 0
  · subst h0
    rfl
  · have h := log_buffer_loop_eq (fun _ => hex_line_calls t tag level) buffer _ len 0 len
      (fun j => [Call.log_write level tag "%s\n" [Arg.str (lines j)]]) (by omega)
      (Nat.le_refl _) rfl
      (fun j hj => by
        show hex_line_calls t tag level _ _ = _
        unfold hex_line_calls
        rw [hex_line_take, take_temp_buffer, ← length_spec_chunk buffer, hline j hj]
        rfl)
    rw [if_neg h0, h, List.map_eq_flatMap]
    rfl

/-- The calls of `log_buffer_char_internal`, when the char line of every chunk is defined:
one `log_write` of the char line of each chunk of the buffer, in order. -/
theorem log_buffer_char_internal_eq (t : Target) (tag : Ptr) (buffer : Nat → Nat)
    (len level : Nat) (lines : Nat → String) (hlen : len < 2 ^ 16)
    (hline : ∀ j, j < (len + 15) / 16 →
      char_line t (spec_chunk buffer len j) (spec_chunk buffer len j).length =
        some (lines j)) :
    log_buffer_char_internal t tag buffer len level =
      some ((List.range ((len + 15) / 16)).map (fun j =>
        Call.log_write level tag "%s\n" [Arg.str (lines j)])) := by
  unfold log_buffer_char_internal
  rw [Nat.mod_eq_of_lt hlen]
  by_cases h0 : len = 0
  · subst h0
    rfl
  · have h := log_buffer_loop_eq (fun _ => char_line_calls t tag level) buffer _ len 0 len
      (fun j => [Call.log_write level tag "%s\n" [Arg.str (lines j)]]) (by omega)
      (Nat.le_refl _) rfl
      (fun j hj => by
        show char_line_calls t tag level _ _ = _
        unfold char_line_calls
        rw [char_line_take, take_temp_buffer, ← length_spec_chunk buffer, hline j hj]
        rfl)
    rw [if_neg h0, h, List.map_eq_flatMap]
    rfl

/-- The calls of `log_buffer_hexdump_internal`, when the composition of every line is
defined: for each chunk of the buffer, in order, the `printf` of the line length and the
`log_write` of the hexdump line of the chunk. -/
theorem log_buffer_hexdump_internal_eq (t : Target) (tag : Ptr) (addr : Nat)
    (buffer : Nat → Nat) (len level : Nat) (hd : Nat → List Char × Nat)
    (hlen : len < 2 ^ 16)
    (hline : ∀ j, j < (len + 15) / 16 →
      hexdump_compose t addr (16 * j) (spec_chunk buffer len j)
        (spec_chunk buffer len j).length = some (hd j)) :
    log_buffer_hexdump_internal t tag addr buffer len level =
      some ((List.range ((len + 15) / 16)).flatMap (fun j =>
        [Call.printf "printing %d out of %d\r\n"
            [Arg.int (hd j).2,
              Arg.int (t.sizeof_ptr + 3 + 10 + 3 + BYTES_PER_LINE * 3 + 3 + 1 +
                BYTES_PER_LINE + 1 + 3 : Nat)],
          Call.log_write level tag "%s\n" [Arg.str (String.mk (c_string (hd j).1))]])) := by
  unfold log_buffer_hexdump_internal
  rw [Nat.mod_eq_of_lt hlen]
  by_cases h0 : len = 0
  · subst h0
    rfl
  · have h := log_buffer_loop_eq (hexdump_line_calls t tag addr level) buffer _ len 0 len
      (fun j =>
        [Call.printf "printing %d out of %d\r\n"
            [Arg.int (hd j).2,
              Arg.int (t.sizeof_ptr + 3 + 10 + 3 + BYTES_PER_LINE * 3 + 3 + 1 +
                BYTES_PER_LINE + 1 + 3 : Nat)],
          Call.log_write level tag "%s\n" [Arg.str (String.mk (c_string (hd j).1))]])
      (by omega) (Nat.le_refl _) rfl
      (fun j hj => by
        unfold hexdump_line_calls hexdump_line
        rw [hexdump_compose_take]
        have e := take_temp_buffer buffer len j
        rw [e, ← length_spec_chunk buffer, Nat.zero_add, hline j hj]
        rfl)
    rw [if_neg h0, h]
    rfl

/-- The chunks of the first `n` lines, one after the other, are the first `16 n` bytes
of the buffer (all of them, once `16 n` reaches its length). -/
theorem flatMap_spec_chunk (buffer : Nat → Nat) (len n : Nat) :
    (List.range n).flatMap (spec_chunk buffer len) =
      (List.range (min (16 * n) len)).map buffer := by
  induction n with
  | zero => simp
  | succ n ih =>
    rw [List.range_succ, List.flatMap_append, ih, List.flatMap_singleton]
    unfold spec_chunk
    have e1 : min (16 * (n + 1)) len =
        min (16 * n) len + (min (16 * n + 16) len - 16 * n) := by omega
    rw [e1, List.range_add, List.map_append, List.map_map]
    congr 1
    by_cases hle : len ≤ 16 * n
    · have e2 : min (16 * n + 16) len - 16 * n = 0 := by omega
      rw [e2]
      rfl
    · have e3 : min (16 * n) len = 16 * n := by omega
      rw [e3]
      rfl

/-! ## The buffer writers -/

theorem log_write_buffer_hex_eq (t : Target) (mem : Mem) (lock_timeout : Nat → Bool)
    (sys : LogSystem) (level : Nat) (tag : Ptr) (buffer : Nat → Nat) (buff_len : Nat) :
    log_write_buffer_hex t mem lock_timeout sys level tag buffer buff_len =
      if (is_tag_level_visible mem (lock_timeout 0) sys.state level tag).1 = true then
        (log_buffer_hex_internal t tag buffer (buff_len % 2 ^ 16) level).map (fun calls =>
          perform mem lock_timeout calls 1
            { state := (is_tag_level_visible mem (lock_timeout 0) sys.state level tag).2
              s_log_print_func := sys.s_log_print_func })
      else
        some ([], { state := (is_tag_level_visible mem (lock_timeout 0) sys.state level tag).2
                    s_log_print_func := sys.s_log_print_func }) := by
  unfold log_write_buffer_hex
  cases hv : is_tag_level_visible mem (lock_timeout 0) sys.state level tag with
  | mk b s1 => cases b <;> simp

theorem log_write_buffer_char_eq (t : Target) (mem : Mem) (lock_timeout : Nat → Bool)
    (sys : LogSystem) (level : Nat) (tag : Ptr) (buffer : Nat → Nat) (buff_len : Nat) :
    log_write_buffer_char t mem lock_timeout sys level tag buffer buff_len =
      if (is_tag_level_visible mem (lock_timeout 0) sys.state level tag).1 = true then
        (log_buffer_char_internal t tag buffer (buff_len % 2 ^ 16) level).map (fun calls =>
          perform mem lock_timeout calls 1
            { state := (is_tag_level_visible mem (lock_timeout 0) sys.state level tag).2
              s_log_print_func := sys.s_log_print_func })
      else
        some ([], { state := (is_tag_level_visible mem (lock_timeout 0) sys.state level tag).2
                    s_log_print_func := sys.s_log_print_func }) := by
  unfold log_write_buffer_char
  cases hv : is_tag_level_visible mem (lock_timeout 0) sys.state level tag with
  | mk b s1 => cases b <;> simp

theorem log_write_buffer_hexdump_eq (t : Target) (mem : Mem) (lock_timeout : Nat → Bool)
    (sys : LogSystem) (level : Nat) (tag : Ptr) (addr : Nat) (buffer : Nat → Nat)
    (buff_len : Nat) :
    log_write_buffer_hexdump t mem lock_timeout sys level tag addr buffer buff_len =
      if (is_tag_level_visible mem (lock_timeout 0) sys.state level tag).1 = true then
        (log_buffer_hexdump_internal t tag addr buffer (buff_len % 2 ^ 16) level).map
          (fun calls =>
            perform mem lock_timeout calls 1
              { state := (is_tag_level_visible mem (lock_timeout 0) sys.state level tag).2
                s_log_print_func := sys.s_log_print_func })
      else
        some ([], { state := (is_tag_level_visible mem (lock_timeout 0) sys.state level tag).2
                    s_log_print_func := sys.s_log_print_func }) := by
  unfold log_write_buffer_hexdump
  cases hv : is_tag_level_visible mem (lock_timeout 0) sys.state level tag with
  | mk b s1 => cases b <;> simp

/-- After a visible entry check in a reachable state, with every lock attempt succeeding
and a resolved level that fits the three bits of the cache, each `log_write(m, tag, ...)`
of the formatter reaches the output function. -/
theorem perform_after_visible (mem : Mem) (lock_timeout : Nat → Bool) (k : Nat)
    (sys : LogSystem) (m : Nat) (tag : Ptr) (calls : List Call)
    (hr : Reach mem k sys.state) (hlock : ∀ n, lock_timeout n = true)
    (hres : resolved_level mem sys.state tag < 2 ^ 3)
    (hcalls : ∀ l t f a, Call.log_write l t f a ∈ calls → l = m ∧ t = tag)
    (hvis : (is_tag_level_visible mem true sys.state m tag).1 = true) :
    (perform mem lock_timeout calls 1
      { state := (is_tag_level_visible mem true sys.state m tag).2
        s_log_print_func := sys.s_log_print_func }).1 =
      outputs_of sys.s_log_print_func calls := by
  obtain ⟨lvl, hp, hv⟩ := pinned_after_lookup mem k sys.state m tag hr hres
  rw [hvis] at hv
  exact (perform_pinned mem lock_timeout m tag lvl hlock hv.symm calls 1
    { state := (is_tag_level_visible mem true sys.state m tag).2
      s_log_print_func := sys.s_log_print_func } hp hcalls).1

theorem outputs_of_log_writes (func : vprintf_like_t) (level : Nat) (tag : Ptr)
    (format : Nat → String) (args : Nat → va_list) (l : List Nat) :
    outputs_of func (l.map (fun j => Call.log_write level tag (format j) (args j))) =
      l.map (fun j => Output.vprintf_like func (format j) (args j)) := by
  induction l with
  | nil => rfl
  | cons j rest ih =>
    simp only [List.map_cons, outputs_of]
    rw [ih]

theorem output_calls_vprintf_likes (func : vprintf_like_t) (format : Nat → String)
    (args : Nat → va_list) (l : List Nat) :
    output_calls (l.map (fun j => Output.vprintf_like func (format j) (args j))) =
      l.length := by
  induction l with
  | nil => rfl
  | cons j rest ih =>
    rw [List.map_cons, output_calls_cons_vprintf_like, ih, List.length_cons]

theorem output_calls_printf_log_writes (func : vprintf_like_t) (level : Nat) (tag : Ptr)
    (pformat : Nat → String) (pargs : Nat → va_list) (format : Nat → String)
    (args : Nat → va_list) (l : List Nat) :
    output_calls (outputs_of func (l.flatMap (fun j =>
      [Call.printf (pformat j) (pargs j), Call.log_write level tag (format j) (args j)]))) =
      l.length := by
  induction l with
  | nil => rfl
  | cons j rest ih =>
    rw [List.flatMap_cons]
    show output_calls (Output.printf (pformat j) (pargs j) ::
      Output.vprintf_like func (format j) (args j) ::
        outputs_of func (rest.flatMap (fun j =>
          [Call.printf (pformat j) (pargs j),
            Call.log_write level tag (format j) (args j)]))) = _
    rw [output_calls_cons_printf, output_calls_cons_vprintf_like, ih, List.length_cons]

/-! ## The level that a lookup leaves in the cache -/

/-- The level field of every occupied slot of a reachable state is within its 3 bits. -/
theorem cached_level_lt_of_reach (mem : Mem) (k : Nat) (s : LogState) (h : Reach mem k s) :
    ∀ i, i < s.s_log_cache_entry_count → (cache_at s.s_log_cache i).level < 2 ^ 3 := by
  induction h with
  | init d =>
    intro i hi
    exact absurd hi (Nat.not_lt_zero i)
  | level_set k s malloc_ok tag level hr ih =>
    by_cases hw : mem tag = "*"
    · rw [log_level_set_wildcard mem malloc_ok s tag level hw]
      intro i hi
      exact absurd hi (Nat.not_lt_zero i)
    · by_cases hf : (!(update_existing_tag mem s.s_log_tags tag level).2 && !malloc_ok) = true
      · rw [log_level_set_malloc_failed mem malloc_ok s tag level hw hf]
        exact ih
      · rw [log_level_set_stored mem malloc_ok s tag level hw hf]
        intro i hi
        rcases update_cached_level_at mem s.s_log_cache s.s_log_cache_entry_count tag level i
          with he | ⟨_, _, he⟩
        · simp only []
          rw [he]
          exact ih i hi
        · simp only []
          rw [he]
          exact Nat.mod_lt _ (by decide)
  | visible k s lock_ok level tag hr ih =>
    have hinv := cacheInv_of_reach mem k s hr
    cases lock_ok with
    | false => exact ih
    | true =>
      cases hg : (get_cached_log_level s tag).1 with
      | none =>
        rw [is_tag_level_visible_miss mem s level tag hg]
        exact occupied_add_to_cache (fun e => e.level < 2 ^ 3) s tag _ hinv.len hinv.count_le
          (Nat.mod_lt _ (by decide)) ih
      | some l =>
        rw [is_tag_level_visible_hit mem s level tag l hg]
        exact occupied_get_cached_log_level (fun e => e.level < 2 ^ 3) s tag hinv.len
          (fun e g he => he) ih

theorem is_tag_level_visible_level_for_tag (mem : Mem) (s : LogState) (m : Nat) (tag : Ptr) :
    (is_tag_level_visible mem true s m tag).1 = should_output m (level_for_tag mem s tag) := by
  unfold level_for_tag
  cases hg : (get_cached_log_level s tag).1 with
  | none =>
    rw [is_tag_level_visible_of_miss mem s m tag hg]
    rfl
  | some l =>
    rw [is_tag_level_visible_hit mem s m tag l hg]

/-- When all slots of a tag store `lvl`, the cache lookup of the tag hits and returns
`lvl`. -/
theorem pinned_get_cached (s : LogState) (tag : Ptr) (lvl : Nat) (h : Pinned s tag lvl) :
    (get_cached_log_level s tag).1 = some (lvl % 2 ^ 8) := by
  cases hg : (get_cached_log_level s tag).1 with
  | none =>
    obtain ⟨i, hi, hit⟩ := h.cached
    exact absurd hit ((get_cached_log_level_none_iff s tag).mp hg i hi)
  | some l =>
    obtain ⟨i, hi, hit, -, hl⟩ := get_cached_log_level_some s tag l hg
    rw [h.level_eq i hi hit] at hl
    rw [hl]

/-- After a lookup in a reachable state, lock taken, with a level within `0 .. 7`, all
slots of the tag store the `level_for_tag` of the lookup. -/
theorem pinned_level_for_tag (mem : Mem) (k : Nat) (s : LogState) (m : Nat) (tag : Ptr)
    (hr : Reach mem k s) (hres : resolved_level mem s tag < 2 ^ 3) :
    Pinned (is_tag_level_visible mem true s m tag).2 tag (level_for_tag mem s tag) := by
  have hinv := cacheInv_of_reach mem k s hr
  unfold level_for_tag
  cases hg : (get_cached_log_level s tag).1 with
  | none =>
    have hinv' := cacheInv_of_reach mem _ _ (Reach.visible k s true m tag hr)
    have e1 : resolved_level mem s tag % 2 ^ 3 = resolved_level mem s tag :=
      Nat.mod_eq_of_lt hres
    simp only []
    refine
      { len := hinv'.len
        count_le := hinv'.count_le
        cached := ?_
        level_eq := ?_ }
    · rw [is_tag_level_visible_miss mem s m tag hg]
      exact cached_add_to_cache s tag _ hinv.len hinv.count_le
    · rw [is_tag_level_visible_miss mem s m tag hg]
      apply occupied_add_to_cache (fun e => e.tag = tag →
        e.level = resolved_level mem s tag) s tag _ hinv.len hinv.count_le
      · intro _
        exact e1
      · intro i hi hit
        exact absurd hit ((get_cached_log_level_none_iff s tag).mp hg i hi)
  | some l =>
    obtain ⟨i, hi, hit, -, hl⟩ := get_cached_log_level_some s tag l hg
    have hd := tagsDistinct_of_reach mem k s hr
    have hsmall := cached_level_lt_of_reach mem k s hr i hi
    have hl' : l = (cache_at s.s_log_cache i).level := by omega
    have hp : Pinned s tag l :=
      { len := hinv.len
        count_le := hinv.count_le
        cached := ⟨i, hi, hit⟩
        level_eq := by
          intro j hj hjt
          have : j = i := tagsDistinct_index s hd (by rw [hinv.len]; exact hinv.count_le) j i
            hj hi (by rw [hjt, hit])
          rw [this, hl'] }
    simp only []
    exact (pinned_lookup mem s m tag l hp).2

/-! ## Stores into a character array -/

theorem length_store (cs : List Char) :
    ∀ (buf : List Char) (pos : Nat), (store buf pos cs).length = buf.length := by
  induction cs with
  | nil =>
    intro buf pos
    rfl
  | cons ch cs ih =>
    intro buf pos
    simp only [store]
    rw [ih, List.length_set]

/-- A store within the array replaces the cells from `pos` on and nothing else. -/
theorem store_eq (cs : List Char) :
    ∀ (buf : List Char) (pos : Nat), pos + cs.length ≤ buf.length →
      store buf pos cs = buf.take pos ++ cs ++ buf.drop (pos + cs.length) := by
  induction cs with
  | nil =>
    intro buf pos _
    simp [store]
  | cons ch cs ih =>
    intro buf pos h
    simp only [List.length_cons] at h
    have hpos : pos < buf.length := by omega
    simp only [store]
    rw [ih (buf.set pos ch) (pos + 1) (by rw [List.length_set]; omega)]
    have e1 : (buf.set pos ch).take (pos + 1) = buf.take pos ++ [ch] := by
      rw [List.take_succ, List.set_take,
        List.set_eq_of_length_le (by rw [List.length_take]; omega),
        List.getElem?_set_self hpos]
      rfl
    have e2 : (buf.set pos ch).drop (pos + 1 + cs.length) = buf.drop (pos + 1 + cs.length) :=
      List.drop_set_of_lt ch buf (by omega)
    rw [e1, e2]
    simp only [List.length_cons, List.append_assoc, List.singleton_append]
    have e3 : pos + (cs.length + 1) = pos + 1 + cs.length := by omega
    rw [e3]

/-- A `sprintf` at the end of the text composed so far, in an array that is zero from there
on: the new text is appended, and the array is zero after it. -/
theorem sprintf_append (text new : List Char) (k : Nat) (h : new.length + 1 ≤ k) :
    sprintf (text ++ List.replicate k NUL) text.length new =
      some ((text ++ new) ++ List.replicate (k - new.length) NUL) := by
  unfold sprintf
  rw [if_pos (by simp only [List.length_append, List.length_replicate]; omega),
    store_eq _ _ _ (by simp only [List.length_append, List.length_replicate,
    List.length_singleton]; omega)]
  rw [List.take_left]
  have e1 : text.length + (new ++ [NUL]).length = text.length + (new.length + 1) := by
    simp
  rw [e1, List.drop_append, List.drop_replicate]
  have e2 : List.replicate (k - new.length) NUL =
      NUL :: List.replicate (k - (new.length + 1)) NUL := by
    have : k - new.length = (k - (new.length + 1)) + 1 := by omega
    rw [this, List.replicate_succ]
  rw [e2]
  simp

/-- The C string at the start of a text followed by at least one zero is the C string at the
start of the text. -/
theorem c_string_append_zeros (text : List Char) (k : Nat) (hk : 1 ≤ k) :
    c_string (text ++ List.replicate k NUL) = c_string text := by
  unfold c_string
  induction text with
  | nil =>
    obtain ⟨k', rfl⟩ : ∃ k', k = k' + 1 := ⟨k - 1, by omega⟩
    simp [List.replicate_succ, List.takeWhile_cons]
  | cons ch rest ih =>
    simp only [List.cons_append, List.takeWhile_cons]
    split_ifs
    · rw [ih]
    · rfl

theorem c_string_of_no_zero (text : List Char) (h : NUL ∉ text) : c_string text = text := by
  unfold c_string
  rw [List.takeWhile_eq_self_iff]
  intro x hx
  simp only [bne_iff_ne, ne_eq]
  intro e
  exact h (e ▸ hx)

/-! ## Digits -/

theorem digitChar_ne_NUL (d : Nat) (h : d < 16) : Nat.digitChar d ≠ NUL := by
  have key : ∀ x : Fin 16, Nat.digitChar x.val ≠ NUL := by decide
  exact key ⟨d, h⟩

theorem digitChar_toUpper_ne_NUL (d : Nat) (h : d < 16) :
    (Nat.digitChar d).toUpper ≠ NUL := by
  have key : ∀ x : Fin 16, (Nat.digitChar x.val).toUpper ≠ NUL := by decide
  exact key ⟨d, h⟩

theorem mem_toDigitsCore (b : Nat) (hb : 0 < b) :
    ∀ (fuel n : Nat) (acc : List Char) (ch : Char), ch ∈ Nat.toDigitsCore b fuel n acc →
      ch ∈ acc ∨ ∃ d, d < b ∧ ch = Nat.digitChar d := by
  intro fuel
  induction fuel with
  | zero =>
    intro n acc ch h
    simp only [Nat.toDigitsCore] at h
    exact Or.inl h
  | succ fuel ih =>
    intro n acc ch h
    simp only [Nat.toDigitsCore] at h
    split_ifs at h
    · rcases List.mem_cons.mp h with h1 | h1
      · exact Or.inr ⟨_, Nat.mod_lt _ hb, h1⟩
      · exact Or.inl h1
    · rcases ih _ _ _ h with h1 | h1
      · rcases List.mem_cons.mp h1 with h2 | h2
        · exact Or.inr ⟨_, Nat.mod_lt _ hb, h2⟩
        · exact Or.inl h2
      · exact Or.inr h1

theorem mem_toDigits (b n : Nat) (hb : 0 < b) (ch : Char) (h : ch ∈ Nat.toDigits b n) :
    ∃ d, d < b ∧ ch = Nat.digitChar d := by
  unfold Nat.toDigits at h
  rcases mem_toDigitsCore b hb _ _ _ _ h with h1 | h1
  · exact absurd h1 (List.not_mem_nil _)
  · exact h1

theorem NUL_not_mem_fmt_x (width n : Nat) : NUL ∉ fmt_x width n := by
  unfold fmt_x
  intro h
  rcases List.mem_append.mp h with h1 | h1
  · have := List.eq_of_mem_replicate h1
    exact absurd this (by decide)
  · obtain ⟨d, hlt, hd⟩ := mem_toDigits 16 n (by decide) NUL h1
    exact digitChar_ne_NUL d hlt hd.symm

theorem NUL_not_mem_fmt_X (width n : Nat) : NUL ∉ fmt_X width n := by
  unfold fmt_X fmt_x
  intro h
  obtain ⟨ch, hch, hup⟩ := List.mem_map.mp h
  rcases List.mem_append.mp hch with h1 | h1
  · have := List.eq_of_mem_replicate h1
    rw [this] at hup
    exact absurd hup (by decide)
  · obtain ⟨d, hlt, hd⟩ := mem_toDigits 16 n (by decide) ch h1
    rw [hd] at hup
    exact digitChar_toUpper_ne_NUL d hlt hup

/-- The text of `%08X` has eight characters as long as the value has at most eight
hexadecimal digits. -/
theorem length_fmt_X_8 (n : Nat) (h : n < 16 ^ 8) : (fmt_X 8 n).length = 8 := by
  unfold fmt_X fmt_x
  have hl : (Nat.toDigits 16 n).length ≤ 8 := by
    unfold Nat.toDigits
    exact Nat.toDigitsCore_length 16 (by decide) _ n 8 h (by decide)
  rw [List.length_map, List.length_append, List.length_replicate]
  omega

set_option maxRecDepth 100000 in
/-- The text of `%02x` for a value below 256: its two lowercase hexadecimal digits. -/
theorem fmt_x_2_byte (b : Nat) (h : b < 256) : fmt_x 2 b = spec_hex2 b := by
  have key : ∀ x : Fin 256, fmt_x 2 x.val = spec_hex2 x.val := by decide
  exact key ⟨b, h⟩

/-- The value that `%02x` and `%c` receive for a byte below `0x80`, and for any byte where
plain `char` is unsigned: the byte. -/
theorem promote_char_small (t : Target) (b : Nat)
    (h : t.char_signed = false ∨ b < 128) : promote_char t b = (b : Int) := by
  unfold promote_char
  rcases h with h | h
  · rw [h]
    rfl
  · have : ¬ 128 ≤ b := by omega
    simp [this]

theorem to_unsigned_byte (t : Target) (b : Nat) (hb : b < 256) (hbits : 8 ≤ t.int_bits) :
    to_unsigned t (b : Int) = b := by
  unfold to_unsigned
  have h1 : (2 : Int) ^ t.int_bits = ((2 ^ t.int_bits : Nat) : Int) := by push_cast; rfl
  have h2 : 2 ^ 8 ≤ 2 ^ t.int_bits := Nat.pow_le_pow_right (by decide) hbits
  rw [h1, ← Int.ofNat_emod, Int.toNat_ofNat, Nat.mod_eq_of_lt (by omega)]

theorem to_uchar_promote_char (t : Target) (b : Nat) (hb : b < 256) :
    to_uchar (promote_char t b) = b := by
  unfold to_uchar promote_char
  split_ifs <;> omega

theorem isprint_promote_char (t : Target) (b : Nat) (hb : b < 256) :
    isprint (promote_char t b) = decide (32 ≤ b ∧ b ≤ 126) := by
  unfold isprint promote_char
  split_ifs with h
  · simp only [Bool.and_eq_true, decide_eq_true_eq] at h
    have h2 := h.2
    rw [decide_eq_decide]
    omega
  · rw [decide_eq_decide]
    omega

/-! ## The hex line and the char line -/

theorem map_range_getD (l : List Nat) :
    (List.range l.length).map (fun i => l.getD i 0) = l := by
  apply List.ext_getElem
  · simp
  · intro i h1 h2
    simp only [List.getElem_map, List.getElem_range]
    rw [List.getD_eq_getElem?_getD, List.getElem?_eq_getElem h2]
    rfl

theorem flatMap_range_getD (l : List Nat) (f : Nat → List Char) :
    (List.range l.length).flatMap (fun i => f (l.getD i 0)) = l.flatMap f := by
  have h := List.flatMap_map (fun i => l.getD i 0) f (List.range l.length)
  rw [map_range_getD] at h
  exact h.symm

theorem length_flatMap_range (cell : Nat → List Char) (w : Nat) :
    ∀ n, (∀ i, i < n → (cell i).length = w) →
      ((List.range n).flatMap cell).length = w * n := by
  intro n
  induction n with
  | zero =>
    intro _
    rfl
  | succ n ih =>
    intro h
    rw [List.range_succ, List.flatMap_append, List.flatMap_singleton, List.length_append,
      ih (fun i hi => h i (by omega)), h n (by omega)]
    rw [Nat.mul_succ]

/-- The loop `sprintf(buf + w * i, ...)` for `i < n` on a zero-filled array of `size` cells,
when every conversion gives `w` characters and the array has room: the texts one after the
other, and zeros after them. -/
theorem sprintf_stride (cell : Nat → List Char) (w size : Nat) :
    ∀ n, w * n + 1 ≤ size → (∀ i, i < n → (cell i).length = w) →
      (List.range n).foldlM (fun buf i => sprintf buf (w * i) (cell i))
          (List.replicate size NUL) =
        some ((List.range n).flatMap cell ++ List.replicate (size - w * n) NUL) := by
  intro n
  induction n with
  | zero =>
    intro _ _
    simp
  | succ n ih =>
    intro hsize hcell
    have hle : w * n + w = w * (n + 1) := by rw [Nat.mul_succ]
    rw [List.range_succ, List.foldlM_append, ih (by omega) (fun i hi => hcell i (by omega))]
    have hlen := length_flatMap_range cell w n (fun i hi => hcell i (by omega))
    have hw := hcell n (by omega)
    simp only [List.foldlM_cons, List.foldlM_nil, Option.bind_eq_bind, Option.some_bind,
      bind_pure]
    rw [← hlen, sprintf_append _ _ _ (by rw [hw, hlen]; omega), List.flatMap_append,
      List.flatMap_singleton, hw, hlen]
    have e : size - w * n - w = size - w * (n + 1) := by omega
    rw [e]

/-- The hex line of a chunk whose bytes all render as two digits: the digits and a space,
byte after byte. -/
theorem hex_line_eq (t : Target) (l : List Nat) (n : Nat) (hn : n ≤ 16)
    (hcell : ∀ i, i < n →
      (fmt_x 2 (to_unsigned t (promote_char t (l.getD i 0)))).length = 2) :
    hex_line t l n =
      some (String.mk ((List.range n).flatMap (fun i =>
        fmt_x 2 (to_unsigned t (promote_char t (l.getD i 0))) ++ [Char.ofNat 32]))) := by
  unfold hex_line
  have h := sprintf_stride
    (fun i => fmt_x 2 (to_unsigned t (promote_char t (l.getD i 0))) ++ [Char.ofNat 32])
    3 (3 * BYTES_PER_LINE + 1) n (by unfold BYTES_PER_LINE; omega)
    (fun i hi => by rw [List.length_append, hcell i hi]; rfl)
  rw [h, Option.map_some', c_string_append_zeros _ _ (by unfold BYTES_PER_LINE; omega),
    c_string_of_no_zero]
  intro hmem
  obtain ⟨i, _, hi⟩ := List.mem_flatMap.mp hmem
  rcases List.mem_append.mp hi with h1 | h1
  · exact NUL_not_mem_fmt_x _ _ h1
  · rw [List.mem_singleton] at h1
    exact absurd h1 (by decide)

/-- On a target where plain `char` is unsigned, and on any target for bytes below `0x80`,
the hex line of a chunk is the text that the spec gives it, of three characters a byte. -/
theorem hex_line_eq_spec (t : Target) (chunk : List Nat) (hn : chunk.length ≤ 16)
    (hb : ∀ b, b ∈ chunk → b < 256)
    (hs : t.char_signed = false ∨ ∀ b, b ∈ chunk → b < 128) (hbits : 8 ≤ t.int_bits) :
    hex_line t chunk chunk.length = some (String.mk (spec_hex_text chunk)) ∧
      (spec_hex_text chunk).length = 3 * chunk.length := by
  have hval : ∀ b, b ∈ chunk → fmt_x 2 (to_unsigned t (promote_char t b)) = spec_hex2 b := by
    intro b hmem
    have hsmall : t.char_signed = false ∨ b < 128 := by
      rcases hs with h | h
      · exact Or.inl h
      · exact Or.inr (h b hmem)
    rw [promote_char_small t b hsmall, to_unsigned_byte t b (hb b hmem) hbits,
      fmt_x_2_byte b (hb b hmem)]
  have hmemi : ∀ i, i < chunk.length → chunk.getD i 0 ∈ chunk := by
    intro i hi
    rw [List.getD_eq_getElem?_getD, List.getElem?_eq_getElem hi]
    exact List.getElem_mem hi
  constructor
  · rw [hex_line_eq t chunk chunk.length hn (fun i hi => by rw [hval _ (hmemi i hi)]; rfl),
      flatMap_range_getD chunk
        (fun b => fmt_x 2 (to_unsigned t (promote_char t b)) ++ [Char.ofNat 32])]
    unfold spec_hex_text
    congr 2
    apply List.flatMap_congr
    intro b hmem
    rw [hval b hmem]
    rfl
  · unfold spec_hex_text
    rw [← flatMap_range_getD chunk (fun b => spec_hex2 b ++ " ".toList),
      length_flatMap_range (fun i => spec_hex2 (chunk.getD i 0) ++ " ".toList) 3
        chunk.length (fun i _ => rfl)]

set_option maxRecDepth 100000 in
theorem char_ofNat_eq_NUL (b : Nat) (hb : b < 256) : Char.ofNat b = NUL ↔ b = 0 := by
  have key : ∀ x : Fin 256, Char.ofNat x.val = NUL ↔ x.val = 0 := by decide
  exact key ⟨b, hb⟩

/-- The char line of a chunk: its bytes as characters, up to the first zero byte (which
ends the C string). -/
theorem char_line_eq (t : Target) (chunk : List Nat) (hn : chunk.length ≤ 16)
    (hb : ∀ b, b ∈ chunk → b < 256) :
    char_line t chunk chunk.length =
      some (String.mk ((chunk.takeWhile (fun b => b != 0)).map Char.ofNat)) := by
  unfold char_line
  have hmemi : ∀ i, i < chunk.length → chunk.getD i 0 ∈ chunk := by
    intro i hi
    rw [List.getD_eq_getElem?_getD, List.getElem?_eq_getElem hi]
    exact List.getElem_mem hi
  have hfold : (List.range chunk.length).foldlM
      (fun char_buffer i =>
        sprintf char_buffer i [Char.ofNat (to_uchar (promote_char t (chunk.getD i 0)))])
      (List.replicate (BYTES_PER_LINE + 1) NUL) =
      (List.range chunk.length).foldlM
        (fun buf i => sprintf buf (1 * i) [Char.ofNat (chunk.getD i 0)])
        (List.replicate (BYTES_PER_LINE + 1) NUL) := by
    apply foldlM_ext
    intro a i hi
    rw [to_uchar_promote_char t _ (hb _ (hmemi i (List.mem_range.mp hi))), Nat.one_mul]
  rw [hfold, sprintf_stride (fun i => [Char.ofNat (chunk.getD i 0)]) 1 (BYTES_PER_LINE + 1)
    chunk.length (by unfold BYTES_PER_LINE; omega) (fun i _ => rfl), Option.map_some',
    c_string_append_zeros _ _ (by unfold BYTES_PER_LINE; omega),
    flatMap_range_getD chunk (fun b => [Char.ofNat b])]
  congr 2
  unfold c_string
  clear hfold hmemi hn
  induction chunk with
  | nil => rfl
  | cons b rest ih =>
    have hb0 := hb b (List.mem_cons_self _ _)
    have hrest : ∀ x, x ∈ rest → x < 256 := fun x hx => hb x (List.mem_cons_of_mem _ hx)
    simp only [List.flatMap_cons, List.singleton_append, List.takeWhile_cons]
    by_cases h0 : b = 0
    · subst h0
      rfl
    · have h1 : (Char.ofNat b != NUL) = true := by
        simp only [bne_iff_ne, ne_eq]
        rw [char_ofNat_eq_NUL b hb0]
        exact h0
      have h2 : (b != 0) = true := by
        simp only [bne_iff_ne, ne_eq]
        exact h0
      rw [if_pos h1, if_pos h2, List.map_cons, ih hrest]

/-! ## The hexdump line -/

theorem foldlM_flatMap_texts (g : Nat → List (List Char)) :
    ∀ (l : List Nat) (hd : List Char × Nat),
      (l.flatMap g).foldlM hd_put hd = l.foldlM (fun hd i => (g i).foldlM hd_put hd) hd := by
  intro l
  induction l with
  | nil =>
    intro hd
    rfl
  | cons i rest ih =>
    intro hd
    rw [List.flatMap_cons, List.foldlM_append, List.foldlM_cons]
    congr 1
    funext hd1
    exact ih hd1

/-- The composition of a hexdump line is the sequence of its `sprintf` calls. -/
theorem hexdump_compose_eq_foldlM (t : Target) (addr offset : Nat) (l : List Nat)
    (n : Nat) :
    hexdump_compose t addr offset l n =
      (hexdump_texts t addr offset l n).foldlM hd_put
        (List.replicate (t.sizeof_ptr + 3 + 10 + 3 + BYTES_PER_LINE * 3 + 3 + 1 +
          BYTES_PER_LINE + 1 + 3) NUL, 0) := by
  have hF1 : (fun (hd : List Char × Nat) (i : Nat) =>
      (List.foldlM hd_put hd (if i % 8 = 0 then [" ".toList] else [])).bind
        (fun init => hd_put init (hexdump_cell t l n i))) = hexdump_cell_step t l n := by
    funext hd i
    unfold hexdump_cell hexdump_cell_step
    by_cases h8 : i % 8 = 0 <;> by_cases hn : i < n <;>
      simp only [h8, hn, if_true, if_false, List.foldlM_cons, List.foldlM_nil,
        Option.bind_eq_bind, Option.some_bind, bind_pure, Option.pure_def,
        Option.bind_some]
  have hF2 : (fun (hd : List Char × Nat) (i : Nat) =>
      hd_put hd
        (if isprint (promote_char t (l.getD i 0)) = true then
          [Char.ofNat (to_uchar (promote_char t (l.getD i 0)))]
        else ".".toList)) = hexdump_region_step t l := by
    funext hd i
    unfold hexdump_region_step
    split_ifs <;> rfl
  unfold hexdump_compose hexdump_texts hexdump_cell_texts hexdump_region_texts
  simp only [List.foldlM_append, List.foldlM_cons, List.foldlM_nil, foldlM_flatMap_texts,
    List.foldlM_map, hF1, hF2, Option.bind_eq_bind, Option.bind_assoc, bind_pure,
    Option.some_bind, List.cons_append, List.nil_append, List.singleton_append]

/-- A sequence of `sprintf` calls that fits the array composes the texts one after the
other, with zeros after them. -/
theorem foldlM_hd_put (size : Nat) :
    ∀ (texts : List (List Char)) (acc : List Char),
      acc.length + texts.flatten.length + 1 ≤ size →
      texts.foldlM hd_put (acc ++ List.replicate (size - acc.length) NUL, acc.length) =
        some ((acc ++ texts.flatten) ++
          List.replicate (size - (acc ++ texts.flatten).length) NUL,
          (acc ++ texts.flatten).length) := by
  intro texts
  induction texts with
  | nil =>
    intro acc _
    simp
  | cons new rest ih =>
    intro acc h
    simp only [List.flatten_cons, List.length_append] at h
    have hstep : hd_put (acc ++ List.replicate (size - acc.length) NUL, acc.length) new =
        some ((acc ++ new) ++ List.replicate (size - (acc ++ new).length) NUL,
          (acc ++ new).length) := by
      unfold hd_put
      simp only []
      rw [sprintf_append _ _ _ (by omega), Option.map_some', List.length_append]
      have e : size - acc.length - new.length = size - (acc.length + new.length) := by omega
      rw [e]
    rw [List.foldlM_cons, hstep]
    simp only [Option.bind_eq_bind, Option.some_bind]
    rw [ih (acc ++ new) (by rw [List.length_append]; omega)]
    simp only [List.flatten_cons, List.append_assoc]

/-- A hexdump line whose texts and terminating zero fit `hd_buffer`: the array holds the
texts one after the other, and `ptr_hd - hd_buffer` is their length. -/
theorem hexdump_compose_eq (t : Target) (addr offset : Nat) (l : List Nat) (n : Nat)
    (hfit : (hexdump_texts t addr offset l n).flatten.length + 1 ≤
      t.sizeof_ptr + 3 + 10 + 3 + BYTES_PER_LINE * 3 + 3 + 1 + BYTES_PER_LINE + 1 + 3) :
    hexdump_compose t addr offset l n =
      some ((hexdump_texts t addr offset l n).flatten ++
          List.replicate (t.sizeof_ptr + 3 + 10 + 3 + BYTES_PER_LINE * 3 + 3 + 1 +
            BYTES_PER_LINE + 1 + 3 - (hexdump_texts t addr offset l n).flatten.length) NUL,
        (hexdump_texts t addr offset l n).flatten.length) := by
  rw [hexdump_compose_eq_foldlM]
  have h := foldlM_hd_put (t.sizeof_ptr + 3 + 10 + 3 + BYTES_PER_LINE * 3 + 3 + 1 +
    BYTES_PER_LINE + 1 + 3) (hexdump_texts t addr offset l n) []
    (by simp only [List.length_nil]; omega)
  simp only [List.nil_append, List.length_nil, Nat.sub_zero] at h
  exact h

theorem NUL_not_mem_hexdump_cell_texts (t : Target) (l : List Nat) (n : Nat) :
    NUL ∉ (hexdump_cell_texts t l n).flatten := by
  intro h
  obtain ⟨text, htext, hmem⟩ := List.mem_flatten.mp h
  unfold hexdump_cell_texts at htext
  obtain ⟨i, _, hi⟩ := List.mem_flatMap.mp htext
  rcases List.mem_append.mp hi with h1 | h1
  · split_ifs at h1
    · rw [List.mem_singleton] at h1
      rw [h1] at hmem
      exact absurd hmem (by decide)
    · exact absurd h1 (List.not_mem_nil _)
  · rw [List.mem_singleton] at h1
    rw [h1] at hmem
    unfold hexdump_cell at hmem
    split_ifs at hmem
    · rcases List.mem_cons.mp hmem with h2 | h2
      · exact absurd h2 (by decide)
      · exact NUL_not_mem_fmt_x _ _ h2
    · exact absurd hmem (by decide)

theorem flatten_map_singleton (f : Nat → Char) (l : List Nat) :
    (l.map (fun b => [f b])).flatten = l.map f := by
  induction l with
  | nil => rfl
  | cons b rest ih =>
    simp only [List.map_cons, List.flatten_cons, List.singleton_append]
    rw [ih]

/-- The printable region as composed is the region that the spec gives the chunk. -/
theorem hexdump_region_eq_spec (t : Target) (chunk : List Nat)
    (hb : ∀ b, b ∈ chunk → b < 256) :
    (hexdump_region_texts t chunk chunk.length).flatten = spec_printable chunk := by
  unfold hexdump_region_texts spec_printable
  have hmemi : ∀ i, i < chunk.length → chunk.getD i 0 ∈ chunk := by
    intro i hi
    rw [List.getD_eq_getElem?_getD, List.getElem?_eq_getElem hi]
    exact List.getElem_mem hi
  have h1 : (List.range chunk.length).map (fun i =>
      if isprint (promote_char t (chunk.getD i 0)) then
        [Char.ofNat (to_uchar (promote_char t (chunk.getD i 0)))]
      else ".".toList) =
      (List.range chunk.length).map (fun i =>
        [if 32 ≤ chunk.getD i 0 ∧ chunk.getD i 0 ≤ 126 then Char.ofNat (chunk.getD i 0)
          else Char.ofNat 46]) := by
    apply List.map_congr_left
    intro i hi
    have hlt := hb _ (hmemi i (List.mem_range.mp hi))
    rw [isprint_promote_char t _ hlt, to_uchar_promote_char t _ hlt]
    by_cases hp : 32 ≤ chunk.getD i 0 ∧ chunk.getD i 0 ≤ 126
    · rw [decide_eq_true hp, if_pos rfl, if_pos hp]
    · rw [decide_eq_false hp, if_neg Bool.false_ne_true, if_neg hp]
      rfl
  rw [h1]
  have h2 : (List.range chunk.length).map (fun i =>
      [if 32 ≤ chunk.getD i 0 ∧ chunk.getD i 0 ≤ 126 then Char.ofNat (chunk.getD i 0)
        else Char.ofNat 46]) =
      ((List.range chunk.length).map (fun i => chunk.getD i 0)).map (fun b =>
        [if 32 ≤ b ∧ b ≤ 126 then Char.ofNat b else Char.ofNat 46]) := by
    rw [List.map_map]
    rfl
  rw [h2, map_range_getD]
  exact flatten_map_singleton
    (fun b => if 32 ≤ b ∧ b ≤ 126 then Char.ofNat b else Char.ofNat 46) chunk

set_option maxRecDepth 100000 in
theorem NUL_not_mem_spec_printable (chunk : List Nat) : NUL ∉ spec_printable chunk := by
  unfold spec_printable
  intro h
  obtain ⟨b, _, hb⟩ := List.mem_map.mp h
  split_ifs at hb with hp
  · have hlt : b < 256 := by omega
    have := (char_ofNat_eq_NUL b hlt).mp hb
    omega
  · exact absurd hb (by decide)

/-- The texts of a hexdump line, one after the other. -/
theorem flatten_hexdump_texts (t : Target) (addr offset : Nat) (chunk : List Nat)
    (hb : ∀ b, b ∈ chunk → b < 256) :
    (hexdump_texts t addr offset chunk chunk.length).flatten =
      t.fmt_ptr (addr + offset) ++ " (".toList ++
        fmt_X 8 (to_unsigned t (offset : Int)) ++ ")".toList ++
        hexdump_area t chunk chunk.length ++ "|".toList ++ spec_printable chunk ++
        "|".toList := by
  unfold hexdump_texts hexdump_area
  rw [← hexdump_region_eq_spec t chunk hb]
  simp only [List.flatten_append, List.flatten_cons, List.flatten_nil, List.append_nil,
    List.append_assoc]
  rfl

/-- A hexdump line that fits `hd_buffer`, the text of `%p` holding no zero: the texts of
its `sprintf` calls one after the other. -/
theorem hexdump_line_eq (t : Target) (addr offset : Nat) (chunk : List Nat)
    (hb : ∀ b, b ∈ chunk → b < 256)
    (hfit : (hexdump_texts t addr offset chunk chunk.length).flatten.length + 1 ≤
      t.sizeof_ptr + 3 + 10 + 3 + BYTES_PER_LINE * 3 + 3 + 1 + BYTES_PER_LINE + 1 + 3)
    (hptr : NUL ∉ t.fmt_ptr (addr + offset)) :
    c_string ((hexdump_texts t addr offset chunk chunk.length).flatten ++
        List.replicate (t.sizeof_ptr + 3 + 10 + 3 + BYTES_PER_LINE * 3 + 3 + 1 +
          BYTES_PER_LINE + 1 + 3 -
          (hexdump_texts t addr offset chunk chunk.length).flatten.length) NUL) =
      t.fmt_ptr (addr + offset) ++ " (".toList ++
        fmt_X 8 (to_unsigned t (offset : Int)) ++ ")".toList ++
        hexdump_area t chunk chunk.length ++ "|".toList ++ spec_printable chunk ++
        "|".toList := by
  rw [c_string_append_zeros _ _ (by omega), flatten_hexdump_texts t addr offset chunk hb,
    c_string_of_no_zero]
  intro hmem
  simp only [List.mem_append] at hmem
  rcases hmem with ((((((h1 | h1) | h1) | h1) | h1) | h1) | h1) | h1
  · exact hptr h1
  · exact absurd h1 (by decide)
  · exact NUL_not_mem_fmt_X _ _ h1
  · exact absurd h1 (by decide)
  · unfold hexdump_area at h1
    rcases List.mem_append.mp h1 with h2 | h2
    · exact NUL_not_mem_hexdump_cell_texts t chunk chunk.length h2
    · exact absurd h2 (by decide)
  · exact absurd h1 (by decide)
  · exact NUL_not_mem_spec_printable chunk h1
  · exact absurd h1 (by decide)

theorem to_unsigned_small (t : Target) (n : Nat) (h : n < 2 ^ t.int_bits) :
    to_unsigned t (n : Int) = n := by
  unfold to_unsigned
  have h1 : (2 : Int) ^ t.int_bits = ((2 ^ t.int_bits : Nat) : Int) := by push_cast; rfl
  rw [h1, ← Int.ofNat_emod, Int.toNat_ofNat, Nat.mod_eq_of_lt h]

theorem length_spec_hexdump_cell (chunk : List Nat) (i : Nat) :
    (spec_hexdump_cell chunk i).length = 3 := by
  unfold spec_hexdump_cell
  split_ifs <;> rfl

/-- On a target where plain `char` is unsigned, and on any target for bytes below `0x80`,
the hex area of a hexdump line is the one that the spec gives the chunk, of 52
characters. -/
theorem hexdump_area_eq_spec (t : Target) (chunk : List Nat)
    (hb : ∀ b, b ∈ chunk → b < 256)
    (hs : t.char_signed = false ∨ ∀ b, b ∈ chunk → b < 128) (hbits : 8 ≤ t.int_bits) :
    hexdump_area t chunk chunk.length = spec_hexdump_area chunk ∧
      (spec_hexdump_area chunk).length = 52 := by
  have hmemi : ∀ i, i < chunk.length → chunk.getD i 0 ∈ chunk := by
    intro i hi
    rw [List.getD_eq_getElem?_getD, List.getElem?_eq_getElem hi]
    exact List.getElem_mem hi
  have hcell : ∀ i, hexdump_cell t chunk chunk.length i = spec_hexdump_cell chunk i := by
    intro i
    unfold hexdump_cell spec_hexdump_cell
    by_cases hi : i < chunk.length
    · have hmem := hmemi i hi
      have hsmall : t.char_signed = false ∨ chunk.getD i 0 < 128 := by
        rcases hs with h | h
        · exact Or.inl h
        · exact Or.inr (h _ hmem)
      rw [if_pos hi, if_pos hi, promote_char_small t _ hsmall,
        to_unsigned_byte t _ (hb _ hmem) hbits, fmt_x_2_byte _ (hb _ hmem)]
      rfl
    · rw [if_neg hi, if_neg hi]
  have r16 : List.range 16 = [0, 1, 2, 3, 4, 5, 6, 7, 8, 9, 10, 11, 12, 13, 14, 15] := by
    decide
  have r8 : List.range 8 = [0, 1, 2, 3, 4, 5, 6, 7] := by decide
  constructor
  · unfold hexdump_area hexdump_cell_texts spec_hexdump_area BYTES_PER_LINE
    rw [r16, r8]
    simp only [hcell, List.flatMap_cons, List.flatMap_nil, List.flatten_append,
      List.flatten_cons, List.flatten_nil, List.append_nil, List.append_assoc,
      Nat.zero_mod, Nat.reduceMod, Nat.reduceAdd, if_true, OfNat.ofNat_ne_zero,
      OfNat.one_ne_ofNat, one_ne_zero, if_false, List.nil_append, Nat.add_zero,
      List.singleton_append, List.cons_append, Nat.reduceEqDiff]
  · unfold spec_hexdump_area
    simp only [List.length_append, length_flatMap_range (fun i => spec_hexdump_cell chunk i) 3
      8 (fun i _ => length_spec_hexdump_cell chunk i),
      length_flatMap_range (fun i => spec_hexdump_cell chunk (8 + i)) 3
      8 (fun i _ => length_spec_hexdump_cell chunk (8 + i))]
    rfl

/-! ## Formatted output and the macros -/

theorem format_loop_nil (conversion : conversion_t) (fuel : Nat) (args : va_list) :
    format_loop conversion fuel [] args = some ([], args) := by
  cases fuel <;> rfl

/-- As many iterations as the format has characters are as many as the loop can make. -/
theorem format_loop_fuel (conversion : conversion_t) :
    ∀ (fuel fuel1 : Nat) (f : List Char) (args : va_list), f.length ≤ fuel →
      f.length ≤ fuel1 →
      format_loop conversion fuel f args = format_loop conversion fuel1 f args := by
  intro fuel
  induction fuel with
  | zero =>
    intro fuel1 f args h _
    have : f = [] := List.length_eq_zero.mp (Nat.le_zero.mp h)
    subst this
    rw [format_loop_nil, format_loop_nil]
  | succ k ih =>
    intro fuel1 f args h h1
    cases f with
    | nil => rw [format_loop_nil, format_loop_nil]
    | cons ch tail =>
      simp only [List.length_cons] at h h1
      cases fuel1 with
      | zero => omega
      | succ k1 =>
        simp only [format_loop]
        by_cases hc : ch = Char.ofNat 37
        · simp only [hc, if_true]
          cases conversion tail args with
          | none => rfl
          | some r =>
            obtain ⟨text, args1, n⟩ := r
            simp only []
            rw [ih k1 (tail.drop n) args1 (by rw [List.length_drop]; omega)
              (by rw [List.length_drop]; omega)]
        · simp only [hc, if_false]
          rw [ih k1 tail args (by omega) (by omega)]

theorem format_text_nil (conversion : conversion_t) (args : va_list) :
    format_text conversion [] args = some ([], args) :=
  rfl

theorem format_text_char (conversion : conversion_t) (ch : Char) (tail : List Char)
    (args : va_list) (h : ch ≠ Char.ofNat 37) :
    format_text conversion (ch :: tail) args =
      (format_text conversion tail args).map (fun r => ([ch] ++ r.1, r.2)) := by
  unfold format_text
  simp only [List.length_cons, format_loop, h, if_false]
  rfl

theorem format_text_percent (conversion : conversion_t) (tail : List Char)
    (args : va_list) (text : List Char) (args1 : va_list) (n : Nat)
    (h : conversion tail args = some (text, args1, n)) :
    format_text conversion (Char.ofNat 37 :: tail) args =
      (format_text conversion (tail.drop n) args1).map (fun r => (text ++ r.1, r.2)) := by
  unfold format_text
  simp only [List.length_cons, format_loop, if_true, h]
  rw [format_loop_fuel conversion tail.length (tail.drop n).length (tail.drop n) args1
    (by rw [List.length_drop]; omega) (Nat.le_refl _)]

theorem format_text_percent_none (conversion : conversion_t) (tail : List Char)
    (args : va_list) (h : conversion tail args = none) :
    format_text conversion (Char.ofNat 37 :: tail) args = none := by
  unfold format_text
  simp only [List.length_cons, format_loop, if_true, h]

theorem format_map_some (p : List Char) (x : Option (List Char × va_list))
    (out : List Char) (rest : va_list)
    (h : x.map (fun r => (p ++ r.1, r.2)) = some (out, rest)) :
    ∃ o, x = some (o, rest) ∧ out = p ++ o := by
  cases x with
  | none => cases h
  | some r =>
    obtain ⟨o, r2⟩ := r
    simp only [Option.map_some', Option.some.injEq, Prod.mk.injEq] at h
    exact ⟨o, by rw [h.2], h.1.symm⟩

theorem format_map_step (p o : List Char) (x y : Option (List Char × va_list))
    (h : x = y.map (fun r => (o ++ r.1, r.2))) :
    x.map (fun r => (p ++ r.1, r.2)) = y.map (fun r => ((p ++ o) ++ r.1, r.2)) := by
  rw [h, Option.map_map]
  congr 1
  funext r
  simp only [Function.comp_apply, List.append_assoc]

/-- The text of a format that continues with `b` is the text of the format, followed by the
text of `b` for the arguments that are left, when a conversion specification is read from
the front of the format whatever follows it. -/
theorem format_text_append (conversion : conversion_t)
    (hfront : ∀ (tail more : List Char) (args : va_list) (text : List Char)
      (args1 : va_list) (n : Nat), conversion tail args = some (text, args1, n) →
      n ≤ tail.length ∧ conversion (tail ++ more) args = some (text, args1, n))
    (b : List Char) :
    ∀ (k : Nat) (a : List Char), a.length ≤ k → ∀ (args : va_list) (out : List Char)
      (rest : va_list), format_text conversion a args = some (out, rest) →
      format_text conversion (a ++ b) args =
        (format_text conversion b rest).map (fun r => (out ++ r.1, r.2)) := by
  intro k
  induction k with
  | zero =>
    intro a ha args out rest h
    have : a = [] := List.length_eq_zero.mp (Nat.le_zero.mp ha)
    subst this
    rw [format_text_nil] at h
    simp only [Option.some.injEq, Prod.mk.injEq] at h
    rw [← h.1, ← h.2]
    simp
  | succ k ih =>
    intro a ha args out rest h
    cases a with
    | nil =>
      rw [format_text_nil] at h
      simp only [Option.some.injEq, Prod.mk.injEq] at h
      rw [← h.1, ← h.2]
      simp
    | cons ch tail =>
      have htl : tail.length ≤ k := by
        simp only [List.length_cons] at ha
        omega
      rw [List.cons_append]
      by_cases hc : ch = Char.ofNat 37
      · subst hc
        cases hconv : conversion tail args with
        | none =>
          rw [format_text_percent_none conversion tail args hconv] at h
          cases h
        | some r =>
          obtain ⟨text, args1, n⟩ := r
          obtain ⟨hn, hmore⟩ := hfront tail b args text args1 n hconv
          rw [format_text_percent conversion tail args text args1 n hconv] at h
          rw [format_text_percent conversion (tail ++ b) args text args1 n hmore,
            List.drop_append_of_le_length hn]
          obtain ⟨o, ho, hout⟩ := format_map_some _ _ _ _ h
          rw [hout]
          exact format_map_step _ _ _ _
            (ih (tail.drop n) (by rw [List.length_drop]; omega) args1 o rest ho)
      · rw [format_text_char _ _ _ _ hc] at h ⊢
        obtain ⟨o, ho, hout⟩ := format_map_some _ _ _ _ h
        rw [hout]
        exact format_map_step _ _ _ _ (ih tail htl args o rest ho)

theorem format_text_literal (conversion : conversion_t) (l : List Char)
    (h : Char.ofNat 37 ∉ l) (b : List Char) (args : va_list) :
    format_text conversion (l ++ b) args =
      (format_text conversion b args).map (fun r => (l ++ r.1, r.2)) := by
  induction l with
  | nil =>
    simp
  | cons ch tail ih =>
    have hc : ch ≠ Char.ofNat 37 := fun e => h (by rw [e]; exact List.mem_cons_self _ _)
    have ht : Char.ofNat 37 ∉ tail := fun e => h (List.mem_cons_of_mem _ e)
    rw [List.cons_append, format_text_char _ _ _ _ hc]
    exact format_map_step [ch] tail _ _ (ih ht)

theorem toList_GET_LOG_FORMAT (b : Build) (x : Letter) (format : String)
    (hcol : b.CONFIG_LOG_COLORS = false) (hfile : b.CONFIG_LOG_FILENAME = true)
    (hfn : b.CONFIG_LOG_FUNCTION_NAME = true) :
    (GET_LOG_FORMAT b x format).toList =
      x.name.toList ++ (" (%".toList ++ (b.PRIu32.toList ++ (") ".toList ++
        ("%s".toList ++ (": ".toList ++ ("%s".toList ++ (":".toList ++ ("%d".toList ++
          (" [".toList ++ ("%s".toList ++ ("] ".toList ++
            (format.toList ++ "\n".toList)))))))))))) := by
  have hc : LOG_COLOR b x = "" := by
    cases x <;> simp [LOG_COLOR, hcol]
  unfold GET_LOG_FORMAT LOG_RESET_COLOR LOG_FORMAT_FILENAME LOG_FORMAT_LINE
    LOG_FORMAT_FUNCTION_NAME
  rw [hc, hcol, hfile, hfn]
  simp only [String.toList, String.data_append, if_true, List.append_assoc]
  rfl

theorem name_no_percent (x : Letter) : Char.ofNat 37 ∉ x.name.toList := by
  cases x <;> decide

theorem format_text_s_append (conversion : conversion_t)
    (hstd : StandardConversions conversion) (b : List Char) (s : String) (args : va_list) :
    format_text conversion ("%s".toList ++ b) (Arg.str s :: args) =
      (format_text conversion b args).map (fun r => (s.toList ++ r.1, r.2)) :=
  format_text_percent conversion (Char.ofNat 115 :: b) (Arg.str s :: args) s.toList args 1
    (hstd.percent_s b s args)

theorem format_text_d_append (conversion : conversion_t)
    (hstd : StandardConversions conversion) (b : List Char) (n : Int) (args : va_list) :
    format_text conversion ("%d".toList ++ b) (Arg.int n :: args) =
      (format_text conversion b args).map (fun r => (decimal n ++ r.1, r.2)) :=
  format_text_percent conversion (Char.ofNat 100 :: b) (Arg.int n :: args) (decimal n) args
    1 (hstd.percent_d b n args)

theorem format_text_u_append (conversion : conversion_t)
    (hstd : StandardConversions conversion) (b : List Char) (n : Nat) (args : va_list) :
    format_text conversion ("%u".toList ++ b) (Arg.int n :: args) =
      (format_text conversion b args).map (fun r => (Nat.toDigits 10 n ++ r.1, r.2)) :=
  format_text_percent conversion (Char.ofNat 117 :: b) (Arg.int n :: args)
    (Nat.toDigits 10 n) args 1 (hstd.percent_u b n args)

theorem format_text_lu_append (conversion : conversion_t)
    (hstd : StandardConversions conversion) (b : List Char) (n : Nat) (args : va_list) :
    format_text conversion ("%lu".toList ++ b) (Arg.int n :: args) =
      (format_text conversion b args).map (fun r => (Nat.toDigits 10 n ++ r.1, r.2)) :=
  format_text_percent conversion (Char.ofNat 108 :: Char.ofNat 117 :: b) (Arg.int n :: args)
    (Nat.toDigits 10 n) args 2 (hstd.percent_lu b n args)

theorem percent_u_split (r : List Char) :
    " (%".toList ++ ("u".toList ++ r) = " (".toList ++ ("%u".toList ++ r) :=
  rfl

theorem percent_lu_split (r : List Char) :
    " (%".toList ++ ("lu".toList ++ r) = " (".toList ++ ("%lu".toList ++ r) :=
  rfl

/-- The line that an output function composes from the format of a macro, with colors
disabled and file and function names enabled, when the user format gives `out` and leaves
the arguments `rest`. -/
theorem format_text_GET_LOG_FORMAT (conversion : conversion_t)
    (hstd : StandardConversions conversion) (b : Build) (x : Letter) (format : String)
    (timestamp : Nat) (tag file function : String) (line : Int) (args : va_list)
    (out : List Char) (rest : va_list)
    (hcol : b.CONFIG_LOG_COLORS = false) (hfile : b.CONFIG_LOG_FILENAME = true)
    (hfn : b.CONFIG_LOG_FUNCTION_NAME = true)
    (hpri : b.PRIu32 = "u" ∨ b.PRIu32 = "lu")
    (hmsg : format_text conversion format.toList args = some (out, rest)) :
    format_text conversion (GET_LOG_FORMAT b x format).toList
        (Arg.int timestamp :: Arg.str tag :: Arg.str file :: Arg.int line ::
          Arg.str function :: args) =
      some (x.name.toList ++ (" (".toList ++ (Nat.toDigits 10 timestamp ++ (") ".toList ++
        (tag.toList ++ (": ".toList ++ (file.toList ++ (":".toList ++ (decimal line ++
          (" [".toList ++ (function.toList ++ ("] ".toList ++
            (out ++ "\n".toList)))))))))))), rest) := by
  have htail : format_text conversion (format.toList ++ "\n".toList) args =
      some (out ++ "\n".toList, rest) := by
    rw [format_text_append conversion hstd.front _ _ _ (Nat.le_refl _) args out rest hmsg,
      ← List.append_nil "\n".toList, format_text_literal _ _ (by decide), format_text_nil]
    rfl
  rw [toList_GET_LOG_FORMAT b x format hcol hfile hfn,
    format_text_literal _ _ (name_no_percent x)]
  have hrest : format_text conversion (") ".toList ++
      ("%s".toList ++ (": ".toList ++ ("%s".toList ++ (":".toList ++ ("%d".toList ++
        (" [".toList ++ ("%s".toList ++ ("] ".toList ++
          (format.toList ++ "\n".toList)))))))))) (Arg.str tag :: Arg.str file ::
            Arg.int line :: Arg.str function :: args) =
      some (") ".toList ++
        (tag.toList ++ (": ".toList ++ (file.toList ++ (":".toList ++ (decimal line ++
          (" [".toList ++ (function.toList ++ ("] ".toList ++
            (out ++ "\n".toList))))))))), rest) := by
    rw [format_text_literal _ ") ".toList (by decide), format_text_s_append _ hstd,
      format_text_literal _ ": ".toList (by decide), format_text_s_append _ hstd,
      format_text_literal _ ":".toList (by decide), format_text_d_append _ hstd,
      format_text_literal _ " [".toList (by decide), format_text_s_append _ hstd,
      format_text_literal _ "] ".toList (by decide), htail]
    rfl
  rcases hpri with hp | hp
  · rw [hp, percent_u_split, format_text_literal _ " (".toList (by decide),
      format_text_u_append _ hstd, hrest]
    rfl
  · rw [hp, percent_lu_split, format_text_literal _ " (".toList (by decide),
      format_text_lu_append _ hstd, hrest]
    rfl

theorem format_text_of_vformat (conversion : conversion_t) (format : String)
    (args : va_list) (msg : String) (h : vformat conversion format args = some msg) :
    ∃ out rest, format_text conversion format.toList args = some (out, rest) ∧
      msg = String.mk out := by
  unfold vformat at h
  cases hf : format_text conversion format.toList args with
  | none =>
    rw [hf] at h
    cases h
  | some r =>
    rw [hf] at h
    simp only [Option.map_some', Option.some.injEq] at h
    exact ⟨r.1, r.2, rfl, h.symm⟩

/-- The conversion function of the examples carries out `%s`, `%d`, `%u` and `%lu` as the
C standard defines them, and reads a conversion specification from the front of the
format. -/
theorem libc_conversion_standard : StandardConversions libc_conversion := by
  refine ⟨?_, ?_, ?_, ?_, ?_⟩
  · intro tail s args
    simp [libc_conversion]
  · intro tail n args
    simp [libc_conversion]
  · intro tail n args
    simp [libc_conversion]
  · intro tail n args
    simp [libc_conversion]
  · intro tail more args text args1 n h
    cases tail with
    | nil => simp [libc_conversion] at h
    | cons c tail1 =>
      have hhead : (tail1 ++ more).head? = some (Char.ofNat 117) ↔
          tail1.head? = some (Char.ofNat 117) ∨
            (tail1 = [] ∧ more.head? = some (Char.ofNat 117)) := by
        cases tail1 <;> simp
      rw [List.cons_append]
      simp only [libc_conversion] at h ⊢
      by_cases h37 : c = Char.ofNat 37
      · simp only [h37, if_true, Option.some.injEq, Prod.mk.injEq] at h ⊢
        exact ⟨by simp only [List.length_cons]; omega, h⟩
      · simp only [h37, if_false] at h ⊢
        cases args with
        | nil => simp at h
        | cons a0 rest0 =>
          cases a0 with
          | str s =>
            simp only [] at h ⊢
            split_ifs at h ⊢
            simp only [Option.some.injEq, Prod.mk.injEq] at h ⊢
            exact ⟨by simp only [List.length_cons]; omega, h⟩
          | int v =>
            simp only [] at h ⊢
            by_cases h100 : c = Char.ofNat 100
            · simp only [h100, if_true, Option.some.injEq, Prod.mk.injEq] at h ⊢
              exact ⟨by simp only [List.length_cons]; omega, h⟩
            · simp only [h100, if_false] at h ⊢
              by_cases h99 : c = Char.ofNat 99
              · simp only [h99, if_true, Option.some.injEq, Prod.mk.injEq] at h ⊢
                exact ⟨by simp only [List.length_cons]; omega, h⟩
              · simp only [h99, if_false] at h ⊢
                by_cases hv : 0 ≤ v
                · simp only [hv, if_true] at h ⊢
                  by_cases h117 : c = Char.ofNat 117
                  · simp only [h117, if_true, Option.some.injEq, Prod.mk.injEq] at h ⊢
                    exact ⟨by simp only [List.length_cons]; omega, h⟩
                  · simp only [h117, if_false] at h ⊢
                    by_cases h120 : c = Char.ofNat 120
                    · simp only [h120, if_true, Option.some.injEq, Prod.mk.injEq] at h ⊢
                      exact ⟨by simp only [List.length_cons]; omega, h⟩
                    · simp only [h120, if_false] at h ⊢
                      by_cases hl : c = Char.ofNat 108 ∧
                          tail1.head? = some (Char.ofNat 117)
                      · rw [if_pos hl] at h
                        rw [if_pos ⟨hl.1, hhead.mpr (Or.inl hl.2)⟩]
                        simp only [Option.some.injEq, Prod.mk.injEq] at h ⊢
                        refine ⟨?_, h⟩
                        rw [← h.2.2]
                        cases tail1 with
                        | nil => simp at hl
                        | cons c3 tail2 =>
                          simp only [List.length_cons]
                          omega
                      · rw [if_neg hl] at h
                        cases h
                · simp only [hv, if_false] at h
                  cases h

theorem eval_args_vals (mem : Mem) (args : va_list) (timestamp : Nat) :
    eval_args mem (args.map ArgExpr.val) timestamp = (args, timestamp) := by
  induction args with
  | nil => rfl
  | cons a rest ih =>
    simp only [List.map_cons, eval_args, ih]

/-- Execution of the expansion of `LOGx` when the level of the letter is compiled in: one
`log_write` with the decorated format, and in front of the user arguments the timestamp,
the tag string, and the file, line and function values; the timestamp counter moves on. -/
theorem exec_LOGx (t : Target) (mem : Mem) (lock_timeout : Nat → Nat → Bool) (b : Build)
    (x : Letter) (site : Site) (tag : Ptr) (format : String) (args : va_list) (k : Nat)
    (m : Machine) (hmax : b.MAXIMUM_ENABLED_LOG_LEVEL ≥ x.level) :
    exec t mem lock_timeout (LOGx b x site tag format args) k m =
      some ((log_write mem (lock_timeout k 0) m.sys x.level tag (GET_LOG_FORMAT b x format)
        (Arg.int m.timestamp :: Arg.str (mem tag) :: LOG_VALUE_FILENAME b site ::
          LOG_VALUE_LINE b site :: LOG_VALUE_FUNCTION_NAME b site :: args)).1,
        { sys := (log_write mem (lock_timeout k 0) m.sys x.level tag
            (GET_LOG_FORMAT b x format)
            (Arg.int m.timestamp :: Arg.str (mem tag) :: LOG_VALUE_FILENAME b site ::
              LOG_VALUE_LINE b site :: LOG_VALUE_FUNCTION_NAME b site :: args)).2
          timestamp := (m.timestamp + 1) % 2 ^ 32 }) := by
  unfold LOGx
  rw [if_pos hmax]
  show exec t mem lock_timeout
    [Stmt.log_write x.level tag (GET_LOG_FORMAT b x format)
      (ArgExpr.log_timestamp :: ArgExpr.tag tag :: ArgExpr.val (LOG_VALUE_FILENAME b site) ::
        ArgExpr.val (LOG_VALUE_LINE b site) ::
        ArgExpr.val (LOG_VALUE_FUNCTION_NAME b site) :: args.map ArgExpr.val)] k m = _
  simp only [exec, eval_args, eval_args_vals, log_noos.log_timestamp, List.append_nil]

/-- A lookup right after a lookup of the same tag at the same message level, in a
reachable state with locks taken and a level within `0 .. 7`, answers the same. -/
theorem visible_again (mem : Mem) (k : Nat) (s : LogState) (m : Nat) (tag : Ptr)
    (hr : Reach mem k s) (hres : resolved_level mem s tag < 2 ^ 3) :
    (is_tag_level_visible mem true (is_tag_level_visible mem true s m tag).2 m tag).1 =
      (is_tag_level_visible mem true s m tag).1 := by
  obtain ⟨lvl, hp, hv⟩ := pinned_after_lookup mem k s m tag hr hres
  rw [(pinned_lookup mem _ m tag lvl hp).1, hv]

theorem output_function_calls_cons_vprintf_like (func : vprintf_like_t) (format : String)
    (args : va_list) (outs : List Output) :
    output_function_calls (Output.vprintf_like func format args :: outs) =
      Output.vprintf_like func format args :: output_function_calls outs :=
  rfl

theorem output_function_calls_vprintf_likes (func : vprintf_like_t) (format : Nat → String)
    (args : Nat → va_list) (l : List Nat) :
    output_function_calls (l.map (fun j => Output.vprintf_like func (format j) (args j))) =
      l.map (fun j => Output.vprintf_like func (format j) (args j)) := by
  induction l with
  | nil => rfl
  | cons j rest ih =>
    rw [List.map_cons, output_function_calls_cons_vprintf_like, ih]

theorem output_function_calls_printf_log_writes (func : vprintf_like_t) (level : Nat)
    (tag : Ptr) (pformat : Nat → String) (pargs : Nat → va_list) (format : Nat → String)
    (args : Nat → va_list) (l : List Nat) :
    output_function_calls (outputs_of func (l.flatMap (fun j =>
      [Call.printf (pformat j) (pargs j), Call.log_write level tag (format j) (args j)]))) =
      l.map (fun j => Output.vprintf_like func (format j) (args j)) := by
  induction l with
  | nil => rfl
  | cons j rest ih =>
    rw [List.flatMap_cons, List.map_cons, ← ih]
    rfl

/-- Execution of a message statement followed by a buffer writer for the same level and
tag, in a reachable state, when every lock attempt succeeds and the level resolved for the
tag is at most 7: the two entry checks answer the same, and after a visible one every line
of the writer reaches the output function. -/
theorem exec_then_buffer_writer (mem : Mem) (n : Nat) (sys : LogSystem) (m : Nat)
    (tag : Ptr) (format : String) (args : va_list) (lock_timeout : Nat → Bool)
    (calls : List Call) (hr : Reach mem n sys.state) (hlock : ∀ j, lock_timeout j = true)
    (hres : resolved_level mem sys.state tag < 2 ^ 3)
    (hcalls : ∀ l t f a, Call.log_write l t f a ∈ calls → l = m ∧ t = tag) :
    (is_tag_level_visible mem (lock_timeout 0)
        (log_write mem true sys m tag format args).2.state m tag).1 =
        (is_tag_level_visible mem true sys.state m tag).1 ∧
      ((is_tag_level_visible mem true sys.state m tag).1 = true →
        (perform mem lock_timeout calls 1
          { state := (is_tag_level_visible mem (lock_timeout 0)
              (log_write mem true sys m tag format args).2.state m tag).2
            s_log_print_func := (log_write mem true sys m tag format
              args).2.s_log_print_func }).1 =
          outputs_of sys.s_log_print_func calls) := by
  have hs : (log_write mem true sys m tag format args).2 =
      { state := (is_tag_level_visible mem true sys.state m tag).2
        s_log_print_func := sys.s_log_print_func } := by
    unfold log_write
    rw [log_writev_eq]
  have hagain := visible_again mem n sys.state m tag hr hres
  rw [hs, hlock 0]
  refine ⟨hagain, ?_⟩
  intro hvis
  have hr1 := Reach.visible n sys.state true m tag hr
  have hres1 : resolved_level mem (is_tag_level_visible mem true sys.state m tag).2 tag <
      2 ^ 3 := by
    rw [resolved_level_congr mem sys.state _ tag
      (is_tag_level_visible_frame mem true sys.state m tag).1
      (is_tag_level_visible_frame mem true sys.state m tag).2]
    exact hres
  exact perform_after_visible mem lock_timeout _
    { state := (is_tag_level_visible mem true sys.state m tag).2
      s_log_print_func := sys.s_log_print_func } m tag calls hr1 hlock hres1 hcalls
    (by rw [hagain]; exact hvis)

/-- Execution of the expansion of `LOGx` followed by one more statement. -/
theorem exec_LOGx_then (t : Target) (mem : Mem) (lock_timeout : Nat → Nat → Bool)
    (b : Build) (x : Letter) (site : Site) (tag : Ptr) (format : String) (args : va_list)
    (st : Stmt) (k : Nat) (m : Machine) (hmax : b.MAXIMUM_ENABLED_LOG_LEVEL ≥ x.level) :
    exec t mem lock_timeout (LOGx b x site tag format args ++ [st]) k m =
      (exec t mem lock_timeout [st] (k + 1)
        { sys := (log_write mem (lock_timeout k 0) m.sys x.level tag
            (GET_LOG_FORMAT b x format)
            (Arg.int m.timestamp :: Arg.str (mem tag) :: LOG_VALUE_FILENAME b site ::
              LOG_VALUE_LINE b site :: LOG_VALUE_FUNCTION_NAME b site :: args)).2
          timestamp := (m.timestamp + 1) % 2 ^ 32 }).map
        (fun e =>
          ((log_write mem (lock_timeout k 0) m.sys x.level tag (GET_LOG_FORMAT b x format)
            (Arg.int m.timestamp :: Arg.str (mem tag) :: LOG_VALUE_FILENAME b site ::
              LOG_VALUE_LINE b site :: LOG_VALUE_FUNCTION_NAME b site :: args)).1 ++ e.1,
            e.2)) := by
  unfold LOGx
  rw [if_pos hmax]
  show exec t mem lock_timeout
    (Stmt.log_write x.level tag (GET_LOG_FORMAT b x format)
      (ArgExpr.log_timestamp :: ArgExpr.tag tag :: ArgExpr.val (LOG_VALUE_FILENAME b site) ::
        ArgExpr.val (LOG_VALUE_LINE b site) ::
        ArgExpr.val (LOG_VALUE_FUNCTION_NAME b site) :: args.map ArgExpr.val) :: [st]) k m =
    _
  rw [exec]
  simp only [eval_args, eval_args_vals, log_noos.log_timestamp]
  cases exec t mem lock_timeout [st] (k + 1)
    { sys := (log_write mem (lock_timeout k 0) m.sys x.level tag
        (GET_LOG_FORMAT b x format)
        (Arg.int m.timestamp :: Arg.str (mem tag) :: LOG_VALUE_FILENAME b site ::
          LOG_VALUE_LINE b site :: LOG_VALUE_FUNCTION_NAME b site :: args)).2
      timestamp := (m.timestamp + 1) % 2 ^ 32 } <;> rfl

/-- Execution of a `log_write_buffer_hex` statement. -/
theorem exec_log_write_buffer_hex (t : Target) (mem : Mem)
    (lock_timeout : Nat → Nat → Bool) (level : Nat) (tag : Ptr) (buffer : Nat → Nat)
    (buff_len k : Nat) (m : Machine) :
    exec t mem lock_timeout [Stmt.log_write_buffer_hex level tag buffer buff_len] k m =
      (log_write_buffer_hex t mem (lock_timeout k) m.sys level tag buffer buff_len).map
        (fun r => (r.1, { m with sys := r.2 })) := by
  rw [exec]
  cases log_write_buffer_hex t mem (lock_timeout k) m.sys level tag buffer buff_len with
  | none => rfl
  | some r => simp [exec]

/-- Execution of a `log_write_buffer_char` statement. -/
theorem exec_log_write_buffer_char (t : Target) (mem : Mem)
    (lock_timeout : Nat → Nat → Bool) (level : Nat) (tag : Ptr) (buffer : Nat → Nat)
    (buff_len k : Nat) (m : Machine) :
    exec t mem lock_timeout [Stmt.log_write_buffer_char level tag buffer buff_len] k m =
      (log_write_buffer_char t mem (lock_timeout k) m.sys level tag buffer buff_len).map
        (fun r => (r.1, { m with sys := r.2 })) := by
  rw [exec]
  cases log_write_buffer_char t mem (lock_timeout k) m.sys level tag buffer buff_len with
  | none => rfl
  | some r => simp [exec]

/-- Execution of a `log_write_buffer_hexdump` statement. -/
theorem exec_log_write_buffer_hexdump (t : Target) (mem : Mem)
    (lock_timeout : Nat → Nat → Bool) (level : Nat) (tag : Ptr) (addr : Nat)
    (buffer : Nat → Nat) (buff_len k : Nat) (m : Machine) :
    exec t mem lock_timeout
        [Stmt.log_write_buffer_hexdump level tag addr buffer buff_len] k m =
      (log_write_buffer_hexdump t mem (lock_timeout k) m.sys level tag addr buffer
        buff_len).map (fun r => (r.1, { m with sys := r.2 })) := by
  rw [exec]
  cases log_write_buffer_hexdump t mem (lock_timeout k) m.sys level tag addr buffer
      buff_len with
  | none => rfl
  | some r => simp [exec]

/-- The output of a visible or suppressed message followed by the lines of a buffer
writer for the same level and tag, in a reachable state, when every lock attempt of the
writer succeeds and the level resolved for the tag is at most 7. -/
theorem message_then_lines (mem : Mem) (n : Nat) (sys : LogSystem) (m : Nat) (tag : Ptr)
    (format : String) (args : va_list) (lock_timeout : Nat → Bool) (calls : List Call)
    (hr : Reach mem n sys.state) (hlock : ∀ j, lock_timeout j = true)
    (hres : resolved_level mem sys.state tag < 2 ^ 3)
    (hcalls : ∀ l t f a, Call.log_write l t f a ∈ calls → l = m ∧ t = tag) :
    (log_write mem true sys m tag format args).1 ++
        (if (is_tag_level_visible mem (lock_timeout 0)
            (log_write mem true sys m tag format args).2.state m tag).1 = true then
          perform mem lock_timeout calls 1
            { state := (is_tag_level_visible mem (lock_timeout 0)
                (log_write mem true sys m tag format args).2.state m tag).2
              s_log_print_func := (log_write mem true sys m tag format
                args).2.s_log_print_func }
        else
          ([], { state := (is_tag_level_visible mem (lock_timeout 0)
                  (log_write mem true sys m tag format args).2.state m tag).2
                 s_log_print_func := (log_write mem true sys m tag format
                  args).2.s_log_print_func })).1 =
      if (is_tag_level_visible mem true sys.state m tag).1 = true then
        Output.vprintf_like sys.s_log_print_func format args ::
          outputs_of sys.s_log_print_func calls
      else [] := by
  obtain ⟨h1, h2⟩ := exec_then_buffer_writer mem n sys m tag format args lock_timeout calls
    hr hlock hres hcalls
  have hw : (log_write mem true sys m tag format args).1 =
      if (is_tag_level_visible mem true sys.state m tag).1 = true then
        [Output.vprintf_like sys.s_log_print_func format args]
      else [] := by
    unfold log_write
    rw [log_writev_eq]
  by_cases hvis : (is_tag_level_visible mem true sys.state m tag).1 = true
  · rw [if_pos (by rw [h1]; exact hvis), h2 hvis, hw, if_pos hvis, if_pos hvis]
    rfl
  · rw [if_neg (by rw [h1]; exact hvis), hw, if_neg hvis, if_neg hvis]
    rfl

/-! ## The slot that `log_level_set` updates -/

/-- The closing loop of `log_level_set` changes the lowest occupied slot whose tag string
equals the tag's, and no other. -/
theorem update_cached_level_first (mem : Mem) (l : List cached_tag_entry_t) (count : Nat)
    (tag : Ptr) (level : Nat) (x : Nat)
    (h : cache_at (update_cached_level mem l count tag level) x ≠ cache_at l x) :
    x < count ∧ mem (cache_at l x).tag = mem tag ∧
      (∀ j, j < x → mem (cache_at l j).tag ≠ mem tag) ∧
      cache_at (update_cached_level mem l count tag level) x =
        { cache_at l x with level := level % 2 ^ 3 } := by
  obtain ⟨_, h2, h3, h4⟩ := cache_scan_spec (fun e => decide (mem e.tag = mem tag)) l count 0
  unfold update_cached_level at h ⊢
  simp only [] at h ⊢
  split_ifs at h ⊢ with hc
  · exact absurd rfl h
  · rw [cache_at_set] at h ⊢
    split_ifs at h ⊢ with hx
    · have hne : cache_scan (fun e => decide (mem e.tag = mem tag)) l count 0 ≠ count := by
        simpa using hc
      have hlt : cache_scan (fun e => decide (mem e.tag = mem tag)) l count 0 < 0 + count := by
        omega
      have hhit := h4 hlt
      rw [hx.1] at hhit hlt h3
      rw [hx.1]
      refine ⟨by omega, by simpa using hhit, ?_, rfl⟩
      intro j hj
      have := h3 j (Nat.zero_le _) hj
      simpa using this
    · exact absurd rfl h

/-- When an occupied slot holds a tag string equal to the tag's, the closing loop of
`log_level_set` stores the level in the lowest such slot. -/
theorem update_cached_level_lowest (mem : Mem) (l : List cached_tag_entry_t) (count : Nat)
    (tag : Ptr) (level : Nat) (x : Nat) (hx : x < count) (hlen : count ≤ l.length)
    (hm : mem (cache_at l x).tag = mem tag)
    (hlow : ∀ j, j < x → mem (cache_at l j).tag ≠ mem tag) :
    cache_at (update_cached_level mem l count tag level) x =
      { cache_at l x with level := level % 2 ^ 3 } := by
  obtain ⟨_, h2, h3, h4⟩ := cache_scan_spec (fun e => decide (mem e.tag = mem tag)) l count 0
  have hle : cache_scan (fun e => decide (mem e.tag = mem tag)) l count 0 ≤ x := by
    by_contra hgt
    have := h3 x (Nat.zero_le _) (by omega)
    simp only [decide_eq_false_iff_not] at this
    exact this hm
  have hlt : cache_scan (fun e => decide (mem e.tag = mem tag)) l count 0 < 0 + count := by
    omega
  have hhit := h4 hlt
  simp only [decide_eq_true_eq] at hhit
  have heq : cache_scan (fun e => decide (mem e.tag = mem tag)) l count 0 = x := by
    by_contra hne
    exact hlow _ (by omega) hhit
  unfold update_cached_level
  simp only []
  rw [heq, if_neg (by simp only [beq_iff_eq]; omega), cache_at_set, if_pos ⟨rfl, by omega⟩]

/-! ## The slot that a lookup stamps -/

/-- The entry that `add_to_cache` writes occupies a slot. -/
theorem stamped_add_to_cache (s : LogState) (tag : Ptr) (level : Nat)
    (hlen : s.s_log_cache.length = TAG_CACHE_SIZE)
    (hcount : s.s_log_cache_entry_count ≤ TAG_CACHE_SIZE) :
    ∃ i, i < (add_to_cache s tag level).s_log_cache_entry_count ∧
      cache_at (add_to_cache s tag level).s_log_cache i =
        ⟨tag, level % 2 ^ 3, s.s_log_cache_max_generation % 2 ^ 29⟩ := by
  have hsize : TAG_CACHE_SIZE = 31 := rfl
  by_cases hc : s.s_log_cache_entry_count < TAG_CACHE_SIZE
  · obtain ⟨h1, h2, -, -⟩ := add_to_cache_prefill s tag level hlen hc
    exact ⟨s.s_log_cache_entry_count, by omega, h1⟩
  · have hfull : s.s_log_cache_entry_count = TAG_CACHE_SIZE := by omega
    have hlen' : (s.s_log_cache.set 0
        { tag := tag, level := level % 2 ^ 3,
          generation := s.s_log_cache_max_generation % 2 ^ 29 }).length = TAG_CACHE_SIZE := by
      rw [List.length_set]
      exact hlen
    have h0 : 0 < TAG_CACHE_SIZE := by rw [hsize]; omega
    have hp := heap_bubble_down_perm _ _ hlen' h0
    have hmem := hp.mem_iff.mpr (cache_at_mem _ 0 (by rw [hlen']; exact h0))
    obtain ⟨x, hx, hxe⟩ := exists_cache_at_of_mem _ _ hmem
    rw [length_heap_bubble_down _ _ hlen' h0, hlen'] at hx
    rw [cache_at_set] at hxe
    simp only [true_and, hlen, h0, if_true] at hxe
    refine ⟨x, by rw [count_add_to_cache_full s tag level hfull]; exact hx, ?_⟩
    simp only [add_to_cache, hc, if_false]
    rw [hxe]

theorem max_generation_add_to_cache (s : LogState) (tag : Ptr) (level : Nat) :
    (add_to_cache s tag level).s_log_cache_max_generation =
      (s.s_log_cache_max_generation + 1) % 2 ^ 32 := by
  unfold add_to_cache
  simp only []
  split_ifs <;> rfl

/-- A hit: the index of the first occupied slot that holds the pointer. -/
theorem hit_index (s : LogState) (tag : Ptr) (l : Nat)
    (h : (get_cached_log_level s tag).1 = some l) :
    cache_scan (fun e => e.tag == tag) s.s_log_cache s.s_log_cache_entry_count 0 <
        s.s_log_cache_entry_count ∧
      (cache_at s.s_log_cache (cache_scan (fun e => e.tag == tag) s.s_log_cache
        s.s_log_cache_entry_count 0)).tag = tag ∧
      l = (cache_at s.s_log_cache (cache_scan (fun e => e.tag == tag) s.s_log_cache
        s.s_log_cache_entry_count 0)).level % 2 ^ 8 := by
  have hm : cache_scan (fun e => e.tag == tag) s.s_log_cache s.s_log_cache_entry_count 0 ≠
      s.s_log_cache_entry_count := by
    intro hm
    rw [get_cached_log_level_miss s tag hm] at h
    cases h
  obtain ⟨_, h2, _, h4⟩ := cache_scan_spec (fun e => e.tag == tag) s.s_log_cache
    s.s_log_cache_entry_count 0
  have hlt : cache_scan (fun e => e.tag == tag) s.s_log_cache s.s_log_cache_entry_count 0 <
      0 + s.s_log_cache_entry_count := by omega
  have hhit := h4 hlt
  simp only [beq_iff_eq] at hhit
  refine ⟨by omega, hhit, ?_⟩
  by_cases hc : s.s_log_cache_entry_count = TAG_CACHE_SIZE
  · rw [get_cached_log_level_hit_full s tag hm hc] at h
    simp only [Option.some.injEq] at h
    exact h.symm
  · rw [get_cached_log_level_hit_prefill s tag hm hc] at h
    simp only [Option.some.injEq] at h
    exact h.symm

/-- A hit in a full cache leaves a permutation of the array with the hit slot stamped, and
moves the counter on. -/
theorem get_cached_log_level_full_perm (s : LogState) (tag : Ptr) (l : Nat)
    (hlen : s.s_log_cache.length = TAG_CACHE_SIZE)
    (hc : s.s_log_cache_entry_count = TAG_CACHE_SIZE)
    (h : (get_cached_log_level s tag).1 = some l) :
    (get_cached_log_level s tag).2.s_log_cache.Perm
        (s.s_log_cache.set
          (cache_scan (fun e => e.tag == tag) s.s_log_cache s.s_log_cache_entry_count 0)
          { cache_at s.s_log_cache (cache_scan (fun e => e.tag == tag) s.s_log_cache
              s.s_log_cache_entry_count 0) with
            generation := s.s_log_cache_max_generation % 2 ^ 29 }) ∧
      (get_cached_log_level s tag).2.s_log_cache.length = TAG_CACHE_SIZE ∧
      (get_cached_log_level s tag).2.s_log_cache_max_generation =
        (s.s_log_cache_max_generation + 1) % 2 ^ 32 ∧
      (get_cached_log_level s tag).2.s_log_tags = s.s_log_tags ∧
      (get_cached_log_level s tag).2.s_log_default_level = s.s_log_default_level ∧
      (get_cached_log_level s tag).2.s_log_cache_misses = s.s_log_cache_misses := by
  obtain ⟨hi, -, -⟩ := hit_index s tag l h
  have hm : cache_scan (fun e => e.tag == tag) s.s_log_cache s.s_log_cache_entry_count 0 ≠
      s.s_log_cache_entry_count := by omega
  have hlen' : (s.s_log_cache.set (cache_scan (fun e => e.tag == tag) s.s_log_cache
      s.s_log_cache_entry_count 0)
      { cache_at s.s_log_cache (cache_scan (fun e => e.tag == tag) s.s_log_cache
          s.s_log_cache_entry_count 0) with
        generation := s.s_log_cache_max_generation % 2 ^ 29 }).length = TAG_CACHE_SIZE := by
    rw [List.length_set]
    exact hlen
  rw [get_cached_log_level_hit_full s tag hm hc]
  refine ⟨heap_bubble_down_perm _ _ hlen' (by omega), ?_, rfl, rfl, rfl, rfl⟩
  simp only []
  rw [length_heap_bubble_down _ _ hlen' (by omega), hlen']

theorem map_set_same (f : cached_tag_entry_t → Ptr × Nat) (l : List cached_tag_entry_t)
    (i : Nat) (e : cached_tag_entry_t) (h : f e = f (cache_at l i)) :
    (l.set i e).map f = l.map f := by
  by_cases hl : i < l.length
  · rw [List.map_set, h, ← List.map_set, set_cache_at_self]
  · rw [List.set_eq_of_length_le (by omega)]

/-- In a reachable state with at most `2 ^ 29` generations issued since the last reset the
generation counter is the number of generations issued. -/
theorem max_generation_of_reach (mem : Mem) (k : Nat) (s : LogState) (hr : Reach mem k s)
    (hk : k ≤ 2 ^ 29) : s.s_log_cache_max_generation = k := by
  have hinv := cacheInv_of_reach mem k s hr
  by_cases hfull : s.s_log_cache_entry_count < TAG_CACHE_SIZE
  · obtain ⟨h1, h2, -⟩ := hinv.prefill hfull
    rw [h2, h1]
  · have hcount := hinv.count_le
    exact (hinv.full (by omega) hk).1

/-! ## The swaps of the bubble-down -/

theorem heap_bubble_down_swaps_succ (fuel : Nat) (l : List cached_tag_entry_t) (k : Nat) :
    heap_bubble_down_swaps (fuel + 1) l k =
      if k < TAG_CACHE_SIZE / 2 then
        (k, if gen_at l (k * 2 + 1) < gen_at l (k * 2 + 1 + 1) then k * 2 + 1
            else k * 2 + 1 + 1) ::
          heap_bubble_down_swaps fuel
            (heap_swap l k
              (if gen_at l (k * 2 + 1) < gen_at l (k * 2 + 1 + 1) then k * 2 + 1
                else k * 2 + 1 + 1))
            (if gen_at l (k * 2 + 1) < gen_at l (k * 2 + 1 + 1) then k * 2 + 1
              else k * 2 + 1 + 1)
      else [] := by
  rfl

theorem heap_swaps_cons (l : List cached_tag_entry_t) (p : Nat × Nat)
    (rest : List (Nat × Nat)) :
    heap_swaps l (p :: rest) = heap_swaps (heap_swap l p.1 p.2) rest :=
  rfl

/-- The loop of `heap_bubble_down` leaves the array that its swaps give, one after the
other. -/
theorem heap_bubble_down_loop_swaps (fuel : Nat) :
    ∀ (l : List cached_tag_entry_t) (k : Nat),
      (heap_bubble_down_loop fuel l k).1 = heap_swaps l (heap_bubble_down_swaps fuel l k) := by
  induction fuel with
  | zero =>
    intro l k
    rfl
  | succ fuel ih =>
    intro l k
    rw [heap_bubble_down_loop_succ, heap_bubble_down_swaps_succ]
    by_cases hk : k < TAG_CACHE_SIZE / 2
    · rw [if_pos hk, if_pos hk, heap_swaps_cons, ih]
    · rw [if_neg hk, if_neg hk]
      rfl

theorem length_heap_bubble_down_swaps (fuel : Nat) :
    ∀ (l : List cached_tag_entry_t) (k : Nat),
      (heap_bubble_down_swaps fuel l k).length ≤ fuel := by
  induction fuel with
  | zero =>
    intro l k
    exact Nat.le_refl _
  | succ fuel ih =>
    intro l k
    rw [heap_bubble_down_swaps_succ]
    by_cases hk : k < TAG_CACHE_SIZE / 2
    · rw [if_pos hk, List.length_cons]
      exact Nat.succ_le_succ (ih _ _)
    · rw [if_neg hk]
      exact Nat.zero_le _

/-- The index more than doubles with every swap: `fuel` iterations are all the loop makes
from `k` when `16 <= (k + 1) * 2 ^ fuel`. -/
theorem heap_bubble_down_enough_fuel (fuel : Nat) :
    ∀ (l : List cached_tag_entry_t) (k extra : Nat), 16 ≤ (k + 1) * 2 ^ fuel →
      heap_bubble_down_loop (fuel + extra) l k = heap_bubble_down_loop fuel l k ∧
      heap_bubble_down_swaps (fuel + extra) l k = heap_bubble_down_swaps fuel l k := by
  have hsize : TAG_CACHE_SIZE = 31 := rfl
  induction fuel with
  | zero =>
    intro l k extra hfuel
    have hk : ¬ k < TAG_CACHE_SIZE / 2 := by
      rw [hsize]
      simp only [pow_zero, Nat.mul_one] at hfuel
      omega
    cases extra with
    | zero => exact ⟨rfl, rfl⟩
    | succ e =>
      rw [Nat.zero_add, heap_bubble_down_loop_succ, heap_bubble_down_swaps_succ, if_neg hk,
        if_neg hk]
      exact ⟨rfl, rfl⟩
  | succ fuel ih =>
    intro l k extra hfuel
    have e : fuel + 1 + extra = (fuel + extra) + 1 := by omega
    rw [e, heap_bubble_down_loop_succ, heap_bubble_down_loop_succ,
      heap_bubble_down_swaps_succ, heap_bubble_down_swaps_succ]
    by_cases hk : k < TAG_CACHE_SIZE / 2
    · rw [if_pos hk, if_pos hk, if_pos hk, if_pos hk]
      have hnext : 16 ≤ ((if gen_at l (k * 2 + 1) < gen_at l (k * 2 + 1 + 1) then k * 2 + 1
          else k * 2 + 1 + 1) + 1) * 2 ^ fuel := by
        have h1 : (k + 1) * 2 ^ (fuel + 1) = (2 * (k + 1)) * 2 ^ fuel := by
          rw [pow_succ]
          ring
        have h2 : 2 * (k + 1) ≤ (if gen_at l (k * 2 + 1) < gen_at l (k * 2 + 1 + 1) then
            k * 2 + 1 else k * 2 + 1 + 1) + 1 := by
          split_ifs <;> omega
        calc 16 ≤ (k + 1) * 2 ^ (fuel + 1) := hfuel
          _ = (2 * (k + 1)) * 2 ^ fuel := h1
          _ ≤ _ := Nat.mul_le_mul_right _ h2
      obtain ⟨h3, h4⟩ := ih (heap_swap l k
        (if gen_at l (k * 2 + 1) < gen_at l (k * 2 + 1 + 1) then k * 2 + 1
          else k * 2 + 1 + 1))
        (if gen_at l (k * 2 + 1) < gen_at l (k * 2 + 1 + 1) then k * 2 + 1
          else k * 2 + 1 + 1) extra hnext
      exact ⟨h3, by rw [h4]⟩
    · rw [if_neg hk, if_neg hk, if_neg hk, if_neg hk]
      exact ⟨rfl, rfl⟩

/-- Every swap of the bubble-down exchanges an internal slot with one of its two
children. -/
theorem mem_heap_bubble_down_swaps (fuel : Nat) :
    ∀ (l : List cached_tag_entry_t) (k : Nat) (p : Nat × Nat),
      p ∈ heap_bubble_down_swaps fuel l k →
      p.1 < TAG_CACHE_SIZE / 2 ∧ (p.2 = p.1 * 2 + 1 ∨ p.2 = p.1 * 2 + 2) := by
  induction fuel with
  | zero =>
    intro l k p hp
    cases hp
  | succ fuel ih =>
    intro l k p hp
    rw [heap_bubble_down_swaps_succ] at hp
    by_cases hk : k < TAG_CACHE_SIZE / 2
    · rw [if_pos hk] at hp
      rcases List.mem_cons.mp hp with h | h
      · rw [h]
        refine ⟨hk, ?_⟩
        simp only []
        split_ifs
        · exact Or.inl rfl
        · exact Or.inr rfl
      · exact ih _ _ p h
    · rw [if_neg hk] at hp
      cases hp

/-- The swaps of the bubble-down follow one another from `k`, and each one goes to the
child of smaller generation in the array as the swaps before have left it, to the right
child when the two generations are equal. -/
theorem heap_bubble_down_swaps_step (fuel : Nat) :
    ∀ (l : List cached_tag_entry_t) (k j : Nat),
      j < (heap_bubble_down_swaps fuel l k).length →
      ((heap_bubble_down_swaps fuel l k).getD j (0, 0)).1 =
          (if j = 0 then k
            else ((heap_bubble_down_swaps fuel l k).getD (j - 1) (0, 0)).2) ∧
        ((heap_bubble_down_swaps fuel l k).getD j (0, 0)).2 =
          if gen_at (heap_swaps l ((heap_bubble_down_swaps fuel l k).take j))
              (((heap_bubble_down_swaps fuel l k).getD j (0, 0)).1 * 2 + 1) <
            gen_at (heap_swaps l ((heap_bubble_down_swaps fuel l k).take j))
              (((heap_bubble_down_swaps fuel l k).getD j (0, 0)).1 * 2 + 2)
          then ((heap_bubble_down_swaps fuel l k).getD j (0, 0)).1 * 2 + 1
          else ((heap_bubble_down_swaps fuel l k).getD j (0, 0)).1 * 2 + 2 := by
  induction fuel with
  | zero =>
    intro l k j hj
    cases hj
  | succ fuel ih =>
    intro l k j hj
    rw [heap_bubble_down_swaps_succ] at hj ⊢
    by_cases hk : k < TAG_CACHE_SIZE / 2
    · rw [if_pos hk] at hj ⊢
      cases j with
      | zero =>
        refine ⟨rfl, ?_⟩
        rfl
      | succ j' =>
        rw [List.length_cons] at hj
        have hj' : j' < (heap_bubble_down_swaps fuel
            (heap_swap l k
              (if gen_at l (k * 2 + 1) < gen_at l (k * 2 + 1 + 1) then k * 2 + 1
                else k * 2 + 1 + 1))
            (if gen_at l (k * 2 + 1) < gen_at l (k * 2 + 1 + 1) then k * 2 + 1
              else k * 2 + 1 + 1)).length := by omega
        obtain ⟨h1, h2⟩ := ih _ _ j' hj'
        rw [List.getD_cons_succ, List.take_succ_cons, heap_swaps_cons]
        refine ⟨?_, h2⟩
        rw [h1, if_neg (Nat.succ_ne_zero j'), Nat.add_sub_cancel]
        cases j' with
        | zero => rfl
        | succ j'' =>
          rw [if_neg (Nat.succ_ne_zero j''), Nat.add_sub_cancel, List.getD_cons_succ]
    · rw [if_neg hk] at hj
      cases hj

/-! ## Coherence when every tag string has one address -/

theorem reach_of_reachOn (mem : Mem) (tags : Ptr → Prop) (s : LogState)
    (h : ReachOn mem tags s) : ∃ k, Reach mem k s := by
  induction h with
  | init d _ => exact ⟨0, Reach.init d⟩
  | level_set s malloc_ok tag level _ _ _ ih =>
    obtain ⟨k, hk⟩ := ih
    exact ⟨_, Reach.level_set k s malloc_ok tag level hk⟩
  | visible s lock_ok level tag _ _ ih =>
    obtain ⟨k, hk⟩ := ih
    exact ⟨_, Reach.visible k s lock_ok level tag hk⟩

/-- The level that the registry and the default level give a tag after `log_level_set` of a
tag other than `"*"` that has stored its level. -/
theorem resolved_level_log_level_set (mem : Mem) (malloc_ok : Bool) (s : LogState)
    (tag : Ptr) (level : Nat) (h : mem tag ≠ "*")
    (hf : ¬ (!(update_existing_tag mem s.s_log_tags tag level).2 && !malloc_ok) = true)
    (u : Ptr) :
    resolved_level mem (log_level_set mem malloc_ok s tag level) u =
      if mem u = mem tag then level else resolved_level mem s u := by
  obtain ⟨h1, h2⟩ := get_uncached_log_level_set mem malloc_ok s tag level h hf
  have hdef := (log_level_set_frame mem malloc_ok s tag level h).1
  unfold resolved_level
  by_cases hu : mem u = mem tag
  · rw [if_pos hu, get_uncached_congr mem _ u tag hu, h1]
  · rw [if_neg hu, h2 u hu, hdef]

/-- When all tags passed are pointers of a set in which every string has one address, and
all levels are within `0 .. 7`: the occupied slots hold pointers of the set, the cache is
coherent with the registry, and no tag has a level above 7. -/
theorem oneIdentity_invariant (mem : Mem) (tags : Ptr → Prop) (hone : OneIdentity mem tags)
    (s : LogState) (h : ReachOn mem tags s) :
    (∀ i, i < s.s_log_cache_entry_count → tags (cache_at s.s_log_cache i).tag) ∧
      CacheCoherent mem s ∧ ∀ u, resolved_level mem s u ≤ 7 := by
  induction h with
  | init d hd =>
    refine ⟨?_, ?_, ?_⟩
    · intro i hi
      exact absurd hi (Nat.not_lt_zero i)
    · intro i hi
      exact absurd hi (Nat.not_lt_zero i)
    · intro u
      exact hd
  | level_set s malloc_ok tag level htag hlevel hr ih =>
    obtain ⟨hknown, hco, hsmall⟩ := ih
    obtain ⟨k, hreach⟩ := reach_of_reachOn mem tags s hr
    have hinv := cacheInv_of_reach mem k s hreach
    have hdis := tagsDistinct_of_reach mem k s hreach
    by_cases hw : mem tag = "*"
    · rw [log_level_set_wildcard mem malloc_ok s tag level hw]
      refine ⟨?_, ?_, ?_⟩
      · intro i hi
        exact absurd hi (Nat.not_lt_zero i)
      · intro i hi
        exact absurd hi (Nat.not_lt_zero i)
      · intro u
        exact hlevel
    · by_cases hf : (!(update_existing_tag mem s.s_log_tags tag level).2 && !malloc_ok) = true
      · rw [log_level_set_malloc_failed mem malloc_ok s tag level hw hf]
        exact ⟨hknown, hco, hsmall⟩
      · have hres := resolved_level_log_level_set mem malloc_ok s tag level hw hf
        have hframe := log_level_set_frame mem malloc_ok s tag level hw
        have hcache : (log_level_set mem malloc_ok s tag level).s_log_cache =
            update_cached_level mem s.s_log_cache s.s_log_cache_entry_count tag level := by
          rw [log_level_set_stored mem malloc_ok s tag level hw hf]
        have htagx : ∀ x, (cache_at (log_level_set mem malloc_ok s tag level).s_log_cache
            x).tag = (cache_at s.s_log_cache x).tag := by
          intro x
          rw [hcache]
          exact ((update_cached_level_frame mem s.s_log_cache s.s_log_cache_entry_count tag
            level).2 x).2
        refine ⟨?_, ?_, ?_⟩
        · intro i hi
          rw [hframe.2.1] at hi
          rw [htagx]
          exact hknown i hi
        · intro i hi
          rw [hframe.2.1] at hi
          rw [hres, htagx]
          by_cases hm : mem (cache_at s.s_log_cache i).tag = mem tag
          · rw [if_pos hm, hcache]
            have hlow : ∀ j, j < i → mem (cache_at s.s_log_cache j).tag ≠ mem tag := by
              intro j hj hjm
              have hji : (cache_at s.s_log_cache j).tag = (cache_at s.s_log_cache i).tag :=
                hone _ _ (hknown j (by omega)) (hknown i hi) (by rw [hjm, hm])
              have := tagsDistinct_index s hdis (by rw [hinv.len]; exact hinv.count_le) j i
                (by omega) hi hji
              omega
            rw [update_cached_level_lowest mem s.s_log_cache s.s_log_cache_entry_count tag
              level i hi (by rw [hinv.len]; exact hinv.count_le) hm hlow]
          · rw [if_neg hm, hcache]
            rcases update_cached_level_at mem s.s_log_cache s.s_log_cache_entry_count tag
              level i with he | ⟨hm', -, -⟩
            · rw [he]
              exact hco i hi
            · exact absurd hm' hm
        · intro u
          rw [hres]
          split_ifs
          · exact hlevel
          · exact hsmall u
  | visible s lock_ok level tag htag hr ih =>
    obtain ⟨hknown, hco, hsmall⟩ := ih
    obtain ⟨k, hreach⟩ := reach_of_reachOn mem tags s hr
    have hinv := cacheInv_of_reach mem k s hreach
    obtain ⟨htags, hdef⟩ := is_tag_level_visible_frame mem lock_ok s level tag
    refine ⟨?_, cacheCoherent_is_tag_level_visible mem lock_ok s level tag hinv.len
      hinv.count_le hco, ?_⟩
    · cases lock_ok with
      | false => exact hknown
      | true =>
        cases hg : (get_cached_log_level s tag).1 with
        | none =>
          rw [is_tag_level_visible_miss mem s level tag hg]
          exact occupied_add_to_cache (fun e => tags e.tag) s tag _ hinv.len hinv.count_le
            htag hknown
        | some l =>
          rw [is_tag_level_visible_hit mem s level tag l hg]
          exact occupied_get_cached_log_level (fun e => tags e.tag) s tag hinv.len
            (fun e g he => he) hknown
    · intro u
      rw [resolved_level_congr mem s _ u htags hdef]
      exact hsmall u

/-- A coherent cache in a state where no tag has a level above 7: every occupied slot
stores the level that the registry and the default level give its tag. -/
theorem coherent_levels (mem : Mem) (s : LogState) (hco : CacheCoherent mem s)
    (hsmall : ∀ u, resolved_level mem s u ≤ 7) :
    ∀ i, i < s.s_log_cache_entry_count →
      (cache_at s.s_log_cache i).level =
        resolved_level mem s (cache_at s.s_log_cache i).tag := by
  intro i hi
  have h1 := hco i hi
  have h2 := hsmall (cache_at s.s_log_cache i).tag
  have h3 : (2 : Nat) ^ 3 = 8 := by norm_num
  rw [h1, h3]
  omega

/-! ## Lines of the buffer writers -/

theorem mem_spec_chunk (buffer : Nat → Nat) (len j b : Nat)
    (h : b ∈ spec_chunk buffer len j) : ∃ i, i < len ∧ b = buffer i := by
  unfold spec_chunk at h
  obtain ⟨i, hi, rfl⟩ := List.mem_map.mp h
  rw [List.mem_range] at hi
  exact ⟨16 * j + i, by omega, rfl⟩

/-- The hex line of a chunk of a buffer whose bytes do not sign-extend: the text that the
spec gives the chunk. -/
theorem hex_line_chunk (t : Target) (buffer : Nat → Nat) (len j : Nat)
    (hb : ∀ i, i < len → buffer i < 256)
    (hs : t.char_signed = false ∨ ∀ i, i < len → buffer i < 128) (hbits : 16 ≤ t.int_bits) :
    hex_line t (spec_chunk buffer len j) (spec_chunk buffer len j).length =
      some (String.mk (spec_hex_text (spec_chunk buffer len j))) := by
  refine (hex_line_eq_spec t _ (by rw [length_spec_chunk]; omega) ?_ ?_ (by omega)).1
  · intro b hmem
    obtain ⟨i, hi, rfl⟩ := mem_spec_chunk _ _ _ _ hmem
    exact hb i hi
  · rcases hs with h | h
    · exact Or.inl h
    · right
      intro b hmem
      obtain ⟨i, hi, rfl⟩ := mem_spec_chunk _ _ _ _ hmem
      exact h i hi

/-- The char line of a chunk of a buffer: the bytes before the first zero byte of the
chunk, as characters. -/
theorem char_line_chunk (t : Target) (buffer : Nat → Nat) (len j : Nat)
    (hb : ∀ i, i < len → buffer i < 256) :
    char_line t (spec_chunk buffer len j) (spec_chunk buffer len j).length =
      some (String.mk (spec_char_text (spec_chunk buffer len j))) := by
  refine char_line_eq t _ (by rw [length_spec_chunk]; omega) ?_
  intro b hmem
  obtain ⟨i, hi, rfl⟩ := mem_spec_chunk _ _ _ _ hmem
  exact hb i hi

theorem length_spec_printable (chunk : List Nat) :
    (spec_printable chunk).length = chunk.length := by
  unfold spec_printable
  rw [List.length_map]

/-- The texts of the hexdump line of a chunk whose bytes do not sign-extend, one after the
other: the line that the spec gives the chunk. -/
theorem flatten_hexdump_texts_chunk (t : Target) (addr j : Nat) (chunk : List Nat)
    (hj : 16 * j < 2 ^ 16) (hb : ∀ b, b ∈ chunk → b < 256)
    (hs : t.char_signed = false ∨ ∀ b, b ∈ chunk → b < 128) (hbits : 16 ≤ t.int_bits) :
    (hexdump_texts t addr (16 * j) chunk chunk.length).flatten =
        spec_hexdump_text t addr j chunk ∧
      (spec_hexdump_text t addr j chunk).length =
        (t.fmt_ptr (addr + 16 * j)).length + 65 + chunk.length := by
  have h2 : 2 ^ 16 ≤ 2 ^ t.int_bits := Nat.pow_le_pow_right (by decide) hbits
  have hun : to_unsigned t ((16 * j : Nat) : Int) = 16 * j :=
    to_unsigned_small t (16 * j) (by omega)
  have harea := hexdump_area_eq_spec t chunk hb hs (by omega)
  constructor
  · rw [flatten_hexdump_texts t addr (16 * j) chunk hb, harea.1, hun]
    rfl
  · unfold spec_hexdump_text
    simp only [List.length_append, harea.2, length_spec_printable,
      length_fmt_X_8 (16 * j) (by
        have : (2 : Nat) ^ 16 ≤ 16 ^ 8 := by decide
        omega)]
    have e1 : " (".toList.length = 2 := rfl
    have e2 : ")".toList.length = 1 := rfl
    have e3 : "|".toList.length = 1 := rfl
    rw [e1, e2, e3]
    omega

theorem NUL_not_mem_spec_hexdump_text (t : Target) (addr j : Nat) (chunk : List Nat)
    (hb : ∀ b, b ∈ chunk → b < 256)
    (hs : t.char_signed = false ∨ ∀ b, b ∈ chunk → b < 128) (hbits : 16 ≤ t.int_bits)
    (hptr : NUL ∉ t.fmt_ptr (addr + 16 * j)) :
    NUL ∉ spec_hexdump_text t addr j chunk := by
  have harea := hexdump_area_eq_spec t chunk hb hs (by omega)
  unfold spec_hexdump_text
  intro hmem
  simp only [List.mem_append] at hmem
  rcases hmem with ((((((h1 | h1) | h1) | h1) | h1) | h1) | h1) | h1
  · exact hptr h1
  · exact absurd h1 (by decide)
  · exact NUL_not_mem_fmt_X _ _ h1
  · exact absurd h1 (by decide)
  · rw [← harea.1] at h1
    unfold hexdump_area at h1
    rcases List.mem_append.mp h1 with h2 | h2
    · exact NUL_not_mem_hexdump_cell_texts t chunk chunk.length h2
    · exact absurd h2 (by decide)
  · exact absurd h1 (by decide)
  · exact NUL_not_mem_spec_printable chunk h1
  · exact absurd h1 (by decide)

/-- The composition of the hexdump line of a chunk of a buffer whose bytes do not
sign-extend, when the text of `%p` has at most `sizeof(void *) + 6` characters: the line
fits `hd_buffer`, the array holds the line that the spec gives the chunk, and
`ptr_hd - hd_buffer` is its length. -/
theorem hexdump_compose_chunk (t : Target) (addr : Nat) (buffer : Nat → Nat) (len j : Nat)
    (hj : 16 * j < 2 ^ 16) (hb : ∀ i, i < len → buffer i < 256)
    (hs : t.char_signed = false ∨ ∀ i, i < len → buffer i < 128) (hbits : 16 ≤ t.int_bits)
    (hplen : (t.fmt_ptr (addr + 16 * j)).length ≤ t.sizeof_ptr + 6) :
    hexdump_compose t addr (16 * j) (spec_chunk buffer len j)
        (spec_chunk buffer len j).length =
      some (spec_hexdump_text t addr j (spec_chunk buffer len j) ++
          List.replicate (t.sizeof_ptr + 3 + 10 + 3 + BYTES_PER_LINE * 3 + 3 + 1 +
            BYTES_PER_LINE + 1 + 3 -
            (spec_hexdump_text t addr j (spec_chunk buffer len j)).length) NUL,
        (spec_hexdump_text t addr j (spec_chunk buffer len j)).length) ∧
      1 ≤ t.sizeof_ptr + 3 + 10 + 3 + BYTES_PER_LINE * 3 + 3 + 1 + BYTES_PER_LINE + 1 + 3 -
        (spec_hexdump_text t addr j (spec_chunk buffer len j)).length := by
  have hbc : ∀ b, b ∈ spec_chunk buffer len j → b < 256 := by
    intro b hmem
    obtain ⟨i, hi, rfl⟩ := mem_spec_chunk _ _ _ _ hmem
    exact hb i hi
  have hsc : t.char_signed = false ∨ ∀ b, b ∈ spec_chunk buffer len j → b < 128 := by
    rcases hs with h | h
    · exact Or.inl h
    · right
      intro b hmem
      obtain ⟨i, hi, rfl⟩ := mem_spec_chunk _ _ _ _ hmem
      exact h i hi
  obtain ⟨hflat, hlenT⟩ := flatten_hexdump_texts_chunk t addr j _ hj hbc hsc hbits
  have hn : (spec_chunk buffer len j).length ≤ 16 := by
    rw [length_spec_chunk]
    omega
  have hfit : (spec_hexdump_text t addr j (spec_chunk buffer len j)).length + 1 ≤
      t.sizeof_ptr + 3 + 10 + 3 + BYTES_PER_LINE * 3 + 3 + 1 + BYTES_PER_LINE + 1 + 3 := by
    rw [hlenT]
    unfold BYTES_PER_LINE
    omega
  constructor
  · rw [hexdump_compose_eq _ _ _ _ _ (by rw [hflat]; exact hfit), hflat]
  · omega

theorem log_writes_of_map (level : Nat) (tag : Ptr) (format : Nat → String)
    (args : Nat → va_list) (l : List Nat) :
    ∀ lv t f a, Call.log_write lv t f a ∈
      l.map (fun j => Call.log_write level tag (format j) (args j)) →
      lv = level ∧ t = tag := by
  intro lv t f a hin
  obtain ⟨j, -, hj⟩ := List.mem_map.mp hin
  simp only [Call.log_write.injEq] at hj
  exact ⟨hj.1.symm, hj.2.1.symm⟩

theorem log_writes_of_flatMap (level : Nat) (tag : Ptr) (pformat : Nat → String)
    (pargs : Nat → va_list) (format : Nat → String) (args : Nat → va_list) (l : List Nat) :
    ∀ lv t f a, Call.log_write lv t f a ∈
      l.flatMap (fun j =>
        [Call.printf (pformat j) (pargs j), Call.log_write level tag (format j) (args j)]) →
      lv = level ∧ t = tag := by
  intro lv t f a hin
  obtain ⟨j, -, hj⟩ := List.mem_flatMap.mp hin
  simp only [List.mem_cons, Call.log_write.injEq, List.mem_singleton, false_or,
    List.not_mem_nil, or_false] at hj
  rcases hj with hj | hj
  · cases hj
  · exact ⟨hj.1, hj.2.1⟩

/-- The calls of `log_buffer_hex_internal` for a buffer whose bytes do not sign-extend: one
`log_write` for each chunk, of the hex text of the chunk. -/
theorem log_buffer_hex_internal_spec (t : Target) (tag : Ptr) (buffer : Nat → Nat)
    (len level : Nat) (hlen : len < 2 ^ 16) (hb : ∀ i, i < len → buffer i < 256)
    (hs : t.char_signed = false ∨ ∀ i, i < len → buffer i < 128) (hbits : 16 ≤ t.int_bits) :
    log_buffer_hex_internal t tag buffer len level =
      some ((List.range ((len + 15) / 16)).map (fun j =>
        Call.log_write level tag "%s\n"
          [Arg.str (String.mk (spec_hex_text (spec_chunk buffer len j)))])) :=
  log_buffer_hex_internal_eq t tag buffer len level
    (fun j => String.mk (spec_hex_text (spec_chunk buffer len j))) hlen
    (fun j _ => hex_line_chunk t buffer len j hb hs hbits)

/-- The calls of `log_buffer_char_internal`: one `log_write` for each chunk, of the bytes
of the chunk before its first zero byte. -/
theorem log_buffer_char_internal_spec (t : Target) (tag : Ptr) (buffer : Nat → Nat)
    (len level : Nat) (hlen : len < 2 ^ 16) (hb : ∀ i, i < len → buffer i < 256) :
    log_buffer_char_internal t tag buffer len level =
      some ((List.range ((len + 15) / 16)).map (fun j =>
        Call.log_write level tag "%s\n"
          [Arg.str (String.mk (spec_char_text (spec_chunk buffer len j)))])) :=
  log_buffer_char_internal_eq t tag buffer len level
    (fun j => String.mk (spec_char_text (spec_chunk buffer len j))) hlen
    (fun j _ => char_line_chunk t buffer len j hb)

/-- The calls of `log_buffer_hexdump_internal` for a buffer whose bytes do not sign-extend
and whose `%p` texts have at most `sizeof(void *) + 6` characters: for each chunk the
`printf` of the line length and the `log_write` of the C string in `hd_buffer`. -/
theorem log_buffer_hexdump_internal_fits (t : Target) (tag : Ptr) (addr : Nat)
    (buffer : Nat → Nat) (len level : Nat) (hlen : len < 2 ^ 16)
    (hb : ∀ i, i < len → buffer i < 256)
    (hs : t.char_signed = false ∨ ∀ i, i < len → buffer i < 128) (hbits : 16 ≤ t.int_bits)
    (hplen : ∀ j, j < (len + 15) / 16 →
      (t.fmt_ptr (addr + 16 * j)).length ≤ t.sizeof_ptr + 6) :
    log_buffer_hexdump_internal t tag addr buffer len level =
      some ((List.range ((len + 15) / 16)).flatMap (fun j =>
        [Call.printf "printing %d out of %d\r\n"
            [Arg.int ((spec_hexdump_text t addr j (spec_chunk buffer len j)).length : Nat),
              Arg.int (t.sizeof_ptr + 3 + 10 + 3 + BYTES_PER_LINE * 3 + 3 + 1 +
                BYTES_PER_LINE + 1 + 3 : Nat)],
          Call.log_write level tag "%s\n"
            [Arg.str (String.mk (c_string
              (spec_hexdump_text t addr j (spec_chunk buffer len j) ++
                List.replicate (t.sizeof_ptr + 3 + 10 + 3 + BYTES_PER_LINE * 3 + 3 + 1 +
                  BYTES_PER_LINE + 1 + 3 -
                  (spec_hexdump_text t addr j (spec_chunk buffer len j)).length) NUL)))]])) :=
  log_buffer_hexdump_internal_eq t tag addr buffer len level
    (fun j => (spec_hexdump_text t addr j (spec_chunk buffer len j) ++
        List.replicate (t.sizeof_ptr + 3 + 10 + 3 + BYTES_PER_LINE * 3 + 3 + 1 +
          BYTES_PER_LINE + 1 + 3 -
          (spec_hexdump_text t addr j (spec_chunk buffer len j)).length) NUL,
      (spec_hexdump_text t addr j (spec_chunk buffer len j)).length)) hlen
    (fun j hj => (hexdump_compose_chunk t addr buffer len j (by omega) hb hs hbits
      (hplen j hj)).1)

/-- The calls of `log_buffer_hexdump_internal` when, in addition, no `%p` text holds a zero
character: the `log_write` of each chunk passes the line that the spec gives the chunk. -/
theorem log_buffer_hexdump_internal_spec (t : Target) (tag : Ptr) (addr : Nat)
    (buffer : Nat → Nat) (len level : Nat) (hlen : len < 2 ^ 16)
    (hb : ∀ i, i < len → buffer i < 256)
    (hs : t.char_signed = false ∨ ∀ i, i < len → buffer i < 128) (hbits : 16 ≤ t.int_bits)
    (hplen : ∀ j, j < (len + 15) / 16 →
      (t.fmt_ptr (addr + 16 * j)).length ≤ t.sizeof_ptr + 6)
    (hpnul : ∀ j, j < (len + 15) / 16 → NUL ∉ t.fmt_ptr (addr + 16 * j)) :
    log_buffer_hexdump_internal t tag addr buffer len level =
      some ((List.range ((len + 15) / 16)).flatMap (fun j =>
        [Call.printf "printing %d out of %d\r\n"
            [Arg.int ((spec_hexdump_text t addr j (spec_chunk buffer len j)).length : Nat),
              Arg.int (t.sizeof_ptr + 3 + 10 + 3 + BYTES_PER_LINE * 3 + 3 + 1 +
                BYTES_PER_LINE + 1 + 3 : Nat)],
          Call.log_write level tag "%s\n"
            [Arg.str (String.mk
              (spec_hexdump_text t addr j (spec_chunk buffer len j)))]])) := by
  rw [log_buffer_hexdump_internal_fits t tag addr buffer len level hlen hb hs hbits hplen]
  congr 1
  apply List.flatMap_congr
  intro j hj
  rw [List.mem_range] at hj
  have hbc : ∀ b, b ∈ spec_chunk buffer len j → b < 256 := by
    intro b hmem
    obtain ⟨i, hi, rfl⟩ := mem_spec_chunk _ _ _ _ hmem
    exact hb i hi
  have hsc : t.char_signed = false ∨ ∀ b, b ∈ spec_chunk buffer len j → b < 128 := by
    rcases hs with h | h
    · exact Or.inl h
    · right
      intro b hmem
      obtain ⟨i, hi, rfl⟩ := mem_spec_chunk _ _ _ _ hmem
      exact h i hi
  rw [c_string_append_zeros _ _
      (hexdump_compose_chunk t addr buffer len j (by omega) hb hs hbits (hplen j hj)).2,
    c_string_of_no_zero _
      (NUL_not_mem_spec_hexdump_text t addr j _ hbc hsc hbits (hpnul j hj))]

/-- A buffer writer after a visible entry check in a reachable state, with every lock
attempt succeeding and a resolved level that fits the three bits of the cache: when the
formatter makes the calls `calls`, each `log_write` of which is for the level and tag of
the entry check, the writer's output is the output of all of them. -/
theorem writer_of_internal (mem : Mem) (lock_timeout : Nat → Bool) (k : Nat)
    (sys : LogSystem) (m : Nat) (tag : Ptr) (internal : Option (List Call))
    (calls : List Call) (hint : internal = some calls)
    (hr : Reach mem k sys.state) (hlock : ∀ n, lock_timeout n = true)
    (hres : resolved_level mem sys.state tag < 2 ^ 3)
    (hcalls : ∀ l t f a, Call.log_write l t f a ∈ calls → l = m ∧ t = tag)
    (hvis : (is_tag_level_visible mem true sys.state m tag).1 = true) :
    (internal.map (fun calls =>
      perform mem lock_timeout calls 1
        { state := (is_tag_level_visible mem true sys.state m tag).2
          s_log_print_func := sys.s_log_print_func })).map Prod.fst =
      some (outputs_of sys.s_log_print_func calls) := by
  rw [hint, Option.map_some', Option.map_some',
    perform_after_visible mem lock_timeout k sys m tag calls hr hlock hres hcalls hvis]

/-- The output of a message followed by a buffer writer for the same level and tag whose
formatter makes the calls `calls`, in a reachable state, when every lock attempt of the
writer succeeds and the level resolved for the tag is at most 7: after a visible message
the lines follow it, after a suppressed one nothing does. -/
theorem message_then_writer (mem : Mem) (n : Nat) (sys : LogSystem) (m : Nat) (tag : Ptr)
    (format : String) (args : va_list) (lock_timeout : Nat → Bool)
    (internal : Option (List Call)) (calls : List Call) (hint : internal = some calls)
    (hr : Reach mem n sys.state) (hlock : ∀ j, lock_timeout j = true)
    (hres : resolved_level mem sys.state tag < 2 ^ 3)
    (hcalls : ∀ l t f a, Call.log_write l t f a ∈ calls → l = m ∧ t = tag) :
    (if (is_tag_level_visible mem (lock_timeout 0)
          (log_write mem true sys m tag format args).2.state m tag).1 = true then
        internal.map (fun calls =>
          perform mem lock_timeout calls 1
            { state := (is_tag_level_visible mem (lock_timeout 0)
                (log_write mem true sys m tag format args).2.state m tag).2
              s_log_print_func := (log_write mem true sys m tag format
                args).2.s_log_print_func })
      else
        some ([], { state := (is_tag_level_visible mem (lock_timeout 0)
                      (log_write mem true sys m tag format args).2.state m tag).2
                    s_log_print_func := (log_write mem true sys m tag format
                      args).2.s_log_print_func })).map
        (fun r => (log_write mem true sys m tag format args).1 ++ r.1) =
      some (if (is_tag_level_visible mem true sys.state m tag).1 = true then
        Output.vprintf_like sys.s_log_print_func format args ::
          outputs_of sys.s_log_print_func calls
      else []) := by
  have h := message_then_lines mem n sys m tag format args lock_timeout calls hr hlock hres
    hcalls
  rw [hint, Option.map_some']
  by_cases hc : (is_tag_level_visible mem (lock_timeout 0)
      (log_write mem true sys m tag format args).2.state m tag).1 = true
  · rw [if_pos hc] at h ⊢
    rw [Option.map_some', h]
  · rw [if_neg hc] at h ⊢
    rw [Option.map_some', h]

/-- The output of a suppressed message followed by a buffer writer for the same level and
tag: nothing, whatever the formatter would do. -/
theorem hidden_message_then_writer (mem : Mem) (n : Nat) (sys : LogSystem) (m : Nat)
    (tag : Ptr) (format : String) (args : va_list) (lock_timeout : Nat → Bool)
    (internal : Option (List Call))
    (hr : Reach mem n sys.state) (hlock : ∀ j, lock_timeout j = true)
    (hres : resolved_level mem sys.state tag < 2 ^ 3)
    (hvis : (is_tag_level_visible mem true sys.state m tag).1 = false) :
    (if (is_tag_level_visible mem (lock_timeout 0)
          (log_write mem true sys m tag format args).2.state m tag).1 = true then
        internal.map (fun calls =>
          perform mem lock_timeout calls 1
            { state := (is_tag_level_visible mem (lock_timeout 0)
                (log_write mem true sys m tag format args).2.state m tag).2
              s_log_print_func := (log_write mem true sys m tag format
                args).2.s_log_print_func })
      else
        some ([], { state := (is_tag_level_visible mem (lock_timeout 0)
                      (log_write mem true sys m tag format args).2.state m tag).2
                    s_log_print_func := (log_write mem true sys m tag format
                      args).2.s_log_print_func })).map
        (fun r => (log_write mem true sys m tag format args).1 ++ r.1) =
      some [] := by
  have h1 := (exec_then_buffer_writer mem n sys m tag format args lock_timeout [] hr hlock
    hres (fun _ _ _ _ hin => absurd hin (List.not_mem_nil _))).1
  have hw : (log_write mem true sys m tag format args).1 = [] := by
    unfold log_write
    rw [log_writev_eq, if_neg (by rw [hvis]; exact Bool.false_ne_true)]
  rw [if_neg (by rw [h1, hvis]; exact Bool.false_ne_true), Option.map_some', hw]
  rfl

/-! ## Claims -/

/-- C1 (the code departs from the claim): with two tag pointers `1` and `2` whose strings
are equal, both looked up and then `log_level_set(2, INFO)`, the cached slot of pointer `2`
keeps the old level: the last `is_tag_level_visible(INFO, 2)` answers `false`, where the
cache-free reference model answers `true`. -/
theorem run_departs_from_reference :
    run example_mem (log_init LOG_VERBOSE)
        [Op.level_set 0 LOG_ERROR, Op.visible LOG_INFO 1, Op.visible LOG_INFO 2,
          Op.level_set 2 LOG_INFO, Op.visible LOG_INFO 2] = [false, false, false] ∧
      ref_run example_mem { default_level := LOG_VERBOSE, registry := [] }
        [Op.level_set 0 LOG_ERROR, Op.visible LOG_INFO 1, Op.visible LOG_INFO 2,
          Op.level_set 2 LOG_INFO, Op.visible LOG_INFO 2] = [false, false, true] := by
  decide

/-- C2: in every reachable state with a default level `D` in `NONE..VERBOSE`, a tag whose
string has no registry entry is visible at message level `m` iff `m ≤ D`, whether the
lookup hits or misses the cache, and so is the next lookup of the same tag. -/
theorem unconfigured_tag_visible_iff_default (mem : Mem) (k : Nat) (s : LogState)
    (tag : Ptr) (m m' : Nat) (hr : Reach mem k s)
    (hD : s.s_log_default_level ≤ LOG_VERBOSE)
    (hreg : get_uncached_log_level mem s.s_log_tags tag = none) :
    ((is_tag_level_visible mem true s m tag).1 = true ↔ m ≤ s.s_log_default_level) ∧
      ((is_tag_level_visible mem true (is_tag_level_visible mem true s m tag).2 m' tag).1 =
        true ↔ m' ≤ s.s_log_default_level) := by
  have key : ∀ (k : Nat) (s : LogState) (m : Nat), Reach mem k s →
      s.s_log_default_level ≤ LOG_VERBOSE →
      get_uncached_log_level mem s.s_log_tags tag = none →
      (is_tag_level_visible mem true s m tag).1 = decide (m ≤ s.s_log_default_level) := by
    intro k s m hr hD hreg
    have hres : resolved_level mem s tag = s.s_log_default_level := by
      unfold resolved_level
      rw [hreg]
    cases hg : (get_cached_log_level s tag).1 with
    | none =>
      rw [is_tag_level_visible_of_miss mem s m tag hg, hres]
    | some l =>
      rw [is_tag_level_visible_hit mem s m tag l hg]
      obtain ⟨i, hi, htag, _, hl⟩ := get_cached_log_level_some s tag l hg
      have hco := defaultCoherent_of_reach mem k s hr i hi (by rw [htag]; exact hreg)
      have hD' : s.s_log_default_level ≤ 5 := hD
      have : l = s.s_log_default_level := by
        rw [hl, hco]
        omega
      rw [this]
      rfl
  obtain ⟨htags, hdef⟩ := is_tag_level_visible_frame mem true s m tag
  have h1 := key k s m hr hD hreg
  have h2 := key _ _ m' (Reach.visible k s true m tag hr) (by rw [hdef]; exact hD)
    (by rw [htags]; exact hreg)
  rw [hdef] at h2
  rw [h1, h2]
  simp

theorem unconfigured_tag_visible_iff_default_witness :
    Reach example_mem 0 (log_init LOG_WARN) ∧
      (((is_tag_level_visible example_mem true (log_init LOG_WARN) LOG_INFO 1).1 = true ↔
          LOG_INFO ≤ (log_init LOG_WARN).s_log_default_level) ∧
        ((is_tag_level_visible example_mem true
            (is_tag_level_visible example_mem true (log_init LOG_WARN) LOG_INFO 1).2
            LOG_ERROR 1).1 = true ↔
          LOG_ERROR ≤ (log_init LOG_WARN).s_log_default_level)) :=
  ⟨Reach.init LOG_WARN,
    unconfigured_tag_visible_iff_default example_mem 0 (log_init LOG_WARN) 1 LOG_INFO
      LOG_ERROR (Reach.init LOG_WARN) (by decide) rfl⟩

/-- C3 (the code departs from the claim): pointers `1` and `2` hold the same string and
both are cached at the default level `ERROR`; `log_level_set(2, INFO)` stores `INFO` in the
registry, yet `is_tag_level_visible(INFO, 2)` still answers `false`. -/
theorem level_set_leaves_stale_slot :
    get_uncached_log_level example_mem
        (log_level_set example_mem true
          (lookups example_mem (log_level_set example_mem true (log_init LOG_VERBOSE) 0
            LOG_ERROR) [(LOG_INFO, 1), (LOG_INFO, 2)]) 2 LOG_INFO).s_log_tags 2 =
        some LOG_INFO ∧
      (is_tag_level_visible example_mem true
        (log_level_set example_mem true
          (lookups example_mem (log_level_set example_mem true (log_init LOG_VERBOSE) 0
            LOG_ERROR) [(LOG_INFO, 1), (LOG_INFO, 2)]) 2 LOG_INFO) LOG_INFO 2).1 = false := by
  decide

/-- C4: after `log_level_set(t, L1)` and then `log_level_set("*", L)`, from any state, the
registry is empty and `is_tag_level_visible(m, t)` answers `m ≤ L` for every `m`; for a
level `L` in `NONE..VERBOSE` it keeps answering so after any further lookups. -/
theorem wildcard_removes_overrides (mem : Mem) (s : LogState) (malloc_ok malloc_ok' : Bool)
    (t star : Ptr) (L1 L : Nat) (hstar : mem star = "*") :
    (log_level_set mem malloc_ok' (log_level_set mem malloc_ok s t L1) star L).s_log_tags =
        [] ∧
      (∀ m, ((is_tag_level_visible mem true
        (log_level_set mem malloc_ok' (log_level_set mem malloc_ok s t L1) star L) m t).1 =
          true ↔ m ≤ L)) ∧
      (L ≤ LOG_VERBOSE → s.s_log_cache.length = TAG_CACHE_SIZE →
        ∀ (qs : List (Nat × Ptr)) (m : Nat),
          ((is_tag_level_visible mem true
            (lookups mem
              (log_level_set mem malloc_ok' (log_level_set mem malloc_ok s t L1) star L) qs)
            m t).1 = true ↔ m ≤ L)) := by
  have hw := log_level_set_wildcard mem malloc_ok' (log_level_set mem malloc_ok s t L1)
    star L hstar
  have htags : (log_level_set mem malloc_ok' (log_level_set mem malloc_ok s t L1)
      star L).s_log_tags = [] := by rw [hw]
  have hdef : (log_level_set mem malloc_ok' (log_level_set mem malloc_ok s t L1)
      star L).s_log_default_level = L := by rw [hw]
  have hcnt : (log_level_set mem malloc_ok' (log_level_set mem malloc_ok s t L1)
      star L).s_log_cache_entry_count = 0 := by rw [hw]
  refine ⟨htags, ?_, ?_⟩
  · intro m
    rw [is_tag_level_visible_of_miss mem _ m t (get_cached_log_level_empty _ t hcnt)]
    unfold resolved_level
    rw [htags, hdef]
    simp [get_uncached_log_level]
  · intro hL hlen qs m
    have hlen1 : (log_level_set mem malloc_ok s t L1).s_log_cache.length = TAG_CACHE_SIZE := by
      rw [length_log_level_set]
      exact hlen
    obtain ⟨hinv, hco⟩ := cacheInv_after_wildcard mem malloc_ok'
      (log_level_set mem malloc_ok s t L1) star L hstar hlen1
    obtain ⟨_, hco', htags', hdef'⟩ := lookups_coherent mem qs 0 _ hinv hco
    have hres : resolved_level mem (lookups mem
        (log_level_set mem malloc_ok' (log_level_set mem malloc_ok s t L1) star L) qs) t =
        L := by
      unfold resolved_level
      rw [htags', hdef', htags, hdef]
      simp [get_uncached_log_level]
    have hL' : L ≤ 5 := hL
    rw [is_tag_level_visible_of_coherent mem _ m t hco' (by rw [hres]; omega), hres]
    simp

theorem wildcard_removes_overrides_witness :
    example_mem 0 = "*" ∧
      (log_level_set example_mem true
        (log_level_set example_mem true (log_init LOG_VERBOSE) 1 LOG_INFO) 0
        LOG_ERROR).s_log_tags = [] ∧
      ((is_tag_level_visible example_mem true
        (log_level_set example_mem true
          (log_level_set example_mem true (log_init LOG_VERBOSE) 1 LOG_INFO) 0 LOG_ERROR)
        LOG_INFO 1).1 = true ↔ LOG_INFO ≤ LOG_ERROR) :=
  ⟨rfl,
    (wildcard_removes_overrides example_mem (log_init LOG_VERBOSE) true true 1 0 LOG_INFO
      LOG_ERROR rfl).1,
    (wildcard_removes_overrides example_mem (log_init LOG_VERBOSE) true true 1 0 LOG_INFO
      LOG_ERROR rfl).2.1 LOG_INFO⟩

/-- C5 as stated fails: when the tag `t` is itself `"*"`, another tag is then resolved with
`L`, not `D` (`WARN` is visible although `D = ERROR`); and when the allocation of the
registry entry fails, `t` is still resolved with `D` (`INFO` is not visible although
`L = INFO`). -/
theorem override_claim_fails_on_wildcard_and_on_failed_allocation :
    ((is_tag_level_visible example_mem true
        (log_level_set example_mem true
          (log_level_set example_mem true (log_init LOG_VERBOSE) 0 LOG_ERROR) 0 LOG_INFO)
        LOG_WARN 3).1 = true ∧ ¬ LOG_WARN ≤ LOG_ERROR ∧ example_mem 3 ≠ example_mem 0) ∧
      ((is_tag_level_visible example_mem true
        (log_level_set example_mem false
          (log_level_set example_mem true (log_init LOG_VERBOSE) 0 LOG_ERROR) 1 LOG_INFO)
        LOG_INFO 1).1 = false ∧ LOG_INFO ≤ LOG_INFO) := by
  decide

/-- C5 (amended): after `log_level_set("*", D)` and then a `log_level_set(t, L)` for a tag
`t` other than `"*"` whose allocation succeeds, `is_tag_level_visible(m, t)` answers
`m ≤ L` and, for every tag `u` with another string, `is_tag_level_visible(m, u)` answers
`m ≤ D`; for `D` and `L` in `NONE..VERBOSE` this stays so after any further lookups. -/
theorem override_after_wildcard (mem : Mem) (s : LogState) (malloc_ok : Bool)
    (star t : Ptr) (D L : Nat) (hstar : mem star = "*") (ht : mem t ≠ "*") :
    (∀ m, ((is_tag_level_visible mem true
        (log_level_set mem true (log_level_set mem malloc_ok s star D) t L) m t).1 = true ↔
          m ≤ L)) ∧
      (∀ m u, mem u ≠ mem t →
        ((is_tag_level_visible mem true
          (log_level_set mem true (log_level_set mem malloc_ok s star D) t L) m u).1 = true ↔
            m ≤ D)) ∧
      (D ≤ LOG_VERBOSE → L ≤ LOG_VERBOSE → s.s_log_cache.length = TAG_CACHE_SIZE →
        ∀ (qs : List (Nat × Ptr)) (m : Nat),
          ((is_tag_level_visible mem true
            (lookups mem (log_level_set mem true (log_level_set mem malloc_ok s star D) t L)
              qs) m t).1 = true ↔ m ≤ L) ∧
          ∀ u, mem u ≠ mem t →
            ((is_tag_level_visible mem true
              (lookups mem
                (log_level_set mem true (log_level_set mem malloc_ok s star D) t L) qs)
              m u).1 = true ↔ m ≤ D)) := by
  have hw := log_level_set_wildcard mem malloc_ok s star D hstar
  have hf : ¬ (!(update_existing_tag mem (log_level_set mem malloc_ok s star D).s_log_tags
      t L).2 && !true) = true := by simp
  obtain ⟨hsame, hother⟩ := get_uncached_log_level_set mem true
    (log_level_set mem malloc_ok s star D) t L ht hf
  obtain ⟨hdef, hcnt, _, _, _⟩ := log_level_set_frame mem true
    (log_level_set mem malloc_ok s star D) t L ht
  have hdef' : (log_level_set mem true (log_level_set mem malloc_ok s star D) t
      L).s_log_default_level = D := by rw [hdef, hw]
  have hcnt' : (log_level_set mem true (log_level_set mem malloc_ok s star D) t
      L).s_log_cache_entry_count = 0 := by rw [hcnt, hw]
  have hrt : resolved_level mem
      (log_level_set mem true (log_level_set mem malloc_ok s star D) t L) t = L := by
    unfold resolved_level
    rw [hsame]
  have hru : ∀ u, mem u ≠ mem t → resolved_level mem
      (log_level_set mem true (log_level_set mem malloc_ok s star D) t L) u = D := by
    intro u hu
    unfold resolved_level
    rw [hother u hu, hdef', hw]
    simp [get_uncached_log_level]
  refine ⟨?_, ?_, ?_⟩
  · intro m
    rw [is_tag_level_visible_of_miss mem _ m t (get_cached_log_level_empty _ t hcnt'), hrt]
    simp
  · intro m u hu
    rw [is_tag_level_visible_of_miss mem _ m u (get_cached_log_level_empty _ u hcnt'),
      hru u hu]
    simp
  · intro hD hL hlen qs m
    have hD' : D ≤ 5 := hD
    have hL' : L ≤ 5 := hL
    obtain ⟨hinv, _⟩ := cacheInv_after_wildcard mem malloc_ok s star D hstar hlen
    have hinv2 := cacheInv_log_level_set mem true 0 _ t L hinv
    rw [if_neg ht] at hinv2
    have hco2 : CacheCoherent mem
        (log_level_set mem true (log_level_set mem malloc_ok s star D) t L) := by
      intro i hi
      rw [hcnt'] at hi
      exact absurd hi (Nat.not_lt_zero i)
    obtain ⟨_, hco', htags', hdefq⟩ := lookups_coherent mem qs 0 _ hinv2 hco2
    have hres : ∀ x, resolved_level mem (lookups mem
        (log_level_set mem true (log_level_set mem malloc_ok s star D) t L) qs) x =
        resolved_level mem
          (log_level_set mem true (log_level_set mem malloc_ok s star D) t L) x :=
      fun x => resolved_level_congr mem _ _ x htags' hdefq
    refine ⟨?_, ?_⟩
    · rw [is_tag_level_visible_of_coherent mem _ m t hco' (by rw [hres, hrt]; omega), hres,
        hrt]
      simp
    · intro u hu
      rw [is_tag_level_visible_of_coherent mem _ m u hco' (by rw [hres, hru u hu]; omega),
        hres, hru u hu]
      simp

theorem override_after_wildcard_witness :
    example_mem 0 = "*" ∧ example_mem 1 ≠ "*" ∧
      ((is_tag_level_visible example_mem true
        (log_level_set example_mem true
          (log_level_set example_mem true (log_init LOG_VERBOSE) 0 LOG_ERROR) 1 LOG_INFO)
        LOG_INFO 1).1 = true ↔ LOG_INFO ≤ LOG_INFO) :=
  ⟨rfl, by decide,
    (override_after_wildcard example_mem (log_init LOG_VERBOSE) true 0 1 LOG_ERROR LOG_INFO
      rfl (by decide)).1 LOG_INFO⟩

/-- C6: in every reachable state whose cache holds 31 entries, with fewer than `2 ^ 29`
generations issued since the last reset, every slot `i < 15` is older than its children
`2 i + 1` and `2 i + 2`; `add_to_cache` (which evicts, the cache being full) and a cache
lookup (which stamps the hit slot) give a cache that is ordered again. -/
theorem heap_invariant_of_full_cache (mem : Mem) (k : Nat) (s : LogState)
    (hr : Reach mem k s) (hfull : s.s_log_cache_entry_count = TAG_CACHE_SIZE)
    (hk : k < 2 ^ 29) :
    (∀ i, i < 15 →
      gen_at s.s_log_cache i < gen_at s.s_log_cache (2 * i + 1) ∧
        gen_at s.s_log_cache i < gen_at s.s_log_cache (2 * i + 2)) ∧
      (∀ tag level, HeapInv (add_to_cache s tag level).s_log_cache) ∧
      (∀ tag, HeapInv (get_cached_log_level s tag).2.s_log_cache) ∧
      (∀ m tag, HeapInv (is_tag_level_visible mem true s m tag).2.s_log_cache) := by
  have hinv := cacheInv_of_reach mem k s hr
  refine ⟨?_, ?_, ?_, ?_⟩
  · exact (hinv.full hfull (by omega)).2.1
  · intro tag level
    have h := cacheInv_add_to_cache k s tag level hinv
    have hcnt := count_add_to_cache_full s tag level hfull
    exact (h.full hcnt (by omega)).2.1
  · intro tag
    have h := cacheInv_get_cached_log_level k s tag hinv
    have hcnt : (get_cached_log_level s tag).2.s_log_cache_entry_count = TAG_CACHE_SIZE := by
      rw [count_get_cached_log_level]
      exact hfull
    have := generations_issued_le_one s (get_cached_log_level s tag).2
    exact (h.full hcnt (by omega)).2.1
  · intro m tag
    have h := cacheInv_is_tag_level_visible mem true k s m tag hinv
    have hcnt := count_is_tag_level_visible_full mem true s m tag hfull
    have := generations_issued_le_one s (is_tag_level_visible mem true s m tag).2
    exact (h.full hcnt (by omega)).2.1

theorem heap_invariant_of_full_cache_witness :
    Reach example_mem 31 full_state ∧
      full_state.s_log_cache_entry_count = TAG_CACHE_SIZE ∧ 31 < 2 ^ 29 ∧
      (∀ i, i < 15 →
        gen_at full_state.s_log_cache i < gen_at full_state.s_log_cache (2 * i + 1) ∧
          gen_at full_state.s_log_cache i < gen_at full_state.s_log_cache (2 * i + 2)) ∧
      HeapInv (add_to_cache full_state 32 LOG_INFO).s_log_cache :=
  ⟨reach_full_state_31, full_state_count, by norm_num,
    (heap_invariant_of_full_cache example_mem 31 full_state reach_full_state_31
      full_state_count (by norm_num)).1,
    (heap_invariant_of_full_cache example_mem 31 full_state reach_full_state_31
      full_state_count (by norm_num)).2.1 32 LOG_INFO⟩

set_option maxRecDepth 100000 in
/-- C7 (the code departs from the claim): the counter `s_log_cache_max_generation` has 32
bits, the `generation` field that it is stored in has 29.  In the reachable full state with
the heap ordered and the counter at `2 ^ 29`, the entry that `add_to_cache` writes for the
new tag carries generation `0`, not the counter's value; the entry sinks to slot `15` below
a parent of generation `15`, so that the bubble-down has not restored the min-heap ordering
and the built-in check of the next cache scan fails at the occupied slot `15`. -/
theorem add_to_cache_generation_wraps :
    Reach example_mem (2 ^ 29) wrapped_state ∧
      wrapped_state.s_log_cache_entry_count = TAG_CACHE_SIZE ∧
      HeapInv wrapped_state.s_log_cache ∧
      wrapped_state.s_log_cache_max_generation = 2 ^ 29 ∧
      (∀ e ∈ (add_to_cache wrapped_state 32 LOG_INFO).s_log_cache,
        e.tag = 32 → e.generation = 0) ∧
      cache_at (add_to_cache wrapped_state 32 LOG_INFO).s_log_cache 15 =
        ⟨32, LOG_INFO, 0⟩ ∧
      (add_to_cache wrapped_state 32 LOG_INFO).s_log_cache_entry_count = 31 ∧
      builtin_check (add_to_cache wrapped_state 32 LOG_INFO).s_log_cache 15 = false ∧
      ¬ HeapInv (add_to_cache wrapped_state 32 LOG_INFO).s_log_cache := by
  have hr := reach_wrapped_state
  have hcnt : wrapped_state.s_log_cache_entry_count = TAG_CACHE_SIZE := by decide
  have hinv := cacheInv_of_reach example_mem _ _ hr
  refine ⟨hr, hcnt, (hinv.full hcnt (Nat.le_refl _)).2.1, by decide, by decide, by decide,
    by decide, by decide, ?_⟩
  intro h
  have h7 := (h 7 (by decide)).1
  revert h7
  decide

/-- Within the 29 bits of the generation field: when the cache is full with the heap
ordered and the generation counter
is below `2 ^ 29`, slot 0 is the strictly oldest slot, and `add_to_cache` leaves a cache
made of the new entry (the tag, the level in its 3-bit field, the counter's former value)
and of the former slots `1 .. 30`: only the former slot 0 is gone; the count stays 31 and
the counter grows by one. -/
theorem add_to_cache_full_evicts_oldest (s : LogState) (tag : Ptr) (level : Nat)
    (hlen : s.s_log_cache.length = TAG_CACHE_SIZE)
    (hfull : s.s_log_cache_entry_count = TAG_CACHE_SIZE)
    (hheap : HeapInv s.s_log_cache) (hgen : s.s_log_cache_max_generation < 2 ^ 29) :
    (∀ j, 0 < j → j < TAG_CACHE_SIZE → gen_at s.s_log_cache 0 < gen_at s.s_log_cache j) ∧
      (add_to_cache s tag level).s_log_cache.Perm
        (⟨tag, level % 2 ^ 3, s.s_log_cache_max_generation⟩ :: s.s_log_cache.tail) ∧
      (add_to_cache s tag level).s_log_cache_entry_count = TAG_CACHE_SIZE ∧
      (add_to_cache s tag level).s_log_cache_max_generation =
        s.s_log_cache_max_generation + 1 := by
  have hsize : TAG_CACHE_SIZE = 31 := rfl
  have hnot : ¬ s.s_log_cache_entry_count < TAG_CACHE_SIZE := by omega
  have e1 : s.s_log_cache_max_generation % 2 ^ 29 = s.s_log_cache_max_generation := by omega
  have e2 : (s.s_log_cache_max_generation + 1) % 2 ^ 32 =
      s.s_log_cache_max_generation + 1 := by omega
  refine ⟨heap_root_oldest _ hheap, ?_, count_add_to_cache_full s tag level hfull, ?_⟩
  · simp only [add_to_cache, hnot, if_false, e1]
    have hp := heap_bubble_down_perm
      (s.s_log_cache.set 0 ⟨tag, level % 2 ^ 3, s.s_log_cache_max_generation⟩) 0
      (by rw [List.length_set]; exact hlen) (by rw [hsize]; omega)
    rw [set_zero_eq_cons_tail _ _ (by rw [hlen, hsize]; omega)] at hp
    rw [set_zero_eq_cons_tail _ _ (by rw [hlen, hsize]; omega)]
    exact hp
  · simp only [add_to_cache, hnot, if_false, e2]

theorem add_to_cache_full_evicts_oldest_witness :
    full_state.s_log_cache.length = TAG_CACHE_SIZE ∧
      full_state.s_log_cache_entry_count = TAG_CACHE_SIZE ∧
      HeapInv full_state.s_log_cache ∧
      full_state.s_log_cache_max_generation < 2 ^ 29 ∧
      (add_to_cache full_state 32 LOG_INFO).s_log_cache.Perm
        (⟨32, LOG_INFO % 2 ^ 3, full_state.s_log_cache_max_generation⟩ ::
          full_state.s_log_cache.tail) := by
  have hinv := cacheInv_of_reach example_mem 31 full_state reach_full_state_31
  have hheap := (hinv.full full_state_count (by norm_num)).2.1
  have hgen : full_state.s_log_cache_max_generation < 2 ^ 29 := by
    rw [full_state_facts.2.1]
    norm_num
  exact ⟨hinv.len, full_state_count, hheap, hgen,
    (add_to_cache_full_evicts_oldest full_state 32 LOG_INFO hinv.len full_state_count hheap
      hgen).2.1⟩

set_option maxRecDepth 100000 in
/-- C8 (the code departs from the claim): the counter has 32 bits, the `generation` field
29.  In the reachable full state with the counter at `2 ^ 29`, a hit on the tag at address
`1` stamps its slot with generation `0`, which is not the counter's value and is below the
generation of another slot; the entry sinks to the leaf slot `15` below a parent of
generation `15`, so that the heap ordering is not restored and the built-in check of the
next cache scan fails at the occupied slot `15`. -/
theorem cache_hit_generation_wraps :
    Reach example_mem (2 ^ 29) wrapped_state ∧
      wrapped_state.s_log_cache_entry_count = TAG_CACHE_SIZE ∧
      wrapped_state.s_log_cache_max_generation = 2 ^ 29 ∧
      (get_cached_log_level wrapped_state 1).1 = some LOG_VERBOSE ∧
      (∀ e ∈ (get_cached_log_level wrapped_state 1).2.s_log_cache,
        e.tag = 1 → e.generation = 0) ∧
      (∃ e ∈ (get_cached_log_level wrapped_state 1).2.s_log_cache,
        e.tag ≠ 1 ∧ 0 < e.generation) ∧
      cache_at (get_cached_log_level wrapped_state 1).2.s_log_cache 15 =
        ⟨1, LOG_VERBOSE, 0⟩ ∧
      (get_cached_log_level wrapped_state 1).2.s_log_cache_entry_count = 31 ∧
      builtin_check (get_cached_log_level wrapped_state 1).2.s_log_cache 15 = false ∧
      ¬ HeapInv (get_cached_log_level wrapped_state 1).2.s_log_cache := by
  refine ⟨reach_wrapped_state, by decide, by decide, by decide, by decide,
    ⟨⟨2, LOG_VERBOSE, 1⟩, by decide, by decide, by decide⟩, by decide, by decide, by decide,
    ?_⟩
  intro h
  have h7 := (h 7 (by decide)).1
  revert h7
  decide

/-- Within the 29 bits of the generation field: in a reachable state with fewer than
`2 ^ 29` generations issued since the
last reset, a cache hit on a full cache (31 entries) increments the counter by one and
leaves the hit entry, stamped with the counter's former value, in a leaf slot `j ≥ 15`,
every other slot carrying a smaller generation; a hit on a cache with fewer than 31
entries leaves the whole state (array, count, counter) unchanged. -/
theorem cache_hit_stamps_and_sinks (mem : Mem) (k : Nat) (s : LogState) (tag : Ptr)
    (l : Nat) (hr : Reach mem k s) (hk : k < 2 ^ 29)
    (hhit : (get_cached_log_level s tag).1 = some l) :
    (s.s_log_cache_entry_count = TAG_CACHE_SIZE →
      (get_cached_log_level s tag).2.s_log_cache_max_generation =
          s.s_log_cache_max_generation + 1 ∧
        (get_cached_log_level s tag).2.s_log_cache_entry_count = TAG_CACHE_SIZE ∧
        ∃ j, 15 ≤ j ∧ j < TAG_CACHE_SIZE ∧
          (cache_at (get_cached_log_level s tag).2.s_log_cache j).tag = tag ∧
          (cache_at (get_cached_log_level s tag).2.s_log_cache j).level % 2 ^ 8 = l ∧
          (cache_at (get_cached_log_level s tag).2.s_log_cache j).generation =
            s.s_log_cache_max_generation ∧
          ∀ j', j' < TAG_CACHE_SIZE → j' ≠ j →
            gen_at (get_cached_log_level s tag).2.s_log_cache j' <
              s.s_log_cache_max_generation) ∧
      (s.s_log_cache_entry_count < TAG_CACHE_SIZE → (get_cached_log_level s tag).2 = s) := by
  have hsize : TAG_CACHE_SIZE = 31 := rfl
  have hinv := cacheInv_of_reach mem k s hr
  have hm : cache_scan (fun e => e.tag == tag) s.s_log_cache s.s_log_cache_entry_count 0 ≠
      s.s_log_cache_entry_count := by
    intro hm
    rw [get_cached_log_level_miss s tag hm] at hhit
    simp at hhit
  obtain ⟨_, hs2, _, hs4⟩ := cache_scan_spec (fun e => e.tag == tag) s.s_log_cache
    s.s_log_cache_entry_count 0
  have hlt : cache_scan (fun e => e.tag == tag) s.s_log_cache s.s_log_cache_entry_count 0 <
      0 + s.s_log_cache_entry_count := by omega
  have htag : (cache_at s.s_log_cache (cache_scan (fun e => e.tag == tag) s.s_log_cache
      s.s_log_cache_entry_count 0)).tag = tag := by simpa using hs4 hlt
  constructor
  · intro hfull
    obtain ⟨hmax, hheap, hdis, hbelow⟩ := hinv.full hfull (by omega)
    have e1 : s.s_log_cache_max_generation % 2 ^ 29 = s.s_log_cache_max_generation := by
      omega
    have e2 : (s.s_log_cache_max_generation + 1) % 2 ^ 32 =
        s.s_log_cache_max_generation + 1 := by omega
    have hi : cache_scan (fun e => e.tag == tag) s.s_log_cache s.s_log_cache_entry_count 0 <
        TAG_CACHE_SIZE := by omega
    have hstamp := siftInv_of_stamp s.s_log_cache _ k
      { cache_at s.s_log_cache (cache_scan (fun e => e.tag == tag) s.s_log_cache
          s.s_log_cache_entry_count 0) with
        generation := s.s_log_cache_max_generation % 2 ^ 29 }
      hinv.len hi (by rw [e1, hmax]) hheap hdis hbelow
    obtain ⟨j, hj1, hj2, hsift, hentry⟩ := heap_bubble_down_sift _ _ hstamp
    have hlev : l = (cache_at s.s_log_cache (cache_scan (fun e => e.tag == tag) s.s_log_cache
        s.s_log_cache_entry_count 0)).level % 2 ^ 8 := by
      rw [get_cached_log_level_hit_full s tag hm hfull] at hhit
      simp only [Option.some.injEq] at hhit
      exact hhit.symm
    rw [get_cached_log_level_hit_full s tag hm hfull]
    refine ⟨e2, hfull, j, by rw [hsize] at hj1; omega, hj2, ?_, ?_, ?_, ?_⟩
    · simp only []
      rw [hentry, cache_at_set]
      simp only [hinv.len, hi, and_self, if_true]
      exact htag
    · simp only []
      rw [hentry, cache_at_set]
      simp only [hinv.len, hi, and_self, if_true]
      exact hlev.symm
    · simp only []
      rw [hentry, cache_at_set]
      simp only [hinv.len, hi, and_self, if_true]
      exact e1
    · intro j' hj' hne
      have htop := hsift.top j' hj' hne
      have hgj : gen_at (heap_bubble_down (s.s_log_cache.set
          (cache_scan (fun e => e.tag == tag) s.s_log_cache s.s_log_cache_entry_count 0)
          { cache_at s.s_log_cache (cache_scan (fun e => e.tag == tag) s.s_log_cache
              s.s_log_cache_entry_count 0) with
            generation := s.s_log_cache_max_generation % 2 ^ 29 })
          (cache_scan (fun e => e.tag == tag) s.s_log_cache s.s_log_cache_entry_count 0)) j =
          s.s_log_cache_max_generation := by
        unfold gen_at
        rw [hentry, cache_at_set]
        simp only [hinv.len, hi, and_self, if_true]
        exact e1
      rw [hgj] at htop
      exact htop
  · intro hlt'
    rw [get_cached_log_level_hit_prefill s tag hm (by omega)]

set_option maxRecDepth 100000 in
theorem cache_hit_stamps_and_sinks_witness :
    Reach example_mem 31 full_state ∧ 31 < 2 ^ 29 ∧
      (get_cached_log_level full_state 1).1 = some LOG_VERBOSE ∧
      (full_state.s_log_cache_entry_count = TAG_CACHE_SIZE →
        (get_cached_log_level full_state 1).2.s_log_cache_max_generation =
          full_state.s_log_cache_max_generation + 1) :=
  ⟨reach_full_state_31, by norm_num, by decide,
    fun hfull => ((cache_hit_stamps_and_sinks example_mem 31 full_state 1 LOG_VERBOSE
      reach_full_state_31 (by norm_num) (by decide)).1 hfull).1⟩

/-- C9: `get_cached_log_level(tag)` hits iff an occupied slot holds the same pointer.  A
pointer that no occupied slot holds, whatever strings the slots hold (the tag's own string
included), is a miss: `is_tag_level_visible` answers from the registry entry of the tag's
string (or the default level), a lookup that depends on the string only, and writes a slot
of its own for the pointer: the next free slot while the cache is being filled, all earlier
slots untouched; in a full cache the slot that replaces slot 0, every other former slot
still present elsewhere. -/
theorem cache_hit_by_identity (mem : Mem) (s : LogState) (tag : Ptr) (m : Nat)
    (hlen : s.s_log_cache.length = TAG_CACHE_SIZE)
    (hcount : s.s_log_cache_entry_count ≤ TAG_CACHE_SIZE) :
    ((get_cached_log_level s tag).1 ≠ none ↔
        ∃ i, i < s.s_log_cache_entry_count ∧ (cache_at s.s_log_cache i).tag = tag) ∧
      ((∀ i, i < s.s_log_cache_entry_count → (cache_at s.s_log_cache i).tag ≠ tag) →
        (get_cached_log_level s tag).1 = none ∧
        (is_tag_level_visible mem true s m tag).1 =
          decide (m ≤ resolved_level mem s tag) ∧
        (∀ u, mem u = mem tag → resolved_level mem s u = resolved_level mem s tag) ∧
        ∃ j, j < (is_tag_level_visible mem true s m tag).2.s_log_cache_entry_count ∧
          cache_at (is_tag_level_visible mem true s m tag).2.s_log_cache j =
            ⟨tag, resolved_level mem s tag % 2 ^ 3, s.s_log_cache_max_generation % 2 ^ 29⟩ ∧
          (s.s_log_cache_entry_count < TAG_CACHE_SIZE →
            j = s.s_log_cache_entry_count ∧
            (is_tag_level_visible mem true s m tag).2.s_log_cache_entry_count =
              s.s_log_cache_entry_count + 1 ∧
            ∀ i, i < s.s_log_cache_entry_count →
              cache_at (is_tag_level_visible mem true s m tag).2.s_log_cache i =
                cache_at s.s_log_cache i) ∧
          (s.s_log_cache_entry_count = TAG_CACHE_SIZE →
            ∀ i, 0 < i → i < TAG_CACHE_SIZE →
              ∃ j', j' < TAG_CACHE_SIZE ∧ j' ≠ j ∧
                cache_at (is_tag_level_visible mem true s m tag).2.s_log_cache j' =
                  cache_at s.s_log_cache i)) := by
  have hsize : TAG_CACHE_SIZE = 31 := rfl
  have hiff := get_cached_log_level_none_iff s tag
  constructor
  · constructor
    · intro h
      by_contra hex
      apply h
      rw [hiff]
      intro i hi he
      exact hex ⟨i, hi, he⟩
    · rintro ⟨i, hi, he⟩ h
      rw [hiff] at h
      exact h i hi he
  · intro hnone
    have hmiss : (get_cached_log_level s tag).1 = none := hiff.mpr hnone
    have hst := is_tag_level_visible_miss mem s m tag hmiss
    have hcache : (is_tag_level_visible mem true s m tag).2.s_log_cache =
        (add_to_cache s tag (resolved_level mem s tag)).s_log_cache := by
      rw [hst]
      rfl
    have hcnt : (is_tag_level_visible mem true s m tag).2.s_log_cache_entry_count =
        (add_to_cache s tag (resolved_level mem s tag)).s_log_cache_entry_count := by
      rw [hst]
      rfl
    refine ⟨hmiss, is_tag_level_visible_of_miss mem s m tag hmiss, ?_, ?_⟩
    · intro u hu
      unfold resolved_level
      rw [get_uncached_congr mem _ u tag hu]
    · rw [hcache, hcnt]
      by_cases hn : s.s_log_cache_entry_count < TAG_CACHE_SIZE
      · obtain ⟨h1, h2, _, h4⟩ := add_to_cache_prefill s tag (resolved_level mem s tag) hlen hn
        refine ⟨s.s_log_cache_entry_count, by rw [h2]; omega, h1, ?_, ?_⟩
        · intro _
          exact ⟨rfl, h2, h4⟩
        · intro hfull
          omega
      · have hfull : s.s_log_cache_entry_count = TAG_CACHE_SIZE := by omega
        have hlen' : (s.s_log_cache.set 0
            ⟨tag, resolved_level mem s tag % 2 ^ 3,
              s.s_log_cache_max_generation % 2 ^ 29⟩).length = TAG_CACHE_SIZE := by
          rw [List.length_set]
          exact hlen
        have h0 : 0 < TAG_CACHE_SIZE := by rw [hsize]; omega
        obtain ⟨hperm, hlen'', _, hj2, hj3⟩ := heap_bubble_down_loop_shape TAG_CACHE_SIZE
          _ 0 hlen' h0 (by rw [hsize]; omega)
        have hc : (add_to_cache s tag (resolved_level mem s tag)).s_log_cache =
            heap_bubble_down (s.s_log_cache.set 0
              ⟨tag, resolved_level mem s tag % 2 ^ 3,
                s.s_log_cache_max_generation % 2 ^ 29⟩) 0 := by
          simp only [add_to_cache, hn, if_false]
        rw [hc, count_add_to_cache_full s tag _ hfull]
        have hnew : cache_at (s.s_log_cache.set 0
            ⟨tag, resolved_level mem s tag % 2 ^ 3,
              s.s_log_cache_max_generation % 2 ^ 29⟩) 0 =
            ⟨tag, resolved_level mem s tag % 2 ^ 3,
              s.s_log_cache_max_generation % 2 ^ 29⟩ := by
          rw [cache_at_set]
          simp [hlen, hsize]
        refine ⟨_, hj2, hj3.trans hnew, ?_, ?_⟩
        · intro hlt
          omega
        · intro _ i hi0 hi
          have hmem : cache_at s.s_log_cache i ∈ s.s_log_cache.set 0
              ⟨tag, resolved_level mem s tag % 2 ^ 3,
                s.s_log_cache_max_generation % 2 ^ 29⟩ := by
            have hci := cache_at_mem (s.s_log_cache.set 0
              ⟨tag, resolved_level mem s tag % 2 ^ 3,
                s.s_log_cache_max_generation % 2 ^ 29⟩) i (by rw [hlen']; exact hi)
            rw [cache_at_set] at hci
            have : ¬ (0 = i ∧ 0 < s.s_log_cache.length) := by omega
            rw [if_neg this] at hci
            exact hci
          have hmem' := hperm.mem_iff.mpr hmem
          obtain ⟨j', hj', hj'e⟩ := exists_cache_at_of_mem _ _ hmem'
          refine ⟨j', by rw [← hlen'']; exact hj', ?_, hj'e⟩
          intro hjj
          have htag := hnone i (by omega)
          have : cache_at (heap_bubble_down (s.s_log_cache.set 0
              ⟨tag, resolved_level mem s tag % 2 ^ 3,
                s.s_log_cache_max_generation % 2 ^ 29⟩) 0) j' =
              ⟨tag, resolved_level mem s tag % 2 ^ 3,
                s.s_log_cache_max_generation % 2 ^ 29⟩ := by
            rw [hjj]
            exact hj3.trans hnew
          have hEq : cache_at s.s_log_cache i =
              ⟨tag, resolved_level mem s tag % 2 ^ 3,
                s.s_log_cache_max_generation % 2 ^ 29⟩ := hj'e.symm.trans this
          rw [hEq] at htag
          exact htag rfl

theorem cache_hit_by_identity_witness :
    (lookups example_mem (log_init LOG_VERBOSE) [(LOG_INFO, 1)]).s_log_cache.length =
        TAG_CACHE_SIZE ∧
      (lookups example_mem (log_init LOG_VERBOSE) [(LOG_INFO, 1)]).s_log_cache_entry_count ≤
        TAG_CACHE_SIZE ∧
      example_mem 2 = example_mem 1 ∧
      ((get_cached_log_level
          (lookups example_mem (log_init LOG_VERBOSE) [(LOG_INFO, 1)]) 2).1 ≠ none ↔
        ∃ i, i < (lookups example_mem (log_init LOG_VERBOSE)
            [(LOG_INFO, 1)]).s_log_cache_entry_count ∧
          (cache_at (lookups example_mem (log_init LOG_VERBOSE)
            [(LOG_INFO, 1)]).s_log_cache i).tag = 2) :=
  ⟨by decide, by decide, by decide,
    (cache_hit_by_identity example_mem
      (lookups example_mem (log_init LOG_VERBOSE) [(LOG_INFO, 1)]) 2 LOG_INFO
      (by decide) (by decide)).1⟩

/-- C10 as stated fails for a level that does not fit the 3-bit `level` field: after
`log_level_set(1, 8)` the lookup of tag `1` calls `add_to_cache(1, 8)`, which writes level
`0` in slot 0, not level `8`. -/
theorem add_to_cache_truncates_level :
    get_uncached_log_level example_mem
        (log_level_set example_mem true (log_init LOG_VERBOSE) 1 8).s_log_tags 1 = some 8 ∧
      cache_at (is_tag_level_visible example_mem true
        (log_level_set example_mem true (log_init LOG_VERBOSE) 1 8) LOG_INFO
          1).2.s_log_cache 0 = ⟨1, 0, 0⟩ ∧
      cache_at (add_to_cache (log_level_set example_mem true (log_init LOG_VERBOSE) 1 8)
        1 8).s_log_cache 0 = ⟨1, 0, 0⟩ := by
  decide

/-- C10 (amended): in a reachable state whose cache holds `n < 31` entries,
`add_to_cache(tag, level)` writes `(tag, level mod 8, counter)` at index `n` (that is
`(tag, level, counter)` for every level below 8, so for all of `NONE..VERBOSE`), increments
the entry count and the generation counter by one and leaves the slots `0 .. n - 1`
unchanged; in such a state slot `i` holds generation `i` for all `i < n` and the counter is
`n`, so every occupied slot is older than its occupied children. -/
theorem add_to_cache_appends (mem : Mem) (k : Nat) (s : LogState) (tag : Ptr) (level : Nat)
    (hr : Reach mem k s) (hn : s.s_log_cache_entry_count < TAG_CACHE_SIZE) :
    cache_at (add_to_cache s tag level).s_log_cache s.s_log_cache_entry_count =
        ⟨tag, level % 2 ^ 3, s.s_log_cache_max_generation⟩ ∧
      (level < 2 ^ 3 →
        cache_at (add_to_cache s tag level).s_log_cache s.s_log_cache_entry_count =
          ⟨tag, level, s.s_log_cache_max_generation⟩) ∧
      (add_to_cache s tag level).s_log_cache_entry_count = s.s_log_cache_entry_count + 1 ∧
      (add_to_cache s tag level).s_log_cache_max_generation =
        s.s_log_cache_max_generation + 1 ∧
      (∀ i, i < s.s_log_cache_entry_count →
        cache_at (add_to_cache s tag level).s_log_cache i = cache_at s.s_log_cache i) ∧
      s.s_log_cache_max_generation = s.s_log_cache_entry_count ∧
      (∀ i, i < s.s_log_cache_entry_count → gen_at s.s_log_cache i = i) ∧
      (∀ i, (2 * i + 1 < s.s_log_cache_entry_count →
          gen_at s.s_log_cache i < gen_at s.s_log_cache (2 * i + 1)) ∧
        (2 * i + 2 < s.s_log_cache_entry_count →
          gen_at s.s_log_cache i < gen_at s.s_log_cache (2 * i + 2))) := by
  have hsize : TAG_CACHE_SIZE = 31 := rfl
  have hinv := cacheInv_of_reach mem k s hr
  obtain ⟨_, hmax, hgen⟩ := hinv.prefill hn
  obtain ⟨h1, h2, h3, h4⟩ := add_to_cache_prefill s tag level hinv.len hn
  have hn31 : s.s_log_cache_entry_count < 31 := hn
  have e1 : s.s_log_cache_max_generation % 2 ^ 29 = s.s_log_cache_max_generation := by omega
  have e2 : (s.s_log_cache_max_generation + 1) % 2 ^ 32 =
      s.s_log_cache_max_generation + 1 := by omega
  rw [e1] at h1
  rw [e2] at h3
  refine ⟨h1, ?_, h2, h3, h4, hmax, hgen, ?_⟩
  · intro hl
    rw [h1, Nat.mod_eq_of_lt hl]
  · intro i
    constructor
    · intro hi
      rw [hgen i (by omega), hgen (2 * i + 1) hi]
      omega
    · intro hi
      rw [hgen i (by omega), hgen (2 * i + 2) hi]
      omega

theorem add_to_cache_appends_witness :
    Reach example_mem 0 (log_init LOG_VERBOSE) ∧
      (log_init LOG_VERBOSE).s_log_cache_entry_count < TAG_CACHE_SIZE ∧
      cache_at (add_to_cache (log_init LOG_VERBOSE) 1 LOG_INFO).s_log_cache
          (log_init LOG_VERBOSE).s_log_cache_entry_count =
        ⟨1, LOG_INFO % 2 ^ 3, (log_init LOG_VERBOSE).s_log_cache_max_generation⟩ :=
  ⟨Reach.init LOG_VERBOSE, by decide,
    (add_to_cache_appends example_mem 0 (log_init LOG_VERBOSE) 1 LOG_INFO
      (Reach.init LOG_VERBOSE) (by decide)).1⟩

/-- C11: from any state and for any level `L`, `log_level_set("*", L)` leaves the default
level `L`, an empty registry, no occupied cache slot (every lookup in the cache misses) and
the generation counter `0`; `log_level_set` with a tag whose string is not `"*"` leaves the
default level as it was, whether or not the allocation succeeds. -/
theorem wildcard_resets_state (mem : Mem) (s : LogState) (malloc_ok : Bool)
    (star tag : Ptr) (L : Nat) (hstar : mem star = "*") (htag : mem tag ≠ "*") :
    (log_level_set mem malloc_ok s star L).s_log_default_level = L ∧
      (log_level_set mem malloc_ok s star L).s_log_tags = [] ∧
      (log_level_set mem malloc_ok s star L).s_log_cache_entry_count = 0 ∧
      (∀ t, (get_cached_log_level (log_level_set mem malloc_ok s star L) t).1 = none) ∧
      (log_level_set mem malloc_ok s star L).s_log_cache_max_generation = 0 ∧
      (log_level_set mem malloc_ok s tag L).s_log_default_level = s.s_log_default_level := by
  have hw := log_level_set_wildcard mem malloc_ok s star L hstar
  have hcnt : (log_level_set mem malloc_ok s star L).s_log_cache_entry_count = 0 := by rw [hw]
  refine ⟨by rw [hw], by rw [hw], hcnt, ?_, by rw [hw], ?_⟩
  · intro t
    exact get_cached_log_level_empty _ t hcnt
  · exact (log_level_set_frame mem malloc_ok s tag L htag).1

theorem wildcard_resets_state_witness :
    example_mem 0 = "*" ∧ example_mem 1 ≠ "*" ∧
      (log_level_set example_mem true full_state 0 LOG_WARN).s_log_default_level = LOG_WARN ∧
      (log_level_set example_mem true full_state 0 LOG_WARN).s_log_tags = [] ∧
      (log_level_set example_mem true full_state 0 LOG_WARN).s_log_cache_entry_count = 0 ∧
      (∀ t, (get_cached_log_level
        (log_level_set example_mem true full_state 0 LOG_WARN) t).1 = none) ∧
      (log_level_set example_mem true full_state 0 LOG_WARN).s_log_cache_max_generation = 0 ∧
      (log_level_set example_mem true full_state 1 LOG_WARN).s_log_default_level =
        full_state.s_log_default_level :=
  ⟨rfl, by decide,
    wildcard_resets_state example_mem full_state true 0 1 LOG_WARN rfl (by decide)⟩

/-- C12: in every state reachable from the initial state through `log_level_set` calls
(lookups in between included, allocations failing or not), no two registry entries hold the
same string and no entry holds `"*"`. -/
theorem registry_entries_unique (mem : Mem) (k : Nat) (s : LogState) (h : Reach mem k s) :
    (registry_tags s.s_log_tags).Nodup ∧ "*" ∉ registry_tags s.s_log_tags :=
  registryInv_of_reach mem k s h

theorem registry_entries_unique_witness :
    Reach example_mem 0
        (log_level_set example_mem true
          (log_level_set example_mem true
            (log_level_set example_mem true (log_init LOG_INFO) 1 LOG_WARN) 3 LOG_DEBUG)
          2 LOG_ERROR) ∧
      registry_tags
        (log_level_set example_mem true
          (log_level_set example_mem true
            (log_level_set example_mem true (log_init LOG_INFO) 1 LOG_WARN) 3 LOG_DEBUG)
          2 LOG_ERROR).s_log_tags = ["aaa", "NET"] ∧
      (registry_tags
        (log_level_set example_mem true
          (log_level_set example_mem true
            (log_level_set example_mem true (log_init LOG_INFO) 1 LOG_WARN) 3 LOG_DEBUG)
          2 LOG_ERROR).s_log_tags).Nodup ∧
      "*" ∉ registry_tags
        (log_level_set example_mem true
          (log_level_set example_mem true
            (log_level_set example_mem true (log_init LOG_INFO) 1 LOG_WARN) 3 LOG_DEBUG)
          2 LOG_ERROR).s_log_tags :=
  ⟨Reach.level_set 0 _ true 2 LOG_ERROR
      (Reach.level_set 0 _ true 3 LOG_DEBUG
        (Reach.level_set 0 _ true 1 LOG_WARN (Reach.init LOG_INFO))),
    by decide,
    registry_entries_unique example_mem 0 _
      (Reach.level_set 0 _ true 2 LOG_ERROR
        (Reach.level_set 0 _ true 3 LOG_DEBUG
          (Reach.level_set 0 _ true 1 LOG_WARN (Reach.init LOG_INFO))))⟩

/-- C13: for a tag `t` whose string is not `"*"` and a level `L`: if the registry has an
entry with the string of `t`, `log_level_set(t, L)` replaces the level of the first such
entry by `L` and changes nothing else in the list (same entries, same length, same order),
whatever `malloc` would do; if it has none and the allocation succeeds, the list gets one new
entry at its head, holding the string of `t` and `L`.  In both cases
`get_uncached_log_level` then finds `L` for `t`, and finds for every tag with another string
what it found before. -/
theorem log_level_set_updates_or_prepends (mem : Mem) (s : LogState) (malloc_ok : Bool)
    (t : Ptr) (L : Nat) (ht : mem t ≠ "*") :
    (mem t ∈ registry_tags s.s_log_tags →
      (∃ i e, s.s_log_tags[i]? = some e ∧ e.tag = mem t ∧
        (∀ j e', j < i → s.s_log_tags[j]? = some e' → e'.tag ≠ mem t) ∧
        (log_level_set mem malloc_ok s t L).s_log_tags = s.s_log_tags.set i ⟨L, e.tag⟩) ∧
      (log_level_set mem malloc_ok s t L).s_log_tags.length = s.s_log_tags.length ∧
      registry_tags (log_level_set mem malloc_ok s t L).s_log_tags =
        registry_tags s.s_log_tags ∧
      get_uncached_log_level mem (log_level_set mem malloc_ok s t L).s_log_tags t = some L ∧
      ∀ u, mem u ≠ mem t →
        get_uncached_log_level mem (log_level_set mem malloc_ok s t L).s_log_tags u =
          get_uncached_log_level mem s.s_log_tags u) ∧
    (mem t ∉ registry_tags s.s_log_tags →
      (log_level_set mem true s t L).s_log_tags = ⟨L, mem t⟩ :: s.s_log_tags ∧
      get_uncached_log_level mem (log_level_set mem true s t L).s_log_tags t = some L ∧
      ∀ u, mem u ≠ mem t →
        get_uncached_log_level mem (log_level_set mem true s t L).s_log_tags u =
          get_uncached_log_level mem s.s_log_tags u) := by
  constructor
  · intro hin
    have hfound : (update_existing_tag mem s.s_log_tags t L).2 = true :=
      (update_existing_tag_found_iff mem s.s_log_tags t L).mpr hin
    have hf : ¬ (!(update_existing_tag mem s.s_log_tags t L).2 && !malloc_ok) = true := by
      rw [hfound]
      simp
    have htags : (log_level_set mem malloc_ok s t L).s_log_tags =
        (update_existing_tag mem s.s_log_tags t L).1 := by
      rw [log_level_set_stored mem malloc_ok s t L ht hf]
      simp only [hfound, if_true]
    obtain ⟨hsame, hother⟩ := get_uncached_log_level_set mem malloc_ok s t L ht hf
    obtain ⟨i, e, hi, hte, hbefore, hset⟩ := update_existing_tag_at mem s.s_log_tags t L hfound
    refine ⟨⟨i, e, hi, hte, hbefore, by rw [htags, hset]⟩, ?_, ?_, hsame, hother⟩
    · rw [htags, hset, List.length_set]
    · rw [htags, registry_tags_update]
  · intro hnot
    have hfound : ¬ (update_existing_tag mem s.s_log_tags t L).2 = true := fun h =>
      hnot ((update_existing_tag_found_iff mem s.s_log_tags t L).mp h)
    have hf : ¬ (!(update_existing_tag mem s.s_log_tags t L).2 && !true) = true := by simp
    obtain ⟨hsame, hother⟩ := get_uncached_log_level_set mem true s t L ht hf
    refine ⟨?_, hsame, hother⟩
    rw [log_level_set_stored mem true s t L ht hf]
    simp only [hfound, Bool.false_eq_true, if_false]

theorem log_level_set_updates_or_prepends_witness :
    example_mem 2 ≠ "*" ∧
      example_mem 2 ∈ registry_tags
        (log_level_set example_mem true
          (log_level_set example_mem true (log_init LOG_INFO) 1 LOG_WARN) 3
          LOG_DEBUG).s_log_tags ∧
      (log_level_set example_mem false
        (log_level_set example_mem true
          (log_level_set example_mem true (log_init LOG_INFO) 1 LOG_WARN) 3 LOG_DEBUG)
        2 LOG_ERROR).s_log_tags = [⟨LOG_DEBUG, "aaa"⟩, ⟨LOG_ERROR, "NET"⟩] ∧
      ((log_level_set example_mem false
          (log_level_set example_mem true
            (log_level_set example_mem true (log_init LOG_INFO) 1 LOG_WARN) 3 LOG_DEBUG)
          2 LOG_ERROR).s_log_tags.length =
          (log_level_set example_mem true
            (log_level_set example_mem true (log_init LOG_INFO) 1 LOG_WARN) 3
            LOG_DEBUG).s_log_tags.length ∧
        registry_tags
          (log_level_set example_mem false
            (log_level_set example_mem true
              (log_level_set example_mem true (log_init LOG_INFO) 1 LOG_WARN) 3 LOG_DEBUG)
            2 LOG_ERROR).s_log_tags =
          registry_tags
            (log_level_set example_mem true
              (log_level_set example_mem true (log_init LOG_INFO) 1 LOG_WARN) 3
              LOG_DEBUG).s_log_tags ∧
        get_uncached_log_level example_mem
          (log_level_set example_mem false
            (log_level_set example_mem true
              (log_level_set example_mem true (log_init LOG_INFO) 1 LOG_WARN) 3 LOG_DEBUG)
            2 LOG_ERROR).s_log_tags 2 = some LOG_ERROR ∧
        ∀ u, example_mem u ≠ example_mem 2 →
          get_uncached_log_level example_mem
            (log_level_set example_mem false
              (log_level_set example_mem true
                (log_level_set example_mem true (log_init LOG_INFO) 1 LOG_WARN) 3 LOG_DEBUG)
              2 LOG_ERROR).s_log_tags u =
            get_uncached_log_level example_mem
              (log_level_set example_mem true
                (log_level_set example_mem true (log_init LOG_INFO) 1 LOG_WARN) 3
                LOG_DEBUG).s_log_tags u) ∧
      example_mem 1 ∉ registry_tags (log_init LOG_INFO).s_log_tags ∧
      ((log_level_set example_mem true (log_init LOG_INFO) 1 LOG_WARN).s_log_tags =
          ⟨LOG_WARN, example_mem 1⟩ :: (log_init LOG_INFO).s_log_tags ∧
        get_uncached_log_level example_mem
          (log_level_set example_mem true (log_init LOG_INFO) 1 LOG_WARN).s_log_tags 1 =
            some LOG_WARN ∧
        ∀ u, example_mem u ≠ example_mem 1 →
          get_uncached_log_level example_mem
            (log_level_set example_mem true (log_init LOG_INFO) 1 LOG_WARN).s_log_tags u =
            get_uncached_log_level example_mem (log_init LOG_INFO).s_log_tags u) :=
  ⟨by decide, by decide, by decide,
    ((log_level_set_updates_or_prepends example_mem
      (log_level_set example_mem true
        (log_level_set example_mem true (log_init LOG_INFO) 1 LOG_WARN) 3 LOG_DEBUG)
      false 2 LOG_ERROR (by decide)).1 (by decide)).2,
    by decide,
    (log_level_set_updates_or_prepends example_mem (log_init LOG_INFO) true 1 LOG_WARN
      (by decide)).2 (by decide)⟩

/-- C14: when the registry has no entry with the string of `t` (which is not `"*"`) and
`malloc` fails, `log_level_set(t, L)` returns the state it was called in, with every
variable unchanged (registry, cache slots, entry count, generation counter, default level),
it has unlocked the lock it took, and every later sequence of calls gets the answers it
would have got without the call. -/
theorem failed_allocation_is_noop (mem : Mem) (s : LogState) (t : Ptr) (L : Nat)
    (ht : mem t ≠ "*") (hnew : mem t ∉ registry_tags s.s_log_tags) :
    log_level_set mem false s t L = s ∧
      log_level_set_lock_calls mem false s t L = [LockCall.lock, LockCall.unlock] ∧
      lock_held_after false (log_level_set_lock_calls mem false s t L) = false ∧
      ∀ ops, run mem (log_level_set mem false s t L) ops = run mem s ops := by
  have hfound : (update_existing_tag mem s.s_log_tags t L).2 = false := by
    cases h : (update_existing_tag mem s.s_log_tags t L).2 with
    | false => rfl
    | true => exact absurd ((update_existing_tag_found_iff mem s.s_log_tags t L).mp h) hnew
  have hf : (!(update_existing_tag mem s.s_log_tags t L).2 && !false) = true := by
    rw [hfound]
    rfl
  have hs := log_level_set_malloc_failed mem false s t L ht hf
  have hcalls : log_level_set_lock_calls mem false s t L =
      [LockCall.lock, LockCall.unlock] := by
    unfold log_level_set_lock_calls
    split_ifs <;> rfl
  refine ⟨hs, hcalls, ?_, ?_⟩
  · rw [hcalls]
    rfl
  · intro ops
    rw [hs]

theorem failed_allocation_is_noop_witness :
    example_mem 3 ≠ "*" ∧
      example_mem 3 ∉
        registry_tags (lookups example_mem (log_init LOG_INFO) [(LOG_INFO, 3)]).s_log_tags ∧
      log_level_set example_mem false
          (lookups example_mem (log_init LOG_INFO) [(LOG_INFO, 3)]) 3 LOG_ERROR =
        lookups example_mem (log_init LOG_INFO) [(LOG_INFO, 3)] ∧
      log_level_set_lock_calls example_mem false
          (lookups example_mem (log_init LOG_INFO) [(LOG_INFO, 3)]) 3 LOG_ERROR =
        [LockCall.lock, LockCall.unlock] ∧
      lock_held_after false
        (log_level_set_lock_calls example_mem false
          (lookups example_mem (log_init LOG_INFO) [(LOG_INFO, 3)]) 3 LOG_ERROR) = false ∧
      ∀ ops,
        run example_mem
            (log_level_set example_mem false
              (lookups example_mem (log_init LOG_INFO) [(LOG_INFO, 3)]) 3 LOG_ERROR) ops =
          run example_mem (lookups example_mem (log_init LOG_INFO) [(LOG_INFO, 3)]) ops :=
  ⟨by decide, by decide,
    failed_allocation_is_noop example_mem
      (lookups example_mem (log_init LOG_INFO) [(LOG_INFO, 3)]) 3 LOG_ERROR (by decide)
      (by decide)⟩

/-- C15: when `log_impl_lock_timeout()` returns false, `is_tag_level_visible(m, tag)`
returns false for every `m` and `tag` and leaves every variable as it was (registry, cache,
generation counter, default level), `log_writev` and `log_write` make no call at all and
leave the variables as they were, and so do `log_write_buffer_hex`, `log_write_buffer_char`
and `log_write_buffer_hexdump` when the lock attempt of their entry check fails. -/
theorem lock_timeout_fails_closed (t : Target) (mem : Mem) (lock_timeout : Nat → Bool)
    (sys : LogSystem) (m : Nat) (tag : Ptr) (format : String) (args : va_list)
    (addr : Nat) (buffer : Nat → Nat) (buff_len : Nat) (hlock : lock_timeout 0 = false) :
    is_tag_level_visible mem (lock_timeout 0) sys.state m tag = (false, sys.state) ∧
      log_writev mem (lock_timeout 0) sys m tag format args = ([], sys) ∧
      log_write mem (lock_timeout 0) sys m tag format args = ([], sys) ∧
      log_write_buffer_hex t mem lock_timeout sys m tag buffer buff_len = some ([], sys) ∧
      log_write_buffer_char t mem lock_timeout sys m tag buffer buff_len = some ([], sys) ∧
      log_write_buffer_hexdump t mem lock_timeout sys m tag addr buffer buff_len =
        some ([], sys) := by
  have hv : is_tag_level_visible mem (lock_timeout 0) sys.state m tag = (false, sys.state) := by
    rw [hlock]
    rfl
  refine ⟨hv, ?_, ?_, ?_, ?_, ?_⟩
  · simp only [log_writev, hv]
  · simp only [log_write, log_writev, hv]
  · simp only [log_write_buffer_hex, hv]
  · simp only [log_write_buffer_char, hv]
  · simp only [log_write_buffer_hexdump, hv]

theorem lock_timeout_fails_closed_witness :
    (fun _ : Nat => false) 0 = false ∧
      is_tag_level_visible example_mem ((fun _ : Nat => false) 0)
          (log_system_init LOG_VERBOSE).state LOG_ERROR 1 =
        (false, (log_system_init LOG_VERBOSE).state) ∧
      log_writev example_mem ((fun _ : Nat => false) 0) (log_system_init LOG_VERBOSE)
          LOG_ERROR 1 "%s\n" [Arg.str "text"] = ([], log_system_init LOG_VERBOSE) ∧
      log_write example_mem ((fun _ : Nat => false) 0) (log_system_init LOG_VERBOSE)
          LOG_ERROR 1 "%s\n" [Arg.str "text"] = ([], log_system_init LOG_VERBOSE) ∧
      log_write_buffer_hex example_target example_mem (fun _ => false)
          (log_system_init LOG_VERBOSE) LOG_ERROR 1 example_buffer 44 =
        some ([], log_system_init LOG_VERBOSE) ∧
      log_write_buffer_char example_target example_mem (fun _ => false)
          (log_system_init LOG_VERBOSE) LOG_ERROR 1 example_buffer 44 =
        some ([], log_system_init LOG_VERBOSE) ∧
      log_write_buffer_hexdump example_target example_mem (fun _ => false)
          (log_system_init LOG_VERBOSE) LOG_ERROR 1 4096 example_buffer 44 =
        some ([], log_system_init LOG_VERBOSE) :=
  ⟨rfl,
    lock_timeout_fails_closed example_target example_mem (fun _ => false)
      (log_system_init LOG_VERBOSE) LOG_ERROR 1 "%s\n" [Arg.str "text"] 4096 example_buffer
      44 rfl⟩

/-- C16: `log_writev(level, tag, format, args)` makes exactly one call, of the function
installed in `s_log_print_func`, with the given `format` and `args`, when
`is_tag_level_visible(level, tag)` returns true, and no call at all when it returns false;
the variables after the call are those that `is_tag_level_visible` leaves, with the same
output function; `log_write` does the same with its variadic arguments. -/
theorem log_writev_calls_output_once (mem : Mem) (lock_ok : Bool) (sys : LogSystem)
    (level : Nat) (tag : Ptr) (format : String) (args : va_list) :
    (log_writev mem lock_ok sys level tag format args).1 =
        (if (is_tag_level_visible mem lock_ok sys.state level tag).1 = true then
          [Output.vprintf_like sys.s_log_print_func format args]
        else []) ∧
      (log_writev mem lock_ok sys level tag format args).2 =
        { state := (is_tag_level_visible mem lock_ok sys.state level tag).2
          s_log_print_func := sys.s_log_print_func } ∧
      log_write mem lock_ok sys level tag format args =
        log_writev mem lock_ok sys level tag format args := by
  refine ⟨?_, ?_, rfl⟩
  · unfold log_writev
    cases hv : is_tag_level_visible mem lock_ok sys.state level tag with
    | mk b s1 => cases b <;> simp
  · unfold log_writev
    cases hv : is_tag_level_visible mem lock_ok sys.state level tag with
    | mk b s1 => cases b <;> rfl

/-- C17: `log_set_vprintf(f)` returns the function installed before the call and installs
`f`, which is the function that the next visible `log_writev` calls; the variables of the
level resolution (registry, cache, default level) are untouched, and the lock taken is
unlocked.  Hence `old = log_set_vprintf(f); log_set_vprintf(old)` returns `f` from the
second call and leaves all variables as they were before the first. -/
theorem log_set_vprintf_swaps (mem : Mem) (sys : LogSystem) (f : vprintf_like_t) :
    (log_set_vprintf sys f).1 = sys.s_log_print_func ∧
      (log_set_vprintf sys f).2.s_log_print_func = f ∧
      (log_set_vprintf sys f).2.state = sys.state ∧
      (∀ lock_ok level tag format args,
        (is_tag_level_visible mem lock_ok sys.state level tag).1 = true →
        (log_writev mem lock_ok (log_set_vprintf sys f).2 level tag format args).1 =
          [Output.vprintf_like f format args]) ∧
      lock_held_after false log_set_vprintf_lock_calls = false ∧
      (log_set_vprintf (log_set_vprintf sys f).2 (log_set_vprintf sys f).1).1 = f ∧
      (log_set_vprintf (log_set_vprintf sys f).2 (log_set_vprintf sys f).1).2 = sys := by
  refine ⟨rfl, rfl, rfl, ?_, rfl, rfl, rfl⟩
  intro lock_ok level tag format args hv
  unfold log_writev
  simp only [log_set_vprintf]
  cases hr : is_tag_level_visible mem lock_ok sys.state level tag with
  | mk b s1 =>
    rw [hr] at hv
    simp only [] at hv
    subst hv
    rfl

theorem log_set_vprintf_swaps_witness :
    (is_tag_level_visible example_mem true (log_system_init LOG_VERBOSE).state LOG_INFO
        1).1 = true ∧
      (log_writev example_mem true (log_set_vprintf (log_system_init LOG_VERBOSE) 7).2
        LOG_INFO 1 "%s\n" [Arg.str "text"]).1 =
        [Output.vprintf_like 7 "%s\n" [Arg.str "text"]] ∧
      (log_set_vprintf (log_system_init LOG_VERBOSE) 7).1 = vprintf ∧
      (log_set_vprintf (log_set_vprintf (log_system_init LOG_VERBOSE) 7).2
        (log_set_vprintf (log_system_init LOG_VERBOSE) 7).1).1 = 7 ∧
      (log_set_vprintf (log_set_vprintf (log_system_init LOG_VERBOSE) 7).2
        (log_set_vprintf (log_system_init LOG_VERBOSE) 7).1).2 =
        log_system_init LOG_VERBOSE :=
  ⟨by decide,
    (log_set_vprintf_swaps example_mem (log_system_init LOG_VERBOSE) 7).2.2.2.1 true
      LOG_INFO 1 "%s\n" [Arg.str "text"] (by decide),
    (log_set_vprintf_swaps example_mem (log_system_init LOG_VERBOSE) 7).1,
    (log_set_vprintf_swaps example_mem (log_system_init LOG_VERBOSE) 7).2.2.2.2.2.1,
    (log_set_vprintf_swaps example_mem (log_system_init LOG_VERBOSE) 7).2.2.2.2.2.2⟩

set_option maxRecDepth 100000 in
/-- C19 (the claim as stated fails): each line of a buffer writer goes through `log_write`,
which asks `is_tag_level_visible` again.  With the default level `9` the entry check of
`log_write_buffer_hex(VERBOSE, ...)` for a tag not yet cached answers true and stores the
level in the 3-bit field as `1`, so the checks of the three lines of a 44-byte buffer
answer false and no output call is made; and with the default level `VERBOSE`, when the lock
attempt of the second line times out, two output calls are made instead of three.  On a
target with signed `char` a line of sixteen bytes `0x80` does not fit `hex_buffer`: the
call has no defined result. -/
theorem buffer_lines_are_checked_again :
    (is_tag_level_visible example_mem true
        (log_level_set example_mem true (log_init LOG_VERBOSE) 0 9) LOG_VERBOSE 1).1 = true ∧
      (log_write_buffer_hex example_target example_mem (fun _ => true)
        ⟨log_level_set example_mem true (log_init LOG_VERBOSE) 0 9, vprintf⟩ LOG_VERBOSE 1
        example_buffer 44).map Prod.fst = some [] ∧
      (is_tag_level_visible example_mem true (log_system_init LOG_VERBOSE).state LOG_INFO
        1).1 = true ∧
      (log_write_buffer_hex example_target example_mem (fun n => n != 2)
        (log_system_init LOG_VERBOSE) LOG_INFO 1 example_buffer 44).map
        (fun r => output_calls r.1) = some 2 ∧
      example_target.char_signed = true ∧
      log_write_buffer_hex example_target example_mem (fun _ => true)
        (log_system_init LOG_VERBOSE) LOG_INFO 1 (fun _ => 0x80) 16 = none := by
  decide

/-- C19, amended: for a buffer of `len < 2 ^ 16` bytes (each below 256) in a reachable
state, on a target whose `int` has at least 16 bits, when every lock attempt succeeds and
the level resolved for the tag is at most 7: if `is_tag_level_visible(m, tag)` answers true
at entry, `log_write_buffer_char` makes exactly `ceil(len / 16)` calls of the output
function, and so do `log_write_buffer_hex` (one call per chunk with the format `"%s\n"` and
the hex text of the chunk, in buffer order) and `log_write_buffer_hexdump` when no line
overflows its buffer because plain `char` is unsigned or every byte is below `0x80` and,
for the hexdump, the text of `%p` has at most `sizeof(void *) + 6` characters; if it
answers false, each of the three makes no call at all.  The chunk loop stops with
`buff_len == 0` for every length, whatever calls are made for a line and whatever bound at
least `len` is put on its iterations. -/
theorem buffer_writers_line_count (t : Target) (mem : Mem) (k : Nat) (sys : LogSystem)
    (lock_timeout : Nat → Bool) (m : Nat) (tag : Ptr) (addr : Nat) (buffer : Nat → Nat)
    (len : Nat) (hr : Reach mem k sys.state) (hlock : ∀ n, lock_timeout n = true)
    (hres : resolved_level mem sys.state tag < 2 ^ 3) (hlen : len < 2 ^ 16)
    (hb : ∀ i, i < len → buffer i < 256) (hbits : 16 ≤ t.int_bits) :
    ((is_tag_level_visible mem true sys.state m tag).1 = true →
      (log_write_buffer_char t mem lock_timeout sys m tag buffer len).map
          (fun r => output_calls r.1) = some ((len + 15) / 16) ∧
        ((t.char_signed = false ∨ ∀ i, i < len → buffer i < 128) →
          (log_write_buffer_hex t mem lock_timeout sys m tag buffer len).map Prod.fst =
              some ((List.range ((len + 15) / 16)).map (fun j =>
                Output.vprintf_like sys.s_log_print_func "%s\n"
                  [Arg.str (String.mk (spec_hex_text (spec_chunk buffer len j)))])) ∧
            (log_write_buffer_hex t mem lock_timeout sys m tag buffer len).map
              (fun r => output_calls r.1) = some ((len + 15) / 16) ∧
            ((∀ j, j < (len + 15) / 16 →
                (t.fmt_ptr (addr + 16 * j)).length ≤ t.sizeof_ptr + 6) →
              (log_write_buffer_hexdump t mem lock_timeout sys m tag addr buffer len).map
                (fun r => output_calls r.1) = some ((len + 15) / 16)))) ∧
      ((is_tag_level_visible mem true sys.state m tag).1 = false →
        (log_write_buffer_hex t mem lock_timeout sys m tag buffer len).map Prod.fst =
            some [] ∧
          (log_write_buffer_char t mem lock_timeout sys m tag buffer len).map Prod.fst =
            some [] ∧
          (log_write_buffer_hexdump t mem lock_timeout sys m tag addr buffer len).map
            Prod.fst = some []) ∧
      ∀ (line : Nat → List Nat → Nat → List Call) (fuel : Nat), 0 < len → len ≤ fuel →
        (log_buffer_loop (fun offset ptr_line bytes_cur_line =>
          some (line offset ptr_line bytes_cur_line)) buffer fuel 0 len).map Prod.snd =
          some 0 := by
  have hmod : len % 2 ^ 16 = len := Nat.mod_eq_of_lt hlen
  refine ⟨?_, ?_, ?_⟩
  · intro hvis
    have hchar : (log_write_buffer_char t mem lock_timeout sys m tag buffer len).map
        Prod.fst =
        some ((List.range ((len + 15) / 16)).map (fun j =>
          Output.vprintf_like sys.s_log_print_func "%s\n"
            [Arg.str (String.mk (spec_char_text (spec_chunk buffer len j)))])) := by
      rw [log_write_buffer_char_eq, hlock 0, if_pos hvis, hmod,
        writer_of_internal mem lock_timeout k sys m tag _ _
          (log_buffer_char_internal_spec t tag buffer len m hlen hb) hr hlock hres
          (log_writes_of_map m tag (fun _ => "%s\n") _ _) hvis,
        outputs_of_log_writes sys.s_log_print_func m tag (fun _ => "%s\n")]
    refine ⟨?_, ?_⟩
    · have h := congrArg (Option.map output_calls) hchar
      rw [Option.map_map, Option.map_some',
        output_calls_vprintf_likes sys.s_log_print_func (fun _ => "%s\n"),
        List.length_range] at h
      exact h
    · intro hs
      have hhex : (log_write_buffer_hex t mem lock_timeout sys m tag buffer len).map
          Prod.fst =
          some ((List.range ((len + 15) / 16)).map (fun j =>
            Output.vprintf_like sys.s_log_print_func "%s\n"
              [Arg.str (String.mk (spec_hex_text (spec_chunk buffer len j)))])) := by
        rw [log_write_buffer_hex_eq, hlock 0, if_pos hvis, hmod,
          writer_of_internal mem lock_timeout k sys m tag _ _
            (log_buffer_hex_internal_spec t tag buffer len m hlen hb hs hbits) hr hlock hres
            (log_writes_of_map m tag (fun _ => "%s\n") _ _) hvis,
          outputs_of_log_writes sys.s_log_print_func m tag (fun _ => "%s\n")]
      refine ⟨hhex, ?_, ?_⟩
      · have h := congrArg (Option.map output_calls) hhex
        rw [Option.map_map, Option.map_some',
          output_calls_vprintf_likes sys.s_log_print_func (fun _ => "%s\n"),
          List.length_range] at h
        exact h
      · intro hplen
        have hdump := writer_of_internal mem lock_timeout k sys m tag _ _
          (log_buffer_hexdump_internal_fits t tag addr buffer len m hlen hb hs hbits hplen)
          hr hlock hres
          (log_writes_of_flatMap m tag (fun _ => "printing %d out of %d\r\n") _
            (fun _ => "%s\n") _ _) hvis
        rw [log_write_buffer_hexdump_eq, hlock 0, if_pos hvis, hmod]
        have h := congrArg (Option.map output_calls) hdump
        rw [Option.map_map, Option.map_some',
          output_calls_printf_log_writes sys.s_log_print_func m tag
            (fun _ => "printing %d out of %d\r\n") _ (fun _ => "%s\n"),
          List.length_range] at h
        exact h
  · intro hvis
    have hne : ¬ (is_tag_level_visible mem true sys.state m tag).1 = true := by
      rw [hvis]
      exact Bool.false_ne_true
    refine ⟨?_, ?_, ?_⟩
    · rw [log_write_buffer_hex_eq, hlock 0, if_neg hne]
      rfl
    · rw [log_write_buffer_char_eq, hlock 0, if_neg hne]
      rfl
    · rw [log_write_buffer_hexdump_eq, hlock 0, if_neg hne]
      rfl
  · intro line fuel h0 hfuel
    rw [log_buffer_loop_eq _ buffer _ fuel 0 len
      (fun j => line (0 + 16 * j)
        ((List.range ((min 16 (len - 16 * j) + 3) / 4 * 4)).map
          (fun i => buffer (0 + 16 * j + i)))
        (min 16 (len - 16 * j))) h0 hfuel rfl (fun _ _ => rfl)]
    rfl

set_option maxRecDepth 100000 in
theorem buffer_writers_line_count_witness :
    Reach example_mem 0 (log_system_init LOG_VERBOSE).state ∧
      resolved_level example_mem (log_system_init LOG_VERBOSE).state 1 < 2 ^ 3 ∧
      (is_tag_level_visible example_mem true (log_system_init LOG_VERBOSE).state LOG_INFO
        1).1 = true ∧
      (log_write_buffer_char example_target example_mem (fun _ => true)
        (log_system_init LOG_VERBOSE) LOG_INFO 1 example_buffer 44).map
        (fun r => output_calls r.1) = some ((44 + 15) / 16) ∧
      (log_write_buffer_hex example_target example_mem (fun _ => true)
        (log_system_init LOG_VERBOSE) LOG_INFO 1 example_buffer 44).map
        (fun r => output_calls r.1) = some ((44 + 15) / 16) ∧
      (log_write_buffer_hexdump example_target example_mem (fun _ => true)
        (log_system_init LOG_VERBOSE) LOG_INFO 1 4096 example_buffer 44).map
        (fun r => output_calls r.1) = some ((44 + 15) / 16) ∧
      (44 + 15) / 16 = 3 :=
  ⟨Reach.init LOG_VERBOSE, by decide, by decide,
    ((buffer_writers_line_count example_target example_mem 0 (log_system_init LOG_VERBOSE)
      (fun _ => true) LOG_INFO 1 4096 example_buffer 44 (Reach.init LOG_VERBOSE)
      (fun _ => rfl) (by decide) (by decide) (by decide) (by decide)).1 (by decide)).1,
    (((buffer_writers_line_count example_target example_mem 0 (log_system_init LOG_VERBOSE)
      (fun _ => true) LOG_INFO 1 4096 example_buffer 44 (Reach.init LOG_VERBOSE)
      (fun _ => rfl) (by decide) (by decide) (by decide) (by decide)).1 (by decide)).2
      (Or.inr (by decide))).2.1,
    (((buffer_writers_line_count example_target example_mem 0 (log_system_init LOG_VERBOSE)
      (fun _ => true) LOG_INFO 1 4096 example_buffer 44 (Reach.init LOG_VERBOSE)
      (fun _ => rfl) (by decide) (by decide) (by decide) (by decide)).1 (by decide)).2
      (Or.inr (by decide))).2.2 (by decide),
    by decide⟩

set_option maxRecDepth 100000 in
/-- C20 (the claim as stated fails): the char formatter stores each byte with `"%c"` and
passes the array to `"%s"`, so a line ends at the first zero byte of its chunk.  For the
three-byte buffer `41 00 42` the one line is `"A"`: the bytes `00` and `42` of the chunk are
not rendered, and the line is the same when the last byte is `99` instead. -/
theorem char_formatter_drops_bytes_after_zero :
    spec_chunk (fun i => [0x41, 0x00, 0x42].getD i 0) 3 0 = [0x41, 0x00, 0x42] ∧
      log_buffer_char_internal example_target 1 (fun i => [0x41, 0x00, 0x42].getD i 0) 3
          LOG_INFO =
        some [Call.log_write LOG_INFO 1 "%s\n" [Arg.str "A"]] ∧
      log_buffer_char_internal example_target 1 (fun i => [0x41, 0x00, 0x99].getD i 0) 3
          LOG_INFO =
        some [Call.log_write LOG_INFO 1 "%s\n" [Arg.str "A"]] := by
  decide

/-- C20, amended: for a buffer of `len` bytes, `0 < len < 2 ^ 16` (each byte below 256), on
a target whose `int` has at least 16 bits, chunk `j` being the bytes at offsets `16 j` up to
`min (16 j + 16) len`: the `j`-th `log_write` of the char formatter (`j = 0, 1, ...`,
`ceil(len / 16)` of them) passes the bytes of chunk `j` before its first zero byte, as
characters; when plain `char` is unsigned or every byte is below `0x80`, the `j`-th
`log_write` of the hex formatter passes the two hexadecimal digits and a space of each byte
of chunk `j`, and, when the text of `%p` has at most `sizeof(void *) + 6` characters and no
zero, the `j`-th `log_write` of the hexdump formatter passes the hexdump line of chunk `j`
(after the `printf` of its length).  Every chunk but the last has 16 bytes, the last has
between 1 and 16, and the chunks one after the other are the buffer, byte for byte. -/
theorem buffer_lines_render_chunks (t : Target) (tag : Ptr) (addr : Nat)
    (buffer : Nat → Nat) (len level : Nat) (hlen0 : 0 < len) (hlen : len < 2 ^ 16)
    (hb : ∀ i, i < len → buffer i < 256) (hbits : 16 ≤ t.int_bits) :
    log_buffer_char_internal t tag buffer len level =
        some ((List.range ((len + 15) / 16)).map (fun j =>
          Call.log_write level tag "%s\n"
            [Arg.str (String.mk (spec_char_text (spec_chunk buffer len j)))])) ∧
      ((t.char_signed = false ∨ ∀ i, i < len → buffer i < 128) →
        log_buffer_hex_internal t tag buffer len level =
            some ((List.range ((len + 15) / 16)).map (fun j =>
              Call.log_write level tag "%s\n"
                [Arg.str (String.mk (spec_hex_text (spec_chunk buffer len j)))])) ∧
          ((∀ j, j < (len + 15) / 16 →
              (t.fmt_ptr (addr + 16 * j)).length ≤ t.sizeof_ptr + 6) →
            (∀ j, j < (len + 15) / 16 → NUL ∉ t.fmt_ptr (addr + 16 * j)) →
            log_buffer_hexdump_internal t tag addr buffer len level =
              some ((List.range ((len + 15) / 16)).flatMap (fun j =>
                [Call.printf "printing %d out of %d\r\n"
                    [Arg.int
                        ((spec_hexdump_text t addr j (spec_chunk buffer len j)).length :
                          Nat),
                      Arg.int (t.sizeof_ptr + 3 + 10 + 3 + BYTES_PER_LINE * 3 + 3 + 1 +
                        BYTES_PER_LINE + 1 + 3 : Nat)],
                  Call.log_write level tag "%s\n"
                    [Arg.str (String.mk
                      (spec_hexdump_text t addr j (spec_chunk buffer len j)))]])))) ∧
      (∀ j, spec_chunk buffer len j =
        (List.range (min (16 * j + 16) len - 16 * j)).map (fun i => buffer (16 * j + i))) ∧
      (∀ j, j + 1 < (len + 15) / 16 → (spec_chunk buffer len j).length = 16) ∧
      1 ≤ (spec_chunk buffer len ((len + 15) / 16 - 1)).length ∧
      (spec_chunk buffer len ((len + 15) / 16 - 1)).length ≤ 16 ∧
      (List.range ((len + 15) / 16)).flatMap (spec_chunk buffer len) =
        (List.range len).map buffer := by
  refine ⟨log_buffer_char_internal_spec t tag buffer len level hlen hb, ?_, fun _ => rfl,
    ?_, ?_, ?_, ?_⟩
  · intro hs
    exact ⟨log_buffer_hex_internal_spec t tag buffer len level hlen hb hs hbits,
      fun hplen hpnul =>
        log_buffer_hexdump_internal_spec t tag addr buffer len level hlen hb hs hbits hplen
          hpnul⟩
  · intro j hj
    rw [length_spec_chunk]
    omega
  · rw [length_spec_chunk]
    omega
  · rw [length_spec_chunk]
    omega
  · rw [flatMap_spec_chunk]
    have e : min (16 * ((len + 15) / 16)) len = len := by omega
    rw [e]

set_option maxRecDepth 100000 in
theorem buffer_lines_render_chunks_witness :
    0 < 44 ∧ 44 < 2 ^ 16 ∧ (∀ i, i < 44 → example_buffer i < 256) ∧
      16 ≤ example_target.int_bits ∧ (∀ i, i < 44 → example_buffer i < 128) ∧
      log_buffer_hex_internal example_target 1 example_buffer 44 LOG_INFO =
        some ((List.range ((44 + 15) / 16)).map (fun j =>
          Call.log_write LOG_INFO 1 "%s\n"
            [Arg.str (String.mk (spec_hex_text (spec_chunk example_buffer 44 j)))])) ∧
      (List.range ((44 + 15) / 16)).map (fun j =>
          Call.log_write LOG_INFO 1 "%s\n"
            [Arg.str (String.mk (spec_hex_text (spec_chunk example_buffer 44 j)))]) =
        [Call.log_write LOG_INFO 1 "%s\n"
            [Arg.str "54 68 65 20 71 75 69 63 6b 20 62 72 6f 77 6e 20 "],
          Call.log_write LOG_INFO 1 "%s\n"
            [Arg.str "66 6f 78 20 6a 75 6d 70 73 20 6f 76 65 72 20 74 "],
          Call.log_write LOG_INFO 1 "%s\n"
            [Arg.str "68 65 20 6c 61 7a 79 20 64 6f 67 00 "]] ∧
      log_buffer_char_internal example_target 1 example_buffer 44 LOG_INFO =
        some [Call.log_write LOG_INFO 1 "%s\n" [Arg.str "The quick brown "],
          Call.log_write LOG_INFO 1 "%s\n" [Arg.str "fox jumps over t"],
          Call.log_write LOG_INFO 1 "%s\n" [Arg.str "he lazy dog"]] ∧
      log_buffer_hexdump_internal example_target 1 4096 example_buffer 44 LOG_INFO =
        some [Call.printf "printing %d out of %d\r\n" [Arg.int 87, Arg.int 96],
          Call.log_write LOG_INFO 1 "%s\n" [Arg.str
            "0x1000 (00000000)  54 68 65 20 71 75 69 63  6b 20 62 72 6f 77 6e 20  |The quick brown |"],
          Call.printf "printing %d out of %d\r\n" [Arg.int 87, Arg.int 96],
          Call.log_write LOG_INFO 1 "%s\n" [Arg.str
            "0x1010 (00000010)  66 6f 78 20 6a 75 6d 70  73 20 6f 76 65 72 20 74  |fox jumps over t|"],
          Call.printf "printing %d out of %d\r\n" [Arg.int 83, Arg.int 96],
          Call.log_write LOG_INFO 1 "%s\n" [Arg.str
            "0x1020 (00000020)  68 65 20 6c 61 7a 79 20  64 6f 67 00              |he lazy dog.|"]] ∧
      (List.range ((44 + 15) / 16)).flatMap (spec_chunk example_buffer 44) =
        (List.range 44).map example_buffer :=
  ⟨by decide, by decide, by decide, by decide, by decide,
    ((buffer_lines_render_chunks example_target 1 4096 example_buffer 44 LOG_INFO
      (by decide) (by decide) (by decide) (by decide)).2.1 (Or.inr (by decide))).1,
    by decide, by decide, by decide,
    (buffer_lines_render_chunks example_target 1 4096 example_buffer 44 LOG_INFO
      (by decide) (by decide) (by decide) (by decide)).2.2.2.2.2.2⟩

/-- C21 (the code departs from the claim): on a target where plain `char` is signed, `"%02x"`
receives the byte `0x80` as the `int` `-128` and gives eight digits.  The line of the
one-byte chunk `80` is `"ffffff80 "`, nine characters where the claim has three, and in the
chunk `80 41` the second `sprintf`, three cells further, overwrites the digits of the first:
`"fff41 "`.  Bytes below `0x80` come out as claimed, as the 12-byte tail of the test buffer
does. -/
theorem hex_line_sign_extends :
    hex_line example_target [0x80] 1 = some "ffffff80 " ∧
      (hex_line example_target [0x80] 1).map String.length = some 9 ∧
      hex_line example_target [0x80, 0x41] 2 = some "fff41 " ∧
      hex_line example_target [104, 101, 32, 108, 97, 122, 121, 32, 100, 111, 103, 0] 12 =
        some "68 65 20 6c 61 7a 79 20 64 6f 67 00 " := by
  decide

/-- C22 (the claim as stated fails): the last chunk of the 45-byte test buffer, the 13
bytes of `"the lazy dog"` with its terminating zero, gives the line text `"the lazy dog"`
of twelve characters: the zero byte, stored by `"%c"`, ends the string that `"%s"`
receives. -/
theorem char_line_stops_at_zero_byte :
    char_line example_target [116, 104, 101, 32, 108, 97, 122, 121, 32, 100, 111, 103, 0]
        13 = some "the lazy dog" ∧
      (char_line example_target
        [116, 104, 101, 32, 108, 97, 122, 121, 32, 100, 111, 103, 0] 13).map
        String.length = some 12 ∧
      char_line example_target [65, 0, 66] 3 = some "A" := by
  decide

/-- C22, amended: for every chunk of `n` bytes (`n <= 16`), the line text of
`log_buffer_char_internal` consists of the bytes of the chunk that precede its first zero
byte, as characters, in order and unfiltered, on every target; for a chunk without a zero
byte these are exactly its `n` bytes. -/
theorem char_line_renders_bytes (t : Target) (chunk : List Nat)
    (hn : chunk.length ≤ 16) (hb : ∀ b, b ∈ chunk → b < 256) :
    char_line t chunk chunk.length =
        some (String.mk ((chunk.takeWhile (fun b => b != 0)).map Char.ofNat)) ∧
      ((∀ b, b ∈ chunk → b ≠ 0) →
        char_line t chunk chunk.length = some (String.mk (chunk.map Char.ofNat)) ∧
          (char_line t chunk chunk.length).map String.length = some chunk.length) := by
  have h := char_line_eq t chunk hn hb
  refine ⟨h, ?_⟩
  intro hz
  have htw : chunk.takeWhile (fun b => b != 0) = chunk := by
    rw [List.takeWhile_eq_self_iff]
    intro b hmem
    simp only [bne_iff_ne, ne_eq]
    exact hz b hmem
  rw [htw] at h
  refine ⟨h, ?_⟩
  rw [h]
  simp [String.length]

theorem char_line_renders_bytes_witness :
    [84, 104, 101, 32, 113, 117, 105, 99, 107, 32, 98, 114, 111, 119, 110, 32].length ≤ 16 ∧
      char_line example_target
        [84, 104, 101, 32, 113, 117, 105, 99, 107, 32, 98, 114, 111, 119, 110, 32]
        [84, 104, 101, 32, 113, 117, 105, 99, 107, 32, 98, 114, 111, 119, 110, 32].length =
        some (String.mk
          (([84, 104, 101, 32, 113, 117, 105, 99, 107, 32, 98, 114, 111, 119, 110, 32].takeWhile
            (fun b => b != 0)).map Char.ofNat)) ∧
      char_line example_target
        [84, 104, 101, 32, 113, 117, 105, 99, 107, 32, 98, 114, 111, 119, 110, 32] 16 =
        some "The quick brown " :=
  ⟨by decide,
    (char_line_renders_bytes example_target
      [84, 104, 101, 32, 113, 117, 105, 99, 107, 32, 98, 114, 111, 119, 110, 32] (by decide)
      (by decide)).1,
    by decide⟩

set_option maxRecDepth 100000 in
/-- C23 (the code departs from the claim): on a target where plain `char` is signed,
`" %02x"` receives the byte `0x80` as the `int` `-128`: the cell of that byte is a space and
eight digits, and the hex area of the line of the one-byte chunk `80` has 58 characters
where the claim has 52, so that the bar stands six columns further right than on the line
of the chunk `41`. -/
theorem hexdump_cell_sign_extends :
    hexdump_line example_target 4096 0 [0x80] 1 =
        some
          "0x1000 (00000000)  ffffff80                                                |.|" ∧
      (hexdump_area example_target [0x80] 1).length = 58 ∧
      hexdump_line example_target 4096 0 [0x41] 1 =
        some "0x1000 (00000000)  41                                                |A|" ∧
      (hexdump_area example_target [0x41] 1).length = 52 := by
  decide

set_option maxRecDepth 100000 in
/-- C24 (the code departs from the claim): the bytes are read through a plain `char`
pointer, and on a target where plain `char` is signed the cell of a byte of `0x80` or above
takes nine characters instead of three.  On the 64-bit example target `hd_buffer` has 96
cells; the line of sixteen bytes `41` at address `0x7ffd12345670` has 95 characters and
fits exactly, with the offset field `(00000000)` and the printable region of the claim; the
line of the chunk `80 41 ... 41` would take 101 characters, the `sprintf` calls write past
the end of `hd_buffer`, and neither the line nor the call of `log_write_buffer_hexdump` has
a defined result.  The 13-byte buffer `"Hello, world!"` gives the line of the claim. -/
theorem hexdump_line_overflows_hd_buffer :
    example_target.char_signed = true ∧
      example_target.sizeof_ptr + 3 + 10 + 3 + BYTES_PER_LINE * 3 + 3 + 1 +
        BYTES_PER_LINE + 1 + 3 = 96 ∧
      hexdump_line example_target 0x7ffd12345670 0 (List.replicate 16 0x41) 16 =
        some
          "0x7ffd12345670 (00000000)  41 41 41 41 41 41 41 41  41 41 41 41 41 41 41 41  |AAAAAAAAAAAAAAAA|" ∧
      (hexdump_texts example_target 0x7ffd12345670 0 (0x80 :: List.replicate 15 0x41)
        16).flatten.length = 101 ∧
      hexdump_line example_target 0x7ffd12345670 0 (0x80 :: List.replicate 15 0x41) 16 =
        none ∧
      log_write_buffer_hexdump example_target example_mem (fun _ => true)
        (log_system_init LOG_VERBOSE) LOG_INFO 1 0x7ffd12345670
        (fun i => (0x80 :: List.replicate 15 0x41).getD i 0) 16 = none ∧
      hexdump_line example_target 4096 0
        [72, 101, 108, 108, 111, 44, 32, 119, 111, 114, 108, 100, 33] 13 =
        some
          "0x1000 (00000000)  48 65 6c 6c 6f 2c 20 77  6f 72 6c 64 21           |Hello, world!|" := by
  decide

/-- A hexdump line whose texts and terminating zero fit `hd_buffer`, for chunk `j` of a
buffer of less than `2 ^ 16` bytes, on a target whose `int` has at least 16 bits and whose
`%p` text holds no zero: the line is the `%p` text, `" ("`, the offset field, `")"`, the hex
area, a bar, the printable region and a bar.  The offset field is `16 j` in uppercase
hexadecimal digits, zero-padded to exactly 8 characters, and the printable region has one
character for each byte of the chunk: the byte itself when it is in `0x20 .. 0x7E`, a dot
otherwise. -/
theorem hexdump_offset_and_printable_region (t : Target) (addr j : Nat) (chunk : List Nat)
    (hb : ∀ b, b ∈ chunk → b < 256) (hj : 16 * j < 2 ^ 16) (hbits : 16 ≤ t.int_bits)
    (hfit : (hexdump_texts t addr (16 * j) chunk chunk.length).flatten.length + 1 ≤
      t.sizeof_ptr + 3 + 10 + 3 + BYTES_PER_LINE * 3 + 3 + 1 + BYTES_PER_LINE + 1 + 3)
    (hptr : NUL ∉ t.fmt_ptr (addr + 16 * j)) :
    hexdump_line t addr (16 * j) chunk chunk.length =
        some (String.mk (t.fmt_ptr (addr + 16 * j) ++ " (".toList ++ fmt_X 8 (16 * j) ++
          ")".toList ++ hexdump_area t chunk chunk.length ++ "|".toList ++
          spec_printable chunk ++ "|".toList)) ∧
      fmt_X 8 (16 * j) =
        List.replicate (8 - (Nat.toDigits 16 (16 * j)).length) (Char.ofNat 48) ++
          (Nat.toDigits 16 (16 * j)).map Char.toUpper ∧
      (fmt_X 8 (16 * j)).length = 8 ∧
      (spec_printable chunk).length = chunk.length ∧
      ∀ i, i < chunk.length →
        (spec_printable chunk).getD i NUL =
          if 32 ≤ chunk.getD i 0 ∧ chunk.getD i 0 ≤ 126 then Char.ofNat (chunk.getD i 0)
          else Char.ofNat 46 := by
  have h2 : 2 ^ 16 ≤ 2 ^ t.int_bits := Nat.pow_le_pow_right (by decide) hbits
  have hun : to_unsigned t ((16 * j : Nat) : Int) = 16 * j :=
    to_unsigned_small t (16 * j) (by omega)
  have hline : hexdump_line t addr (16 * j) chunk chunk.length =
      some (String.mk (t.fmt_ptr (addr + 16 * j) ++ " (".toList ++
        fmt_X 8 (to_unsigned t ((16 * j : Nat) : Int)) ++
        ")".toList ++ hexdump_area t chunk chunk.length ++ "|".toList ++
        spec_printable chunk ++ "|".toList)) := by
    unfold hexdump_line
    rw [hexdump_compose_eq t addr (16 * j) chunk chunk.length hfit, Option.map_some']
    simp only []
    rw [hexdump_line_eq t addr (16 * j) chunk hb hfit hptr]
  rw [hun] at hline
  refine ⟨hline, ?_, length_fmt_X_8 (16 * j) (by
    have : (2 : Nat) ^ 16 ≤ 16 ^ 8 := by decide
    omega), ?_, ?_⟩
  · unfold fmt_X fmt_x
    rw [List.map_append, List.map_replicate]
    rfl
  · unfold spec_printable
    rw [List.length_map]
  · intro i hi
    unfold spec_printable
    rw [List.getD_eq_getElem?_getD, List.getD_eq_getElem?_getD, List.getElem?_map,
      List.getElem?_eq_getElem hi]
    rfl

set_option maxRecDepth 100000 in
/-- C25 (the claim as stated fails): each line of a buffer writer goes through `log_write`,
which asks `is_tag_level_visible` and takes the lock again.  `LOGI_BUFFER_HEX` for the
44-byte test buffer at a visible level, with the lock attempt of the second line timing
out, gives the message line and two buffer lines, three calls in place of four; and with
the default level 9, which lets `VERBOSE` through but is cached as `9 mod 8`,
`LOGV_BUFFER_HEX` gives the message line alone.  On a target with signed `char` the line
of sixteen bytes `0x80` does not fit `hex_buffer`, and the macro has no defined result. -/
theorem buffer_macro_lines_can_be_dropped :
    (is_tag_level_visible example_mem true (log_system_init LOG_VERBOSE).state LOG_INFO
        1).1 = true ∧
      (exec example_target example_mem (fun k j => !(k == 1 && j == 2))
        (LOGx_BUFFER_HEX example_build Letter.I example_site 1 example_buffer 44 "hello" [])
        0 ⟨log_system_init LOG_VERBOSE, 7⟩).map
        (fun r => (output_function_calls r.1).length) = some 3 ∧
      (is_tag_level_visible example_mem true (log_system_init 9).state LOG_VERBOSE 1).1 =
        true ∧
      (exec example_target example_mem (fun _ _ => true)
        (LOGx_BUFFER_HEX example_build Letter.V example_site 1 example_buffer 44 "hello" [])
        0 ⟨log_system_init 9, 7⟩).map
        (fun r => (output_function_calls r.1).length) = some 1 ∧
      example_target.char_signed = true ∧
      exec example_target example_mem (fun _ _ => true)
        (LOGx_BUFFER_HEX example_build Letter.I example_site 1 (fun _ => 0x80) 16 "hello" [])
        0 ⟨log_system_init LOG_VERBOSE, 7⟩ = none := by
  decide

/-- C25, amended: for a buffer of `len < 2 ^ 16` bytes (each below 256) in a reachable
state, on a target whose `int` has at least 16 bits, when every lock attempt succeeds, the
level resolved for the tag is at most 7 and the level of the letter is compiled in: if
`is_tag_level_visible` answers true for the level of the macro, the macro
`LOGx_BUFFER_CHAR` passes the output function first the message (the decorated format with
the timestamp, the tag and the file, line and function values before the user arguments)
and then the line of each of the `ceil(len / 16)` chunks in buffer order,
`1 + ceil(len / 16)` calls in total, and so do `LOGx_BUFFER_HEX` and `LOGx_BUFFER_HEXDUMP`
when no line overflows its buffer because plain `char` is unsigned or every byte is below
`0x80` and, for the hexdump, the text of `%p` has at most `sizeof(void *) + 6` characters
and no zero; if it answers false, nothing leaves the library. -/
theorem buffer_macros_message_then_lines (t : Target) (mem : Mem) (n : Nat) (m : Machine)
    (lock_timeout : Nat → Nat → Bool) (b : Build) (x : Letter) (site : Site) (tag : Ptr)
    (addr : Nat) (buffer : Nat → Nat) (len : Nat) (format : String) (args : va_list)
    (k : Nat) (hr : Reach mem n m.sys.state) (hlock : ∀ i j, lock_timeout i j = true)
    (hres : resolved_level mem m.sys.state tag < 2 ^ 3)
    (hmax : b.MAXIMUM_ENABLED_LOG_LEVEL ≥ x.level) (hlen : len < 2 ^ 16)
    (hb : ∀ i, i < len → buffer i < 256) (hbits : 16 ≤ t.int_bits) :
    ((is_tag_level_visible mem true m.sys.state x.level tag).1 = true →
      (exec t mem lock_timeout
          (LOGx_BUFFER_CHAR b x site tag buffer len format args) k m).map Prod.fst =
        some (Output.vprintf_like m.sys.s_log_print_func (GET_LOG_FORMAT b x format)
            (Arg.int m.timestamp :: Arg.str (mem tag) :: LOG_VALUE_FILENAME b site ::
              LOG_VALUE_LINE b site :: LOG_VALUE_FUNCTION_NAME b site :: args) ::
          (List.range ((len + 15) / 16)).map (fun j =>
            Output.vprintf_like m.sys.s_log_print_func "%s\n"
              [Arg.str (String.mk (spec_char_text (spec_chunk buffer len j)))])) ∧
      (exec t mem lock_timeout
          (LOGx_BUFFER_CHAR b x site tag buffer len format args) k m).map
          (fun r => (output_function_calls r.1).length) = some (1 + (len + 15) / 16) ∧
      ((t.char_signed = false ∨ ∀ i, i < len → buffer i < 128) →
        (exec t mem lock_timeout
            (LOGx_BUFFER_HEX b x site tag buffer len format args) k m).map Prod.fst =
          some (Output.vprintf_like m.sys.s_log_print_func (GET_LOG_FORMAT b x format)
              (Arg.int m.timestamp :: Arg.str (mem tag) :: LOG_VALUE_FILENAME b site ::
                LOG_VALUE_LINE b site :: LOG_VALUE_FUNCTION_NAME b site :: args) ::
            (List.range ((len + 15) / 16)).map (fun j =>
              Output.vprintf_like m.sys.s_log_print_func "%s\n"
                [Arg.str (String.mk (spec_hex_text (spec_chunk buffer len j)))])) ∧
        (exec t mem lock_timeout
            (LOGx_BUFFER_HEX b x site tag buffer len format args) k m).map
            (fun r => (output_function_calls r.1).length) = some (1 + (len + 15) / 16) ∧
        ((∀ j, j < (len + 15) / 16 →
            (t.fmt_ptr (addr + 16 * j)).length ≤ t.sizeof_ptr + 6) →
          (∀ j, j < (len + 15) / 16 → NUL ∉ t.fmt_ptr (addr + 16 * j)) →
          (exec t mem lock_timeout
              (LOGx_BUFFER_HEXDUMP b x site tag addr buffer len format args) k m).map
              (fun r => output_function_calls r.1) =
            some (Output.vprintf_like m.sys.s_log_print_func (GET_LOG_FORMAT b x format)
                (Arg.int m.timestamp :: Arg.str (mem tag) :: LOG_VALUE_FILENAME b site ::
                  LOG_VALUE_LINE b site :: LOG_VALUE_FUNCTION_NAME b site :: args) ::
              (List.range ((len + 15) / 16)).map (fun j =>
                Output.vprintf_like m.sys.s_log_print_func "%s\n"
                  [Arg.str (String.mk
                    (spec_hexdump_text t addr j (spec_chunk buffer len j)))])) ∧
          (exec t mem lock_timeout
              (LOGx_BUFFER_HEXDUMP b x site tag addr buffer len format args) k m).map
              (fun r => (output_function_calls r.1).length) =
            some (1 + (len + 15) / 16)))) ∧
      ((is_tag_level_visible mem true m.sys.state x.level tag).1 = false →
        (exec t mem lock_timeout
          (LOGx_BUFFER_HEX b x site tag buffer len format args) k m).map Prod.fst =
          some [] ∧
        (exec t mem lock_timeout
          (LOGx_BUFFER_CHAR b x site tag buffer len format args) k m).map Prod.fst =
          some [] ∧
        (exec t mem lock_timeout
          (LOGx_BUFFER_HEXDUMP b x site tag addr buffer len format args) k m).map
          Prod.fst = some []) := by
  have hmod : len % 2 ^ 16 = len := Nat.mod_eq_of_lt hlen
  have hhexE : (exec t mem lock_timeout
      (LOGx_BUFFER_HEX b x site tag buffer len format args) k m).map Prod.fst =
      (if (is_tag_level_visible mem (lock_timeout (k + 1) 0)
            (log_write mem true m.sys x.level tag (GET_LOG_FORMAT b x format)
              (Arg.int m.timestamp :: Arg.str (mem tag) :: LOG_VALUE_FILENAME b site ::
                LOG_VALUE_LINE b site :: LOG_VALUE_FUNCTION_NAME b site ::
                args)).2.state x.level tag).1 = true then
          (log_buffer_hex_internal t tag buffer len x.level).map (fun calls =>
            perform mem (lock_timeout (k + 1)) calls 1
              { state := (is_tag_level_visible mem (lock_timeout (k + 1) 0)
                  (log_write mem true m.sys x.level tag (GET_LOG_FORMAT b x format)
                    (Arg.int m.timestamp :: Arg.str (mem tag) ::
                      LOG_VALUE_FILENAME b site :: LOG_VALUE_LINE b site ::
                      LOG_VALUE_FUNCTION_NAME b site :: args)).2.state x.level tag).2
                s_log_print_func := (log_write mem true m.sys x.level tag
                  (GET_LOG_FORMAT b x format)
                  (Arg.int m.timestamp :: Arg.str (mem tag) ::
                    LOG_VALUE_FILENAME b site :: LOG_VALUE_LINE b site ::
                    LOG_VALUE_FUNCTION_NAME b site :: args)).2.s_log_print_func })
        else
          some ([], { state := (is_tag_level_visible mem (lock_timeout (k + 1) 0)
                        (log_write mem true m.sys x.level tag (GET_LOG_FORMAT b x format)
                          (Arg.int m.timestamp :: Arg.str (mem tag) ::
                            LOG_VALUE_FILENAME b site :: LOG_VALUE_LINE b site ::
                            LOG_VALUE_FUNCTION_NAME b site :: args)).2.state x.level tag).2
                      s_log_print_func := (log_write mem true m.sys x.level tag
                        (GET_LOG_FORMAT b x format)
                        (Arg.int m.timestamp :: Arg.str (mem tag) ::
                          LOG_VALUE_FILENAME b site :: LOG_VALUE_LINE b site ::
                          LOG_VALUE_FUNCTION_NAME b site :: args)).2.s_log_print_func })).map
        (fun r => (log_write mem true m.sys x.level tag (GET_LOG_FORMAT b x format)
          (Arg.int m.timestamp :: Arg.str (mem tag) :: LOG_VALUE_FILENAME b site ::
            LOG_VALUE_LINE b site :: LOG_VALUE_FUNCTION_NAME b site :: args)).1 ++ r.1) := by
    unfold LOGx_BUFFER_HEX
    rw [if_pos hmax, exec_LOGx_then _ _ _ _ _ _ _ _ _ _ _ _ hmax, exec_log_write_buffer_hex,
      log_write_buffer_hex_eq, hlock k 0, hmod, Option.map_map, Option.map_map]
    rfl
  have hcharE : (exec t mem lock_timeout
      (LOGx_BUFFER_CHAR b x site tag buffer len format args) k m).map Prod.fst =
      (if (is_tag_level_visible mem (lock_timeout (k + 1) 0)
            (log_write mem true m.sys x.level tag (GET_LOG_FORMAT b x format)
              (Arg.int m.timestamp :: Arg.str (mem tag) :: LOG_VALUE_FILENAME b site ::
                LOG_VALUE_LINE b site :: LOG_VALUE_FUNCTION_NAME b site ::
                args)).2.state x.level tag).1 = true then
          (log_buffer_char_internal t tag buffer len x.level).map (fun calls =>
            perform mem (lock_timeout (k + 1)) calls 1
              { state := (is_tag_level_visible mem (lock_timeout (k + 1) 0)
                  (log_write mem true m.sys x.level tag (GET_LOG_FORMAT b x format)
                    (Arg.int m.timestamp :: Arg.str (mem tag) ::
                      LOG_VALUE_FILENAME b site :: LOG_VALUE_LINE b site ::
                      LOG_VALUE_FUNCTION_NAME b site :: args)).2.state x.level tag).2
                s_log_print_func := (log_write mem true m.sys x.level tag
                  (GET_LOG_FORMAT b x format)
                  (Arg.int m.timestamp :: Arg.str (mem tag) ::
                    LOG_VALUE_FILENAME b site :: LOG_VALUE_LINE b site ::
                    LOG_VALUE_FUNCTION_NAME b site :: args)).2.s_log_print_func })
        else
          some ([], { state := (is_tag_level_visible mem (lock_timeout (k + 1) 0)
                        (log_write mem true m.sys x.level tag (GET_LOG_FORMAT b x format)
                          (Arg.int m.timestamp :: Arg.str (mem tag) ::
                            LOG_VALUE_FILENAME b site :: LOG_VALUE_LINE b site ::
                            LOG_VALUE_FUNCTION_NAME b site :: args)).2.state x.level tag).2
                      s_log_print_func := (log_write mem true m.sys x.level tag
                        (GET_LOG_FORMAT b x format)
                        (Arg.int m.timestamp :: Arg.str (mem tag) ::
                          LOG_VALUE_FILENAME b site :: LOG_VALUE_LINE b site ::
                          LOG_VALUE_FUNCTION_NAME b site :: args)).2.s_log_print_func })).map
        (fun r => (log_write mem true m.sys x.level tag (GET_LOG_FORMAT b x format)
          (Arg.int m.timestamp :: Arg.str (mem tag) :: LOG_VALUE_FILENAME b site ::
            LOG_VALUE_LINE b site :: LOG_VALUE_FUNCTION_NAME b site :: args)).1 ++ r.1) := by
    unfold LOGx_BUFFER_CHAR
    rw [if_pos hmax, exec_LOGx_then _ _ _ _ _ _ _ _ _ _ _ _ hmax, exec_log_write_buffer_char,
      log_write_buffer_char_eq, hlock k 0, hmod, Option.map_map, Option.map_map]
    rfl
  have hdumpE : (exec t mem lock_timeout
      (LOGx_BUFFER_HEXDUMP b x site tag addr buffer len format args) k m).map Prod.fst =
      (if (is_tag_level_visible mem (lock_timeout (k + 1) 0)
            (log_write mem true m.sys x.level tag (GET_LOG_FORMAT b x format)
              (Arg.int m.timestamp :: Arg.str (mem tag) :: LOG_VALUE_FILENAME b site ::
                LOG_VALUE_LINE b site :: LOG_VALUE_FUNCTION_NAME b site ::
                args)).2.state x.level tag).1 = true then
          (log_buffer_hexdump_internal t tag addr buffer len x.level).map (fun calls =>
            perform mem (lock_timeout (k + 1)) calls 1
              { state := (is_tag_level_visible mem (lock_timeout (k + 1) 0)
                  (log_write mem true m.sys x.level tag (GET_LOG_FORMAT b x format)
                    (Arg.int m.timestamp :: Arg.str (mem tag) ::
                      LOG_VALUE_FILENAME b site :: LOG_VALUE_LINE b site ::
                      LOG_VALUE_FUNCTION_NAME b site :: args)).2.state x.level tag).2
                s_log_print_func := (log_write mem true m.sys x.level tag
                  (GET_LOG_FORMAT b x format)
                  (Arg.int m.timestamp :: Arg.str (mem tag) ::
                    LOG_VALUE_FILENAME b site :: LOG_VALUE_LINE b site ::
                    LOG_VALUE_FUNCTION_NAME b site :: args)).2.s_log_print_func })
        else
          some ([], { state := (is_tag_level_visible mem (lock_timeout (k + 1) 0)
                        (log_write mem true m.sys x.level tag (GET_LOG_FORMAT b x format)
                          (Arg.int m.timestamp :: Arg.str (mem tag) ::
                            LOG_VALUE_FILENAME b site :: LOG_VALUE_LINE b site ::
                            LOG_VALUE_FUNCTION_NAME b site :: args)).2.state x.level tag).2
                      s_log_print_func := (log_write mem true m.sys x.level tag
                        (GET_LOG_FORMAT b x format)
                        (Arg.int m.timestamp :: Arg.str (mem tag) ::
                          LOG_VALUE_FILENAME b site :: LOG_VALUE_LINE b site ::
                          LOG_VALUE_FUNCTION_NAME b site :: args)).2.s_log_print_func })).map
        (fun r => (log_write mem true m.sys x.level tag (GET_LOG_FORMAT b x format)
          (Arg.int m.timestamp :: Arg.str (mem tag) :: LOG_VALUE_FILENAME b site ::
            LOG_VALUE_LINE b site :: LOG_VALUE_FUNCTION_NAME b site :: args)).1 ++ r.1) := by
    unfold LOGx_BUFFER_HEXDUMP
    rw [if_pos hmax, exec_LOGx_then _ _ _ _ _ _ _ _ _ _ _ _ hmax,
      exec_log_write_buffer_hexdump, log_write_buffer_hexdump_eq, hlock k 0, hmod,
      Option.map_map, Option.map_map]
    rfl
  have hlen_of : ∀ (e : Option (List Output × Machine)) (outs : List Output),
      e.map Prod.fst = some outs →
      e.map (fun r => (output_function_calls r.1).length) =
        some (output_function_calls outs).length := by
    intro e outs h
    cases e with
    | none => cases h
    | some r =>
      simp only [Option.map_some', Option.some.injEq] at h ⊢
      rw [h]
  have hofc_of : ∀ (e : Option (List Output × Machine)) (outs : List Output),
      e.map Prod.fst = some outs →
      e.map (fun r => output_function_calls r.1) = some (output_function_calls outs) := by
    intro e outs h
    cases e with
    | none => cases h
    | some r =>
      simp only [Option.map_some', Option.some.injEq] at h ⊢
      rw [h]
  constructor
  · intro hvis
    have hchar : (exec t mem lock_timeout
        (LOGx_BUFFER_CHAR b x site tag buffer len format args) k m).map Prod.fst =
        some (Output.vprintf_like m.sys.s_log_print_func (GET_LOG_FORMAT b x format)
            (Arg.int m.timestamp :: Arg.str (mem tag) :: LOG_VALUE_FILENAME b site ::
              LOG_VALUE_LINE b site :: LOG_VALUE_FUNCTION_NAME b site :: args) ::
          (List.range ((len + 15) / 16)).map (fun j =>
            Output.vprintf_like m.sys.s_log_print_func "%s\n"
              [Arg.str (String.mk (spec_char_text (spec_chunk buffer len j)))])) := by
      rw [hcharE, message_then_writer mem n m.sys x.level tag _ _ (lock_timeout (k + 1)) _ _
        (log_buffer_char_internal_spec t tag buffer len x.level hlen hb) hr (hlock (k + 1))
        hres (log_writes_of_map x.level tag (fun _ => "%s\n") _ _), if_pos hvis,
        outputs_of_log_writes m.sys.s_log_print_func x.level tag (fun _ => "%s\n")]
    refine ⟨hchar, ?_, ?_⟩
    · rw [hlen_of _ _ hchar, output_function_calls_cons_vprintf_like,
        output_function_calls_vprintf_likes m.sys.s_log_print_func (fun _ => "%s\n"),
        List.length_cons, List.length_map, List.length_range, Nat.add_comm]
    · intro hs
      have hhex : (exec t mem lock_timeout
          (LOGx_BUFFER_HEX b x site tag buffer len format args) k m).map Prod.fst =
          some (Output.vprintf_like m.sys.s_log_print_func (GET_LOG_FORMAT b x format)
              (Arg.int m.timestamp :: Arg.str (mem tag) :: LOG_VALUE_FILENAME b site ::
                LOG_VALUE_LINE b site :: LOG_VALUE_FUNCTION_NAME b site :: args) ::
            (List.range ((len + 15) / 16)).map (fun j =>
              Output.vprintf_like m.sys.s_log_print_func "%s\n"
                [Arg.str (String.mk (spec_hex_text (spec_chunk buffer len j)))])) := by
        rw [hhexE, message_then_writer mem n m.sys x.level tag _ _ (lock_timeout (k + 1)) _
          _ (log_buffer_hex_internal_spec t tag buffer len x.level hlen hb hs hbits) hr
          (hlock (k + 1)) hres (log_writes_of_map x.level tag (fun _ => "%s\n") _ _),
          if_pos hvis,
          outputs_of_log_writes m.sys.s_log_print_func x.level tag (fun _ => "%s\n")]
      refine ⟨hhex, ?_, ?_⟩
      · rw [hlen_of _ _ hhex, output_function_calls_cons_vprintf_like,
          output_function_calls_vprintf_likes m.sys.s_log_print_func (fun _ => "%s\n"),
          List.length_cons, List.length_map, List.length_range, Nat.add_comm]
      · intro hplen hpnul
        have hdump : (exec t mem lock_timeout
            (LOGx_BUFFER_HEXDUMP b x site tag addr buffer len format args) k m).map
            Prod.fst =
            some (Output.vprintf_like m.sys.s_log_print_func (GET_LOG_FORMAT b x format)
                (Arg.int m.timestamp :: Arg.str (mem tag) :: LOG_VALUE_FILENAME b site ::
                  LOG_VALUE_LINE b site :: LOG_VALUE_FUNCTION_NAME b site :: args) ::
              outputs_of m.sys.s_log_print_func
                ((List.range ((len + 15) / 16)).flatMap (fun j =>
                  [Call.printf "printing %d out of %d\r\n"
                      [Arg.int
                          ((spec_hexdump_text t addr j (spec_chunk buffer len j)).length :
                            Nat),
                        Arg.int (t.sizeof_ptr + 3 + 10 + 3 + BYTES_PER_LINE * 3 + 3 + 1 +
                          BYTES_PER_LINE + 1 + 3 : Nat)],
                    Call.log_write x.level tag "%s\n"
                      [Arg.str (String.mk
                        (spec_hexdump_text t addr j (spec_chunk buffer len j)))]]))) := by
          rw [hdumpE, message_then_writer mem n m.sys x.level tag _ _ (lock_timeout (k + 1))
            _ _ (log_buffer_hexdump_internal_spec t tag addr buffer len x.level hlen hb hs
              hbits hplen hpnul) hr (hlock (k + 1)) hres
            (log_writes_of_flatMap x.level tag (fun _ => "printing %d out of %d\r\n") _
              (fun _ => "%s\n") _ _), if_pos hvis]
        have hdump2 := hofc_of _ _ hdump
        rw [output_function_calls_cons_vprintf_like,
          output_function_calls_printf_log_writes m.sys.s_log_print_func x.level tag
            (fun _ => "printing %d out of %d\r\n") _ (fun _ => "%s\n")] at hdump2
        refine ⟨hdump2, ?_⟩
        have hdump3 := hlen_of _ _ hdump
        rw [output_function_calls_cons_vprintf_like,
          output_function_calls_printf_log_writes m.sys.s_log_print_func x.level tag
            (fun _ => "printing %d out of %d\r\n") _ (fun _ => "%s\n"),
          List.length_cons, List.length_map, List.length_range, Nat.add_comm] at hdump3
        exact hdump3
  · intro hvis
    refine ⟨?_, ?_, ?_⟩
    · rw [hhexE]
      exact hidden_message_then_writer mem n m.sys x.level tag _ _ (lock_timeout (k + 1)) _
        hr (hlock (k + 1)) hres hvis
    · rw [hcharE]
      exact hidden_message_then_writer mem n m.sys x.level tag _ _ (lock_timeout (k + 1)) _
        hr (hlock (k + 1)) hres hvis
    · rw [hdumpE]
      exact hidden_message_then_writer mem n m.sys x.level tag _ _ (lock_timeout (k + 1)) _
        hr (hlock (k + 1)) hres hvis

set_option maxRecDepth 100000 in
theorem buffer_macros_message_then_lines_witness :
    Reach example_mem 0 (⟨log_system_init LOG_VERBOSE, 7⟩ : Machine).sys.state ∧
      resolved_level example_mem (⟨log_system_init LOG_VERBOSE, 7⟩ : Machine).sys.state 1 <
        2 ^ 3 ∧
      example_build.MAXIMUM_ENABLED_LOG_LEVEL ≥ Letter.I.level ∧
      (is_tag_level_visible example_mem true
        (⟨log_system_init LOG_VERBOSE, 7⟩ : Machine).sys.state Letter.I.level 1).1 = true ∧
      (exec example_target example_mem (fun _ _ => true)
          (LOGx_BUFFER_HEX example_build Letter.I example_site 1 example_buffer 44 "hello"
            []) 0 ⟨log_system_init LOG_VERBOSE, 7⟩).map
          (fun r => (output_function_calls r.1).length) = some (1 + (44 + 15) / 16) ∧
      (exec example_target example_mem (fun _ _ => true)
          (LOGx_BUFFER_HEXDUMP example_build Letter.I example_site 1 4096 example_buffer 44
            "hello" []) 0 ⟨log_system_init LOG_VERBOSE, 7⟩).map
          (fun r => (output_function_calls r.1).length) = some (1 + (44 + 15) / 16) ∧
      1 + (44 + 15) / 16 = 4 ∧ 1 + (45 + 15) / 16 = 4 :=
  ⟨Reach.init LOG_VERBOSE, by decide, by decide, by decide,
    ((((buffer_macros_message_then_lines example_target example_mem 0
      ⟨log_system_init LOG_VERBOSE, 7⟩ (fun _ _ => true) example_build Letter.I example_site
      1 4096 example_buffer 44 "hello" [] 0 (Reach.init LOG_VERBOSE) (fun _ _ => rfl)
      (by decide) (by decide) (by decide) (by decide) (by decide)).1 (by decide)).2.2
      (Or.inr (by decide))).2.1),
    ((((buffer_macros_message_then_lines example_target example_mem 0
      ⟨log_system_init LOG_VERBOSE, 7⟩ (fun _ _ => true) example_build Letter.I example_site
      1 4096 example_buffer 44 "hello" [] 0 (Reach.init LOG_VERBOSE) (fun _ _ => rfl)
      (by decide) (by decide) (by decide) (by decide) (by decide)).1 (by decide)).2.2
      (Or.inr (by decide))).2.2 (by decide) (by decide)).2,
    by decide, by decide⟩

/-- C26: each of the macros `LOGV`, `LOGD`, `LOGI`, `LOGW`, `LOGE` (the expansion `LOGx` of
the letter) whose level is compiled in and for which `is_tag_level_visible` answers true
makes exactly one call of the output function, with the decorated format and, before the
user arguments, the timestamp, the tag string and the file, line and function values.  With
colors disabled and file and function names enabled these values are the file name, the
line number and the function name, and for every C library whose conversions `%s`, `%d`
and `PRIu32` (`"u"` or `"lu"`) are the standard ones, when the user format with the user
arguments gives the text `msg`, the line composed from that call is the letter, `" ("`, the
decimal timestamp, `") "`, the tag, `": "`, the file name, `":"`, the line number, `" ["`,
the function name, `"]"`, a space, `msg` and a newline. -/
theorem macro_passes_one_formatted_line (t : Target) (mem : Mem)
    (lock_timeout : Nat → Nat → Bool) (b : Build) (x : Letter) (site : Site) (tag : Ptr)
    (format : String) (args : va_list) (k : Nat) (m : Machine)
    (hmax : b.MAXIMUM_ENABLED_LOG_LEVEL ≥ x.level)
    (hvis : (is_tag_level_visible mem (lock_timeout k 0) m.sys.state x.level tag).1 = true) :
    (exec t mem lock_timeout (LOGx b x site tag format args) k m).map Prod.fst =
        some [Output.vprintf_like m.sys.s_log_print_func (GET_LOG_FORMAT b x format)
          (Arg.int m.timestamp :: Arg.str (mem tag) :: LOG_VALUE_FILENAME b site ::
            LOG_VALUE_LINE b site :: LOG_VALUE_FUNCTION_NAME b site :: args)] ∧
      (b.CONFIG_LOG_COLORS = false → b.CONFIG_LOG_FILENAME = true →
        b.CONFIG_LOG_FUNCTION_NAME = true →
        (LOG_VALUE_FILENAME b site = Arg.str site.file ∧
          LOG_VALUE_LINE b site = Arg.int site.line ∧
          LOG_VALUE_FUNCTION_NAME b site = Arg.str site.function) ∧
        ∀ (conversion : conversion_t) (msg : String), StandardConversions conversion →
          (b.PRIu32 = "u" ∨ b.PRIu32 = "lu") →
          vformat conversion format args = some msg →
          vformat conversion (GET_LOG_FORMAT b x format)
              (Arg.int m.timestamp :: Arg.str (mem tag) :: LOG_VALUE_FILENAME b site ::
                LOG_VALUE_LINE b site :: LOG_VALUE_FUNCTION_NAME b site :: args) =
            some (x.name ++ " (" ++ String.mk (Nat.toDigits 10 m.timestamp) ++ ") " ++
              mem tag ++ ": " ++ site.file ++ ":" ++ String.mk (decimal site.line) ++ " [" ++
              site.function ++ "]" ++ " " ++ msg ++ "\n")) ∧
      (LOGV b site tag format args = LOGx b Letter.V site tag format args ∧
        Letter.V.name = "V" ∧ Letter.V.level = LOG_VERBOSE) ∧
      (LOGD b site tag format args = LOGx b Letter.D site tag format args ∧
        Letter.D.name = "D" ∧ Letter.D.level = LOG_DEBUG) ∧
      (LOGI b site tag format args = LOGx b Letter.I site tag format args ∧
        Letter.I.name = "I" ∧ Letter.I.level = LOG_INFO) ∧
      (LOGW b site tag format args = LOGx b Letter.W site tag format args ∧
        Letter.W.name = "W" ∧ Letter.W.level = LOG_WARN) ∧
      (LOGE b site tag format args = LOGx b Letter.E site tag format args ∧
        Letter.E.name = "E" ∧ Letter.E.level = LOG_ERROR) := by
  refine ⟨?_, ?_, ⟨rfl, rfl, rfl⟩, ⟨rfl, rfl, rfl⟩, ⟨rfl, rfl, rfl⟩, ⟨rfl, rfl, rfl⟩,
    ⟨rfl, rfl, rfl⟩⟩
  · rw [exec_LOGx _ _ _ _ _ _ _ _ _ _ _ hmax, Option.map_some']
    unfold log_write
    rw [log_writev_eq, if_pos hvis]
  · intro hcol hfile hfn
    have hv : LOG_VALUE_FILENAME b site = Arg.str site.file ∧
        LOG_VALUE_LINE b site = Arg.int site.line ∧
        LOG_VALUE_FUNCTION_NAME b site = Arg.str site.function := by
      unfold LOG_VALUE_FILENAME LOG_VALUE_LINE LOG_VALUE_FUNCTION_NAME
      rw [hfile, hfn]
      exact ⟨rfl, rfl, rfl⟩
    refine ⟨hv, ?_⟩
    intro conversion msg hstd hpri hmsg
    obtain ⟨out, rest, hout, hm⟩ := format_text_of_vformat conversion format args msg hmsg
    rw [hv.1, hv.2.1, hv.2.2]
    unfold vformat
    rw [format_text_GET_LOG_FORMAT conversion hstd b x format m.timestamp (mem tag) site.file
      site.function site.line args out rest hcol hfile hfn hpri hout, hm]
    simp only [Option.map_some', Option.some.injEq]
    apply String.ext
    simp only [String.data_append, List.append_assoc]
    rfl

set_option maxRecDepth 100000 in
theorem macro_passes_one_formatted_line_witness :
    example_build.MAXIMUM_ENABLED_LOG_LEVEL ≥ Letter.V.level ∧
      (is_tag_level_visible example_mem true (log_system_init LOG_VERBOSE).state
        Letter.V.level 1).1 = true ∧
      (exec example_target example_mem (fun _ _ => true)
          (LOGx example_build Letter.V example_site 1 "%s is %x, %c" [Arg.str "value",
            Arg.int 255, Arg.int 65]) 0 ⟨log_system_init LOG_VERBOSE, 12⟩).map Prod.fst =
        some [Output.vprintf_like (log_system_init LOG_VERBOSE).s_log_print_func
          (GET_LOG_FORMAT example_build Letter.V "%s is %x, %c")
          (Arg.int 12 :: Arg.str (example_mem 1) ::
            LOG_VALUE_FILENAME example_build example_site ::
            LOG_VALUE_LINE example_build example_site ::
            LOG_VALUE_FUNCTION_NAME example_build example_site ::
            [Arg.str "value", Arg.int 255, Arg.int 65])] ∧
      vformat libc_conversion "%s is %x, %c" [Arg.str "value", Arg.int 255, Arg.int 65] =
        some "value is ff, A" ∧
      vformat libc_conversion (GET_LOG_FORMAT example_build Letter.V "%s is %x, %c")
          (Arg.int ((⟨log_system_init LOG_VERBOSE, 12⟩ : Machine).timestamp) ::
            Arg.str (example_mem 1) :: LOG_VALUE_FILENAME example_build example_site ::
            LOG_VALUE_LINE example_build example_site ::
            LOG_VALUE_FUNCTION_NAME example_build example_site ::
            [Arg.str "value", Arg.int 255, Arg.int 65]) =
        some (Letter.V.name ++ " (" ++
          String.mk (Nat.toDigits 10 (⟨log_system_init LOG_VERBOSE, 12⟩ : Machine).timestamp)
          ++ ") " ++ example_mem 1 ++ ": " ++ example_site.file ++ ":" ++
          String.mk (decimal example_site.line) ++ " [" ++ example_site.function ++ "]" ++
          " " ++ "value is ff, A" ++ "\n") ∧
      Letter.V.name ++ " (" ++ String.mk (Nat.toDigits 10 12) ++ ") " ++ example_mem 1 ++
          ": " ++ example_site.file ++ ":" ++ String.mk (decimal example_site.line) ++ " [" ++
          example_site.function ++ "]" ++ " " ++ "value is ff, A" ++ "\n" =
        "V (12) NET: logger_tests.cpp:104 [logger_log_verbose] value is ff, A\n" :=
  ⟨by decide, by decide,
    (macro_passes_one_formatted_line example_target example_mem (fun _ _ => true)
      example_build Letter.V example_site 1 "%s is %x, %c"
      [Arg.str "value", Arg.int 255, Arg.int 65] 0
      ⟨log_system_init LOG_VERBOSE, 12⟩ (by decide) (by decide)).1,
    by decide,
    ((macro_passes_one_formatted_line example_target example_mem (fun _ _ => true)
      example_build Letter.V example_site 1 "%s is %x, %c"
      [Arg.str "value", Arg.int 255, Arg.int 65] 0
      ⟨log_system_init LOG_VERBOSE, 12⟩ (by decide) (by decide)).2.1 rfl rfl rfl).2
      libc_conversion "value is ff, A" libc_conversion_standard (Or.inl rfl) (by decide),
    by decide⟩

set_option maxRecDepth 100000 in
/-- C27 (the code departs from the claim): pointers `1` and `2` hold the same string and both
are cached at the default level `ERROR`; `log_level_set(2, INFO)` then stores `INFO` in the
registry and updates the slot of pointer `1` only.  In this reachable state the call
`is_tag_level_visible(INFO, 2)`, taking the lock, is a cache hit: the level resolved for the
string is the registry level `INFO`, but the call answers `false`, the slot of pointer `2`
still holds `ERROR` after it, and the lookup that follows is a hit returning `ERROR`. -/
theorem lookup_keeps_stale_level :
    (∃ k, Reach example_mem k
      (log_level_set example_mem true
        (lookups example_mem (log_level_set example_mem true (log_init LOG_VERBOSE) 0
          LOG_ERROR) [(LOG_INFO, 1), (LOG_INFO, 2)]) 2 LOG_INFO)) ∧
      example_mem 1 = example_mem 2 ∧
      resolved_level example_mem
        (log_level_set example_mem true
          (lookups example_mem (log_level_set example_mem true (log_init LOG_VERBOSE) 0
            LOG_ERROR) [(LOG_INFO, 1), (LOG_INFO, 2)]) 2 LOG_INFO) 2 = LOG_INFO ∧
      get_uncached_log_level example_mem
        (is_tag_level_visible example_mem true
          (log_level_set example_mem true
            (lookups example_mem (log_level_set example_mem true (log_init LOG_VERBOSE) 0
              LOG_ERROR) [(LOG_INFO, 1), (LOG_INFO, 2)]) 2 LOG_INFO)
          LOG_INFO 2).2.s_log_tags 2 = some LOG_INFO ∧
      (is_tag_level_visible example_mem true
        (log_level_set example_mem true
          (lookups example_mem (log_level_set example_mem true (log_init LOG_VERBOSE) 0
            LOG_ERROR) [(LOG_INFO, 1), (LOG_INFO, 2)]) 2 LOG_INFO) LOG_INFO 2).1 = false ∧
      (∀ e ∈ (is_tag_level_visible example_mem true
        (log_level_set example_mem true
          (lookups example_mem (log_level_set example_mem true (log_init LOG_VERBOSE) 0
            LOG_ERROR) [(LOG_INFO, 1), (LOG_INFO, 2)]) 2 LOG_INFO) LOG_INFO 2).2.s_log_cache,
        e.tag = 2 → e.level = LOG_ERROR) ∧
      (cache_at (is_tag_level_visible example_mem true
        (log_level_set example_mem true
          (lookups example_mem (log_level_set example_mem true (log_init LOG_VERBOSE) 0
            LOG_ERROR) [(LOG_INFO, 1), (LOG_INFO, 2)]) 2 LOG_INFO) LOG_INFO 2).2.s_log_cache
        1) = ⟨2, LOG_ERROR, 1⟩ ∧
      (is_tag_level_visible example_mem true
        (log_level_set example_mem true
          (lookups example_mem (log_level_set example_mem true (log_init LOG_VERBOSE) 0
            LOG_ERROR) [(LOG_INFO, 1), (LOG_INFO, 2)]) 2 LOG_INFO)
        LOG_INFO 2).2.s_log_cache_entry_count = 2 ∧
      (get_cached_log_level
        (is_tag_level_visible example_mem true
          (log_level_set example_mem true
            (lookups example_mem (log_level_set example_mem true (log_init LOG_VERBOSE) 0
              LOG_ERROR) [(LOG_INFO, 1), (LOG_INFO, 2)]) 2 LOG_INFO) LOG_INFO 2).2 2).1 =
        some LOG_ERROR := by
  refine ⟨⟨_, Reach.level_set _ _ true 2 LOG_INFO
    (Reach.visible _ _ true LOG_INFO 2
      (Reach.visible _ _ true LOG_INFO 1
        (Reach.level_set _ _ true 0 LOG_ERROR (Reach.init LOG_VERBOSE))))⟩,
    by decide, by decide, by decide, by decide, by decide, by decide, by decide, by decide⟩

/-- Lookups cache the level they answer from: after a call `is_tag_level_visible(m, tag)`
that has taken the lock, in a reachable
state with the level of the tag's string within `NONE..VERBOSE`: the call has answered from
its `level_for_tag`, an occupied cache slot holds the pointer `tag` with that level, and the
next cache lookup of the pointer is a hit that returns that level, so that the next
`is_tag_level_visible` answers from it.  On a miss `level_for_tag` is the level of the
registry entry for the string, or the default level when there is none; on a hit it is so
when the cache is coherent. -/
theorem lookup_caches_resolved_level (mem : Mem) (k : Nat) (s : LogState) (m : Nat)
    (tag : Ptr) (hr : Reach mem k s) (hres : resolved_level mem s tag ≤ LOG_VERBOSE) :
    (is_tag_level_visible mem true s m tag).1 = should_output m (level_for_tag mem s tag) ∧
      (∃ i, i < (is_tag_level_visible mem true s m tag).2.s_log_cache_entry_count ∧
        (cache_at (is_tag_level_visible mem true s m tag).2.s_log_cache i).tag = tag ∧
        (cache_at (is_tag_level_visible mem true s m tag).2.s_log_cache i).level =
          level_for_tag mem s tag) ∧
      (get_cached_log_level (is_tag_level_visible mem true s m tag).2 tag).1 =
        some (level_for_tag mem s tag) ∧
      (∀ m', (is_tag_level_visible mem true (is_tag_level_visible mem true s m tag).2 m'
        tag).1 = should_output m' (level_for_tag mem s tag)) ∧
      ((get_cached_log_level s tag).1 = none →
        level_for_tag mem s tag =
          match get_uncached_log_level mem s.s_log_tags tag with
          | some l => l
          | none => s.s_log_default_level) ∧
      (CacheCoherent mem s →
        level_for_tag mem s tag =
          match get_uncached_log_level mem s.s_log_tags tag with
          | some l => l
          | none => s.s_log_default_level) := by
  have hres5 : resolved_level mem s tag ≤ 5 := hres
  have hres8 : resolved_level mem s tag < 2 ^ 3 := by omega
  have hp := pinned_level_for_tag mem k s m tag hr hres8
  have hsmall : level_for_tag mem s tag < 2 ^ 3 := by
    unfold level_for_tag
    cases hg : (get_cached_log_level s tag).1 with
    | none => exact hres8
    | some l =>
      obtain ⟨i, hi, _, -, hl⟩ := get_cached_log_level_some s tag l hg
      have := cached_level_lt_of_reach mem k s hr i hi
      simp only []
      omega
  have hmod : level_for_tag mem s tag % 2 ^ 8 = level_for_tag mem s tag := by omega
  have hget := pinned_get_cached _ tag _ hp
  rw [hmod] at hget
  refine ⟨is_tag_level_visible_level_for_tag mem s m tag, ?_, hget, ?_, ?_, ?_⟩
  · obtain ⟨i, hi, hit⟩ := hp.cached
    exact ⟨i, hi, hit, hp.level_eq i hi hit⟩
  · intro m'
    have := (pinned_lookup mem _ m' tag _ hp).1
    rw [hmod] at this
    exact this
  · intro hg
    unfold level_for_tag
    rw [hg]
    rfl
  · intro hco
    unfold level_for_tag
    cases hg : (get_cached_log_level s tag).1 with
    | none => rfl
    | some l =>
      obtain ⟨i, hi, hit, -, hl⟩ := get_cached_log_level_some s tag l hg
      have hlev := hco i hi
      rw [hit] at hlev
      rw [hlev] at hl
      have : l = resolved_level mem s tag := by omega
      simp only []
      rw [this]
      rfl

theorem lookup_caches_resolved_level_witness :
    Reach example_mem 0 (log_level_set example_mem true (log_init LOG_VERBOSE) 1 LOG_WARN) ∧
      resolved_level example_mem
        (log_level_set example_mem true (log_init LOG_VERBOSE) 1 LOG_WARN) 1 ≤ LOG_VERBOSE ∧
      level_for_tag example_mem
        (log_level_set example_mem true (log_init LOG_VERBOSE) 1 LOG_WARN) 1 = LOG_WARN ∧
      (get_cached_log_level
        (is_tag_level_visible example_mem true
          (log_level_set example_mem true (log_init LOG_VERBOSE) 1 LOG_WARN) LOG_INFO 1).2
        1).1 =
        some (level_for_tag example_mem
          (log_level_set example_mem true (log_init LOG_VERBOSE) 1 LOG_WARN) 1) :=
  ⟨Reach.level_set 0 _ true 1 LOG_WARN (Reach.init LOG_VERBOSE), by decide, by decide,
    (lookup_caches_resolved_level example_mem 0
      (log_level_set example_mem true (log_init LOG_VERBOSE) 1 LOG_WARN) LOG_INFO 1
      (Reach.level_set 0 _ true 1 LOG_WARN (Reach.init LOG_VERBOSE)) (by decide)).2.2.1⟩

/-- C28 (the claim as stated fails): with the default level `NONE` set by
`log_level_set("*", LOG_NONE)`, `log_write` with the message level `0` (`LOG_NONE`) calls the
output function, since `should_output` compares with `<=`.  And with the pointers `1` and
`2` to equal strings both cached, after `log_level_set(2, LOG_NONE)` the registry holds
`NONE` for the string, yet `log_write(LOG_ERROR, 2, ...)` calls the output function: the
slot of pointer `2` has kept its level. -/
theorem none_level_lets_messages_through :
    (log_write example_mem true
        ⟨log_level_set example_mem true (log_init LOG_VERBOSE) 0 LOG_NONE, vprintf⟩
        LOG_NONE 1 "%s\n" [Arg.str "text"]).1 =
        [Output.vprintf_like vprintf "%s\n" [Arg.str "text"]] ∧
      resolved_level example_mem
        (log_level_set example_mem true
          (lookups example_mem (log_init LOG_VERBOSE) [(LOG_INFO, 1), (LOG_INFO, 2)])
          2 LOG_NONE) 2 = LOG_NONE ∧
      (log_write example_mem true
        ⟨log_level_set example_mem true
          (lookups example_mem (log_init LOG_VERBOSE) [(LOG_INFO, 1), (LOG_INFO, 2)])
          2 LOG_NONE, vprintf⟩
        LOG_ERROR 2 "%s\n" [Arg.str "text"]).1 =
        [Output.vprintf_like vprintf "%s\n" [Arg.str "text"]] := by
  decide

/-- C28, amended: in a reachable state where the level that the registry and the default
level give the tag is `LOG_NONE`, because the registry has no entry for its string and the
default level is `NONE`, or with a coherent cache, `log_writev` and `log_write` make no
call of the output function for any message level from `LOG_ERROR` (`1`) up, whether the
lock is acquired or not. -/
theorem none_level_silences (mem : Mem) (k : Nat) (sys : LogSystem) (lock_ok : Bool)
    (m : Nat) (tag : Ptr) (format : String) (args : va_list)
    (hr : Reach mem k sys.state) (hm : 1 ≤ m)
    (hnone : resolved_level mem sys.state tag = LOG_NONE)
    (hco : get_uncached_log_level mem sys.state.s_log_tags tag = none ∨
      CacheCoherent mem sys.state) :
    (log_writev mem lock_ok sys m tag format args).1 = [] ∧
      (log_write mem lock_ok sys m tag format args).1 = [] := by
  have hnone0 : resolved_level mem sys.state tag = 0 := hnone
  have hv : (is_tag_level_visible mem lock_ok sys.state m tag).1 = false := by
    cases lock_ok with
    | false => rfl
    | true =>
      have hlev : level_for_tag mem sys.state tag = 0 := by
        unfold level_for_tag
        cases hg : (get_cached_log_level sys.state tag).1 with
        | none => exact hnone0
        | some l =>
          obtain ⟨i, hi, hit, -, hl⟩ := get_cached_log_level_some sys.state tag l hg
          simp only []
          rcases hco with hreg | hcoh
          · have hdc := defaultCoherent_of_reach mem k sys.state hr i hi (by rw [hit]; exact hreg)
            have hdef : sys.state.s_log_default_level = 0 := by
              unfold resolved_level at hnone0
              rw [hreg] at hnone0
              exact hnone0
            rw [hdc, hdef] at hl
            exact hl
          · have hlev := hcoh i hi
            rw [hit, hnone0] at hlev
            rw [hlev] at hl
            exact hl
      rw [is_tag_level_visible_level_for_tag, hlev]
      unfold should_output
      simp only [decide_eq_false_iff_not]
      omega
  have hw : (log_writev mem lock_ok sys m tag format args).1 = [] := by
    rw [log_writev_eq, hv]
    rfl
  exact ⟨hw, hw⟩

theorem none_level_silences_witness :
    Reach example_mem 0 (log_level_set example_mem true (log_init LOG_VERBOSE) 0 LOG_NONE) ∧
      1 ≤ LOG_ERROR ∧
      resolved_level example_mem
        (log_level_set example_mem true (log_init LOG_VERBOSE) 0 LOG_NONE) 1 = LOG_NONE ∧
      (log_writev example_mem true
        ⟨log_level_set example_mem true (log_init LOG_VERBOSE) 0 LOG_NONE, vprintf⟩
        LOG_ERROR 1 "%s\n" [Arg.str "text"]).1 = [] ∧
      (log_write example_mem true
        ⟨log_level_set example_mem true (log_init LOG_VERBOSE) 0 LOG_NONE, vprintf⟩
        LOG_ERROR 1 "%s\n" [Arg.str "text"]).1 = [] :=
  ⟨Reach.level_set 0 _ true 0 LOG_NONE (Reach.init LOG_VERBOSE), by decide, by decide,
    none_level_silences example_mem 0
      ⟨log_level_set example_mem true (log_init LOG_VERBOSE) 0 LOG_NONE, vprintf⟩ true
      LOG_ERROR 1 "%s\n" [Arg.str "text"]
      (Reach.level_set 0 _ true 0 LOG_NONE (Reach.init LOG_VERBOSE)) (by decide) (by decide)
      (Or.inl (by decide))⟩

/-- C29: when `MAXIMUM_ENABLED_LOG_LEVEL` is below the level of a letter, the macros
`LOGx`, `LOGx_BUFFER_HEX`, `LOGx_BUFFER_CHAR` and `LOGx_BUFFER_HEXDUMP` of that letter
expand to no statement at all: no call of `log_write`, of a buffer writer or of
`log_timestamp`; executed in any state, with any levels set, they make no output call and
leave every variable, the timestamp counter included, as it was. -/
theorem disabled_macros_expand_to_nothing (b : Build) (x : Letter) (site : Site) (tag : Ptr)
    (addr : Nat) (buffer : Nat → Nat) (buff_len : Nat) (format : String) (args : va_list)
    (hmax : b.MAXIMUM_ENABLED_LOG_LEVEL < x.level) :
    LOGx b x site tag format args = [] ∧
      LOGx_BUFFER_HEX b x site tag buffer buff_len format args = [] ∧
      LOGx_BUFFER_CHAR b x site tag buffer buff_len format args = [] ∧
      LOGx_BUFFER_HEXDUMP b x site tag addr buffer buff_len format args = [] ∧
      ∀ (t : Target) (mem : Mem) (lock_timeout : Nat → Nat → Bool) (k : Nat) (m : Machine),
        exec t mem lock_timeout (LOGx b x site tag format args) k m = some ([], m) ∧
          exec t mem lock_timeout
            (LOGx_BUFFER_HEX b x site tag buffer buff_len format args) k m =
            some ([], m) ∧
          exec t mem lock_timeout
            (LOGx_BUFFER_CHAR b x site tag buffer buff_len format args) k m =
            some ([], m) ∧
          exec t mem lock_timeout
            (LOGx_BUFFER_HEXDUMP b x site tag addr buffer buff_len format args) k m =
            some ([], m) := by
  have hnot : ¬ b.MAXIMUM_ENABLED_LOG_LEVEL ≥ x.level := by omega
  have h1 : LOGx b x site tag format args = [] := by
    unfold LOGx
    rw [if_neg hnot]
  have h2 : LOGx_BUFFER_HEX b x site tag buffer buff_len format args = [] := by
    unfold LOGx_BUFFER_HEX
    rw [if_neg hnot]
  have h3 : LOGx_BUFFER_CHAR b x site tag buffer buff_len format args = [] := by
    unfold LOGx_BUFFER_CHAR
    rw [if_neg hnot]
  have h4 : LOGx_BUFFER_HEXDUMP b x site tag addr buffer buff_len format args = [] := by
    unfold LOGx_BUFFER_HEXDUMP
    rw [if_neg hnot]
  refine ⟨h1, h2, h3, h4, ?_⟩
  intro t mem lock_timeout k m
  rw [h1, h2, h3, h4]
  exact ⟨rfl, rfl, rfl, rfl⟩

theorem disabled_macros_expand_to_nothing_witness :
    ({ example_build with MAXIMUM_ENABLED_LOG_LEVEL := LOG_WARN } : Build).MAXIMUM_ENABLED_LOG_LEVEL
        < Letter.I.level ∧
      LOGx { example_build with MAXIMUM_ENABLED_LOG_LEVEL := LOG_WARN } Letter.I example_site
        1 "hello %s" [Arg.str "world"] = [] ∧
      LOGx_BUFFER_HEX { example_build with MAXIMUM_ENABLED_LOG_LEVEL := LOG_WARN } Letter.I
        example_site 1 example_buffer 44 "hello %s" [Arg.str "world"] = [] :=
  ⟨by decide,
    (disabled_macros_expand_to_nothing
      { example_build with MAXIMUM_ENABLED_LOG_LEVEL := LOG_WARN } Letter.I example_site 1
      4096 example_buffer 44 "hello %s" [Arg.str "world"] (by decide)).1,
    (disabled_macros_expand_to_nothing
      { example_build with MAXIMUM_ENABLED_LOG_LEVEL := LOG_WARN } Letter.I example_site 1
      4096 example_buffer 44 "hello %s" [Arg.str "world"] (by decide)).2.1⟩

/-- C30: on the no-OS port, with the assertions of the port compiled in, each of
`log_set_vprintf`, `log_level_set` (on its three exit paths) and `is_tag_level_visible`
makes exactly two lock calls, one that takes the lock and then `log_impl_unlock`, and
called with `s_lock == 0` returns with `s_lock == 0` without a failed assertion; hence no
sequence of public calls started with the lock free fails an assertion.  `log_impl_lock`
with the lock held and `log_impl_unlock` with the lock free fail their assertion. -/
theorem noos_lock_is_balanced (mem : Mem) (sys : LogSystem) (malloc_ok : Bool) (tag : Ptr)
    (level : Nat) :
    log_set_vprintf_lock_calls = [LockCall.lock, LockCall.unlock] ∧
      log_level_set_lock_calls mem malloc_ok sys.state tag level =
        [LockCall.lock, LockCall.unlock] ∧
      is_tag_level_visible_lock_calls true = [LockCall.lock_timeout true, LockCall.unlock] ∧
      log_noos.log_impl_lock_timeout 0 = some (true, 1) ∧
      log_noos.run 0 log_set_vprintf_lock_calls = some 0 ∧
      log_noos.run 0 (log_level_set_lock_calls mem malloc_ok sys.state tag level) = some 0 ∧
      log_noos.run 0 (is_tag_level_visible_lock_calls true) = some 0 ∧
      (∀ (calls : List PublicCall) (sys0 : LogSystem),
        ∃ sys1, log_noos.public_calls mem sys0 0 calls = some (sys1, 0)) ∧
      log_noos.log_impl_lock 1 = none ∧
      log_noos.log_impl_unlock 0 = none := by
  have hls : ∀ (malloc_ok : Bool) (s : LogState) (tag : Ptr) (level : Nat),
      log_level_set_lock_calls mem malloc_ok s tag level =
        [LockCall.lock, LockCall.unlock] := by
    intro malloc_ok s tag level
    unfold log_level_set_lock_calls
    split_ifs <;> rfl
  have hrun : ∀ (sys0 : LogSystem) (call : PublicCall),
      log_noos.run 0 (log_noos.lock_calls mem sys0 call) = some 0 := by
    intro sys0 call
    cases call with
    | set_vprintf f => rfl
    | level_set malloc_ok tag level =>
      show log_noos.run 0 (log_level_set_lock_calls mem malloc_ok sys0.state tag level) = _
      rw [hls]
      rfl
    | visible level tag => rfl
  refine ⟨rfl, hls _ _ _ _, rfl, rfl, rfl, ?_, rfl, ?_, rfl, rfl⟩
  · rw [hls]
    rfl
  · intro calls
    induction calls with
    | nil =>
      intro sys0
      exact ⟨sys0, rfl⟩
    | cons call rest ih =>
      intro sys0
      obtain ⟨sys1, h1⟩ := ih (log_noos.step mem sys0 call)
      refine ⟨sys1, ?_⟩
      simp only [log_noos.public_calls, hrun sys0 call]
      exact h1

set_option maxRecDepth 100000 in
/-- C31 (the code departs from the claim): the `generation` field of a slot has 29 bits, the
counter 32.  In the reachable full state whose counter is `2 ^ 29`, far below `2 ^ 32`, the
miss of a new tag stamps its slot with generation `0`, and so does the hit of a cached tag:
the stored generation is not the counter's value, after `2 ^ 29` cache operations and not
after `2 ^ 32`.  The stamped slot sinks below a parent of a greater generation, and the check
`generation > parent generation` that the code's own assertion makes in the cache scan is
false at that occupied slot (`15` after the miss, `19` after the hit). -/
theorem stored_generation_wraps_at_29_bits :
    Reach example_mem (2 ^ 29) wrapped_state ∧
      wrapped_state.s_log_cache_max_generation = 2 ^ 29 ∧
      wrapped_state.s_log_cache_max_generation < 2 ^ 32 ∧
      (∃ e ∈ (is_tag_level_visible example_mem true wrapped_state LOG_INFO 32).2.s_log_cache,
        e.tag = 32 ∧ e.generation = 0) ∧
      (∃ e ∈ (is_tag_level_visible example_mem true wrapped_state LOG_INFO 5).2.s_log_cache,
        e.tag = 5 ∧ e.generation = 0) ∧
      (is_tag_level_visible example_mem true wrapped_state LOG_INFO
        32).2.s_log_cache_max_generation = 2 ^ 29 + 1 ∧
      (cache_at (is_tag_level_visible example_mem true wrapped_state LOG_INFO
        32).2.s_log_cache 15).tag = 32 ∧
      builtin_check (is_tag_level_visible example_mem true wrapped_state LOG_INFO
        32).2.s_log_cache 15 = false ∧
      (cache_at (is_tag_level_visible example_mem true wrapped_state LOG_INFO
        5).2.s_log_cache 19).tag = 5 ∧
      builtin_check (is_tag_level_visible example_mem true wrapped_state LOG_INFO
        5).2.s_log_cache 19 = false := by
  refine ⟨reach_wrapped_state, by decide, by decide, ?_, ?_, by decide, by decide, by decide,
    by decide, by decide⟩
  · exact ⟨⟨32, LOG_VERBOSE, 0⟩, by decide, by decide, by decide⟩
  · exact ⟨⟨5, LOG_VERBOSE, 0⟩, by decide, by decide, by decide⟩

/-- Within the 29 bits of the generation field: in every reachable state with fewer than
`2 ^ 29` generations issued since
the last reset, the generation counter is the number of generations issued, every occupied
slot carries a generation below it, and a slot that is stamped carries the value that the
counter had at that moment: the slot that `add_to_cache` writes, and in a full cache the
slot that a hit of `get_cached_log_level` stamps; the counter then moves on by one.  A hit
in a cache that is not full stamps nothing. -/
theorem stored_generation_is_counter (mem : Mem) (k : Nat) (s : LogState)
    (hr : Reach mem k s) (hk : k < 2 ^ 29) :
    s.s_log_cache_max_generation = k ∧
      (∀ i, i < s.s_log_cache_entry_count → (cache_at s.s_log_cache i).generation < k) ∧
      (∀ tag level,
        (∃ j, j < (add_to_cache s tag level).s_log_cache_entry_count ∧
          cache_at (add_to_cache s tag level).s_log_cache j = ⟨tag, level % 2 ^ 3, k⟩) ∧
        (add_to_cache s tag level).s_log_cache_max_generation = k + 1) ∧
      (∀ tag l, (get_cached_log_level s tag).1 = some l →
        s.s_log_cache_entry_count = TAG_CACHE_SIZE →
        (∃ j, j < TAG_CACHE_SIZE ∧
          (cache_at (get_cached_log_level s tag).2.s_log_cache j).tag = tag ∧
          (cache_at (get_cached_log_level s tag).2.s_log_cache j).generation = k) ∧
        (get_cached_log_level s tag).2.s_log_cache_max_generation = k + 1) ∧
      (∀ tag l, (get_cached_log_level s tag).1 = some l →
        s.s_log_cache_entry_count < TAG_CACHE_SIZE → (get_cached_log_level s tag).2 = s) := by
  have hsize : TAG_CACHE_SIZE = 31 := rfl
  have hinv := cacheInv_of_reach mem k s hr
  have hmax := max_generation_of_reach mem k s hr (by omega)
  have e1 : s.s_log_cache_max_generation % 2 ^ 29 = k := by
    rw [hmax]
    exact Nat.mod_eq_of_lt hk
  have e2 : (s.s_log_cache_max_generation + 1) % 2 ^ 32 = k + 1 := by
    rw [hmax]
    omega
  refine ⟨hmax, ?_, ?_, ?_, ?_⟩
  · intro i hi
    by_cases hfull : s.s_log_cache_entry_count < TAG_CACHE_SIZE
    · obtain ⟨h1, -, hgen⟩ := hinv.prefill hfull
      have := hgen i hi
      unfold gen_at at this
      omega
    · have hcount := hinv.count_le
      exact (hinv.full (by omega) (by omega)).2.2.2 i (by omega)
  · intro tag level
    obtain ⟨j, hj, hje⟩ := stamped_add_to_cache s tag level hinv.len hinv.count_le
    rw [e1] at hje
    exact ⟨⟨j, hj, hje⟩, by rw [max_generation_add_to_cache, e2]⟩
  · intro tag l hhit hfull
    obtain ⟨hi, htag, -⟩ := hit_index s tag l hhit
    obtain ⟨hp, hlen', hgen', -⟩ := get_cached_log_level_full_perm s tag l hinv.len hfull hhit
    have hmem := hp.mem_iff.mpr (cache_at_mem _
      (cache_scan (fun e => e.tag == tag) s.s_log_cache s.s_log_cache_entry_count 0)
      (by rw [List.length_set, hinv.len]; omega))
    obtain ⟨x, hx, hxe⟩ := exists_cache_at_of_mem _ _ hmem
    rw [cache_at_set, if_pos ⟨rfl, by rw [hinv.len]; omega⟩] at hxe
    rw [hlen'] at hx
    refine ⟨⟨x, hx, ?_, ?_⟩, by rw [hgen', e2]⟩
    · rw [hxe]
      exact htag
    · rw [hxe]
      exact e1
  · intro tag l hhit hnot
    have hm : cache_scan (fun e => e.tag == tag) s.s_log_cache s.s_log_cache_entry_count 0 ≠
        s.s_log_cache_entry_count := by
      have := (hit_index s tag l hhit).1
      omega
    rw [get_cached_log_level_hit_prefill s tag hm (by omega)]

theorem stored_generation_is_counter_witness :
    Reach example_mem 31 full_state ∧ 31 < 2 ^ 29 ∧
      full_state.s_log_cache_max_generation = 31 ∧
      (∃ j, j < (add_to_cache full_state 32 LOG_INFO).s_log_cache_entry_count ∧
        cache_at (add_to_cache full_state 32 LOG_INFO).s_log_cache j =
          ⟨32, LOG_INFO % 2 ^ 3, 31⟩) :=
  ⟨reach_full_state_31, by norm_num,
    (stored_generation_is_counter example_mem 31 full_state reach_full_state_31
      (by norm_num)).1,
    ((stored_generation_is_counter example_mem 31 full_state reach_full_state_31
      (by norm_num)).2.2.1 32 LOG_INFO).1⟩

/-- C32 (the claim as stated fails): the `level` field of a slot has 3 bits.  With the level
`9` set for the tag, the first `is_tag_level_visible(LOG_VERBOSE, tag)` misses, answers
true from the level `9` and passes `9` to `add_to_cache`; the second call, with the same
arguments and nothing in between, hits, reads back the level `1` and answers false. -/
theorem repeated_lookup_changes_answer :
    (get_cached_log_level (log_level_set example_mem true (log_init LOG_ERROR) 1 9) 1).1 =
        none ∧
      resolved_level example_mem (log_level_set example_mem true (log_init LOG_ERROR) 1 9)
        1 = 9 ∧
      (is_tag_level_visible example_mem true
        (log_level_set example_mem true (log_init LOG_ERROR) 1 9) LOG_VERBOSE 1).1 = true ∧
      (get_cached_log_level
        (is_tag_level_visible example_mem true
          (log_level_set example_mem true (log_init LOG_ERROR) 1 9) LOG_VERBOSE 1).2 1).1 =
        some 1 ∧
      (is_tag_level_visible example_mem true
        (is_tag_level_visible example_mem true
          (log_level_set example_mem true (log_init LOG_ERROR) 1 9) LOG_VERBOSE 1).2
        LOG_VERBOSE 1).1 = false := by
  decide

/-- C32, amended: in a reachable state, for every tag whose level (that of the registry
entry for its string, or the default level) is within `0 .. 7` and every message level,
two consecutive calls of `is_tag_level_visible` with the same arguments that both take the
lock return the same result: the lookup that follows the first call hits and reads back
the level the first call answered from, which on a miss is the level that was passed to
`add_to_cache`. -/
theorem repeated_lookup_same_answer (mem : Mem) (k : Nat) (s : LogState) (m : Nat)
    (tag : Ptr) (hr : Reach mem k s) (hres : resolved_level mem s tag ≤ 7) :
    (is_tag_level_visible mem true (is_tag_level_visible mem true s m tag).2 m tag).1 =
        (is_tag_level_visible mem true s m tag).1 ∧
      (is_tag_level_visible mem true s m tag).1 =
        should_output m (level_for_tag mem s tag) ∧
      (get_cached_log_level (is_tag_level_visible mem true s m tag).2 tag).1 =
        some (level_for_tag mem s tag) ∧
      ((get_cached_log_level s tag).1 = none →
        (is_tag_level_visible mem true s m tag).2 =
          { add_to_cache s tag (resolved_level mem s tag) with
            s_log_cache_misses :=
              ((add_to_cache s tag (resolved_level mem s tag)).s_log_cache_misses + 1) %
                2 ^ 32 } ∧
        (get_cached_log_level (is_tag_level_visible mem true s m tag).2 tag).1 =
          some (resolved_level mem s tag)) := by
  have hres8 : resolved_level mem s tag < 2 ^ 3 := by
    have : (2 : Nat) ^ 3 = 8 := by norm_num
    omega
  have hp := pinned_level_for_tag mem k s m tag hr hres8
  have hsmall : level_for_tag mem s tag < 2 ^ 3 := by
    unfold level_for_tag
    cases hg : (get_cached_log_level s tag).1 with
    | none => exact hres8
    | some l =>
      obtain ⟨i, hi, _, -, hl⟩ := get_cached_log_level_some s tag l hg
      have := cached_level_lt_of_reach mem k s hr i hi
      simp only []
      omega
  have hmod : level_for_tag mem s tag % 2 ^ 8 = level_for_tag mem s tag := by omega
  have hget := pinned_get_cached _ tag _ hp
  rw [hmod] at hget
  refine ⟨visible_again mem k s m tag hr hres8,
    is_tag_level_visible_level_for_tag mem s m tag, hget, ?_⟩
  intro hg
  have hl : level_for_tag mem s tag = resolved_level mem s tag := by
    unfold level_for_tag
    rw [hg]
  rw [hl] at hget
  refine ⟨?_, hget⟩
  rw [is_tag_level_visible_miss mem s m tag hg]
  rfl

theorem repeated_lookup_same_answer_witness :
    Reach example_mem 0 (log_level_set example_mem true (log_init LOG_ERROR) 1 LOG_DEBUG) ∧
      resolved_level example_mem
        (log_level_set example_mem true (log_init LOG_ERROR) 1 LOG_DEBUG) 1 ≤ 7 ∧
      (is_tag_level_visible example_mem true
        (is_tag_level_visible example_mem true
          (log_level_set example_mem true (log_init LOG_ERROR) 1 LOG_DEBUG) LOG_INFO 1).2
        LOG_INFO 1).1 =
        (is_tag_level_visible example_mem true
          (log_level_set example_mem true (log_init LOG_ERROR) 1 LOG_DEBUG) LOG_INFO 1).1 ∧
      (is_tag_level_visible example_mem true
        (log_level_set example_mem true (log_init LOG_ERROR) 1 LOG_DEBUG) LOG_INFO 1).1 =
        true :=
  ⟨Reach.level_set 0 _ true 1 LOG_DEBUG (Reach.init LOG_ERROR), by decide,
    (repeated_lookup_same_answer example_mem 0
      (log_level_set example_mem true (log_init LOG_ERROR) 1 LOG_DEBUG) LOG_INFO 1
      (Reach.level_set 0 _ true 1 LOG_DEBUG (Reach.init LOG_ERROR)) (by decide)).1,
    by decide⟩

/-- C33: `log_level_set(t, L)` with a tag other than `"*"` leaves the entry count, the
generation counter, the length of the array and the tag and generation of every slot as
they were.  A slot that it changes is occupied, its tag string equals that of `t`, no
slot of lower index has such a string, and the change is the level field alone, which
becomes `L` (in the three bits of the field); so at most one slot changes, and every other
occupied slot with the same string keeps its level.  When the allocation does not fail and
some occupied slot holds such a string, the lowest one receives the level. -/
theorem log_level_set_touches_one_slot (mem : Mem) (malloc_ok : Bool) (s : LogState)
    (tag : Ptr) (level : Nat) (h : mem tag ≠ "*") :
    (log_level_set mem malloc_ok s tag level).s_log_cache_entry_count =
        s.s_log_cache_entry_count ∧
      (log_level_set mem malloc_ok s tag level).s_log_cache_max_generation =
        s.s_log_cache_max_generation ∧
      (log_level_set mem malloc_ok s tag level).s_log_cache.length = s.s_log_cache.length ∧
      (∀ x, (cache_at (log_level_set mem malloc_ok s tag level).s_log_cache x).tag =
          (cache_at s.s_log_cache x).tag ∧
        (cache_at (log_level_set mem malloc_ok s tag level).s_log_cache x).generation =
          (cache_at s.s_log_cache x).generation) ∧
      (∀ x, cache_at (log_level_set mem malloc_ok s tag level).s_log_cache x ≠
          cache_at s.s_log_cache x →
        x < s.s_log_cache_entry_count ∧ mem (cache_at s.s_log_cache x).tag = mem tag ∧
          (∀ j, j < x → mem (cache_at s.s_log_cache j).tag ≠ mem tag) ∧
          cache_at (log_level_set mem malloc_ok s tag level).s_log_cache x =
            { cache_at s.s_log_cache x with level := level % 2 ^ 3 }) ∧
      (∀ x y, cache_at (log_level_set mem malloc_ok s tag level).s_log_cache x ≠
          cache_at s.s_log_cache x →
        cache_at (log_level_set mem malloc_ok s tag level).s_log_cache y ≠
          cache_at s.s_log_cache y → x = y) ∧
      (∀ x y, x < y → mem (cache_at s.s_log_cache x).tag = mem tag →
        cache_at (log_level_set mem malloc_ok s tag level).s_log_cache y =
          cache_at s.s_log_cache y) ∧
      (¬ (!(update_existing_tag mem s.s_log_tags tag level).2 && !malloc_ok) = true →
        s.s_log_cache_entry_count ≤ s.s_log_cache.length →
        ∀ x, x < s.s_log_cache_entry_count → mem (cache_at s.s_log_cache x).tag = mem tag →
          (∀ j, j < x → mem (cache_at s.s_log_cache j).tag ≠ mem tag) →
          cache_at (log_level_set mem malloc_ok s tag level).s_log_cache x =
            { cache_at s.s_log_cache x with level := level % 2 ^ 3 }) := by
  have hframe := log_level_set_frame mem malloc_ok s tag level h
  have hchange : ∀ x, cache_at (log_level_set mem malloc_ok s tag level).s_log_cache x ≠
      cache_at s.s_log_cache x →
      x < s.s_log_cache_entry_count ∧ mem (cache_at s.s_log_cache x).tag = mem tag ∧
        (∀ j, j < x → mem (cache_at s.s_log_cache j).tag ≠ mem tag) ∧
        cache_at (log_level_set mem malloc_ok s tag level).s_log_cache x =
          { cache_at s.s_log_cache x with level := level % 2 ^ 3 } := by
    intro x hx
    by_cases hf : (!(update_existing_tag mem s.s_log_tags tag level).2 && !malloc_ok) = true
    · rw [log_level_set_malloc_failed mem malloc_ok s tag level h hf] at hx
      exact absurd rfl hx
    · rw [log_level_set_stored mem malloc_ok s tag level h hf] at hx ⊢
      exact update_cached_level_first mem s.s_log_cache s.s_log_cache_entry_count tag level x
        hx
  have htag : ∀ x, (cache_at (log_level_set mem malloc_ok s tag level).s_log_cache x).tag =
      (cache_at s.s_log_cache x).tag ∧
      (cache_at (log_level_set mem malloc_ok s tag level).s_log_cache x).generation =
        (cache_at s.s_log_cache x).generation := by
    intro x
    by_cases hx : cache_at (log_level_set mem malloc_ok s tag level).s_log_cache x =
        cache_at s.s_log_cache x
    · rw [hx]
      exact ⟨rfl, rfl⟩
    · rw [(hchange x hx).2.2.2]
      exact ⟨rfl, rfl⟩
  refine ⟨hframe.2.1, hframe.2.2.1, hframe.2.2.2.1, htag, hchange, ?_, ?_, ?_⟩
  · intro x y hx hy
    obtain ⟨-, hxm, hxl, -⟩ := hchange x hx
    obtain ⟨-, hym, hyl, -⟩ := hchange y hy
    by_contra hne
    rcases Nat.lt_or_gt_of_ne hne with hlt | hgt
    · exact hyl x hlt hxm
    · exact hxl y hgt hym
  · intro x y hxy hxm
    by_contra hy
    exact (hchange y hy).2.2.1 x hxy hxm
  · intro hf hle x hx hm hlow
    rw [log_level_set_stored mem malloc_ok s tag level h hf]
    exact update_cached_level_lowest mem s.s_log_cache s.s_log_cache_entry_count tag level x
      hx hle hm hlow

set_option maxRecDepth 100000 in
theorem log_level_set_touches_one_slot_witness :
    example_mem 2 ≠ "*" ∧
      cache_at (log_level_set example_mem true
          (lookups example_mem (log_init LOG_ERROR) [(LOG_INFO, 3), (LOG_INFO, 1),
            (LOG_INFO, 2)]) 2 LOG_INFO).s_log_cache 2 =
        cache_at (lookups example_mem (log_init LOG_ERROR) [(LOG_INFO, 3), (LOG_INFO, 1),
          (LOG_INFO, 2)]).s_log_cache 2 ∧
      cache_at (log_level_set example_mem true
          (lookups example_mem (log_init LOG_ERROR) [(LOG_INFO, 3), (LOG_INFO, 1),
            (LOG_INFO, 2)]) 2 LOG_INFO).s_log_cache 1 = ⟨1, LOG_INFO, 1⟩ ∧
      cache_at (log_level_set example_mem true
          (lookups example_mem (log_init LOG_ERROR) [(LOG_INFO, 3), (LOG_INFO, 1),
            (LOG_INFO, 2)]) 2 LOG_INFO).s_log_cache 2 = ⟨2, LOG_ERROR, 2⟩ :=
  ⟨by decide,
    (log_level_set_touches_one_slot example_mem true
      (lookups example_mem (log_init LOG_ERROR) [(LOG_INFO, 3), (LOG_INFO, 1), (LOG_INFO, 2)])
      2 LOG_INFO (by decide)).2.2.2.2.2.2.1 1 2 (by decide) (by decide),
    by decide, by decide⟩

/-- C34: when every tag passed to the library is a pointer of a set in which each tag
string has one address only, and every level (the build-time default, and each level passed
to `log_level_set`) is within `0 .. 7`, then in every reachable state each occupied cache
slot stores the level of the registry entry for the string of its tag if the registry has
one, and the default level otherwise; so does the state after `log_level_set` (for the
wildcard, an update, an insertion or a failed allocation) and after `is_tag_level_visible`
(a hit, a miss that appends, a miss that evicts, a lock that times out), and
`is_tag_level_visible` answers as the registry and the default level say. -/
theorem cache_coherent_with_one_identity (mem : Mem) (tags : Ptr → Prop)
    (hone : OneIdentity mem tags) (s : LogState) (hr : ReachOn mem tags s) :
    (∀ i, i < s.s_log_cache_entry_count →
      (cache_at s.s_log_cache i).level =
        match get_uncached_log_level mem s.s_log_tags (cache_at s.s_log_cache i).tag with
        | some l => l
        | none => s.s_log_default_level) ∧
      (∀ (malloc_ok : Bool) (tag : Ptr) (level : Nat), tags tag → level ≤ 7 →
        ∀ i, i < (log_level_set mem malloc_ok s tag level).s_log_cache_entry_count →
          (cache_at (log_level_set mem malloc_ok s tag level).s_log_cache i).level =
            resolved_level mem (log_level_set mem malloc_ok s tag level)
              (cache_at (log_level_set mem malloc_ok s tag level).s_log_cache i).tag) ∧
      (∀ (lock_ok : Bool) (level : Nat) (tag : Ptr), tags tag →
        ∀ i, i < (is_tag_level_visible mem lock_ok s level tag).2.s_log_cache_entry_count →
          (cache_at (is_tag_level_visible mem lock_ok s level tag).2.s_log_cache i).level =
            resolved_level mem (is_tag_level_visible mem lock_ok s level tag).2
              (cache_at (is_tag_level_visible mem lock_ok s level tag).2.s_log_cache
                i).tag) ∧
      (∀ (m : Nat) (tag : Ptr),
        (is_tag_level_visible mem true s m tag).1 =
          decide (m ≤ resolved_level mem s tag)) := by
  obtain ⟨-, hco, hsmall⟩ := oneIdentity_invariant mem tags hone s hr
  refine ⟨coherent_levels mem s hco hsmall, ?_, ?_, ?_⟩
  · intro malloc_ok tag level htag hlevel
    obtain ⟨-, hco', hsmall'⟩ := oneIdentity_invariant mem tags hone _
      (ReachOn.level_set s malloc_ok tag level htag hlevel hr)
    exact coherent_levels mem _ hco' hsmall'
  · intro lock_ok level tag htag
    obtain ⟨-, hco', hsmall'⟩ := oneIdentity_invariant mem tags hone _
      (ReachOn.visible s lock_ok level tag htag hr)
    exact coherent_levels mem _ hco' hsmall'
  · intro m tag
    have h3 : (2 : Nat) ^ 3 = 8 := by norm_num
    exact is_tag_level_visible_of_coherent mem s m tag hco
      (by rw [h3]; have := hsmall tag; omega)

theorem cache_coherent_with_one_identity_witness :
    OneIdentity example_mem (fun p => p = 0 ∨ p = 3) ∧
      ReachOn example_mem (fun p => p = 0 ∨ p = 3)
        (log_level_set example_mem true
          (is_tag_level_visible example_mem true (log_init LOG_INFO) LOG_DEBUG 3).2
          3 LOG_DEBUG) ∧
      (∀ i, i < (log_level_set example_mem true
          (is_tag_level_visible example_mem true (log_init LOG_INFO) LOG_DEBUG 3).2
          3 LOG_DEBUG).s_log_cache_entry_count →
        (cache_at (log_level_set example_mem true
          (is_tag_level_visible example_mem true (log_init LOG_INFO) LOG_DEBUG 3).2
          3 LOG_DEBUG).s_log_cache i).level =
          match get_uncached_log_level example_mem
            (log_level_set example_mem true
              (is_tag_level_visible example_mem true (log_init LOG_INFO) LOG_DEBUG 3).2
              3 LOG_DEBUG).s_log_tags
            (cache_at (log_level_set example_mem true
              (is_tag_level_visible example_mem true (log_init LOG_INFO) LOG_DEBUG 3).2
              3 LOG_DEBUG).s_log_cache i).tag with
          | some l => l
          | none => (log_level_set example_mem true
              (is_tag_level_visible example_mem true (log_init LOG_INFO) LOG_DEBUG 3).2
              3 LOG_DEBUG).s_log_default_level) ∧
      (cache_at (log_level_set example_mem true
        (is_tag_level_visible example_mem true (log_init LOG_INFO) LOG_DEBUG 3).2
        3 LOG_DEBUG).s_log_cache 0).level = LOG_DEBUG :=
  have hone : OneIdentity example_mem (fun p => p = 0 ∨ p = 3) := by
    intro a b ha hb h
    rcases ha with rfl | rfl <;> rcases hb with rfl | rfl
    · rfl
    · exact absurd h (by decide)
    · exact absurd h (by decide)
    · rfl
  have hreach : ReachOn example_mem (fun p => p = 0 ∨ p = 3)
      (log_level_set example_mem true
        (is_tag_level_visible example_mem true (log_init LOG_INFO) LOG_DEBUG 3).2
        3 LOG_DEBUG) :=
    ReachOn.level_set _ true 3 LOG_DEBUG (Or.inr rfl) (by decide)
      (ReachOn.visible _ true LOG_DEBUG 3 (Or.inr rfl) (ReachOn.init LOG_INFO (by decide)))
  ⟨hone, hreach,
    (cache_coherent_with_one_identity example_mem (fun p => p = 0 ∨ p = 3) hone _ hreach).1,
    by decide⟩

/-- C35: in every reachable state with fewer than `2 ^ 29` generations issued since the last
reset, whether the cache is being filled or is full, the condition of the built-in check
`i == 0 || s_log_cache[(i - 1) / 2].generation < s_log_cache[i].generation` holds for every
occupied slot `i`; the scans of `get_cached_log_level` and of `log_level_set` stop within
the occupied slots, and `log_level_set` makes its scan on the array as it was at entry. -/
theorem builtin_assertions_hold (mem : Mem) (k : Nat) (s : LogState) (hr : Reach mem k s)
    (hk : k < 2 ^ 29) :
    (∀ i, i < s.s_log_cache_entry_count →
      builtin_check s.s_log_cache i = true ∧
        (i = 0 ∨ gen_at s.s_log_cache ((i - 1) / 2) < gen_at s.s_log_cache i)) ∧
      (∀ hit : cached_tag_entry_t → Bool,
        cache_scan hit s.s_log_cache s.s_log_cache_entry_count 0 ≤
          s.s_log_cache_entry_count) ∧
      (∀ (malloc_ok : Bool) (tag : Ptr) (level : Nat), mem tag ≠ "*" →
        ¬ (!(update_existing_tag mem s.s_log_tags tag level).2 && !malloc_ok) = true →
        (log_level_set mem malloc_ok s tag level).s_log_cache =
          update_cached_level mem s.s_log_cache s.s_log_cache_entry_count tag level) := by
  refine ⟨?_, ?_, ?_⟩
  · intro i hi
    have hb := builtin_checks_hold mem k s hr (by omega) i hi
    refine ⟨hb, ?_⟩
    unfold builtin_check at hb
    simp only [Bool.or_eq_true, beq_iff_eq, decide_eq_true_eq] at hb
    exact hb
  · intro hit
    have := (cache_scan_spec hit s.s_log_cache s.s_log_cache_entry_count 0).2.1
    omega
  · intro malloc_ok tag level h hf
    rw [log_level_set_stored mem malloc_ok s tag level h hf]

theorem builtin_assertions_hold_witness :
    Reach example_mem 31 full_state ∧ 31 < 2 ^ 29 ∧
      full_state.s_log_cache_entry_count = 31 ∧
      ∀ i, i < full_state.s_log_cache_entry_count →
        builtin_check full_state.s_log_cache i = true ∧
          (i = 0 ∨
            gen_at full_state.s_log_cache ((i - 1) / 2) < gen_at full_state.s_log_cache i) :=
  ⟨reach_full_state_31, by norm_num, full_state_count,
    (builtin_assertions_hold example_mem 31 full_state reach_full_state_31 (by norm_num)).1⟩

/-- C36: for an array of 31 slots and every index below 31, the loop of `heap_bubble_down`
stops by its own condition after at most 4 swaps (4 iterations are all it can make, and
with any larger bound on the iterations it gives the same array and the same swaps).  Every
swap exchanges a slot `i < 15` with its child `2 i + 1` or `2 i + 2`, both at most 30; the
swaps follow one another from `index`, each going to the left child when its generation is
smaller than the right one's, in the array as it then is, and to the right child otherwise
(so on a tie).  The loop ends at an index in `15 .. 30` that holds the entry which started
at `index`, the array is a rearrangement of the one at entry, and on a leaf index (`15` and
above) there is no swap and the array is unchanged. -/
theorem heap_bubble_down_at_most_four_swaps (c : List cached_tag_entry_t) (index : Nat)
    (hlen : c.length = TAG_CACHE_SIZE) (hindex : index < TAG_CACHE_SIZE) :
    (heap_bubble_down_swaps TAG_CACHE_SIZE c index).length ≤ 4 ∧
      (∀ fuel, 4 ≤ fuel →
        heap_bubble_down_loop fuel c index = heap_bubble_down_loop TAG_CACHE_SIZE c index ∧
        heap_bubble_down_swaps fuel c index = heap_bubble_down_swaps TAG_CACHE_SIZE c index) ∧
      heap_bubble_down c index =
        heap_swaps c (heap_bubble_down_swaps TAG_CACHE_SIZE c index) ∧
      (∀ p, p ∈ heap_bubble_down_swaps TAG_CACHE_SIZE c index →
        p.1 < 15 ∧ p.1 * 2 + 1 ≤ 30 ∧ p.1 * 2 + 2 ≤ 30 ∧
          (p.2 = p.1 * 2 + 1 ∨ p.2 = p.1 * 2 + 2)) ∧
      (∀ j, j < (heap_bubble_down_swaps TAG_CACHE_SIZE c index).length →
        ((heap_bubble_down_swaps TAG_CACHE_SIZE c index).getD j (0, 0)).1 =
            (if j = 0 then index
              else ((heap_bubble_down_swaps TAG_CACHE_SIZE c index).getD (j - 1) (0, 0)).2) ∧
          ((heap_bubble_down_swaps TAG_CACHE_SIZE c index).getD j (0, 0)).2 =
            if gen_at
                (heap_swaps c ((heap_bubble_down_swaps TAG_CACHE_SIZE c index).take j))
                (((heap_bubble_down_swaps TAG_CACHE_SIZE c index).getD j (0, 0)).1 * 2 + 1) <
              gen_at
                (heap_swaps c ((heap_bubble_down_swaps TAG_CACHE_SIZE c index).take j))
                (((heap_bubble_down_swaps TAG_CACHE_SIZE c index).getD j (0, 0)).1 * 2 + 2)
            then ((heap_bubble_down_swaps TAG_CACHE_SIZE c index).getD j (0, 0)).1 * 2 + 1
            else ((heap_bubble_down_swaps TAG_CACHE_SIZE c index).getD j (0, 0)).1 * 2 + 2) ∧
      (15 ≤ (heap_bubble_down_loop TAG_CACHE_SIZE c index).2 ∧
        (heap_bubble_down_loop TAG_CACHE_SIZE c index).2 ≤ 30 ∧
        cache_at (heap_bubble_down c index) (heap_bubble_down_loop TAG_CACHE_SIZE c index).2 =
          cache_at c index) ∧
      ((heap_bubble_down c index).length = 31 ∧ (heap_bubble_down c index).Perm c) ∧
      (15 ≤ index →
        heap_bubble_down c index = c ∧ heap_bubble_down_swaps TAG_CACHE_SIZE c index = []) := by
  have hsize : TAG_CACHE_SIZE = 31 := rfl
  have h16 : 16 ≤ (index + 1) * 2 ^ 4 := by
    have : (2 : Nat) ^ 4 = 16 := by norm_num
    rw [this]
    omega
  have h31 := heap_bubble_down_enough_fuel 4 c index 27 h16
  have e31 : 4 + 27 = TAG_CACHE_SIZE := rfl
  rw [e31] at h31
  obtain ⟨hperm, hlen', hlo, hhi, hat⟩ :=
    heap_bubble_down_loop_shape TAG_CACHE_SIZE c index hlen hindex (by rw [hsize]; omega)
  refine ⟨?_, ?_, ?_, ?_, ?_, ?_, ?_, ?_⟩
  · rw [h31.2]
    exact length_heap_bubble_down_swaps 4 c index
  · intro fuel hfuel
    obtain ⟨e, rfl⟩ := Nat.exists_eq_add_of_le hfuel
    obtain ⟨h1, h2⟩ := heap_bubble_down_enough_fuel 4 c index e h16
    rw [h1, h2, h31.1, h31.2]
    exact ⟨rfl, rfl⟩
  · unfold heap_bubble_down
    exact heap_bubble_down_loop_swaps TAG_CACHE_SIZE c index
  · intro p hp
    obtain ⟨h1, h2⟩ := mem_heap_bubble_down_swaps TAG_CACHE_SIZE c index p hp
    rw [hsize] at h1
    exact ⟨by omega, by omega, by omega, h2⟩
  · intro j hj
    exact heap_bubble_down_swaps_step TAG_CACHE_SIZE c index j hj
  · exact ⟨hlo, Nat.le_of_lt_succ hhi, hat⟩
  · exact ⟨by rw [← hsize]; exact hlen', hperm⟩
  · intro hleaf
    refine ⟨heap_bubble_down_leaf c index (by rw [hsize]; omega), ?_⟩
    show heap_bubble_down_swaps (30 + 1) c index = []
    rw [heap_bubble_down_swaps_succ, if_neg (by rw [hsize]; omega)]

theorem heap_bubble_down_at_most_four_swaps_witness :
    (log_init LOG_INFO).s_log_cache.length = TAG_CACHE_SIZE ∧ 0 < TAG_CACHE_SIZE ∧
      (heap_bubble_down_swaps TAG_CACHE_SIZE (log_init LOG_INFO).s_log_cache 0).length ≤ 4 ∧
      heap_bubble_down_swaps TAG_CACHE_SIZE (log_init LOG_INFO).s_log_cache 0 =
        [(0, 2), (2, 6), (6, 14), (14, 30)] :=
  ⟨by decide, by decide,
    (heap_bubble_down_at_most_four_swaps (log_init LOG_INFO).s_log_cache 0 (by decide)
      (by decide)).1,
    by decide⟩

/-- C37: a cache hit in a reachable state, at any fill level, returns the level stored in
the one occupied slot that holds the tag pointer, and leaves the entry count, the registry
and the default level as they were and the pairs (tag pointer, level) of the occupied slots
the same up to their order.  While the cache is not full the whole state is unchanged; at
full capacity the array after the hit is a rearrangement of the array with the generation
of the hit slot replaced: no slot is duplicated or dropped. -/
theorem cache_hit_keeps_pairs (mem : Mem) (k : Nat) (s : LogState) (tag : Ptr) (l : Nat)
    (hr : Reach mem k s) (hhit : (get_cached_log_level s tag).1 = some l) :
    (∃ i, i < s.s_log_cache_entry_count ∧ (cache_at s.s_log_cache i).tag = tag ∧
        (cache_at s.s_log_cache i).level = l ∧
        (∀ j, j < s.s_log_cache_entry_count → (cache_at s.s_log_cache j).tag = tag → j = i) ∧
        (s.s_log_cache_entry_count = TAG_CACHE_SIZE →
          (get_cached_log_level s tag).2.s_log_cache.Perm
            (s.s_log_cache.set i
              { cache_at s.s_log_cache i with
                generation := s.s_log_cache_max_generation % 2 ^ 29 }))) ∧
      (get_cached_log_level s tag).2.s_log_cache_entry_count = s.s_log_cache_entry_count ∧
      (get_cached_log_level s tag).2.s_log_cache.length = s.s_log_cache.length ∧
      (occupied_pairs (get_cached_log_level s tag).2).Perm (occupied_pairs s) ∧
      (get_cached_log_level s tag).2.s_log_tags = s.s_log_tags ∧
      (get_cached_log_level s tag).2.s_log_default_level = s.s_log_default_level ∧
      (s.s_log_cache_entry_count < TAG_CACHE_SIZE → (get_cached_log_level s tag).2 = s) := by
  have hsize : TAG_CACHE_SIZE = 31 := rfl
  have hinv := cacheInv_of_reach mem k s hr
  have hcount := hinv.count_le
  obtain ⟨hi, htag, hl⟩ := hit_index s tag l hhit
  have hm : cache_scan (fun e => e.tag == tag) s.s_log_cache s.s_log_cache_entry_count 0 ≠
      s.s_log_cache_entry_count := by omega
  have hlev := cached_level_lt_of_reach mem k s hr _ hi
  have hl' : (cache_at s.s_log_cache (cache_scan (fun e => e.tag == tag) s.s_log_cache
      s.s_log_cache_entry_count 0)).level = l := by omega
  have hprefill : s.s_log_cache_entry_count < TAG_CACHE_SIZE →
      (get_cached_log_level s tag).2 = s := by
    intro hnot
    rw [get_cached_log_level_hit_prefill s tag hm (by omega)]
  refine ⟨⟨_, hi, htag, hl', ?_, ?_⟩, count_get_cached_log_level s tag, ?_, ?_, ?_, ?_,
    hprefill⟩
  · intro j hj hjt
    exact tagsDistinct_index s (tagsDistinct_of_reach mem k s hr)
      (by rw [hinv.len]; exact hcount) j _ hj hi (by rw [hjt, htag])
  · intro hfull
    exact (get_cached_log_level_full_perm s tag l hinv.len hfull hhit).1
  · rw [length_get_cached_log_level s tag hinv.len, hinv.len]
  · by_cases hfull : s.s_log_cache_entry_count = TAG_CACHE_SIZE
    · obtain ⟨hp, hlen', -⟩ := get_cached_log_level_full_perm s tag l hinv.len hfull hhit
      unfold occupied_pairs
      rw [count_get_cached_log_level, hfull, List.take_of_length_le (by rw [hlen']),
        List.take_of_length_le (by rw [hinv.len])]
      have hmap := hp.map (fun e : cached_tag_entry_t => (e.tag, e.level))
      have hsame := map_set_same (fun e : cached_tag_entry_t => (e.tag, e.level))
        s.s_log_cache
        (cache_scan (fun e => e.tag == tag) s.s_log_cache s.s_log_cache_entry_count 0)
        { cache_at s.s_log_cache (cache_scan (fun e => e.tag == tag) s.s_log_cache
            s.s_log_cache_entry_count 0) with
          generation := s.s_log_cache_max_generation % 2 ^ 29 } rfl
      rw [hsame] at hmap
      exact hmap
    · rw [hprefill (by omega)]
  · by_cases hfull : s.s_log_cache_entry_count = TAG_CACHE_SIZE
    · exact (get_cached_log_level_full_perm s tag l hinv.len hfull hhit).2.2.2.1
    · rw [hprefill (by omega)]
  · by_cases hfull : s.s_log_cache_entry_count = TAG_CACHE_SIZE
    · exact (get_cached_log_level_full_perm s tag l hinv.len hfull hhit).2.2.2.2.1
    · rw [hprefill (by omega)]

set_option maxRecDepth 100000 in
theorem cache_hit_keeps_pairs_witness :
    Reach example_mem 31 full_state ∧
      (get_cached_log_level full_state 1).1 = some LOG_VERBOSE ∧
      (occupied_pairs (get_cached_log_level full_state 1).2).Perm
        (occupied_pairs full_state) :=
  ⟨reach_full_state_31, by decide,
    (cache_hit_keeps_pairs example_mem 31 full_state 1 LOG_VERBOSE reach_full_state_31
      (by decide)).2.2.2.1⟩

/-- C38: in every reachable state the entry count is at most 31 and no two occupied slots
hold the same tag pointer; with fewer than `2 ^ 29` generations issued since the last reset
the occupied slots carry pairwise distinct generations, each below the generation counter;
and once the count is 31, it is 31 after every `is_tag_level_visible` and after every
`log_level_set` of a tag other than `"*"`, while `log_level_set("*", _)` makes it 0. -/
theorem cache_shape_invariants (mem : Mem) (k : Nat) (s : LogState) (hr : Reach mem k s) :
    s.s_log_cache_entry_count ≤ 31 ∧
      (∀ i j, i < s.s_log_cache_entry_count → j < s.s_log_cache_entry_count →
        (cache_at s.s_log_cache i).tag = (cache_at s.s_log_cache j).tag → i = j) ∧
      (k < 2 ^ 29 →
        (∀ i j, i < s.s_log_cache_entry_count → j < s.s_log_cache_entry_count → i ≠ j →
          (cache_at s.s_log_cache i).generation ≠ (cache_at s.s_log_cache j).generation) ∧
        ∀ i, i < s.s_log_cache_entry_count →
          (cache_at s.s_log_cache i).generation < s.s_log_cache_max_generation) ∧
      (s.s_log_cache_entry_count = 31 →
        (∀ (lock_ok : Bool) (level : Nat) (tag : Ptr),
          (is_tag_level_visible mem lock_ok s level tag).2.s_log_cache_entry_count = 31) ∧
        (∀ (malloc_ok : Bool) (tag : Ptr) (level : Nat), mem tag ≠ "*" →
          (log_level_set mem malloc_ok s tag level).s_log_cache_entry_count = 31)) ∧
      (∀ (malloc_ok : Bool) (tag : Ptr) (level : Nat), mem tag = "*" →
        (log_level_set mem malloc_ok s tag level).s_log_cache_entry_count = 0) := by
  have hsize : TAG_CACHE_SIZE = 31 := rfl
  have hinv := cacheInv_of_reach mem k s hr
  have hcount : s.s_log_cache_entry_count ≤ 31 := hinv.count_le
  refine ⟨hcount, ?_, ?_, ?_, ?_⟩
  · intro i j hi hj hij
    exact tagsDistinct_index s (tagsDistinct_of_reach mem k s hr)
      (by rw [hinv.len, hsize]; exact hcount) i j hi hj hij
  · intro hk
    by_cases hfull : s.s_log_cache_entry_count < TAG_CACHE_SIZE
    · obtain ⟨-, hmax, hgen⟩ := hinv.prefill hfull
      refine ⟨?_, ?_⟩
      · intro i j hi hj hij
        have h1 := hgen i hi
        have h2 := hgen j hj
        unfold gen_at at h1 h2
        rw [h1, h2]
        exact hij
      · intro i hi
        have h1 := hgen i hi
        unfold gen_at at h1
        rw [h1, hmax]
        exact hi
    · have hfull' : s.s_log_cache_entry_count = TAG_CACHE_SIZE := by omega
      obtain ⟨hmax, -, hdis, hbelow⟩ := hinv.full hfull' (by omega)
      refine ⟨?_, ?_⟩
      · intro i j hi hj hij
        exact hdis i j (by omega) (by omega) hij
      · intro i hi
        rw [hmax]
        exact hbelow i (by omega)
  · intro hfull
    refine ⟨?_, ?_⟩
    · intro lock_ok level tag
      exact count_is_tag_level_visible_full mem lock_ok s level tag hfull
    · intro malloc_ok tag level h
      rw [(log_level_set_frame mem malloc_ok s tag level h).2.1]
      exact hfull
  · intro malloc_ok tag level h
    rw [log_level_set_wildcard mem malloc_ok s tag level h]

theorem cache_shape_invariants_witness :
    Reach example_mem 31 full_state ∧ full_state.s_log_cache_entry_count ≤ 31 ∧
      (31 < 2 ^ 29 →
        (∀ i j, i < full_state.s_log_cache_entry_count →
          j < full_state.s_log_cache_entry_count → i ≠ j →
          (cache_at full_state.s_log_cache i).generation ≠
            (cache_at full_state.s_log_cache j).generation) ∧
        ∀ i, i < full_state.s_log_cache_entry_count →
          (cache_at full_state.s_log_cache i).generation <
            full_state.s_log_cache_max_generation) :=
  ⟨reach_full_state_31,
    (cache_shape_invariants example_mem 31 full_state reach_full_state_31).1,
    (cache_shape_invariants example_mem 31 full_state reach_full_state_31).2.2.1⟩

/-- C39 (the code departs from the claim): `sem_timedwait_ms` fills `tv_nsec` with
`1000 * milliseconds`, which is the number of microseconds: whenever the product fits an
`int`, the `timespec` for `m` milliseconds stands for `m * 10 ^ 3` nanoseconds, not for
`m * 10 ^ 6`, whatever `m` is but `0`.  For `log_impl_lock_timeout`
(`MAX_MUTEX_WAIT_MS = 10`) it is `{ 0, 10000 }` on every target: 10,000 ns where the claim
has 10,000,000 ns. -/
theorem sem_timedwait_ms_builds_microseconds :
    log_pthreads.sem_timedwait_ms_ts example_target log_pthreads.MAX_MUTEX_WAIT_MS =
        some ⟨0, 10000⟩ ∧
      (log_pthreads.sem_timedwait_ms_ts example_target
        log_pthreads.MAX_MUTEX_WAIT_MS).map timespec.nanoseconds = some 10000 ∧
      log_pthreads.MAX_MUTEX_WAIT_MS * 10 ^ 6 = 10000000 ∧
      (∀ (t : Target) (sem_timedwait : timespec → Int), 16 ≤ t.int_bits →
        log_pthreads.log_impl_lock_timeout t sem_timedwait =
          some (sem_timedwait ⟨0, 10000⟩ == 0)) ∧
      ∀ (t : Target) (m : Int), -(2 : Int) ^ (t.int_bits - 1) ≤ 1000 * m →
        1000 * m < (2 : Int) ^ (t.int_bits - 1) →
        log_pthreads.sem_timedwait_ms_ts t m = some ⟨0, 1000 * m⟩ ∧
          (⟨0, 1000 * m⟩ : timespec).nanoseconds = m * 10 ^ 3 ∧
          (m ≠ 0 → (⟨0, 1000 * m⟩ : timespec).nanoseconds ≠ m * 10 ^ 6) := by
  have hgen : ∀ (t : Target) (m : Int), -(2 : Int) ^ (t.int_bits - 1) ≤ 1000 * m →
      1000 * m < (2 : Int) ^ (t.int_bits - 1) →
      log_pthreads.sem_timedwait_ms_ts t m = some ⟨0, 1000 * m⟩ := by
    intro t m h1 h2
    unfold log_pthreads.sem_timedwait_ms_ts
    rw [if_pos ⟨h1, h2⟩]
  refine ⟨by decide, by decide, by decide, ?_, ?_⟩
  · intro t sem_timedwait hbits
    have hpow : (2 : Int) ^ 15 ≤ (2 : Int) ^ (t.int_bits - 1) :=
      pow_le_pow_right₀ (by norm_num) (by omega)
    have h15 : (2 : Int) ^ 15 = 32768 := by norm_num
    unfold log_pthreads.log_impl_lock_timeout log_pthreads.sem_timedwait_ms
    rw [hgen t log_pthreads.MAX_MUTEX_WAIT_MS
      (by unfold log_pthreads.MAX_MUTEX_WAIT_MS; omega)
      (by unfold log_pthreads.MAX_MUTEX_WAIT_MS; omega)]
    rfl
  · intro t m h1 h2
    have h : (⟨0, 1000 * m⟩ : timespec).nanoseconds = m * 10 ^ 3 := by
      unfold timespec.nanoseconds
      ring
    refine ⟨hgen t m h1 h2, h, ?_⟩
    intro hm heq
    rw [h] at heq
    have : m * (10 ^ 6 - 10 ^ 3) = 0 := by linarith
    rcases mul_eq_zero.mp this with h0 | h0
    · exact hm h0
    · norm_num at h0

end ChipLogger
